import Mathlib

/-!
# uqchessserver: matchmaking, move pipeline and command dispatch

A shallow embedding of `src/uqchessserver.c` and the helpers of `src/shared.c`
it uses.

* Pointers into the two calloc'd tables (`resources->clients`,
  `resources->games`) are slot indices; `NULL` is `none`.  The tables are
  total maps from slot index to record and every scan visits the slots
  `0 .. maxBufferSize - 1`, as the source loops do.
* The server is sequential here: the semaphore serialises whole commands.
* A client's output stream is abstracted by the flags `writeFails` (whether
  `fprintf`/`fflush` on it report an error; within one call a stream accepts
  every write or fails every write) and `sigpipe` (whether such a failing
  write raises SIGPIPE, for which the server installs
  `engine_failure_handler`), and by the log `toClients` of the texts that were
  written successfully, oldest first, each with the slot written to.
* The two streams of a client slot are open exactly while the slot is
  occupied: `client_thread` opens them and `remove_client` closes them.
  `fclose` on streams that are already closed, or were never opened, stops the
  process.
* `long` priorities are unbounded integers; texts are not truncated to the
  buffer sizes of `snprintf`.
* The engine is a log of the texts written to it and a list of pending
  replies, one per read; the parsers of the course library are applied to a
  reply by kind.
* `warn_bug` / `engine_failure` exit the process; a dereference of `NULL` and
  a second `fclose` of a stream crash it: functions that can reach one return
  `Except Halt`.
* A line of input is what `fgets` stores of the characters a client sends: the
  first line, at most `maxBufferSize - 1` characters of it, seen by the string
  functions up to its first NUL character.
-/

namespace UQChess

/-! ## Constants (`shared.c`, `uqchessserver.c`) -/

def maxBufferSize : Nat := 10000
def minMoveLen : Nat := 4
def maxMoveLen : Nat := 5
def shortLine : Nat := 1
def mediumLine : Nat := 2
def longLine : Nat := 3
def errorCommand : Int := -1
def errorGame : Int := -2
def errorTurn : Int := -3
def goPerft1 : String := "go perft 1\n"

/-! ## Data model -/

/-- The enum `Colour` of `shared.h`: `COLOUR_WHITE = 0`, `COLOUR_BLACK = 1`,
`COLOUR_UNSPECIFIED` (= 2). -/
inductive Colour where
  | white
  | black
  | unspecified
  deriving DecidableEq, Repr

/-- The integer value of a colour. -/
def Colour.toNat : Colour → Nat
  | .white => 0
  | .black => 1
  | .unspecified => 2

/-- C's `(Colour)(!c)`: `!0 = 1`, and `!x = 0` for every non-zero `x`. -/
def Colour.lnot : Colour → Colour
  | .white => .black
  | .black => .white
  | .unspecified => .white

/-- The enum `Opponent` of `shared.h`. -/
inductive Opponent where
  | com
  | human
  | unspecified
  deriving DecidableEq, Repr

inductive GameResult where
  | resignation
  | checkmate
  | stalemate
  deriving DecidableEq, Repr

/-- The struct `Game`.  `player0`/`player1` are `players[0]` (white) and
`players[1]` (black); `turn` holds 0 or 1 and is assigned and compared as a
`Colour` by the source. -/
structure Game where
  assigned : Bool
  inProgress : Bool
  player0 : Option Nat
  player1 : Option Nat
  turn : Colour
  fenBoardState : String
  deriving DecidableEq, Repr

/-- The struct `Client`.  The two `FILE*` fields are abstracted by
`writeFails`, whether a write on `toClientStream` fails, and `sigpipe`,
whether a failing write raises SIGPIPE (the peer has closed the connection)
rather than only reporting an error. -/
structure Client where
  assigned : Bool
  game : Option Nat
  lastGameFen : Option String
  colour : Colour
  priority : Int
  waitingForHuman : Bool
  writeFails : Bool
  sigpipe : Bool
  deriving DecidableEq, Repr

/-- What `read_stockfish_d_output` returns (course library): the fields the
server reads. `checkers` is `NULL` when the side to move is not in check. -/
structure StockfishGameState where
  fenString : String
  boardString : String
  checkers : Option String
  deriving DecidableEq, Repr

/-- One reply of the engine, as the next read on `fromEngineStream` sees it:
a text line (for `fgets`), a `d` output or a move list the library parsers
accept, or something no parser accepts. -/
inductive EngineReply where
  | line (s : String)
  | dOutput (st : StockfishGameState)
  | moves (ms : List String)
  | unparsable
  deriving DecidableEq, Repr

/-- The struct `Resources` with the observable I/O history. -/
structure Resources where
  games : Nat → Game
  clients : Nat → Client
  engineWriteFails : Bool
  toEngine : List String
  fromEngine : List EngineReply
  toClients : List (Nat × String)

/-- Ways the server process stops inside a command. -/
inductive Halt where
  | bug (msg : String)
  | crash
  | fuel
  deriving DecidableEq, Repr

/-- `game->players[i]`; an index other than 0 and 1 is outside the array and
reads as empty here. -/
def Game.players (g : Game) (i : Nat) : Option Nat :=
  if i = 0 then g.player0 else if i = 1 then g.player1 else none

/-- `game->players[i] = p`; an index outside the array writes nothing here. -/
def Game.setPlayer (g : Game) (i : Nat) (p : Option Nat) : Game :=
  if i = 0 then { g with player0 := p }
  else if i = 1 then { g with player1 := p } else g

def Resources.setClient (r : Resources) (i : Nat) (c : Client) : Resources :=
  { r with clients := fun j => if j = i then c else r.clients j }

def Resources.setGame (r : Resources) (i : Nat) (g : Game) : Resources :=
  { r with games := fun j => if j = i then g else r.games j }

/-! ## `shared.c` helpers -/

def get_colour_name : Colour → String
  | .white => "white"
  | .black => "black"
  | .unspecified => "either"

/-- The function `engine_failure`: reaps the child, then `warn_bug` exits. -/
def engine_failure : Halt := .bug "engine failure\n"

/-- `try_to_write` on a client's stream: `none` is the return value -1.  A
failing write that raises SIGPIPE does not return: `ignore_sig_pipe` installed
`engine_failure_handler` for that signal, which calls `engine_failure`. -/
def try_to_write (r : Resources) (c : Nat) (text : String) : Except Halt (Option Resources) :=
  if (r.clients c).writeFails then
    if (r.clients c).sigpipe then .error engine_failure else .ok none
  else .ok (some { r with toClients := r.toClients ++ [(c, text)] })

/-- `try_to_write` on `toEngineStream`. -/
def try_to_write_engine (r : Resources) (text : String) : Option Resources :=
  if r.engineWriteFails then none
  else some { r with toEngine := r.toEngine ++ [text] }

/-! ## Ending games and removing clients -/

/-- The function `remove_client`: `fclose` on both streams of the slot, then
`assigned = false`.  On a slot that is not occupied the streams are already
closed (or were never opened) and the `fclose` stops the process. -/
def remove_client (r : Resources) (c : Nat) : Except Halt Resources :=
  if (r.clients c).assigned then .ok (r.setClient c { r.clients c with assigned := false })
  else .error .crash

def get_result_name : GameResult → String
  | .resignation => "resignation"
  | .checkmate => "checkmate"
  | .stalemate => "stalemate"

/-- The first loop of `end_game`: the colour opposite to the first slot that
holds `client`. -/
def end_game_winner (g : Game) (client : Option Nat) : Colour :=
  if g.players 0 = client then Colour.lnot .white
  else if g.players 1 = client then Colour.lnot .black
  else .unspecified

def end_game_msg (g : Game) (client : Option Nat) (result : GameResult) : String :=
  let winnerName :=
    if result = .stalemate then ""
    else if end_game_winner g client = .white then " white" else " black"
  "gameover " ++ get_result_name result ++ winnerName ++ "\n"

/-- One iteration of the second loop of `end_game`, for slot `i` of game `g`. -/
def end_game_notify (msg : String) (g : Nat) (r : Resources) (i : Nat) :
    Except Halt Resources :=
  match (r.games g).players i with
  | none => .ok r
  | some p =>
    let r1 := r.setClient p
      { r.clients p with lastGameFen := some (r.games g).fenBoardState, game := none }
    match try_to_write r1 p msg with
    | .error e => .error e
    | .ok (some r2) => .ok r2
    | .ok none => remove_client r1 p

def end_game (r : Resources) (g : Nat) (client : Option Nat) (result : GameResult) :
    Except Halt Resources :=
  let msg := end_game_msg (r.games g) client result
  match end_game_notify msg g r 0 with
  | .error e => .error e
  | .ok r1 =>
    match end_game_notify msg g r1 1 with
    | .error e => .error e
    | .ok r2 => .ok (r2.setGame g { r2.games g with inProgress := false })

/-- The function `write_to_client`: the returned integer is 0, or -1 when the
write failed.  With no game, `end_game(client->game, ...)` reads
`game->players` through a null pointer.  With a game, `end_game` runs and then
`remove_client`, also when `end_game` has removed the client already. -/
def write_to_client (r : Resources) (c : Nat) (msg : String) :
    Except Halt (Resources × Int) :=
  match try_to_write r c msg with
  | .error e => .error e
  | .ok (some r1) => .ok (r1, 0)
  | .ok none =>
    match (r.clients c).game with
    | none => .error .crash
    | some g =>
      match end_game r g (some c) .resignation with
      | .error e => .error e
      | .ok r1 =>
        match remove_client r1 c with
        | .error e => .error e
        | .ok r2 => .ok (r2, -1)

/-! ## Matchmaking -/

def colours_can_play (colour1 colour2 : Colour) : Bool :=
  colour1 == .unspecified || colour2 == .unspecified || colour1 != colour2

/-- The loop of `get_unassigned_game` over slots `i .. i + n - 1`. -/
def get_unassigned_game_loop (games : Nat → Game) : Nat → Nat → Option Nat
  | 0, _ => none
  | n + 1, i => if !(games i).assigned then some i else get_unassigned_game_loop games n (i + 1)

def get_unassigned_game (r : Resources) : Except Halt Nat :=
  match get_unassigned_game_loop r.games maxBufferSize 0 with
  | some g => .ok g
  | none => .error (.bug "Ran out of space in game array\n")

def initialise_game (r : Resources) (g : Nat) : Resources :=
  r.setGame g
    { r.games g with
      assigned := true
      turn := .white
      inProgress := true
      fenBoardState := "rnbqkbnr/pppppppp/8/8/8/8/PPPPPPPP/RNBQKBNR w KQkq - 0 1" }

def send_started (r : Resources) (colour : Colour) (c : Nat) : Except Halt Resources :=
  match write_to_client r c ("started " ++ get_colour_name colour ++ "\n") with
  | .ok (r1, _) => .ok r1
  | .error e => .error e

/-- The scan of `try_to_match_human` over slots `i .. i + n - 1`; `found` and
`humanFirstJoined` are one optional slot, `minP` is `minPriority`. -/
def match_scan (clients : Nat → Client) (human : Nat) :
    Nat → Nat → Option Nat → Int → Option Nat × Int
  | 0, _, found, minP => (found, minP)
  | n + 1, i, found, minP =>
    if (clients i).assigned && (clients i).waitingForHuman
        && colours_can_play (clients human).colour (clients i).colour
        && decide ((clients i).priority < minP) && (i != human) then
      match_scan clients human n (i + 1) (some i) (clients i).priority
    else match_scan clients human n (i + 1) found minP

/-- The search part of `try_to_match_human` (after the requester was marked
waiting): the slot it leaves in `humanFirstJoined`, if `found`. -/
def find_partner (r : Resources) (human : Nat) : Option Nat :=
  (match_scan r.clients human maxBufferSize 0 none ((r.clients 0).priority + 1)).1

/-- The colour assignments of `try_to_match_human` once a partner is found. -/
def resolve_colours (r : Resources) (human other : Nat) : Resources :=
  if (r.clients human).colour ≠ .unspecified then
    r.setClient other { r.clients other with colour := (r.clients human).colour.lnot }
  else if (r.clients other).colour ≠ .unspecified then
    r.setClient human { r.clients human with colour := (r.clients other).colour.lnot }
  else
    let humanColour :=
      if (r.clients human).priority < (r.clients other).priority then Colour.white
      else Colour.black
    let r1 := r.setClient human { r.clients human with colour := humanColour }
    r1.setClient other { r1.clients other with colour := humanColour.lnot }

/-- One iteration of the last loop of `try_to_match_human`. -/
def start_player (r : Resources) (g : Nat) (i : Nat) : Except Halt Resources :=
  match (r.games g).players i with
  | none => .error .crash
  | some p =>
    let r1 := r.setClient p { r.clients p with game := some g, waitingForHuman := false }
    send_started r1 (r1.clients p).colour p

/-- The statements of `try_to_match_human` that set up game `g` for the two
clients: `initialise_game` and the two writes to `game->players`. -/
def seat_players (r : Resources) (human other g : Nat) : Resources :=
  let r2 := initialise_game r g
  let r3 := r2.setGame g ((r2.games g).setPlayer (r2.clients human).colour.toNat (some human))
  r3.setGame g ((r3.games g).setPlayer (r3.clients human).colour.lnot.toNat (some other))

/-- The part of `try_to_match_human` after the search found `other`. -/
def pair_humans (r : Resources) (human other : Nat) : Except Halt Resources := do
  let r1 := resolve_colours r human other
  let g ← get_unassigned_game r1
  let r4 := seat_players r1 human other g
  let r5 ← start_player r4 g 0
  start_player r5 g 1

/-- The first statement of `try_to_match_human`: `human->waitingForHuman = true`. -/
def mark_waiting (r : Resources) (human : Nat) : Resources :=
  r.setClient human { r.clients human with waitingForHuman := true }

def try_to_match_human (r : Resources) (human : Nat) : Except Halt Resources :=
  match find_partner (mark_waiting r human) human with
  | none => .ok (mark_waiting r human)
  | some other => pair_humans (mark_waiting r human) human other

/-! ## Engine bridge -/

def engine_new_game (r : Resources) : Except Halt Resources :=
  match try_to_write_engine r "ucinewgame\nisready\n" with
  | none => .error engine_failure
  | some r1 =>
    match r1.fromEngine with
    | .line s :: rest =>
      if s = "readyok\n" then .ok { r1 with fromEngine := rest } else .error engine_failure
    | _ => .error engine_failure

def set_position_no_move (fen : String) (r : Resources) : Except Halt Resources :=
  match engine_new_game r with
  | .error e => .error e
  | .ok r1 =>
    match try_to_write_engine r1 ("position fen " ++ fen ++ "\n") with
    | none => .error engine_failure
    | some r2 => .ok r2

/-- The library parser `read_stockfish_d_output` on the next reply. -/
def read_stockfish_d_output (r : Resources) : Option (StockfishGameState × Resources) :=
  match r.fromEngine with
  | .dOutput st :: rest => some (st, { r with fromEngine := rest })
  | _ => none

/-- The library parser `read_stockfish_go_perft_1_output` on the next reply. -/
def read_stockfish_go_perft_1_output (r : Resources) : Option (List String × Resources) :=
  match r.fromEngine with
  | .moves ms :: rest => some (ms, { r with fromEngine := rest })
  | _ => none

/-- The library parser `read_stockfish_bestmove_output` on the next reply. -/
def read_stockfish_bestmove_output (r : Resources) : Option (List String × Resources) :=
  match r.fromEngine with
  | .moves ms :: rest => some (ms, { r with fromEngine := rest })
  | _ => none

/-- The function `best_move`; `move->moves[0]` of an empty list is an invalid
read. -/
def best_move (r : Resources) (g : Nat) : Except Halt (String × Resources) :=
  match set_position_no_move (r.games g).fenBoardState r with
  | .error e => .error e
  | .ok r1 =>
    match try_to_write_engine r1 "go movetime 500 depth 15\n" with
    | none => .error engine_failure
    | some r2 =>
      match read_stockfish_bestmove_output r2 with
      | none => .error engine_failure
      | some ([], _) => .error .crash
      | some (m :: _, r3) => .ok (m, r3)

/-! ## Move pipeline -/

def game_is_against_computer (g : Game) : Except Halt Bool :=
  if g.players 0 = none ∧ g.players 1 = none then .error (.bug "no human players found\n")
  else if g.players 0 ≠ none ∧ g.players 1 ≠ none then .ok false
  else .ok true

/-- The `check` loop of `move_accepted`, slot `i`; the result of
`write_to_client` is ignored. -/
def send_check (r : Resources) (g : Nat) (i : Nat) : Except Halt Resources :=
  match (r.games g).players i with
  | none => .ok r
  | some p =>
    match write_to_client r p "check\n" with
    | .ok (r1, _) => .ok r1
    | .error e => .error e

/-- The part of `move_accepted` from the legal-reply query to the turn flip. -/
def move_outcome (r : Resources) (g : Nat) (opponent : Option Nat) (inCheck : Bool) :
    Except Halt Resources := do
  let r1 ← match try_to_write_engine r goPerft1 with
    | none => .error engine_failure
    | some r1 => .ok r1
  let (nextMoves, r2) ← match read_stockfish_go_perft_1_output r1 with
    | none => .error engine_failure
    | some x => .ok x
  let r3 ←
    if nextMoves.length = 0 then
      if inCheck then end_game r2 g opponent .checkmate
      else end_game r2 g none .stalemate
    else if inCheck then do
      let r3 ← send_check r2 g 0
      send_check r3 g 1
    else (.ok r2 : Except Halt Resources)
  .ok (r3.setGame g { r3.games g with turn := (r3.games g).turn.lnot })

/-- The guarded write `if (client != NULL) write_to_client(client, msg)` of
`move_accepted` and `make_move`; the integer is 0 when nothing is written. -/
def notify (r : Resources) (client : Option Nat) (msg : String) :
    Except Halt (Resources × Int) :=
  match client with
  | some c => write_to_client r c msg
  | none => .ok (r, 0)

/-- The function `move_accepted`; `computer_move` is the function of that name
(declared ahead in the source), already applied to the recursion budget. -/
def move_accepted (computer_move : Resources → Nat → Except Halt Resources)
    (move : String) (g : Nat) (movingClient opponent : Option Nat) (r : Resources)
    (engineGameState : StockfishGameState) : Except Halt Resources := do
  let r1 := r.setGame g { r.games g with fenBoardState := engineGameState.fenString }
  let (r2, ret1) ← notify r1 movingClient "ok\n"
  if ret1 = -1 then .ok r2
  else
    let (r3, ret2) ← notify r2 opponent ("moved " ++ move ++ "\n")
    if ret2 = -1 then .ok r3
    else
      let r4 ← move_outcome r3 g opponent engineGameState.checkers.isSome
      if movingClient ≠ none then
        let againstComputer ← game_is_against_computer (r4.games g)
        if againstComputer && (r4.games g).inProgress then computer_move r4 g
        else .ok r4
      else .ok r4

/-- The body of `make_move`, with `computer_move` as in `move_accepted`. -/
def make_move_body (computer_move : Resources → Nat → Except Halt Resources)
    (r : Resources) (g : Nat) (move : String) : Except Halt Resources := do
  let r1 ← engine_new_game r
  let engineCmd :=
    "position fen " ++ (r1.games g).fenBoardState ++ " moves " ++ move ++ "\nd\n"
  let r2 ← match try_to_write_engine r1 engineCmd with
    | none => .error engine_failure
    | some r2 => .ok r2
  let (engineGameState, r3) ← match read_stockfish_d_output r2 with
    | none => .error engine_failure
    | some x => .ok x
  let accepted := engineGameState.fenString ≠ (r3.games g).fenBoardState
  let movingClient := (r3.games g).players (r3.games g).turn.toNat
  let opponent := (r3.games g).players (r3.games g).turn.lnot.toNat
  if accepted then
    move_accepted computer_move move g movingClient opponent r3 engineGameState
  else
    let (r4, _) ← notify r3 movingClient "error move\n"
    .ok r4

/-- The body of `computer_move`, given `make_move`. -/
def computer_move_body (make_move : Resources → Nat → String → Except Halt Resources)
    (r : Resources) (g : Nat) : Except Halt Resources :=
  if ¬ ((r.games g).players (r.games g).turn.toNat = none
      ∧ (r.games g).players (r.games g).turn.lnot.toNat ≠ none) then
    .error (.bug "tried to make computer move with invalid computer\n")
  else
    match best_move r g with
    | .error e => .error e
    | .ok (bestMove, r1) => make_move r1 g bestMove

/-- The function `make_move`.  The first argument bounds the depth of the
recursion `make_move → move_accepted → computer_move → make_move`; running
out of it is `Halt.fuel`. -/
def make_move : Nat → Resources → Nat → String → Except Halt Resources
  | 0, _, _, _ => .error .fuel
  | fuel + 1, r, g, move => make_move_body (computer_move_body (make_move fuel)) r g move

/-- The function `computer_move`, with the recursion budget of its `make_move`. -/
def computer_move (fuel : Nat) (r : Resources) (g : Nat) : Except Halt Resources :=
  computer_move_body (make_move fuel) r g

/-! ## Line helpers (`shared.c`) -/

def valid_move_length (length : Nat) : Bool :=
  decide (minMoveLen ≤ length) && decide (length ≤ maxMoveLen)

/-- `str_is_alnum`, with `isalnum` of the C locale. -/
def str_is_alnum (str : String) : Bool :=
  str.data.all Char.isAlphanum

def has_valid_tokens (input : String) : Bool :=
  !(decide (input.length < 2) || input.data.head? == some ' '
    || input.data.get? (input.length - 2) == some ' ')

/-- `remove_newline`: `none` is the return value -1, otherwise the string with
its last character cut. -/
def remove_newline (str : String) : Option String :=
  if str.length = 0 ∨ str.data.getLast? ≠ some '\n' then none
  else some (String.mk str.data.dropLast)

/-- `validate_line`: the returned pair is the return value and the line as
`remove_newline` left it. -/
def validate_line (line : String) : Except Halt (Int × String) :=
  if line.length = 0 then .error (.bug "this line length code should be unreachable\n")
  else
    match remove_newline line with
    | none => .error (.bug "Line should end with newline\n")
    | some l => if !has_valid_tokens l then .ok (-1, l) else .ok (0, l)

/-- One character more in front of a character list that is already cut at
every `sep`. -/
def split_step (sep : Char) (c : Char) (fields : List (List Char)) : List (List Char) :=
  if c = sep then [] :: fields
  else
    match fields with
    | [] => [[c]]
    | f :: fs => (c :: f) :: fs

/-- Cuts a character list at every `sep`. -/
def split_chars (sep : Char) (cs : List Char) : List (List Char) :=
  cs.foldr (split_step sep) [[]]

/-- Modelled from the spec: `split_by_char` of the course library is not in the
repository; the spec has the line tokenised on single spaces, so every space
ends a field and empty fields are kept. -/
def split_by_char (str : String) (sep : Char) : List String :=
  (split_chars sep str.data).map String.mk

/-! ## Command handlers -/

def respond_board (r : Resources) (c : Nat) : Except Halt (Resources × Int) :=
  let fen : Option String :=
    match (r.clients c).lastGameFen with
    | some f => some f
    | none =>
      match (r.clients c).game with
      | some g => if (r.games g).inProgress then some (r.games g).fenBoardState else none
      | none => none
  match fen with
  | none => .ok (r, -1)
  | some fen => do
    let r1 ← set_position_no_move fen r
    let r2 ← match try_to_write_engine r1 "d\n" with
      | none => .error engine_failure
      | some r2 => .ok r2
    let (gameState, r3) ← match read_stockfish_d_output r2 with
      | none => .error engine_failure
      | some x => .ok x
    let (r4, _) ← write_to_client r3 c ("startboard\n" ++ gameState.boardString ++ "endboard\n")
    .ok (r4, 0)

/-- The loop of `respond_hint` that writes one ` <move>` per legal move. -/
def write_moves (c : Nat) : List String → Resources → Except Halt Resources
  | [], r => .ok r
  | m :: ms, r =>
    match write_to_client r c (" " ++ m) with
    | .ok (r1, _) => write_moves c ms r1
    | .error e => .error e

/-- The function `respond_hint`.  In the `all` branch the parser result is
used unchecked: a null result is dereferenced by `moves->numMoves`. -/
def respond_hint (r : Resources) (c : Nat) (all : Bool) : Except Halt Resources :=
  match (r.clients c).game with
  | none => .error .crash
  | some g =>
    if all then do
      let r1 ← set_position_no_move (r.games g).fenBoardState r
      let r2 ← match try_to_write_engine r1 goPerft1 with
        | none => .error engine_failure
        | some r2 => .ok r2
      let moves := read_stockfish_go_perft_1_output r2
      let r3 := match moves with
        | some (_, r3) => r3
        | none => r2
      let (r4, _) ← write_to_client r3 c "moves"
      match moves with
      | none => .error .crash
      | some (ms, _) =>
        let r5 ← write_moves c ms r4
        let (r6, _) ← write_to_client r5 c "\n"
        .ok r6
    else do
      let (bestMove, r1) ← best_move r g
      let (r2, _) ← write_to_client r1 c ("moves " ++ bestMove ++ "\n")
      .ok r2

/-- The `OPPONENT_COM` case of `respond_start`, for the colour already
defaulted to white. -/
def start_computer_game (fuel : Nat) (r : Resources) (c : Nat) (colour : Colour) :
    Except Halt Resources := do
  let g ← get_unassigned_game r
  let r3 := initialise_game r g
  let r4 := r3.setGame g ((r3.games g).setPlayer colour.toNat (some c))
  let r5 := r4.setGame g ((r4.games g).setPlayer colour.lnot.toNat none)
  let r6 := r5.setClient c { r5.clients c with game := some g, waitingForHuman := false }
  let r7 ← send_started r6 colour c
  if colour = .black then computer_move fuel r7 g else .ok r7

/-- The statement `if (client->game != NULL) end_game(client->game, client,
RESIGNATION)` of `respond_start`. -/
def resign_current (r : Resources) (c : Nat) : Except Halt Resources :=
  match (r.clients c).game with
  | some g => end_game r g (some c) .resignation
  | none => .ok r

/-- The part of `respond_start` after both tokens were recognised
(`// Start new game`). -/
def start_new_game (fuel : Nat) (r : Resources) (c : Nat) (opponent : Opponent)
    (colour0 : Colour) : Except Halt Resources :=
  match resign_current r c with
  | .error e => .error e
  | .ok r1 =>
    let colour := if opponent = .com ∧ colour0 = .unspecified then Colour.white else colour0
    let r2 := r1.setClient c { r1.clients c with lastGameFen := none, colour := colour }
    match opponent with
    | .com => start_computer_game fuel r2 c colour
    | .human => try_to_match_human r2 c
    | .unspecified => .ok r2

/-- The function `respond_start`; `fuel` is the recursion budget handed to
`computer_move`. -/
def respond_start (fuel : Nat) (r : Resources) (c : Nat) (fields : List String) :
    Except Halt (Resources × Bool) :=
  let f1 := fields.getD 1 ""
  let f2 := fields.getD 2 ""
  let opponent : Option Opponent :=
    if f1 = "computer" then some .com else if f1 = "human" then some .human else none
  let colour : Option Colour :=
    if f2 = "white" then some .white
    else if f2 = "black" then some .black
    else if f2 = "either" then some .unspecified else none
  match opponent, colour with
  | none, _ => .ok (r, false)
  | some _, none => .ok (r, false)
  | some opponent, some colour0 =>
    match start_new_game fuel r c opponent colour0 with
    | .ok r1 => .ok (r1, true)
    | .error e => .error e

def respond_medium_input (fuel : Nat) (cmd : String) (fields : List String) (c : Nat)
    (r : Resources) : Except Halt (Resources × Int) :=
  let f1 := fields.getD 1 ""
  if cmd = "move" then
    if !(valid_move_length f1.length && str_is_alnum f1) then .ok (r, errorCommand)
    else
      match (r.clients c).game with
      | none => .ok (r, errorGame)
      | some g =>
        if (r.clients c).colour ≠ (r.games g).turn then .ok (r, errorTurn)
        else do
          let r1 ← make_move fuel r g f1
          .ok (r1, 0)
  else if cmd = "hint" then
    let all : Option Bool :=
      if f1 = "all" then some true else if f1 = "best" then some false else none
    match all with
    | none => .ok (r, errorCommand)
    | some all =>
      match (r.clients c).game with
      | none => .ok (r, errorGame)
      | some g =>
        if (r.clients c).colour ≠ (r.games g).turn then .ok (r, errorTurn)
        else do
          let r1 ← respond_hint r c all
          .ok (r1, 0)
  else .ok (r, errorCommand)

def respond_short_input (r : Resources) (c : Nat) (cmd : String) :
    Except Halt (Resources × Int) :=
  if cmd = "board" then do
    let (r1, ret) ← respond_board r c
    if ret = -1 then .ok (r1, errorGame) else .ok (r1, 0)
  else if cmd = "resign" then
    match (r.clients c).game with
    | none => .ok (r, errorGame)
    | some g =>
      match end_game r g (some c) .resignation with
      | .ok r1 => .ok (r1, 0)
      | .error e => .error e
  else .ok (r, errorCommand)

/-- The dispatch of `client_loop` on the field count. -/
def dispatch (fuel : Nat) (r : Resources) (c : Nat) (fields : List String) :
    Except Halt (Resources × Int) :=
  let cmd := fields.headD ""
  let numFields := fields.length
  if numFields = shortLine then respond_short_input r c cmd
  else if numFields = mediumLine then respond_medium_input fuel cmd fields c r
  else if numFields = longLine then
    if cmd = "start" then do
      let (r1, ok) ← respond_start fuel r c fields
      .ok (r1, if ok then 0 else errorCommand)
    else .ok (r, errorCommand)
  else .ok (r, errorCommand)

/-- The end of a round of `client_loop`: the error line for the code `error`,
if it is one of the three error codes. -/
def send_response (r : Resources) (c : Nat) (error : Int) : Except Halt Resources :=
  let response : Option String :=
    if error = errorCommand then some "error command\n"
    else if error = errorGame then some "error game\n"
    else if error = errorTurn then some "error turn\n"
    else none
  match response with
  | some response =>
    match write_to_client r c response with
    | .ok (r2, _) => .ok r2
    | .error e => .error e
  | none => .ok r

/-- The middle of a round of `client_loop`: the error code of the line, from
`validate_line` or from the dispatch on its fields. -/
def run_line (fuel : Nat) (r : Resources) (c : Nat) (valid : Int) (line : String) :
    Except Halt (Resources × Int) :=
  if valid = -1 then .ok (r, errorCommand)
  else dispatch fuel r c (split_by_char line ' ')

/-- The function `resign_remove_client`. -/
def resign_remove_client (r : Resources) (c : Nat) : Except Halt Resources :=
  match (r.clients c).game with
  | some g =>
    if (r.games g).inProgress then
      match end_game r g (some c) .resignation with
      | .error e => .error e
      | .ok r1 => remove_client r1 c
    else remove_client r c
  | none => remove_client r c

/-- The characters `fgets(buffer, n + 1, stream)` stores when the stream holds
`input`: the first line with the newline that ends it, if there is one, cut to
at most `n` characters. -/
def fgets_chars (n : Nat) (input : List Char) : List Char :=
  ((input.takeWhile fun c => c ≠ '\n') ++ (input.dropWhile fun c => c ≠ '\n').take 1).take n

/-- What the string functions of C see of the characters in a buffer: those
before the first NUL. -/
def c_string (chars : List Char) : String :=
  String.mk (chars.takeWhile fun c => c ≠ Char.ofNat 0)

/-- The buffer after `fgets(buffer, maxBufferSize, client->fromClientStream)`,
as a C string, when `input` is what the client sends from here on. -/
def fgets (input : String) : String :=
  c_string (fgets_chars (maxBufferSize - 1) input.data)

/-- Whether that `fgets` ran into the end of the input: it returned `NULL`
(nothing left) or stored a last line that no newline ends, shorter than the
buffer, so that `feof` is set. -/
def hit_eof (input : String) : Bool :=
  (fgets_chars (maxBufferSize - 1) input.data).getLast? != some '\n'
    && decide ((fgets_chars (maxBufferSize - 1) input.data).length < maxBufferSize - 1)

/-- One round of the loop of `client_loop` for client `c`, when `input` is what
the client sends from here on: `fgets`; if that ran into the end of the input
the loop is left (a partial command is ignored) and `resign_remove_client`
ends the thread; otherwise the line is validated, dispatched and answered. -/
def client_command (fuel : Nat) (r : Resources) (c : Nat) (input : String) :
    Except Halt Resources :=
  if hit_eof input then resign_remove_client r c
  else
    match validate_line (fgets input) with
    | .error e => .error e
    | .ok (valid, line) =>
      match run_line fuel r c valid line with
      | .error e => .error e
      | .ok (r1, error) => send_response r1 c error

/-- The value of the variable `error` of `client_loop` for the line that
`fgets` stores of `input`, with the state the handlers leave: `validate_line`,
then the dispatch. -/
def error_code (fuel : Nat) (r : Resources) (c : Nat) (input : String) :
    Except Halt (Resources × Int) :=
  match validate_line (fgets input) with
  | .error e => .error e
  | .ok (valid, line) => run_line fuel r c valid line

/-! ## Specification vocabulary -/

/-- Client `j` is a candidate for requester `human`: occupied, waiting for a
human, colour-compatible and not the requester. -/
def Eligible (r : Resources) (human j : Nat) : Prop :=
  (r.clients j).assigned = true ∧ (r.clients j).waitingForHuman = true
    ∧ colours_can_play (r.clients human).colour (r.clients j).colour = true ∧ j ≠ human

instance (r : Resources) (human j : Nat) : Decidable (Eligible r human j) := by
  unfold Eligible; infer_instance

/-- A table holding the listed records in slots `0, 1, ...` and `d` elsewhere. -/
def tableOf {α : Type} (d : α) (l : List α) : Nat → α := fun i => l.getD i d

/-- A slot of the client table that `calloc` zeroed and nothing wrote to. -/
def freshClient : Client :=
  { assigned := false, game := none, lastGameFen := none, colour := .white,
    priority := 0, waitingForHuman := false, writeFails := false, sigpipe := false }

/-- A slot of the game table that `calloc` zeroed and nothing wrote to. -/
def freshGame : Game :=
  { assigned := false, inProgress := false, player0 := none, player1 := none,
    turn := .white, fenBoardState := "" }

/-- A server state with the given client and game records in the first slots,
an engine whose pending replies are `replies`, and empty logs. -/
def stateOf (cs : List Client) (gs : List Game) (replies : List EngineReply) : Resources :=
  { games := tableOf freshGame gs, clients := tableOf freshClient cs,
    engineWriteFails := false, toEngine := [], fromEngine := replies, toClients := [] }

/-- The candidate test of the scan, on the table alone. -/
def Cand (cl : Nat → Client) (h j : Nat) : Prop :=
  (cl j).assigned = true ∧ (cl j).waitingForHuman = true
    ∧ colours_can_play (cl h).colour (cl j).colour = true ∧ j ≠ h

/-! ## Example states -/

/-- Two connected clients: slot 0 joined first (priority 1) and is idle, slot 1
joined second (priority 2) and already waits for a human; both ask for
`either`. -/
def lateRequestState : Resources :=
  stateOf
    [ { assigned := true, game := none, lastGameFen := none, colour := .unspecified,
        priority := 1, waitingForHuman := false, writeFails := false,
        sigpipe := false },
      { assigned := true, game := none, lastGameFen := none, colour := .unspecified,
        priority := 2, waitingForHuman := true, writeFails := false,
        sigpipe := false } ]
    [] []

/-- Three waiters and a requester: slot 0 waits with priority 3 for white,
slot 1 with priority 1 for either, slot 2 with priority 2 for either; slot 3
(priority 4) asks for either. -/
def fourClientState : Resources :=
  stateOf
    [ { assigned := true, game := none, lastGameFen := none, colour := .white,
        priority := 3, waitingForHuman := true, writeFails := false,
        sigpipe := false },
      { assigned := true, game := none, lastGameFen := none, colour := .unspecified,
        priority := 1, waitingForHuman := true, writeFails := false,
        sigpipe := false },
      { assigned := true, game := none, lastGameFen := none, colour := .unspecified,
        priority := 2, waitingForHuman := true, writeFails := false,
        sigpipe := false },
      { assigned := true, game := none, lastGameFen := none, colour := .unspecified,
        priority := 4, waitingForHuman := false, writeFails := false,
        sigpipe := false } ]
    [] []

/-- What writing to clients and ending games leave alone: every client's
colour, priority and stream flags, every game's players, turn, position and
occupancy flag, and the engine. -/
structure Keeps (r r' : Resources) : Prop where
  colour : ∀ i, (r'.clients i).colour = (r.clients i).colour
  priority : ∀ i, (r'.clients i).priority = (r.clients i).priority
  writeFails : ∀ i, (r'.clients i).writeFails = (r.clients i).writeFails
  sigpipe : ∀ i, (r'.clients i).sigpipe = (r.clients i).sigpipe
  player0 : ∀ g, (r'.games g).player0 = (r.games g).player0
  player1 : ∀ g, (r'.games g).player1 = (r.games g).player1
  turn : ∀ g, (r'.games g).turn = (r.games g).turn
  fen : ∀ g, (r'.games g).fenBoardState = (r.games g).fenBoardState
  gassigned : ∀ g, (r'.games g).assigned = (r.games g).assigned
  engineWriteFails : r'.engineWriteFails = r.engineWriteFails
  toEngine : r'.toEngine = r.toEngine
  fromEngine : r'.fromEngine = r.fromEngine

/-- A waiter in slot 0 (priority 1, either) and a requester in slot 1
(priority 2, either) whose connection is already broken, so that every write
to it fails. -/
def brokenRequesterState : Resources :=
  stateOf
    [ { assigned := true, game := none, lastGameFen := none, colour := .unspecified,
        priority := 1, waitingForHuman := true, writeFails := false,
        sigpipe := false },
      { assigned := true, game := none, lastGameFen := none, colour := .unspecified,
        priority := 2, waitingForHuman := false, writeFails := true,
        sigpipe := false } ]
    [] []

/-- The state `make_move` reaches after its engine exchange (handshake, the
`position ... moves ...` and `d` requests, one `d` output read), when
`rest` are the replies still pending. -/
def queried (r : Resources) (g : Nat) (move : String) (rest : List EngineReply) : Resources :=
  { r with
    toEngine := r.toEngine ++ ["ucinewgame\nisready\n",
      "position fen " ++ (r.games g).fenBoardState ++ " moves " ++ move ++ "\nd\n"]
    fromEngine := rest }

/-- What one accepted move leaves behind in game `g`, from the state `r` in
which `move_accepted` was entered to the state `r1` after its turn flip: `st`
is the engine's report of the new position, `ms` the legal replies it listed
and `rest` the replies still pending. -/
structure Moved (r r1 : Resources) (g : Nat) (st : StockfishGameState) (ms : List String)
    (rest : List EngineReply) : Prop where
  turn : (r1.games g).turn = (r.games g).turn.lnot
  fen : (r1.games g).fenBoardState = st.fenString
  player0 : (r1.games g).player0 = (r.games g).player0
  player1 : (r1.games g).player1 = (r.games g).player1
  writeFails : ∀ i, (r1.clients i).writeFails = (r.clients i).writeFails
  colour : ∀ i, (r1.clients i).colour = (r.clients i).colour
  engineWriteFails : r1.engineWriteFails = r.engineWriteFails
  fromEngine : r1.fromEngine = rest
  continues : ms ≠ [] → (r1.games g).inProgress = (r.games g).inProgress
  ends : ms = [] → (r1.games g).inProgress = false

/-- The position `initialise_game` stores. -/
def startFen : String := "rnbqkbnr/pppppppp/8/8/8/8/PPPPPPPP/RNBQKBNR w KQkq - 0 1"

/-- The position after `e2e4` from the start. -/
def afterE4Fen : String := "rnbqkbnr/pppppppp/8/8/4P3/8/PPPP1PPP/RNBQKBNR b KQkq e3 0 1"

/-- The position after `e2e4 e7e5`. -/
def afterE4E5Fen : String := "rnbqkbnr/pppp1ppp/8/4p3/4P3/8/PPPP1PPP/RNBQKBNR w KQkq e6 0 2"

/-- Clients 0 (white) and 1 (black) playing each other in game 0 from the
start position, white to move; `whiteBroken` says whether writes to client 0
fail, and `replies` is what the engine will answer. -/
def humanGameState (whiteBroken : Bool) (replies : List EngineReply) : Resources :=
  stateOf
    [ { assigned := true, game := some 0, lastGameFen := none, colour := .white,
        priority := 1, waitingForHuman := false, writeFails := whiteBroken,
        sigpipe := false },
      { assigned := true, game := some 0, lastGameFen := none, colour := .black,
        priority := 2, waitingForHuman := false, writeFails := false,
        sigpipe := false } ]
    [ { assigned := true, inProgress := true, player0 := some 0, player1 := some 1,
        turn := .white, fenBoardState := startFen } ]
    replies

/-- Client 0 playing white against the computer in game 0 from the start
position, white to move. -/
def computerGameState (replies : List EngineReply) : Resources :=
  stateOf
    [ { assigned := true, game := some 0, lastGameFen := none, colour := .white,
        priority := 1, waitingForHuman := false, writeFails := false,
        sigpipe := false } ]
    [ { assigned := true, inProgress := true, player0 := some 0, player1 := none,
        turn := .white, fenBoardState := startFen } ]
    replies

/-- An engine that reports the stored position back: the move is not legal. -/
def rejectingReplies : List EngineReply :=
  [ .line "readyok\n",
    .dOutput { fenString := startFen, boardString := "", checkers := none } ]

/-- An engine that accepts `e2e4`, proposes `e7e5` as its own move and accepts
it. -/
def acceptingReplies : List EngineReply :=
  [ .line "readyok\n",
    .dOutput { fenString := afterE4Fen, boardString := "", checkers := none },
    .moves ["e7e5", "d7d5"],
    .line "readyok\n",
    .moves ["e7e5"],
    .line "readyok\n",
    .dOutput { fenString := afterE4E5Fen, boardString := "", checkers := none },
    .moves ["g1f3", "d2d4"] ]

/-- A text written to a client is an error line when it begins with `error`. -/
def ErrorLine (s : String) : Prop := "error".data <+: s.data

/-- The error lines the server has: the three of `client_loop` and the one of
`make_move`. -/
def KnownError (s : String) : Prop :=
  s = "error command\n" ∨ s = "error game\n" ∨ s = "error turn\n" ∨ s = "error move\n"

/-- A text that is a known error line if it is an error line at all. -/
def OkText (s : String) : Prop := ErrorLine s → KnownError s

/-- From `r` to `r'` the log of writes to clients was only extended, and every
text added is a known error line if it is an error line at all. -/
def WritesOk (r r' : Resources) : Prop :=
  ∃ l, r'.toClients = r.toClients ++ l ∧ ∀ e ∈ l, OkText e.2

/-- A result that is not a failure of the recursion budget and whose state, if
any, has `WritesOk` from `r`. -/
def Good (r : Resources) : Except Halt Resources → Prop
  | .ok r' => WritesOk r r'
  | .error e => e ≠ .fuel

/-- The relation `Good` for a result that carries a value beside the state. -/
def GoodP {α : Type} (r : Resources) : Except Halt (Resources × α) → Prop
  | .ok (r', _) => WritesOk r r'
  | .error e => e ≠ .fuel

/-- From `r` to `r'` only the engine side changed. -/
def EngineOnly (r r' : Resources) : Prop :=
  r'.games = r.games ∧ r'.clients = r.clients ∧ r'.toClients = r.toClients

/-- The `gameover` lines that `end_game` gets written in state `r` for game
`g`: one to the player of slot 0, then one to the player of slot 1, each only
if the slot holds a client and that client's stream accepts the write. -/
def gameoverWrites (r : Resources) (g : Nat) (msg : String) : List (Nat × String) :=
  (([0, 1].filterMap (r.games g).players).filter
    (fun p => !(r.clients p).writeFails)).map (fun p => (p, msg))

/-- What `end_game` leaves behind for game `g`, from `r` to `r'`, when `msg` is
its `gameover` line: the game is no longer in progress and is otherwise as it
was, every player has its game reference cleared and the final position
stored, a player whose stream is broken has its slot freed, nobody else and no
other game changes, the engine is not used, and the log gains
`gameoverWrites`. -/
structure Ended (r r' : Resources) (g : Nat) (msg : String) : Prop where
  game : r'.games g = { r.games g with inProgress := false }
  otherGames : ∀ g', g' ≠ g → r'.games g' = r.games g'
  players : ∀ i p, (r.games g).players i = some p →
    r'.clients p = { r.clients p with
      game := none, lastGameFen := some (r.games g).fenBoardState,
      assigned := (r.clients p).assigned && !(r.clients p).writeFails }
  others : ∀ q, (∀ i, (r.games g).players i ≠ some q) → r'.clients q = r.clients q
  log : r'.toClients = r.toClients ++ gameoverWrites r g msg
  engineWriteFails : r'.engineWriteFails = r.engineWriteFails
  toEngine : r'.toEngine = r.toEngine
  fromEngine : r'.fromEngine = r.fromEngine

/-- The position `respond_board` shows to client `c`: its stored last
position, else the position of its game if that is in progress. -/
def shownPosition (r : Resources) (c : Nat) : Option String :=
  match (r.clients c).lastGameFen with
  | some f => some f
  | none =>
    match (r.clients c).game with
    | some g => if (r.games g).inProgress then some (r.games g).fenBoardState else none
    | none => none

/-- The requests one `board` query for the position `fen` sends to the engine. -/
def boardRequests (fen : String) : List String :=
  ["ucinewgame\nisready\n", "position fen " ++ fen ++ "\n", "d\n"]

/-- The state after one answered `board` query of client `c` in state `r`, when
`rest` are the replies still pending. -/
def boardShown (r : Resources) (c : Nat) (fen board : String) (rest : List EngineReply) :
    Resources :=
  { r with
    toEngine := r.toEngine ++ boardRequests fen
    fromEngine := rest
    toClients := r.toClients ++ [(c, "startboard\n" ++ board ++ "endboard\n")] }

/-- The two notifications of an accepted move `move` in game `g`: `ok` to the
mover, then `moved <move>` to the opponent, each only if that side is a
client. -/
def moveNotes (r : Resources) (g : Nat) (move : String) : List (Nat × String) :=
  (((r.games g).players (r.games g).turn.toNat).map fun m => (m, "ok\n")).toList
    ++ (((r.games g).players (r.games g).turn.lnot.toNat).map
        fun o => (o, "moved " ++ move ++ "\n")).toList

/-- One `check` line to the player of slot 0, then one to the player of slot 1,
for each slot that holds a client. -/
def checkWrites (r : Resources) (g : Nat) : List (Nat × String) :=
  ([0, 1].filterMap (r.games g).players).map fun p => (p, "check\n")

/-- The state of an accepted move after its notifications and the legal-reply
query, when every write succeeds: in `r`, the state after the engine reported
the new position `st`, game `g` stores the new position, the log has gained
`moveNotes`, the engine was sent `go perft 1` and `rest` are the replies still
pending. -/
def notified (r : Resources) (g : Nat) (move : String) (st : StockfishGameState)
    (rest : List EngineReply) : Resources :=
  { r with
    games := fun j =>
      if j = g then { r.games g with fenBoardState := st.fenString } else r.games j
    toEngine := r.toEngine ++ [goPerft1]
    fromEngine := rest
    toClients := r.toClients ++ moveNotes r g move }

/-- The state `end_game` leaves for game `g` when it returns, `msg` being its
`gameover` line: the game is no longer in progress, every player has its game
reference cleared and the final position stored, a player whose stream fails
the write has its slot freed, and the log has gained `gameoverWrites`. -/
def gameEnded (r : Resources) (g : Nat) (msg : String) : Resources :=
  { r with
    games := fun j => if j = g then { r.games g with inProgress := false } else r.games j
    clients := fun q =>
      if (r.games g).players 0 = some q ∨ (r.games g).players 1 = some q then
        { r.clients q with
          game := none, lastGameFen := some (r.games g).fenBoardState,
          assigned := (r.clients q).assigned && !(r.clients q).writeFails }
      else r.clients q
    toClients := r.toClients ++ gameoverWrites r g msg }

/-- The outcome step of an accepted move when every write succeeds, for the
legal replies `ms` and the check status `inCheck` of the new position: no
legal reply ends the game, as a checkmate if in check and as a stalemate if
not; otherwise a check is announced to the players. -/
def outcomeOf (r : Resources) (g : Nat) (opponent : Option Nat) (inCheck : Bool)
    (ms : List String) : Resources :=
  if ms = [] then
    if inCheck then gameEnded r g (end_game_msg (r.games g) opponent .checkmate)
    else gameEnded r g (end_game_msg (r.games g) none .stalemate)
  else if inCheck then { r with toClients := r.toClients ++ checkWrites r g }
  else r

/-- The statement `game->turn = !game->turn`. -/
def flipTurn (r : Resources) (g : Nat) : Resources :=
  r.setGame g { r.games g with turn := (r.games g).turn.lnot }

/-- The state `move_accepted` reaches before it hands over to the computer or
returns, when every write succeeds. -/
def afterMove (r : Resources) (g : Nat) (move : String) (st : StockfishGameState)
    (ms : List String) (rest : List EngineReply) : Resources :=
  flipTurn
    (outcomeOf (notified r g move st rest) g
      ((r.games g).players (r.games g).turn.lnot.toNat) st.checkers.isSome ms) g

/-- The scan of `client_thread` over slots `i .. i + n - 1`: `found` and
`thisClient` are one optional slot, `maxP` is `maxPriority`. -/
def accept_scan (clients : Nat → Client) : Nat → Nat → Option Nat → Int → Option Nat × Int
  | 0, _, found, maxP => (found, maxP)
  | n + 1, i, found, maxP =>
    if !(clients i).assigned then
      accept_scan clients n (i + 1) (if found.isNone then some i else found) maxP
    else
      accept_scan clients n (i + 1) found
        (if (clients i).priority > maxP then (clients i).priority else maxP)

/-- The function `client_thread` up to its `sem_post`: the accepted connection
gets a slot of the client table and a priority.  The result carries the slot;
the streams opened on the new socket accept writes. -/
def client_thread (r : Resources) : Except Halt (Resources × Nat) :=
  match accept_scan r.clients maxBufferSize 0 none (-1) with
  | (none, _) => .error (.bug "Ran out of space in client array\n")
  | (some c, maxPriority) =>
    .ok (r.setClient c
      { r.clients c with
        assigned := true
        game := none
        lastGameFen := none
        waitingForHuman := false
        priority := if maxPriority = -1 then 1 else maxPriority + 1
        writeFails := false
        sigpipe := false }, c)

/-- What the world outside the server can change between two steps of the
server: the replies the engine has pending, whether the engine pipe accepts
writes, and whether the stream of a client accepts writes. -/
structure EnvChange (r r' : Resources) : Prop where
  games : r'.games = r.games
  clients : ∀ i, r'.clients i
    = { r.clients i with
        writeFails := (r'.clients i).writeFails, sigpipe := (r'.clients i).sigpipe }
  toEngine : r'.toEngine = r.toEngine
  toClients : r'.toClients = r.toClients

/-- The tables as `process_connections` allocates them. -/
def initialState : Resources := stateOf [] [] []

/-- The states the server reaches from the empty tables, each with the list of
the connected clients in the order in which they connected.  A step is an
accepted connection, a line from a connected client served by `client_loop`
(two nested `make_move` calls are all it ever needs), the end of a client
thread (`resign_remove_client`), or a change of the outside world. -/
inductive Reach : Resources → List Nat → Prop
  | init : Reach initialState []
  | connect {r r' : Resources} {l : List Nat} {c : Nat} :
      Reach r l → client_thread r = .ok (r', c) → Reach r' (l ++ [c])
  | command {r r' : Resources} {l : List Nat} (c : Nat) (buffer : String) :
      Reach r l → (r.clients c).assigned = true → client_command 2 r c buffer = .ok r' →
      Reach r' (l.filter fun i => (r'.clients i).assigned)
  | disconnect {r r' : Resources} {l : List Nat} (c : Nat) :
      Reach r l → resign_remove_client r c = .ok r' →
      Reach r' (l.filter fun i => (r'.clients i).assigned)
  | environment {r r' : Resources} {l : List Nat} :
      Reach r l → EnvChange r r' → Reach r' l

/-- A client as `client_thread` leaves it in a slot of the zeroed table, with
priority `p`. -/
def joinedClient (p : Int) : Client :=
  { freshClient with assigned := true, priority := p }

/-- The state after the first connection to a fresh server. -/
def oneClientState : Resources := stateOf [joinedClient 1] [] []

/-- The state after two connections to a fresh server. -/
def twoClientState : Resources := stateOf [joinedClient 1, joinedClient 2] [] []

/-- Two connected clients; client 0 has asked for a human opponent as white and
waits; `broken` says whether its stream has stopped accepting writes. -/
def whiteWaitsState (broken : Bool) : Resources :=
  stateOf
    [ { joinedClient 1 with waitingForHuman := true, writeFails := broken },
      joinedClient 2 ] [] []

/-- The state the computer branch of `respond_start` reaches before it calls
`send_started`: game `g` is initialised, client `c` sits in the slot of
`colour`, the other slot is empty, and the client refers to the game. -/
def computer_game_seated (r : Resources) (g c : Nat) (colour : Colour) : Resources :=
  let r3 := initialise_game r g
  let r4 := r3.setGame g ((r3.games g).setPlayer colour.toNat (some c))
  let r5 := r4.setGame g ((r4.games g).setPlayer colour.lnot.toNat none)
  r5.setClient c { r5.clients c with game := some g, waitingForHuman := false }

/-- What every step of the server other than an accepted connection leaves in
place, from `r` to `r'`: the priority of every client slot; the free client
slots, which stay free; the occupied game slots, which stay occupied with the
same two players; and for a game slot that became occupied, a client in one of
its player slots. -/
structure Lasting (r r' : Resources) : Prop where
  priority : ∀ i, (r'.clients i).priority = (r.clients i).priority
  assigned : ∀ i, (r'.clients i).assigned = true → (r.clients i).assigned = true
  kept : ∀ g, (r.games g).assigned = true →
    (r'.games g).assigned = true ∧ (r'.games g).player0 = (r.games g).player0
      ∧ (r'.games g).player1 = (r.games g).player1
  fresh : ∀ g, (r.games g).assigned = false → (r'.games g).assigned = true →
    (r'.games g).player0 ≠ none ∨ (r'.games g).player1 ≠ none

/-- A result whose state, if any, is `Lasting` from `r`. -/
def LastOk (r : Resources) : Except Halt Resources → Prop
  | .ok r' => Lasting r r'
  | .error _ => True

/-- The relation `LastOk` for a result that carries a value beside the state. -/
def LastOkP {α : Type} (r : Resources) : Except Halt (Resources × α) → Prop
  | .ok (r', _) => Lasting r r'
  | .error _ => True

/-- Every occupied game slot has a client in one of its two player slots. -/
def Seated (r : Resources) : Prop :=
  ∀ g, (r.games g).assigned = true →
    (r.games g).players 0 ≠ none ∨ (r.games g).players 1 ≠ none

/-- The connected clients are exactly those of `l`, all in the scanned part of
the table, and along `l` the priorities increase strictly. -/
def Queued (r : Resources) (l : List Nat) : Prop :=
  (∀ i, i ∈ l ↔ (r.clients i).assigned = true)
    ∧ (∀ i, i ∈ l → i < maxBufferSize)
    ∧ l.Pairwise (fun a b => (r.clients a).priority < (r.clients b).priority)

/-- The write that resets the engine session and asks for the handshake: the
lines `ucinewgame` and `isready`. -/
def resetLines : String := "ucinewgame\nisready\n"

/-- The write that sets the position `fen`. -/
def positionLine (fen : String) : String := "position fen " ++ fen ++ "\n"

/-- The write of `make_move` that sets the position `fen` with the candidate
move `move` appended and asks for the resulting position with `d`. -/
def testLines (fen move : String) : String :=
  "position fen " ++ fen ++ " moves " ++ move ++ "\nd\n"

/-- The query lines of the server. -/
def IsQuery (s : String) : Prop :=
  s = "d\n" ∨ s = goPerft1 ∨ s = "go movetime 500 depth 15\n"

/-- One engine session as the server writes it: the reset with its handshake,
then a position, then the queries on it.  Either the position is set alone and
one query follows, or the position is set with a candidate move, with `d` in
the same write, and `go perft 1` may follow. -/
inductive Session : List String → Prop
  | plain (fen q : String) : IsQuery q → Session [resetLines, positionLine fen, q]
  | test (fen move : String) : Session [resetLines, testLines fen move]
  | counted (fen move : String) : Session [resetLines, testLines fen move, goPerft1]

/-- A sequence of engine writes that is a sequence of whole sessions. -/
inductive Sessions : List String → Prop
  | nil : Sessions []
  | cons {s rest : List String} : Session s → Sessions rest → Sessions (s ++ rest)

/-- From `r` to `r'` the engine was sent a sequence of whole sessions. -/
def Asks (r r' : Resources) : Prop :=
  ∃ l, r'.toEngine = r.toEngine ++ l ∧ Sessions l

/-- A result whose state, if any, has `Asks` from `r`. -/
def AsksOk (r : Resources) : Except Halt Resources → Prop
  | .ok r' => Asks r r'
  | .error _ => True

/-- The relation `AsksOk` for a result that carries a value beside the state. -/
def AsksOkP {α : Type} (r : Resources) : Except Halt (Resources × α) → Prop
  | .ok (r', _) => Asks r r'
  | .error _ => True

/-- What the handlers leave in place while they serve game `g`, apart from the
set-up of a new game by `start`, from `r` to `r'`: a game reference is only
ever cleared; colours and waiting flags stay; client slots are freed at most;
every game keeps its players and its occupancy flag, and no game is put in
progress again; once a game has stopped being in progress none of its players
refers to it; and every game other than `g` keeps its turn and its position. -/
structure Tame (g : Nat) (r r' : Resources) : Prop where
  refs : ∀ c h, (r'.clients c).game = some h → (r.clients c).game = some h
  colour : ∀ c, (r'.clients c).colour = (r.clients c).colour
  waiting : ∀ c, (r'.clients c).waitingForHuman = (r.clients c).waitingForHuman
  assigned : ∀ c, (r'.clients c).assigned = true → (r.clients c).assigned = true
  player0 : ∀ h, (r'.games h).player0 = (r.games h).player0
  player1 : ∀ h, (r'.games h).player1 = (r.games h).player1
  gassigned : ∀ h, (r'.games h).assigned = (r.games h).assigned
  alive : ∀ h, (r'.games h).inProgress = true → (r.games h).inProgress = true
  ended : ∀ h i p, (r.games h).inProgress = true → (r'.games h).inProgress = false →
    (r.games h).players i = some p → (r'.clients p).game ≠ some h
  others : ∀ h, h ≠ g →
    (r'.games h).turn = (r.games h).turn
      ∧ (r'.games h).fenBoardState = (r.games h).fenBoardState

/-- A result whose state, if any, is `Tame g` from `r`. -/
def TameOk (g : Nat) (r : Resources) : Except Halt Resources → Prop
  | .ok r' => Tame g r r'
  | .error _ => True

/-- The relation `TameOk` for a result that carries a value beside the state. -/
def TameOkP {α : Type} (g : Nat) (r : Resources) : Except Halt (Resources × α) → Prop
  | .ok (r', _) => Tame g r r'
  | .error _ => True

/-- The game references of a state are consistent: a client that refers to a
game refers to a game in progress, has colour white or black, and sits in the
player slot of that colour; a game in progress occupies its slot; and a client
that waits for a human opponent refers to no game. -/
structure Sound (r : Resources) : Prop where
  seat : ∀ c g, (r.clients c).game = some g →
    (r.games g).inProgress = true ∧ (r.clients c).colour ≠ .unspecified
      ∧ (r.games g).players (r.clients c).colour.toNat = some c
  live : ∀ g, (r.games g).inProgress = true → (r.games g).assigned = true
  idle : ∀ c, (r.clients c).waitingForHuman = true → (r.clients c).game = none

/-- From `r` to `r'` every game that is over (its slot occupied, the game not
in progress) has stayed exactly as it was. -/
def Frozen (r r' : Resources) : Prop :=
  ∀ g, (r.games g).assigned = true → (r.games g).inProgress = false → r'.games g = r.games g

/-- A result whose state, if any, is `Sound` and `Frozen` from `r`. -/
def SoundOk (r : Resources) : Except Halt Resources → Prop
  | .ok r' => Sound r' ∧ Frozen r r'
  | .error _ => True

/-- The relation `SoundOk` for a result that carries a value beside the state. -/
def SoundOkP {α : Type} (r : Resources) : Except Halt (Resources × α) → Prop
  | .ok (r', _) => Sound r' ∧ Frozen r r'
  | .error _ => True

/-- A connected client with priority `p` that waits for a human opponent with
the colour request `colour`. -/
def waiter (p : Int) (colour : Colour) : Client :=
  { joinedClient p with waitingForHuman := true, colour := colour }

/-- The state after three connections to a fresh server. -/
def threeClientState : Resources :=
  stateOf [joinedClient 1, joinedClient 2, joinedClient 3] [] []

/-- The state after four connections to a fresh server. -/
def fourJoinedState : Resources :=
  stateOf [joinedClient 1, joinedClient 2, joinedClient 3, joinedClient 4] [] []

/-- Four connected clients, of which the second waits for a human opponent of
either colour. -/
def oneWaiterState : Resources :=
  stateOf [joinedClient 1, waiter 2 .unspecified, joinedClient 3, joinedClient 4] [] []

/-- Four connected clients, of which the second waits for a human opponent of
either colour and the third for one as white. -/
def twoWaitersState : Resources :=
  stateOf [joinedClient 1, waiter 2 .unspecified, waiter 3 .white, joinedClient 4] [] []

/-- Four connected clients in the order of their connection: the first and the
second wait for a human opponent of either colour, the third waits for one as
white, and the fourth has not asked for a game. -/
def threeWaitersState : Resources :=
  stateOf [waiter 1 .unspecified, waiter 2 .unspecified, waiter 3 .white, joinedClient 4] [] []

/-! # Properties -/

/-! ## The matchmaking scan -/

theorem match_scan_append (cl : Nat → Client) (h : Nat) (a b : Nat) :
    ∀ (i : Nat) (f : Option Nat) (m : Int),
      match_scan cl h (a + b) i f m
        = match_scan cl h b (i + a) (match_scan cl h a i f m).1 (match_scan cl h a i f m).2 := by
  induction a with
  | zero => intro i f m; simp [match_scan]
  | succ a ih =>
    intro i f m
    have e : a + 1 + b = (a + b) + 1 := by omega
    rw [e, match_scan, match_scan]
    split
    · rw [ih]; congr 1; omega
    · rw [ih]; congr 1; omega

/-- Slots that are not occupied never change the scan's variables. -/
theorem match_scan_unassigned (cl : Nat → Client) (h : Nat) :
    ∀ (n i : Nat) (f : Option Nat) (m : Int),
      (∀ k, i ≤ k → (cl k).assigned = false) → match_scan cl h n i f m = (f, m) := by
  intro n
  induction n with
  | zero => intro i f m _; simp [match_scan]
  | succ n ih =>
    intro i f m hk
    rw [match_scan]
    have h0 : (cl i).assigned = false := hk i (Nat.le_refl i)
    simp only [h0, Bool.false_and, Bool.false_eq_true, if_false]
    exact ih (i + 1) f m (fun k hik => hk k (by omega))

/-- What the scan over slots `i .. i + n - 1` leaves in its variables. -/
theorem match_scan_spec (cl : Nat → Client) (h : Nat) :
    ∀ (n i : Nat) (f : Option Nat) (m : Int),
      (match_scan cl h n i f m).2 ≤ m
      ∧ (∀ k, i ≤ k → k < i + n → Cand cl h k → (match_scan cl h n i f m).2 ≤ (cl k).priority)
      ∧ (((match_scan cl h n i f m).1 = f ∧ (match_scan cl h n i f m).2 = m)
          ∨ ∃ j, (match_scan cl h n i f m).1 = some j ∧ i ≤ j ∧ j < i + n ∧ Cand cl h j
              ∧ (cl j).priority = (match_scan cl h n i f m).2
              ∧ (match_scan cl h n i f m).2 < m) := by
  intro n
  induction n with
  | zero =>
    intro i f m
    refine ⟨by simp [match_scan], ?_, Or.inl (by simp [match_scan])⟩
    intro k h1 h2; omega
  | succ n ih =>
    intro i f m
    rw [match_scan]
    split
    · rename_i hc
      simp only [Bool.and_eq_true, decide_eq_true_eq, bne_iff_ne, ne_eq] at hc
      obtain ⟨⟨⟨⟨ha, hw⟩, hcol⟩, hlt⟩, hne⟩ := hc
      obtain ⟨h1, h2, h3⟩ := ih (i + 1) (some i) (cl i).priority
      refine ⟨by omega, ?_, Or.inr ?_⟩
      · intro k hik hkn hcand
        by_cases hki : k = i
        · subst hki; exact h1
        · exact h2 k (by omega) (by omega) hcand
      · rcases h3 with ⟨e1, e2⟩ | ⟨j, e1, e2, e3, e4, e5, e6⟩
        · exact ⟨i, e1, Nat.le_refl i, by omega, ⟨ha, hw, hcol, hne⟩, e2.symm, by omega⟩
        · exact ⟨j, e1, by omega, by omega, e4, e5, by omega⟩
    · rename_i hc
      obtain ⟨h1, h2, h3⟩ := ih (i + 1) f m
      refine ⟨h1, ?_, ?_⟩
      · intro k hik hkn hcand
        by_cases hki : k = i
        · subst hki
          obtain ⟨ha, hw, hcol, hne⟩ := hcand
          have hge : ¬ (cl k).priority < m := by
            intro hlt
            apply hc
            simp [ha, hw, hcol, hlt, hne]
          omega
        · exact h2 k (by omega) (by omega) hcand
      · rcases h3 with h3 | ⟨j, e1, e2, e3, e4, e5, e6⟩
        · exact Or.inl h3
        · exact Or.inr ⟨j, e1, by omega, by omega, e4, e5, e6⟩

theorem cand_mark_waiting (r : Resources) (human j : Nat) :
    Cand (mark_waiting r human).clients human j ↔ Eligible r human j := by
  unfold Cand Eligible mark_waiting Resources.setClient
  by_cases hj : j = human
  · subst hj; simp
  · simp [hj]

/-- The search returns a candidate of smallest priority among all candidates
in the table. -/
theorem find_partner_spec (r : Resources) (human other : Nat)
    (h : find_partner (mark_waiting r human) human = some other) :
    other < maxBufferSize ∧ Eligible r human other
      ∧ ∀ k, k < maxBufferSize → Eligible r human k →
          (r.clients other).priority ≤ (r.clients k).priority := by
  unfold find_partner at h
  obtain ⟨_, h2, h3⟩ := match_scan_spec (mark_waiting r human).clients human maxBufferSize 0
    none (((mark_waiting r human).clients 0).priority + 1)
  have hp : ∀ j, ((mark_waiting r human).clients j).priority = (r.clients j).priority := by
    intro j
    unfold mark_waiting Resources.setClient
    by_cases hj : j = human
    · subst hj; simp
    · simp [hj]
  rcases h3 with ⟨e1, _⟩ | ⟨j, e1, _, e3, e4, e5, _⟩
  · rw [h] at e1; cases e1
  · rw [h] at e1
    cases e1
    refine ⟨by omega, (cand_mark_waiting r human other).1 e4, ?_⟩
    intro k hk hel
    have := h2 k (Nat.zero_le k) (by omega) ((cand_mark_waiting r human k).2 hel)
    rw [← e5, hp, hp] at this
    exact this

/-- A candidate whose priority does not exceed the one stored in slot 0 makes
the search succeed. -/
theorem find_partner_some (r : Resources) (human k : Nat) (hk : k < maxBufferSize)
    (hel : Eligible r human k)
    (hp : (r.clients k).priority ≤ ((mark_waiting r human).clients 0).priority) :
    ∃ other, find_partner (mark_waiting r human) human = some other := by
  unfold find_partner
  obtain ⟨_, h2, h3⟩ := match_scan_spec (mark_waiting r human).clients human maxBufferSize 0
    none (((mark_waiting r human).clients 0).priority + 1)
  have hpk : ((mark_waiting r human).clients k).priority = (r.clients k).priority := by
    unfold mark_waiting Resources.setClient
    by_cases hj : k = human
    · subst hj; simp
    · simp [hj]
  have := h2 k (Nat.zero_le k) (by omega) ((cand_mark_waiting r human k).2 hel)
  rcases h3 with ⟨_, e2⟩ | ⟨j, e1, _⟩
  · rw [hpk] at this; omega
  · exact ⟨j, e1⟩

/-- The search on a table whose occupied slots all lie below `n`. -/
theorem find_partner_below (r : Resources) (human n : Nat) (hn : n ≤ maxBufferSize)
    (hfree : ∀ k, n ≤ k → (r.clients k).assigned = false) :
    find_partner r human
      = (match_scan r.clients human n 0 none ((r.clients 0).priority + 1)).1 := by
  unfold find_partner
  obtain ⟨b, hb⟩ : ∃ b, maxBufferSize = n + b := ⟨maxBufferSize - n, by omega⟩
  rw [hb, match_scan_append, match_scan_unassigned]
  intro k hk
  exact hfree k (by omega)

/-- Slots past the listed records of an example state are not occupied. -/
theorem stateOf_free (cs : List Client) (gs : List Game) (rs : List EngineReply)
    (k : Nat) (hk : cs.length ≤ k) : ((stateOf cs gs rs).clients k).assigned = false := by
  simp [stateOf, tableOf, List.getD, List.getElem?_eq_none hk, freshClient]

theorem mark_waiting_assigned (r : Resources) (human k : Nat) :
    ((mark_waiting r human).clients k).assigned = (r.clients k).assigned := by
  unfold mark_waiting Resources.setClient
  by_cases h : k = human
  · subst h; simp
  · simp [h]

/-- The branch of `try_to_match_human` taken when the search finds nobody. -/
theorem try_to_match_human_of_none (r : Resources) (human : Nat)
    (h : find_partner (mark_waiting r human) human = none) :
    try_to_match_human r human = .ok (mark_waiting r human) := by
  unfold try_to_match_human; rw [h]

theorem find_partner_lateRequestState :
    find_partner (mark_waiting lateRequestState 0) 0 = none := by
  rw [find_partner_below _ 0 2 (by decide)]
  · decide
  · intro k hk
    rw [mark_waiting_assigned]
    exact stateOf_free _ _ _ k hk

/-- C1, at a state the server reaches when the second client to connect asks
for a human first: the earlier client then asks too, the later one is an
eligible candidate in the table, yet the search finds nobody and the requester
is left waiting with no game and nothing written. -/
theorem try_to_match_human_misses_later_waiter :
    (1 < maxBufferSize ∧ Eligible lateRequestState 0 1)
      ∧ ∃ r, try_to_match_human lateRequestState 0 = .ok r
          ∧ (r.clients 0).waitingForHuman = true ∧ (r.clients 0).game = none
          ∧ (r.clients 1).waitingForHuman = true ∧ (r.clients 1).game = none
          ∧ r.toClients = [] := by
  exact ⟨by decide, mark_waiting lateRequestState 0,
    try_to_match_human_of_none _ _ find_partner_lateRequestState, by decide, by decide,
    by decide, by decide, rfl⟩

/-- C2: the client the search of `try_to_match_human` selects (the one
`pair_humans` then puts in the game with the requester) is occupied, waiting
for a human, colour-compatible with the requester and not the requester, and no
client of the table with those four properties has a smaller priority. -/
theorem try_to_match_human_partner_earliest (r : Resources) (human other : Nat)
    (h : find_partner (mark_waiting r human) human = some other) :
    try_to_match_human r human = pair_humans (mark_waiting r human) human other
      ∧ other < maxBufferSize
      ∧ (r.clients other).assigned = true ∧ (r.clients other).waitingForHuman = true
      ∧ colours_can_play (r.clients human).colour (r.clients other).colour = true
      ∧ ((r.clients human).colour = .unspecified ∨ (r.clients other).colour = .unspecified
          ∨ (r.clients human).colour ≠ (r.clients other).colour)
      ∧ other ≠ human
      ∧ ∀ k, k < maxBufferSize → Eligible r human k →
          ¬ (r.clients k).priority < (r.clients other).priority := by
  obtain ⟨h1, ⟨ha, hw, hc, hne⟩, h3⟩ := find_partner_spec r human other h
  refine ⟨?_, h1, ha, hw, hc, ?_, hne, ?_⟩
  · unfold try_to_match_human; rw [h]
  · revert hc
    cases (r.clients human).colour <;> cases (r.clients other).colour <;>
      simp [colours_can_play]
  · intro k hk hel
    have := h3 k hk hel
    omega

theorem find_partner_fourClientState :
    find_partner (mark_waiting fourClientState 3) 3 = some 1 := by
  rw [find_partner_below _ 3 4 (by decide)]
  · decide
  · intro k hk
    rw [mark_waiting_assigned]
    exact stateOf_free _ _ _ k hk

theorem try_to_match_human_partner_earliest_witness :
    find_partner (mark_waiting fourClientState 3) 3 = some 1
      ∧ (fourClientState.clients 1).assigned = true
      ∧ ∀ k, k < maxBufferSize → Eligible fourClientState 3 k →
          ¬ (fourClientState.clients k).priority < (fourClientState.clients 1).priority :=
  ⟨find_partner_fourClientState,
    (try_to_match_human_partner_earliest fourClientState 3 1
      find_partner_fourClientState).2.2.1,
    (try_to_match_human_partner_earliest fourClientState 3 1
      find_partner_fourClientState).2.2.2.2.2.2.2⟩

/-! ## What notifications leave alone -/

theorem Keeps.same (r : Resources) : Keeps r r :=
  ⟨fun _ => rfl, fun _ => rfl, fun _ => rfl, fun _ => rfl, fun _ => rfl, fun _ => rfl,
    fun _ => rfl, fun _ => rfl, fun _ => rfl, rfl, rfl, rfl⟩

theorem Keeps.andThen {a b c : Resources} (h1 : Keeps a b) (h2 : Keeps b c) : Keeps a c :=
  ⟨fun i => (h2.colour i).trans (h1.colour i),
    fun i => (h2.priority i).trans (h1.priority i),
    fun i => (h2.writeFails i).trans (h1.writeFails i),
    fun i => (h2.sigpipe i).trans (h1.sigpipe i),
    fun g => (h2.player0 g).trans (h1.player0 g),
    fun g => (h2.player1 g).trans (h1.player1 g),
    fun g => (h2.turn g).trans (h1.turn g),
    fun g => (h2.fen g).trans (h1.fen g),
    fun g => (h2.gassigned g).trans (h1.gassigned g),
    h2.engineWriteFails.trans h1.engineWriteFails,
    h2.toEngine.trans h1.toEngine,
    h2.fromEngine.trans h1.fromEngine⟩

theorem Keeps.players {r r' : Resources} (h : Keeps r r') (g i : Nat) :
    (r'.games g).players i = (r.games g).players i := by
  unfold Game.players
  rw [h.player0, h.player1]

theorem keeps_setClient (r : Resources) (i : Nat) (c : Client)
    (hc : c.colour = (r.clients i).colour) (hp : c.priority = (r.clients i).priority)
    (hw : c.writeFails = (r.clients i).writeFails)
    (hs : c.sigpipe = (r.clients i).sigpipe) : Keeps r (r.setClient i c) := by
  refine ⟨?_, ?_, ?_, ?_, fun _ => rfl, fun _ => rfl, fun _ => rfl, fun _ => rfl,
    fun _ => rfl, rfl, rfl, rfl⟩ <;>
  · intro j
    unfold Resources.setClient
    by_cases h : j = i
    · subst h; simp [hc, hp, hw, hs]
    · simp [h]

theorem keeps_setGame_inProgress (r : Resources) (g : Nat) (b : Bool) :
    Keeps r (r.setGame g { r.games g with inProgress := b }) := by
  refine ⟨fun _ => rfl, fun _ => rfl, fun _ => rfl, fun _ => rfl, ?_, ?_, ?_, ?_, ?_,
    rfl, rfl, rfl⟩ <;>
  · intro j
    unfold Resources.setGame
    by_cases h : j = g
    · subst h; simp
    · simp [h]

/-- The three outcomes of `try_to_write`: the text is logged; the write fails
and -1 is returned, the state untouched; or the failing write raises SIGPIPE
and the server ends in `engine_failure`. -/
theorem try_to_write_cases (r : Resources) (c : Nat) (t : String) :
    ((r.clients c).writeFails = false
        ∧ try_to_write r c t = .ok (some { r with toClients := r.toClients ++ [(c, t)] }))
      ∨ ((r.clients c).writeFails = true ∧ (r.clients c).sigpipe = false
        ∧ try_to_write r c t = .ok none)
      ∨ ((r.clients c).writeFails = true ∧ (r.clients c).sigpipe = true
        ∧ try_to_write r c t = .error engine_failure) := by
  unfold try_to_write
  cases hw : (r.clients c).writeFails <;> cases hs : (r.clients c).sigpipe <;> simp

theorem try_to_write_some {r r' : Resources} {c : Nat} {t : String}
    (h : try_to_write r c t = .ok (some r')) :
    (r.clients c).writeFails = false ∧ r' = { r with toClients := r.toClients ++ [(c, t)] } := by
  rcases try_to_write_cases r c t with ⟨h1, h2⟩ | ⟨_, _, h2⟩ | ⟨_, _, h2⟩ <;> rw [h2] at h
  · cases h
    exact ⟨h1, rfl⟩
  · cases h
  · cases h

theorem try_to_write_none {r : Resources} {c : Nat} {t : String}
    (h : try_to_write r c t = .ok none) :
    (r.clients c).writeFails = true ∧ (r.clients c).sigpipe = false := by
  rcases try_to_write_cases r c t with ⟨_, h2⟩ | ⟨h1, h3, _⟩ | ⟨_, _, h2⟩
  · rw [h2] at h; cases h
  · exact ⟨h1, h3⟩
  · rw [h2] at h; cases h

theorem keeps_try_to_write {r r' : Resources} {c : Nat} {t : String}
    (h : try_to_write r c t = .ok (some r')) : Keeps r r' := by
  rw [(try_to_write_some h).2]
  exact ⟨fun _ => rfl, fun _ => rfl, fun _ => rfl, fun _ => rfl, fun _ => rfl, fun _ => rfl,
    fun _ => rfl, fun _ => rfl, fun _ => rfl, rfl, rfl, rfl⟩

/-- The two outcomes of `remove_client`: an occupied slot is freed; on a slot
that is not occupied the second `fclose` stops the server. -/
theorem remove_client_cases (r : Resources) (c : Nat) :
    ((r.clients c).assigned = true
        ∧ remove_client r c = .ok (r.setClient c { r.clients c with assigned := false }))
      ∨ ((r.clients c).assigned = false ∧ remove_client r c = .error .crash) := by
  unfold remove_client
  cases (r.clients c).assigned <;> simp

theorem remove_client_ok {r r' : Resources} {c : Nat} (h : remove_client r c = .ok r') :
    (r.clients c).assigned = true
      ∧ r' = r.setClient c { r.clients c with assigned := false } := by
  rcases remove_client_cases r c with ⟨h1, h2⟩ | ⟨_, h2⟩ <;> rw [h2] at h
  · cases h
    exact ⟨h1, rfl⟩
  · cases h

theorem keeps_remove_client {r r' : Resources} {c : Nat} (h : remove_client r c = .ok r') :
    Keeps r r' := by
  rw [(remove_client_ok h).2]
  exact keeps_setClient r c _ rfl rfl rfl rfl

/-- The outcomes of one iteration of the second loop of `end_game` that
returns: the slot is empty and nothing happens; or the player `p` of the slot
has its game reference cleared and the position stored, and then either its
stream accepts the line, or the write fails and its slot, occupied until then,
is freed. -/
theorem end_game_notify_ok {msg : String} {g : Nat} {r r' : Resources} {i : Nat}
    (h : end_game_notify msg g r i = .ok r') :
    ((r.games g).players i = none ∧ r' = r)
      ∨ ∃ p, (r.games g).players i = some p
          ∧ (((r.clients p).writeFails = false
              ∧ r' = { r.setClient p
                        { r.clients p with
                          lastGameFen := some (r.games g).fenBoardState, game := none } with
                      toClients := r.toClients ++ [(p, msg)] })
            ∨ ((r.clients p).writeFails = true ∧ (r.clients p).sigpipe = false
              ∧ (r.clients p).assigned = true
              ∧ r' = r.setClient p
                      { r.clients p with
                        lastGameFen := some (r.games g).fenBoardState, game := none,
                        assigned := false })) := by
  unfold end_game_notify at h
  cases hp : (r.games g).players i with
  | none =>
    rw [hp] at h
    cases h
    exact Or.inl ⟨rfl, rfl⟩
  | some p =>
    rw [hp] at h
    refine Or.inr ⟨p, rfl, ?_⟩
    simp only [] at h
    cases hw : try_to_write (r.setClient p
        { r.clients p with lastGameFen := some (r.games g).fenBoardState, game := none })
        p msg with
    | error e => rw [hw] at h; cases h
    | ok o =>
      rw [hw] at h
      cases o with
      | some r2 =>
        simp only [] at h
        cases h
        obtain ⟨h1, h2⟩ := try_to_write_some hw
        refine Or.inl ⟨?_, ?_⟩
        · simpa [Resources.setClient] using h1
        · rw [h2]
          rfl
      | none =>
        simp only [] at h
        obtain ⟨h1, h2⟩ := try_to_write_none hw
        obtain ⟨h3, h4⟩ := remove_client_ok h
        refine Or.inr ⟨?_, ?_, ?_, ?_⟩
        · simpa [Resources.setClient] using h1
        · simpa [Resources.setClient] using h2
        · simpa [Resources.setClient] using h3
        · rw [h4]
          unfold Resources.setClient
          congr 1
          funext j
          by_cases hj : j = p
          · subst hj; simp
          · simp [hj]

theorem keeps_end_game_notify {msg : String} {g : Nat} {r r' : Resources} {i : Nat}
    (h : end_game_notify msg g r i = .ok r') : Keeps r r' := by
  rcases end_game_notify_ok h with ⟨_, e⟩ | ⟨p, _, ⟨_, e⟩ | ⟨_, _, _, e⟩⟩
  · rw [e]; exact Keeps.same r
  · rw [e]
    have k1 := keeps_setClient r p
      { r.clients p with lastGameFen := some (r.games g).fenBoardState, game := none }
      rfl rfl rfl rfl
    exact ⟨k1.colour, k1.priority, k1.writeFails, k1.sigpipe, k1.player0, k1.player1, k1.turn,
      k1.fen, k1.gassigned, k1.engineWriteFails, k1.toEngine, k1.fromEngine⟩
  · rw [e]
    exact keeps_setClient r p _ rfl rfl rfl rfl

/-- The steps of an `end_game` that returns. -/
theorem end_game_ok {r r' : Resources} {g : Nat} {client : Option Nat} {res : GameResult}
    (h : end_game r g client res = .ok r') :
    ∃ r1 r2, end_game_notify (end_game_msg (r.games g) client res) g r 0 = .ok r1
      ∧ end_game_notify (end_game_msg (r.games g) client res) g r1 1 = .ok r2
      ∧ r' = r2.setGame g { r2.games g with inProgress := false } := by
  unfold end_game at h
  simp only [] at h
  cases h1 : end_game_notify (end_game_msg (r.games g) client res) g r 0 with
  | error e => rw [h1] at h; cases h
  | ok r1 =>
    rw [h1] at h
    simp only [] at h
    cases h2 : end_game_notify (end_game_msg (r.games g) client res) g r1 1 with
    | error e => rw [h2] at h; cases h
    | ok r2 =>
      rw [h2] at h
      cases h
      exact ⟨r1, r2, rfl, h2, rfl⟩

theorem keeps_end_game {r r' : Resources} {g : Nat} {client : Option Nat} {res : GameResult}
    (h : end_game r g client res = .ok r') : Keeps r r' := by
  obtain ⟨r1, r2, h1, h2, e⟩ := end_game_ok h
  rw [e]
  exact ((keeps_end_game_notify h1).andThen (keeps_end_game_notify h2)).andThen
    (keeps_setGame_inProgress _ g false)

theorem players_index {g : Game} {i p : Nat} (h : g.players i = some p) : i = 0 ∨ i = 1 := by
  unfold Game.players at h
  by_cases h0 : i = 0
  · exact Or.inl h0
  · by_cases h1 : i = 1
    · exact Or.inr h1
    · simp [h0, h1] at h

/-- The record an iteration of the second loop of `end_game` that returns
leaves for the player `p` of its slot. -/
theorem end_game_notify_some {msg : String} {g : Nat} {r r' : Resources} {i p : Nat}
    (h : (r.games g).players i = some p) (hn : end_game_notify msg g r i = .ok r') :
    r' = { r with
        clients := fun j => if j = p then
            { r.clients p with
              game := none, lastGameFen := some (r.games g).fenBoardState,
              assigned := (r.clients p).assigned && !(r.clients p).writeFails }
          else r.clients j
        toClients := r.toClients ++ if (r.clients p).writeFails then [] else [(p, msg)] } := by
  rcases end_game_notify_ok hn with ⟨hp, _⟩ | ⟨q, hq, ⟨hw, e⟩ | ⟨hw, _, ha, e⟩⟩
  · rw [hp] at h
    cases h
  · rw [hq] at h
    cases h
    rw [e]
    simp [hw, Resources.setClient]
  · rw [hq] at h
    cases h
    rw [e]
    simp [hw, ha, Resources.setClient]

theorem end_game_notify_none {msg : String} {g : Nat} {r r' : Resources} {i : Nat}
    (h : (r.games g).players i = none) (hn : end_game_notify msg g r i = .ok r') : r' = r := by
  unfold end_game_notify at hn
  rw [h] at hn
  cases hn
  rfl

theorem end_game_notify_games {msg : String} {g : Nat} {r r' : Resources} {i : Nat}
    (hn : end_game_notify msg g r i = .ok r') : r'.games = r.games := by
  cases h : (r.games g).players i with
  | none => rw [end_game_notify_none h hn]
  | some p => rw [end_game_notify_some h hn]

/-- What an `end_game` that returns has done. -/
theorem ended_end_game {r r' : Resources} {g : Nat} {client : Option Nat}
    {result : GameResult} (h : end_game r g client result = .ok r') :
    Ended r r' g (end_game_msg (r.games g) client result) := by
  have hp : ∀ i p, (r.games g).players i = some p →
      (i = 0 ∧ (r.games g).players 0 = some p) ∨ (i = 1 ∧ (r.games g).players 1 = some p) := by
    intro i p h
    rcases players_index h with h0 | h1
    · subst h0
      exact Or.inl ⟨rfl, h⟩
    · subst h1
      exact Or.inr ⟨rfl, h⟩
  obtain ⟨r1, r2, hn1, hn2, e⟩ := end_game_ok h
  rw [e]
  generalize end_game_msg (r.games g) client result = msg at hn1 hn2
  have hg1 := end_game_notify_games hn1
  cases h0 : (r.games g).players 0 with
  | none =>
    have e1 : r = r1 := (end_game_notify_none h0 hn1).symm
    subst e1
    cases h1 : (r.games g).players 1 with
    | none =>
      have e2 : r = r2 := (end_game_notify_none h1 hn2).symm
      subst e2
      constructor
      · simp [Resources.setGame]
      · intro g' hg'
        simp [Resources.setGame, hg']
      · intro i p hi
        rcases hp i p hi with ⟨_, h⟩ | ⟨_, h⟩
        · rw [h0] at h
          cases h
        · rw [h1] at h
          cases h
      · intro q _
        rfl
      · simp [gameoverWrites, h0, h1, Resources.setGame]
      · rfl
      · rfl
      · rfl
    | some p1 =>
      have e2 := end_game_notify_some h1 hn2
      subst e2
      constructor
      · simp [Resources.setGame]
      · intro g' hg'
        simp [Resources.setGame, hg']
      · intro i p hi
        rcases hp i p hi with ⟨_, h⟩ | ⟨_, h⟩
        · rw [h0] at h
          cases h
        · rw [h1] at h
          cases h
          simp [Resources.setGame]
      · intro q hq
        have : q ≠ p1 := fun e => hq 1 (e ▸ h1)
        simp [Resources.setGame, this]
      · cases hw : (r.clients p1).writeFails <;>
          simp [gameoverWrites, h0, h1, Resources.setGame, hw]
      · rfl
      · rfl
      · rfl
  | some p0 =>
    have e1 := end_game_notify_some h0 hn1
    have hc1 : r1.clients = fun j => if j = p0 then
            { r.clients p0 with
              game := none, lastGameFen := some (r.games g).fenBoardState,
              assigned := (r.clients p0).assigned && !(r.clients p0).writeFails }
          else r.clients j := by
      rw [e1]
    have ht1 : r1.toClients
        = r.toClients ++ if (r.clients p0).writeFails then [] else [(p0, msg)] := by
      rw [e1]
    have he1 : r1.toEngine = r.toEngine ∧ r1.fromEngine = r.fromEngine
        ∧ r1.engineWriteFails = r.engineWriteFails := by
      rw [e1]
      exact ⟨rfl, rfl, rfl⟩
    clear e1 hn1
    obtain ⟨he1, he2, he3⟩ := he1
    cases h1 : (r.games g).players 1 with
    | none =>
      have h1a : (r1.games g).players 1 = none := by rw [hg1]; exact h1
      have e2 : r1 = r2 := (end_game_notify_none h1a hn2).symm
      subst e2
      constructor
      · simp [Resources.setGame, hg1]
      · intro g' hg'
        simp [Resources.setGame, hg', hg1]
      · intro i p hi
        rcases hp i p hi with ⟨_, h⟩ | ⟨_, h⟩
        · rw [h0] at h
          cases h
          simp [Resources.setGame, hc1]
        · rw [h1] at h
          cases h
      · intro q hq
        have : q ≠ p0 := fun e => hq 0 (e ▸ h0)
        simp [Resources.setGame, this, hc1]
      · cases hw : (r.clients p0).writeFails <;>
          simp [gameoverWrites, h0, h1, Resources.setGame, hw, ht1]
      · exact he3
      · exact he1
      · exact he2
    | some p1 =>
      have h1a : (r1.games g).players 1 = some p1 := by rw [hg1]; exact h1
      have e2 := end_game_notify_some h1a hn2
      rw [e2]
      constructor
      · simp [Resources.setGame, hg1]
      · intro g' hg'
        simp [Resources.setGame, hg', hg1]
      · intro i p hi
        rcases hp i p hi with ⟨_, h⟩ | ⟨_, h⟩
        · have hpe : p = p0 := by
            rw [h0] at h
            exact (Option.some.inj h).symm
          subst hpe
          by_cases e : p = p1
          · subst e
            simp [Resources.setGame, hc1, hg1]
          · simp [Resources.setGame, e, hc1, hg1]
        · have hpe : p = p1 := by
            rw [h1] at h
            exact (Option.some.inj h).symm
          subst hpe
          by_cases e : p = p0
          · subst e
            simp [Resources.setGame, hc1, hg1]
          · simp [Resources.setGame, e, hc1, hg1]
      · intro q hq
        have a0 : q ≠ p0 := fun e => hq 0 (e ▸ h0)
        have a1 : q ≠ p1 := fun e => hq 1 (e ▸ h1)
        simp [Resources.setGame, a0, a1, hc1]
      · by_cases e : p1 = p0
        · subst e
          cases hw : (r.clients p1).writeFails <;>
            simp [gameoverWrites, h0, h1, Resources.setGame, hw, ht1, hc1]
        · cases hw : (r.clients p0).writeFails <;> cases hw1 : (r.clients p1).writeFails <;>
            simp [gameoverWrites, h0, h1, Resources.setGame, hw, hw1, e, ht1, hc1]
      · exact he3
      · exact he1
      · exact he2

/-- When `end_game` returns: every player whose stream fails the write fails
it without a signal and sits in an occupied slot, and no such player sits in
both slots of the game. -/
theorem end_game_returns (r : Resources) (g : Nat) (client : Option Nat) (result : GameResult)
    (hf : ∀ i p, (r.games g).players i = some p → (r.clients p).writeFails = true →
      (r.clients p).sigpipe = false ∧ (r.clients p).assigned = true)
    (hd : ∀ p, (r.games g).players 0 = some p → (r.games g).players 1 = some p →
      (r.clients p).writeFails = false) :
    ∃ r', end_game r g client result = .ok r' := by
  have step : ∀ (s : Resources) (i : Nat),
      (∀ p, (s.games g).players i = some p → (s.clients p).writeFails = true →
        (s.clients p).sigpipe = false ∧ (s.clients p).assigned = true) →
      ∃ s', end_game_notify (end_game_msg (r.games g) client result) g s i = .ok s' := by
    intro s i hs
    unfold end_game_notify
    cases hp : (s.games g).players i with
    | none => exact ⟨s, rfl⟩
    | some p =>
      simp only []
      rcases try_to_write_cases (s.setClient p
          { s.clients p with lastGameFen := some (s.games g).fenBoardState, game := none })
          p (end_game_msg (r.games g) client result) with ⟨_, h2⟩ | ⟨h1, _, h2⟩ | ⟨h1, h3, _⟩
      · rw [h2]
        exact ⟨_, rfl⟩
      · rw [h2]
        simp only []
        have hw : (s.clients p).writeFails = true := by
          simpa [Resources.setClient] using h1
        rcases remove_client_cases (s.setClient p
          { s.clients p with lastGameFen := some (s.games g).fenBoardState, game := none })
          p with ⟨_, h4⟩ | ⟨h5, _⟩
        · rw [h4]
          exact ⟨_, rfl⟩
        · have := (hs p hp hw).2
          simp [Resources.setClient] at h5
          rw [h5] at this
          cases this
      · have hw : (s.clients p).writeFails = true := by
          simpa [Resources.setClient] using h1
        have := (hs p hp hw).1
        simp [Resources.setClient] at h3
        rw [h3] at this
        cases this
  obtain ⟨r1, h1⟩ := step r 0 (fun p hp hw => hf 0 p hp hw)
  have k1 := keeps_end_game_notify h1
  obtain ⟨r2, h2⟩ := step r1 1 (by
    intro p hp hw
    rw [k1.players] at hp
    rw [k1.writeFails] at hw
    rw [k1.sigpipe]
    refine ⟨(hf 1 p hp hw).1, ?_⟩
    cases h0 : (r.games g).players 0 with
    | none =>
      rw [end_game_notify_none h0 h1]
      exact (hf 1 p hp hw).2
    | some p0 =>
      rw [end_game_notify_some h0 h1]
      by_cases e : p = p0
      · subst e
        have := hd p h0 hp
        rw [hw] at this
        cases this
      · simp only [e, if_false]
        exact (hf 1 p hp hw).2)
  refine ⟨r2.setGame g { r2.games g with inProgress := false }, ?_⟩
  unfold end_game
  simp only [h1, h2]

/-- When the streams of all players of the game accept the write, `end_game`
returns. -/
theorem end_game_accepts (r : Resources) (g : Nat) (client : Option Nat) (result : GameResult)
    (hw : ∀ i p, (r.games g).players i = some p → (r.clients p).writeFails = false) :
    ∃ r', end_game r g client result = .ok r' :=
  end_game_returns r g client result
    (fun i p hp h => by rw [hw i p hp] at h; cases h) (fun p hp _ => hw 0 p hp)

/-- The outcomes of a `write_to_client` that returns: the text is logged and
0 returned; or the write failed without a signal, the client had a game, that
game was ended as a resignation of the client, the client's slot was still
occupied after that and was freed, and -1 is returned. -/
theorem write_to_client_ok {r r' : Resources} {c : Nat} {msg : String} {n : Int}
    (h : write_to_client r c msg = .ok (r', n)) :
    ((r.clients c).writeFails = false
        ∧ r' = { r with toClients := r.toClients ++ [(c, msg)] } ∧ n = 0)
      ∨ ∃ g r1, (r.clients c).writeFails = true ∧ (r.clients c).sigpipe = false
          ∧ (r.clients c).game = some g
          ∧ end_game r g (some c) .resignation = .ok r1
          ∧ remove_client r1 c = .ok r' ∧ n = -1 := by
  unfold write_to_client at h
  cases hw : try_to_write r c msg with
  | error e => rw [hw] at h; cases h
  | ok o =>
    rw [hw] at h
    cases o with
    | some r2 =>
      simp only [] at h
      cases h
      obtain ⟨h1, h2⟩ := try_to_write_some hw
      exact Or.inl ⟨h1, h2, rfl⟩
    | none =>
      simp only [] at h
      obtain ⟨h1, h2⟩ := try_to_write_none hw
      cases hg : (r.clients c).game with
      | none => rw [hg] at h; cases h
      | some g =>
        rw [hg] at h
        simp only [] at h
        cases he : end_game r g (some c) .resignation with
        | error e => rw [he] at h; cases h
        | ok r1 =>
          rw [he] at h
          simp only [] at h
          cases hr : remove_client r1 c with
          | error e => rw [hr] at h; cases h
          | ok r3 =>
            rw [hr] at h
            cases h
            exact Or.inr ⟨g, r1, h1, h2, rfl, he, hr, rfl⟩

theorem keeps_write_to_client {r r' : Resources} {c : Nat} {msg : String} {n : Int}
    (h : write_to_client r c msg = .ok (r', n)) : Keeps r r' := by
  rcases write_to_client_ok h with ⟨_, e, _⟩ | ⟨g, r1, _, _, _, he, hr, _⟩
  · rw [e]
    exact ⟨fun _ => rfl, fun _ => rfl, fun _ => rfl, fun _ => rfl, fun _ => rfl, fun _ => rfl,
      fun _ => rfl, fun _ => rfl, fun _ => rfl, rfl, rfl, rfl⟩
  · exact (keeps_end_game he).andThen (keeps_remove_client hr)

/-- A successful write only extends the log. -/
theorem write_to_client_writes (r : Resources) (c : Nat) (msg : String)
    (hw : (r.clients c).writeFails = false) :
    write_to_client r c msg = .ok ({ r with toClients := r.toClients ++ [(c, msg)] }, 0) := by
  unfold write_to_client try_to_write
  simp [hw]

/-- A failed write to a client that sits in a slot of the game it refers to
never returns: `end_game` writes the `gameover` line to the same client, that
write fails too and `end_game` removes the client, and `write_to_client` then
removes it a second time. -/
theorem write_to_client_fails_player (r : Resources) (c g i : Nat) (msg : String)
    (hw : (r.clients c).writeFails = true) (hg : (r.clients c).game = some g)
    (hi : (r.games g).players i = some c) :
    ∃ e, write_to_client r c msg = .error e := by
  have hi01 := players_index hi
  cases h : write_to_client r c msg with
  | error e => exact ⟨e, rfl⟩
  | ok x =>
    exfalso
    obtain ⟨r', n⟩ := x
    rcases write_to_client_ok h with ⟨h1, _, _⟩ | ⟨g', r1, _, _, hg', he, hr, _⟩
    · rw [hw] at h1; cases h1
    · rw [hg] at hg'
      cases hg'
      obtain ⟨ra, rb, ha, hb, e⟩ := end_game_ok he
      have hassigned := (remove_client_ok hr).1
      rw [e] at hassigned
      have hb' : (rb.clients c).assigned = true := by simpa [Resources.setGame] using hassigned
      have ka := keeps_end_game_notify ha
      -- after the iteration for the slot of `c` the client is no longer occupied
      have key : ∀ {s s' : Resources} {j : Nat},
          end_game_notify (end_game_msg (r.games g) (some c) .resignation) g s j = .ok s' →
          (s.clients c).writeFails = true →
          ((s.games g).players j = some c → (s'.clients c).assigned = false)
            ∧ ((s.clients c).assigned = false → (s'.clients c).assigned = false) := by
        intro s s' j hn hwf
        rcases end_game_notify_ok hn with ⟨hp, e⟩ | ⟨p, hp, ⟨hq, e⟩ | ⟨_, _, _, e⟩⟩
        · refine ⟨fun hc => ?_, fun hc => ?_⟩
          · rw [hp] at hc
            cases hc
          · rw [e]
            exact hc
        · refine ⟨fun hc => ?_, fun hc => ?_⟩
          · rw [hp] at hc
            cases hc
            rw [hwf] at hq
            cases hq
          · rw [e]
            by_cases hpc : c = p
            · subst hpc
              rw [hwf] at hq
              cases hq
            · simpa [Resources.setClient, hpc] using hc
        · refine ⟨fun _ => ?_, fun hc => ?_⟩
          · rw [e]
            rw [hp] at *
            by_cases hpc : c = p
            · subst hpc
              simp [Resources.setClient]
            · rename_i hc
              cases hc
              exact absurd rfl hpc
          · rw [e]
            by_cases hpc : c = p
            · subst hpc
              simp [Resources.setClient]
            · simpa [Resources.setClient, hpc] using hc
      have k0 := key ha hw
      have hwa : (ra.clients c).writeFails = true := (ka.writeFails c).trans hw
      have k1 := key hb hwa
      rcases hi01 with h0 | h1
      · subst h0
        have := k1.2 (k0.1 hi)
        rw [this] at hb'
        cases hb'
      · subst h1
        have hp1 : (ra.games g).players 1 = some c := (ka.players g 1).trans hi
        have := k1.1 hp1
        rw [this] at hb'
        cases hb'

/-- A failed write to a client that has no game crashes the server: `end_game`
follows the null game pointer. -/
theorem write_to_client_fails_no_game (r : Resources) (c : Nat) (msg : String)
    (hw : (r.clients c).writeFails = true) (hg : (r.clients c).game = none) :
    ∃ e, write_to_client r c msg = .error e := by
  unfold write_to_client
  rcases try_to_write_cases r c msg with ⟨h1, _⟩ | ⟨_, _, h2⟩ | ⟨_, _, h2⟩
  · rw [hw] at h1; cases h1
  · rw [h2, hg]
    exact ⟨_, rfl⟩
  · rw [h2]
    exact ⟨_, rfl⟩

theorem keeps_send_started {r r' : Resources} {col : Colour} {c : Nat}
    (h : send_started r col c = .ok r') : Keeps r r' := by
  unfold send_started at h
  split at h
  · rename_i r1 n hw
    cases h
    exact keeps_write_to_client hw
  · cases h

theorem keeps_start_player {r r' : Resources} {g i : Nat}
    (h : start_player r g i = .ok r') : Keeps r r' := by
  unfold start_player at h
  split at h
  · cases h
  · rename_i p _
    dsimp only at h
    have h2 := keeps_send_started h
    exact Keeps.andThen (keeps_setClient r p
      { r.clients p with game := some g, waitingForHuman := false } rfl rfl rfl rfl) h2

/-! ## Pairing two humans -/

theorem resolve_colours_games (r : Resources) (human other : Nat) :
    (resolve_colours r human other).games = r.games := by
  unfold resolve_colours
  split
  · rfl
  · split <;> rfl

/-- The colours `resolve_colours` leaves in the two records. -/
theorem resolve_colours_spec (r : Resources) (human other : Nat) (hne : other ≠ human) :
    ((resolve_colours r human other).clients human).colour ≠ .unspecified
      ∧ ((resolve_colours r human other).clients other).colour
          = ((resolve_colours r human other).clients human).colour.lnot
      ∧ ((r.clients human).colour ≠ .unspecified →
          ((resolve_colours r human other).clients human).colour = (r.clients human).colour)
      ∧ ((r.clients human).colour = .unspecified → (r.clients other).colour ≠ .unspecified →
          ((resolve_colours r human other).clients other).colour = (r.clients other).colour)
      ∧ ((r.clients human).colour = .unspecified → (r.clients other).colour = .unspecified →
          ((resolve_colours r human other).clients human).colour
            = if (r.clients human).priority < (r.clients other).priority then .white
              else .black) := by
  have hne' : human ≠ other := fun h => hne h.symm
  unfold resolve_colours
  split
  · rename_i hh
    simp only [Resources.setClient, hne', if_false, if_true]
    refine ⟨hh, trivial, fun _ => trivial, fun h => absurd h hh, fun h => absurd h hh⟩
  · rename_i hh
    have hh' : (r.clients human).colour = .unspecified := by
      by_contra hx; exact hh hx
    split
    · rename_i ho
      simp only [Resources.setClient, hne, if_false, if_true]
      refine ⟨?_, ?_, fun h => absurd hh' h, fun _ _ => trivial, fun _ h => absurd h ho⟩
      · revert ho; cases (r.clients other).colour <;> simp [Colour.lnot]
      · revert ho; cases (r.clients other).colour <;> simp [Colour.lnot]
    · rename_i ho
      have ho' : (r.clients other).colour = .unspecified := by
        by_contra hx; exact ho hx
      simp only [Resources.setClient, hne, hne', if_false, if_true]
      refine ⟨?_, trivial, fun h => absurd hh' h, fun _ h => absurd ho' h, fun _ _ => trivial⟩
      split <;> simp

/-- Game `g` and the client table after `seat_players`. -/
theorem seat_players_spec (r : Resources) (human other g : Nat)
    (hc : (r.clients human).colour ≠ .unspecified) :
    (seat_players r human other g).clients = r.clients
      ∧ (∀ g', g' ≠ g → (seat_players r human other g).games g' = r.games g')
      ∧ ((seat_players r human other g).games g).assigned = true
      ∧ ((seat_players r human other g).games g).inProgress = true
      ∧ ((seat_players r human other g).games g).turn = .white
      ∧ ((seat_players r human other g).games g).fenBoardState
          = "rnbqkbnr/pppppppp/8/8/8/8/PPPPPPPP/RNBQKBNR w KQkq - 0 1"
      ∧ ((seat_players r human other g).games g).players (r.clients human).colour.toNat
          = some human
      ∧ ((seat_players r human other g).games g).players (r.clients human).colour.lnot.toNat
          = some other
      ∧ (seat_players r human other g).toClients = r.toClients := by
  refine ⟨rfl, ?_, ?_, ?_, ?_, ?_, ?_, ?_, rfl⟩
  · intro g' hg'
    simp [seat_players, initialise_game, Resources.setGame, hg']
  all_goals
    revert hc
    cases h : (r.clients human).colour <;>
      simp [seat_players, initialise_game, Resources.setGame, Game.setPlayer, Game.players,
        Colour.toNat, Colour.lnot, h]

/-- Both slots of the new game are filled. -/
theorem seat_players_slots (r : Resources) (human other g : Nat)
    (hc : (r.clients human).colour ≠ .unspecified) :
    ∃ p q, ((seat_players r human other g).games g).players 0 = some p
      ∧ ((seat_players r human other g).games g).players 1 = some q := by
  obtain ⟨_, _, _, _, _, _, h1, h2, _⟩ := seat_players_spec r human other g hc
  cases h : (r.clients human).colour
  · rw [h] at h1 h2; exact ⟨_, _, h1, h2⟩
  · rw [h] at h1 h2; exact ⟨_, _, h2, h1⟩
  · exact absurd h hc

/-- A pairing that returns had a free game slot, and after the game was seated
only notifications happened. -/
theorem pair_humans_keeps {r r' : Resources} {human other : Nat}
    (h : pair_humans r human other = .ok r') :
    ∃ g, get_unassigned_game r = .ok g
      ∧ Keeps (seat_players (resolve_colours r human other) human other g) r' := by
  unfold pair_humans at h
  simp only [bind, Except.bind] at h
  cases hg : get_unassigned_game (resolve_colours r human other) with
  | error e => rw [hg] at h; cases h
  | ok g =>
    rw [hg] at h
    simp only [] at h
    cases h5 : start_player (seat_players (resolve_colours r human other) human other g) g 0 with
    | error e => rw [h5] at h; cases h
    | ok r5 =>
      rw [h5] at h
      simp only [] at h
      refine ⟨g, ?_, (keeps_start_player h5).andThen (keeps_start_player h)⟩
      unfold get_unassigned_game at hg ⊢
      rw [resolve_colours_games] at hg
      exact hg

theorem mark_waiting_colour (r : Resources) (human k : Nat) :
    ((mark_waiting r human).clients k).colour = (r.clients k).colour := by
  unfold mark_waiting Resources.setClient
  by_cases h : k = human
  · subst h; simp
  · simp [h]

theorem mark_waiting_priority (r : Resources) (human k : Nat) :
    ((mark_waiting r human).clients k).priority = (r.clients k).priority := by
  unfold mark_waiting Resources.setClient
  by_cases h : k = human
  · subst h; simp
  · simp [h]

/-- C6: when the search of `try_to_match_human` finds nobody, the call returns
the state it was given with the requester's waiting flag set and nothing else
changed: the requester's game reference is as it was (none, if it had none),
the game table, the other client records, the log of writes to clients and the
engine are untouched. -/
theorem try_to_match_human_no_candidate (r : Resources) (human : Nat)
    (h : find_partner (mark_waiting r human) human = none) :
    ∃ r', try_to_match_human r human = .ok r'
      ∧ r'.clients human = { r.clients human with waitingForHuman := true }
      ∧ (r'.clients human).game = (r.clients human).game
      ∧ ((r.clients human).game = none → (r'.clients human).game = none)
      ∧ (∀ j, j ≠ human → r'.clients j = r.clients j)
      ∧ r'.games = r.games
      ∧ r'.toClients = r.toClients
      ∧ r'.toEngine = r.toEngine ∧ r'.fromEngine = r.fromEngine
      ∧ r'.engineWriteFails = r.engineWriteFails := by
  refine ⟨mark_waiting r human, ?_, ?_, ?_, ?_, ?_, rfl, rfl, rfl, rfl, rfl⟩
  · unfold try_to_match_human; rw [h]
  · simp [mark_waiting, Resources.setClient]
  · simp [mark_waiting, Resources.setClient]
  · intro hn; simp [mark_waiting, Resources.setClient, hn]
  · intro j hj; simp [mark_waiting, Resources.setClient, hj]

theorem try_to_match_human_no_candidate_witness :
    ∃ r', try_to_match_human lateRequestState 0 = .ok r'
      ∧ (r'.clients 0).waitingForHuman = true ∧ (r'.clients 0).game = none
      ∧ r'.games = lateRequestState.games ∧ r'.toClients = lateRequestState.toClients := by
  obtain ⟨r', h1, h2, _, h4, _, h6, h7, _⟩ :=
    try_to_match_human_no_candidate lateRequestState 0 find_partner_lateRequestState
  exact ⟨r', h1, by rw [h2], h4 (by decide), h6, h7⟩

theorem find_partner_brokenRequesterState :
    find_partner (mark_waiting brokenRequesterState 1) 1 = some 0 := by
  rw [find_partner_below _ 1 2 (by decide)]
  · decide
  · intro k hk
    rw [mark_waiting_assigned]
    exact stateOf_free _ _ _ k hk

/-- The notification of a seated player whose stream accepts the write. -/
theorem start_player_writes (r : Resources) (g i p : Nat)
    (hp : (r.games g).players i = some p) (hw : (r.clients p).writeFails = false) :
    start_player r g i
      = .ok { r with
          clients := fun j =>
            if j = p then { r.clients p with game := some g, waitingForHuman := false }
            else r.clients j
          toClients := r.toClients
            ++ [(p, "started " ++ get_colour_name (r.clients p).colour ++ "\n")] } := by
  unfold start_player
  rw [hp]
  simp only
  unfold send_started
  rw [write_to_client_writes _ _ _ (by simp [Resources.setClient, hw])]
  simp [Resources.setClient]

/-- The two notifications at the end of `try_to_match_human`, when both
streams accept them. -/
theorem start_players_write (r : Resources) (g p q : Nat) (hpq : p ≠ q)
    (hp : (r.games g).players 0 = some p) (hq : (r.games g).players 1 = some q)
    (hwp : (r.clients p).writeFails = false) (hwq : (r.clients q).writeFails = false) :
    ∃ r5 r', start_player r g 0 = .ok r5 ∧ start_player r5 g 1 = .ok r'
      ∧ r'.games = r.games
      ∧ (r'.clients p).game = some g ∧ (r'.clients q).game = some g
      ∧ (r'.clients p).waitingForHuman = false ∧ (r'.clients q).waitingForHuman = false
      ∧ r'.toClients = r.toClients
          ++ [(p, "started " ++ get_colour_name (r.clients p).colour ++ "\n"),
              (q, "started " ++ get_colour_name (r.clients q).colour ++ "\n")] := by
  have hqp : q ≠ p := fun h => hpq h.symm
  refine ⟨_, _, start_player_writes r g 0 p hp hwp,
    start_player_writes _ g 1 q hq (by simp [hqp, hwq]), ?_⟩
  simp [hqp, hpq]

theorem mark_waiting_writeFails (r : Resources) (human k : Nat) :
    ((mark_waiting r human).clients k).writeFails = (r.clients k).writeFails := by
  unfold mark_waiting Resources.setClient
  by_cases h : k = human
  · subst h; simp
  · simp [h]

theorem resolve_colours_writeFails (r : Resources) (human other k : Nat) :
    ((resolve_colours r human other).clients k).writeFails = (r.clients k).writeFails := by
  unfold resolve_colours
  split
  · unfold Resources.setClient
    by_cases h : k = other
    · subst h; simp
    · simp [h]
  · split
    · unfold Resources.setClient
      by_cases h : k = human
      · subst h; simp
      · simp [h]
    · unfold Resources.setClient
      by_cases h : k = other
      · subst h
        by_cases h2 : k = human
        · subst h2; simp
        · simp [h2]
      · by_cases h2 : k = human
        · subst h2; simp [h]
        · simp [h, h2]

/-- When the search finds a partner, a game slot is free and both streams
accept writes, `try_to_match_human` returns with the game seated, both game
references set, both waiting flags cleared and the two `started` lines
written. -/
theorem try_to_match_human_seats (r : Resources) (human other g : Nat)
    (h : find_partner (mark_waiting r human) human = some other)
    (hg : get_unassigned_game r = .ok g)
    (hwh : (r.clients human).writeFails = false)
    (hwo : (r.clients other).writeFails = false) :
    ∃ r', try_to_match_human r human = .ok r'
      ∧ (r'.games g).assigned = true ∧ (r'.games g).inProgress = true
      ∧ (∀ g', g' ≠ g → r'.games g' = r.games g')
      ∧ (r'.games g).players (r'.clients human).colour.toNat = some human
      ∧ (r'.games g).players (r'.clients other).colour.toNat = some other
      ∧ (r'.clients human).game = some g ∧ (r'.clients other).game = some g
      ∧ (r'.clients human).waitingForHuman = false
      ∧ (r'.clients other).waitingForHuman = false
      ∧ ∃ l, r'.toClients = r.toClients ++ l ∧ l.length = 2
          ∧ (human, "started " ++ get_colour_name (r'.clients human).colour ++ "\n") ∈ l
          ∧ (other, "started " ++ get_colour_name (r'.clients other).colour ++ "\n") ∈ l := by
  obtain ⟨_, ⟨_, _, _, hne⟩, _⟩ := find_partner_spec r human other h
  have hne' : human ≠ other := fun e => hne e.symm
  obtain ⟨c1, c2, _⟩ := resolve_colours_spec (mark_waiting r human) human other hne
  obtain ⟨s0, s1, s2, s3, _, _, s6, s7, s8⟩ :=
    seat_players_spec (resolve_colours (mark_waiting r human) human other) human other g c1
  have hg' : get_unassigned_game (resolve_colours (mark_waiting r human) human other)
      = .ok g := by
    unfold get_unassigned_game at hg ⊢
    rw [resolve_colours_games]; exact hg
  have wh : ((seat_players (resolve_colours (mark_waiting r human) human other)
      human other g).clients human).writeFails = false := by
    rw [s0, resolve_colours_writeFails, mark_waiting_writeFails]; exact hwh
  have wo : ((seat_players (resolve_colours (mark_waiting r human) human other)
      human other g).clients other).writeFails = false := by
    rw [s0, resolve_colours_writeFails, mark_waiting_writeFails]; exact hwo
  have key : ∃ p q, p ≠ q ∧ (p = human ∧ q = other ∨ p = other ∧ q = human)
      ∧ ((seat_players (resolve_colours (mark_waiting r human) human other)
          human other g).games g).players 0 = some p
      ∧ ((seat_players (resolve_colours (mark_waiting r human) human other)
          human other g).games g).players 1 = some q := by
    cases hc : ((resolve_colours (mark_waiting r human) human other).clients human).colour
    · rw [hc] at s6 s7; exact ⟨human, other, hne', Or.inl ⟨rfl, rfl⟩, s6, s7⟩
    · rw [hc] at s6 s7; exact ⟨other, human, hne, Or.inr ⟨rfl, rfl⟩, s7, s6⟩
    · exact absurd hc c1
  obtain ⟨p, q, hpq, hcase, hp, hq⟩ := key
  have wp : ((seat_players (resolve_colours (mark_waiting r human) human other)
      human other g).clients p).writeFails = false := by
    rcases hcase with ⟨e, _⟩ | ⟨e, _⟩ <;> rw [e] <;> assumption
  have wq : ((seat_players (resolve_colours (mark_waiting r human) human other)
      human other g).clients q).writeFails = false := by
    rcases hcase with ⟨_, e⟩ | ⟨_, e⟩ <;> rw [e] <;> assumption
  obtain ⟨r5, r', h5, h6, g1, g2, g3, g4, g5, g6⟩ :=
    start_players_write _ g p q hpq hp hq wp wq
  have hk : Keeps (seat_players (resolve_colours (mark_waiting r human) human other)
      human other g) r' := (keeps_start_player h5).andThen (keeps_start_player h6)
  have hrun : try_to_match_human r human = .ok r' := by
    unfold try_to_match_human
    rw [h]
    unfold pair_humans
    simp only [hg', bind, Except.bind, h5, h6]
  have hgames : ∀ g', g' ≠ g → r'.games g' = r.games g' := by
    intro g' hg''
    rw [g1, s1 g' hg'', resolve_colours_games]
    rfl
  have hcolh := hk.colour human
  have hcolo := hk.colour other
  rw [s0] at hcolh hcolo
  have hlog : r'.toClients = r.toClients
      ++ [(p, "started " ++ get_colour_name (r'.clients p).colour ++ "\n"),
          (q, "started " ++ get_colour_name (r'.clients q).colour ++ "\n")] := by
    rw [g6, hk.colour p, hk.colour q, s8]
    have : (resolve_colours (mark_waiting r human) human other).toClients = r.toClients := by
      unfold resolve_colours
      split
      · rfl
      · split <;> rfl
    rw [this]
  refine ⟨r', hrun, ?_, ?_, hgames, ?_, ?_, ?_, ?_, ?_, ?_, _, hlog, rfl, ?_, ?_⟩
  · rw [g1]; exact s2
  · rw [g1]; exact s3
  · rw [g1, hcolh]; exact s6
  · rw [g1, hcolo, c2]; exact s7
  · rcases hcase with ⟨e1, e2⟩ | ⟨e1, e2⟩
    · rw [← e1]; exact g2
    · rw [← e2]; exact g3
  · rcases hcase with ⟨e1, e2⟩ | ⟨e1, e2⟩
    · rw [← e2]; exact g3
    · rw [← e1]; exact g2
  · rcases hcase with ⟨e1, e2⟩ | ⟨e1, e2⟩
    · rw [← e1]; exact g4
    · rw [← e2]; exact g5
  · rcases hcase with ⟨e1, e2⟩ | ⟨e1, e2⟩
    · rw [← e2]; exact g5
    · rw [← e1]; exact g4
  · rcases hcase with ⟨e1, e2⟩ | ⟨e1, e2⟩
    · rw [← e1]; simp
    · rw [← e2]; simp
  · rcases hcase with ⟨e1, e2⟩ | ⟨e1, e2⟩
    · rw [← e2]; simp
    · rw [← e1]; simp

theorem get_unassigned_game_fourClientState : get_unassigned_game fourClientState = .ok 0 :=
  rfl

/-- An iteration of the last loop of `try_to_match_human` that returns has
written its line: the player sits in the game it refers to, so a failed write
would not return. -/
theorem start_player_returns {r r' : Resources} {g i : Nat}
    (h : start_player r g i = .ok r') :
    ∃ p, (r.games g).players i = some p ∧ (r.clients p).writeFails = false
      ∧ start_player r g i
        = .ok { r with
            clients := fun j =>
              if j = p then { r.clients p with game := some g, waitingForHuman := false }
              else r.clients j
            toClients := r.toClients
              ++ [(p, "started " ++ get_colour_name (r.clients p).colour ++ "\n")] } := by
  cases hp : (r.games g).players i with
  | none =>
    unfold start_player at h
    rw [hp] at h
    cases h
  | some p =>
    refine ⟨p, rfl, ?_⟩
    cases hw : (r.clients p).writeFails with
    | false => exact ⟨rfl, start_player_writes r g i p hp hw⟩
    | true =>
      exfalso
      unfold start_player at h
      rw [hp] at h
      simp only [] at h
      unfold send_started at h
      obtain ⟨e, he⟩ := write_to_client_fails_player
        (r.setClient p { r.clients p with game := some g, waitingForHuman := false }) p g i
        ("started " ++ get_colour_name
          ((r.setClient p { r.clients p with game := some g, waitingForHuman := false }).clients
            p).colour ++ "\n")
        (by simp [Resources.setClient, hw]) (by simp [Resources.setClient]) hp
      rw [he] at h
      cases h

/-- A pairing that returns has written both `started` lines: the streams of
both clients accept writes. -/
theorem pair_humans_streams {r r' : Resources} {human other : Nat} (hne : other ≠ human)
    (h : pair_humans r human other = .ok r') :
    (r.clients human).writeFails = false ∧ (r.clients other).writeFails = false := by
  have hne' : human ≠ other := fun e => hne e.symm
  unfold pair_humans at h
  simp only [bind, Except.bind] at h
  cases hg : get_unassigned_game (resolve_colours r human other) with
  | error e => rw [hg] at h; cases h
  | ok g =>
    rw [hg] at h
    simp only [] at h
    cases h5 : start_player (seat_players (resolve_colours r human other) human other g) g 0 with
    | error e => rw [h5] at h; cases h
    | ok r5 =>
      rw [h5] at h
      simp only [] at h
      obtain ⟨c1, _⟩ := resolve_colours_spec r human other hne
      obtain ⟨s0, _, _, _, _, _, s6, s7, _⟩ :=
        seat_players_spec (resolve_colours r human other) human other g c1
      obtain ⟨p, hp, wp, _⟩ := start_player_returns h5
      obtain ⟨q, hq, wq, _⟩ := start_player_returns h
      have k5 := keeps_start_player h5
      rw [k5.players] at hq
      rw [k5.writeFails] at wq
      rw [s0, resolve_colours_writeFails] at wp wq
      cases hc : ((resolve_colours r human other).clients human).colour
      · rw [hc] at s6 s7
        have e1 : p = human := Option.some.inj (hp.symm.trans s6)
        have e2 : q = other := Option.some.inj (hq.symm.trans s7)
        subst e1 e2
        exact ⟨wp, wq⟩
      · rw [hc] at s6 s7
        have e1 : p = other := Option.some.inj (hp.symm.trans s7)
        have e2 : q = human := Option.some.inj (hq.symm.trans s6)
        subst e1 e2
        exact ⟨wq, wp⟩
      · exact absurd hc c1

/-- The result of `try_to_match_human` when the search finds `other` and the
call returns: a game slot `g` was free, and from the state with the colours
resolved and the game seated only notifications happened. -/
theorem try_to_match_human_found {r r' : Resources} {human other : Nat}
    (h : find_partner (mark_waiting r human) human = some other)
    (hr : try_to_match_human r human = .ok r') :
    ∃ g, get_unassigned_game r = .ok g
      ∧ Keeps (seat_players (resolve_colours (mark_waiting r human) human other)
          human other g) r' := by
  unfold try_to_match_human at hr
  rw [h] at hr
  obtain ⟨g, hg, hk⟩ := pair_humans_keeps hr
  refine ⟨g, ?_, hk⟩
  unfold get_unassigned_game at hg ⊢
  have e : (mark_waiting r human).games = r.games := rfl
  rw [e] at hg
  exact hg

/-- When the search finds a partner, `try_to_match_human` returns exactly when
a game slot is free and the streams of both clients accept the `started`
line. -/
theorem try_to_match_human_returns (r : Resources) (human other : Nat)
    (h : find_partner (mark_waiting r human) human = some other) :
    (∃ r', try_to_match_human r human = .ok r')
      ↔ ((∃ g, get_unassigned_game r = .ok g)
          ∧ (r.clients human).writeFails = false ∧ (r.clients other).writeFails = false) := by
  obtain ⟨_, ⟨_, _, _, hne⟩, _⟩ := find_partner_spec r human other h
  constructor
  · rintro ⟨r', hr⟩
    obtain ⟨g, hg, _⟩ := try_to_match_human_found h hr
    unfold try_to_match_human at hr
    rw [h] at hr
    simp only [] at hr
    obtain ⟨w1, w2⟩ := pair_humans_streams hne hr
    rw [mark_waiting_writeFails] at w1 w2
    exact ⟨⟨g, hg⟩, w1, w2⟩
  · rintro ⟨⟨g, hg⟩, w1, w2⟩
    obtain ⟨r', hr, _⟩ := try_to_match_human_seats r human other g h hg w1 w2
    exact ⟨r', hr⟩

/-- C4: when the search of `try_to_match_human` finds a partner, the call
returns exactly when a game slot is free and the streams of both clients
accept the `started` line, and whenever it returns, one of the two matched
clients has colour white and the other black. -/
theorem try_to_match_human_colours_opposite (r : Resources) (human other : Nat)
    (h : find_partner (mark_waiting r human) human = some other) :
    ((∃ r', try_to_match_human r human = .ok r')
        ↔ ((∃ g, get_unassigned_game r = .ok g)
            ∧ (r.clients human).writeFails = false ∧ (r.clients other).writeFails = false))
      ∧ ∀ r', try_to_match_human r human = .ok r' →
          ((r'.clients human).colour = .white ∧ (r'.clients other).colour = .black)
            ∨ ((r'.clients human).colour = .black ∧ (r'.clients other).colour = .white) := by
  refine ⟨try_to_match_human_returns r human other h, fun r' h1 => ?_⟩
  obtain ⟨_, ⟨_, _, _, hne⟩, _⟩ := find_partner_spec r human other h
  obtain ⟨g, _, hk⟩ := try_to_match_human_found h h1
  obtain ⟨c1, c2, _⟩ := resolve_colours_spec (mark_waiting r human) human other hne
  have e1 : (r'.clients human).colour
      = ((resolve_colours (mark_waiting r human) human other).clients human).colour :=
    hk.colour human
  have e2 : (r'.clients other).colour
      = ((resolve_colours (mark_waiting r human) human other).clients other).colour :=
    hk.colour other
  rw [e1, e2, c2]
  revert c1
  cases ((resolve_colours (mark_waiting r human) human other).clients human).colour <;>
    simp [Colour.lnot]

theorem try_to_match_human_colours_opposite_witness :
    ∃ r', try_to_match_human fourClientState 3 = .ok r'
      ∧ (((r'.clients 3).colour = .white ∧ (r'.clients 1).colour = .black)
          ∨ ((r'.clients 3).colour = .black ∧ (r'.clients 1).colour = .white)) := by
  obtain ⟨hret, hcol⟩ :=
    try_to_match_human_colours_opposite fourClientState 3 1 find_partner_fourClientState
  obtain ⟨r', hr⟩ := hret.2 ⟨⟨0, get_unassigned_game_fourClientState⟩, by decide, by decide⟩
  exact ⟨r', hr, hcol r' hr⟩

/-- C5: when the search of `try_to_match_human` finds a partner, the call
returns exactly when a game slot is free and the streams of both clients
accept the `started` line, and whenever it returns, with `g` the free game
slot: the requester plays the concrete colour it asked for, the matched waiter
plays the concrete colour it asked for, and when neither asked for one the
client with the smaller priority plays white and the other black; each of the
two sits in the player slot of game `g` of the colour it plays. -/
theorem try_to_match_human_colour_resolution (r : Resources) (human other : Nat)
    (h : find_partner (mark_waiting r human) human = some other) :
    ((∃ r', try_to_match_human r human = .ok r')
        ↔ ((∃ g, get_unassigned_game r = .ok g)
            ∧ (r.clients human).writeFails = false ∧ (r.clients other).writeFails = false))
      ∧ ∀ r', try_to_match_human r human = .ok r' →
          ∃ g, get_unassigned_game r = .ok g
            ∧ ((r.clients human).colour ≠ .unspecified →
                (r'.clients human).colour = (r.clients human).colour)
            ∧ ((r.clients other).colour ≠ .unspecified →
                (r'.clients other).colour = (r.clients other).colour)
            ∧ ((r.clients human).colour = .unspecified →
                (r.clients other).colour = .unspecified →
                ((r.clients human).priority < (r.clients other).priority →
                  (r'.clients human).colour = .white ∧ (r'.clients other).colour = .black)
                ∧ ((r.clients other).priority < (r.clients human).priority →
                  (r'.clients other).colour = .white ∧ (r'.clients human).colour = .black))
            ∧ (r'.games g).players (r'.clients human).colour.toNat = some human
            ∧ (r'.games g).players (r'.clients other).colour.toNat = some other := by
  refine ⟨try_to_match_human_returns r human other h, fun r' h1 => ?_⟩
  obtain ⟨_, ⟨_, _, hcc, hne⟩, _⟩ := find_partner_spec r human other h
  obtain ⟨g, hg, hk⟩ := try_to_match_human_found h h1
  refine ⟨g, hg, ?_⟩
  obtain ⟨c1, c2, c3, c4, c5⟩ := resolve_colours_spec (mark_waiting r human) human other hne
  obtain ⟨_, _, _, _, _, _, s1, s2, _⟩ :=
    seat_players_spec (resolve_colours (mark_waiting r human) human other) human other g c1
  have e1 : (r'.clients human).colour
      = ((resolve_colours (mark_waiting r human) human other).clients human).colour :=
    hk.colour human
  have e2 : (r'.clients other).colour
      = ((resolve_colours (mark_waiting r human) human other).clients other).colour :=
    hk.colour other
  simp only [mark_waiting_colour, mark_waiting_priority] at c3 c4 c5
  rw [hk.players, hk.players, e1, e2]
  refine ⟨c3, ?_, ?_, s1, ?_⟩
  · intro ho
    by_cases hh : (r.clients human).colour = .unspecified
    · exact c4 hh ho
    · rw [c2, c3 hh]
      revert hcc hh ho
      cases (r.clients human).colour <;> cases (r.clients other).colour <;>
        simp [colours_can_play, Colour.lnot]
  · intro hh ho
    rw [c2, c5 hh ho]
    constructor
    · intro hlt; simp [hlt, Colour.lnot]
    · intro hlt
      have : ¬ (r.clients human).priority < (r.clients other).priority := by omega
      simp [this, Colour.lnot]
  · rw [c2]; exact s2

theorem try_to_match_human_colour_resolution_witness :
    ∃ r', try_to_match_human fourClientState 3 = .ok r'
      ∧ (r'.clients 1).colour = .white ∧ (r'.clients 3).colour = .black
      ∧ (r'.games 0).players (r'.clients 3).colour.toNat = some 3 := by
  obtain ⟨hret, hcol⟩ :=
    try_to_match_human_colour_resolution fourClientState 3 1 find_partner_fourClientState
  obtain ⟨r', hr⟩ := hret.2 ⟨⟨0, get_unassigned_game_fourClientState⟩, by decide, by decide⟩
  obtain ⟨g, hg, _, _, h4, h5, _⟩ := hcol r' hr
  have eg : g = 0 := by
    rw [get_unassigned_game_fourClientState] at hg
    exact (Except.ok.inj hg).symm
  subst eg
  obtain ⟨a, b⟩ := (h4 (by decide) (by decide)).2 (by decide)
  exact ⟨r', hr, a, b, h5⟩

theorem try_to_write_engine_ok (r : Resources) (t : String)
    (hE : r.engineWriteFails = false) :
    try_to_write_engine r t = some { r with toEngine := r.toEngine ++ [t] } := by
  simp [try_to_write_engine, hE]

theorem engine_new_game_ready (r : Resources) (rest : List EngineReply)
    (hE : r.engineWriteFails = false) (hR : r.fromEngine = .line "readyok\n" :: rest) :
    engine_new_game r
      = .ok { r with toEngine := r.toEngine ++ ["ucinewgame\nisready\n"], fromEngine := rest } := by
  simp [engine_new_game, try_to_write_engine, hE, hR]

theorem keeps_log (r : Resources) (l : List (Nat × String)) :
    Keeps r { r with toClients := l } :=
  ⟨fun _ => rfl, fun _ => rfl, fun _ => rfl, fun _ => rfl, fun _ => rfl, fun _ => rfl,
    fun _ => rfl, fun _ => rfl, fun _ => rfl, rfl, rfl, rfl⟩

theorem notify_writes (r : Resources) (o : Option Nat) (msg : String)
    (hw : ∀ m, o = some m → (r.clients m).writeFails = false) :
    ∃ r', notify r o msg = .ok (r', 0) ∧ Keeps r r' ∧ r'.games = r.games
      ∧ r'.clients = r.clients
      ∧ r'.toClients = r.toClients ++ (o.map fun m => (m, msg)).toList := by
  cases o with
  | none => exact ⟨r, rfl, Keeps.same r, rfl, rfl, by simp⟩
  | some m =>
    refine ⟨{ r with toClients := r.toClients ++ [(m, msg)] }, ?_, keeps_log r _, rfl, rfl,
      rfl⟩
    simp [notify, write_to_client_writes r m msg (hw m rfl)]

/-- A move the engine reports as leaving the position unchanged is answered
with `error move` to a human mover. -/
theorem make_move_body_reject (cm : Resources → Nat → Except Halt Resources)
    (r : Resources) (g : Nat) (move : String) (st : StockfishGameState)
    (rest : List EngineReply) (hE : r.engineWriteFails = false)
    (hR : r.fromEngine = .line "readyok\n" :: .dOutput st :: rest)
    (hfen : st.fenString = (r.games g).fenBoardState) :
    make_move_body cm r g move
      = (notify (queried r g move rest) ((r.games g).players (r.games g).turn.toNat)
          "error move\n").map Prod.fst := by
  unfold make_move_body
  rw [engine_new_game_ready r _ hE hR]
  simp only [bind, Except.bind, try_to_write_engine, hE, read_stockfish_d_output, hfen, queried,
    Bool.false_eq_true, if_false, ne_eq, not_true_eq_false, List.append_assoc,
    List.singleton_append]
  generalize notify _ _ _ = x
  rcases x with e | ⟨r4, n⟩ <;> rfl

/-- When the engine reports the stored position back and the
mover is the computer or a client whose stream accepts the write, `make_move`
returns with every game record (position, turn, in-progress flag, player
slots) and every client record unchanged, and the only text written to a
client is one `error move` line to a human mover. -/
theorem make_move_rejected (fuel : Nat) (r : Resources) (g : Nat) (move : String)
    (st : StockfishGameState) (rest : List EngineReply)
    (hE : r.engineWriteFails = false)
    (hR : r.fromEngine = .line "readyok\n" :: .dOutput st :: rest)
    (hfen : st.fenString = (r.games g).fenBoardState)
    (hw : ∀ m, (r.games g).players (r.games g).turn.toNat = some m →
      (r.clients m).writeFails = false) :
    ∃ r', make_move (fuel + 1) r g move = .ok r'
      ∧ r'.games = r.games ∧ r'.clients = r.clients
      ∧ r'.toClients = r.toClients
          ++ (((r.games g).players (r.games g).turn.toNat).map
                fun m => (m, "error move\n")).toList := by
  rw [make_move, make_move_body_reject _ r g move st rest hE hR hfen]
  obtain ⟨r', e, _, hg, hc, hl⟩ := notify_writes (queried r g move rest)
    ((r.games g).players (r.games g).turn.toNat) "error move\n" hw
  rw [e]
  exact ⟨r', rfl, hg, hc, hl⟩

theorem read_go_perft_moves (r : Resources) (ms : List String) (rest : List EngineReply)
    (hR : r.fromEngine = .moves ms :: rest) :
    read_stockfish_go_perft_1_output r = some (ms, { r with fromEngine := rest }) := by
  simp [read_stockfish_go_perft_1_output, hR]

/-- A `check` notification to a slot whose client (if any) accepts the write. -/
theorem send_check_writes (r : Resources) (g i : Nat)
    (hw : ∀ m, (r.games g).players i = some m → (r.clients m).writeFails = false) :
    ∃ r', send_check r g i = .ok r' ∧ Keeps r r' ∧ r'.games = r.games := by
  unfold send_check
  cases hp : (r.games g).players i with
  | none => exact ⟨r, rfl, Keeps.same r, rfl⟩
  | some p =>
    simp only
    rw [write_to_client_writes r p _ (hw p hp)]
    exact ⟨_, rfl, keeps_log r _, rfl⟩

/-- The outcome step of an accepted move, when the engine answers the legal
reply query and every player's stream accepts writes: the state after the
engine exchange is only notified (or ended), then the turn is flipped. -/
theorem move_outcome_spec (r : Resources) (g : Nat) (opponent : Option Nat) (inCheck : Bool)
    (ms : List String) (rest : List EngineReply)
    (hE : r.engineWriteFails = false) (hR : r.fromEngine = .moves ms :: rest)
    (hw : ∀ i m, (r.games g).players i = some m → (r.clients m).writeFails = false) :
    ∃ rb, Keeps { r with toEngine := r.toEngine ++ [goPerft1], fromEngine := rest } rb
      ∧ move_outcome r g opponent inCheck
          = .ok (rb.setGame g { rb.games g with turn := (rb.games g).turn.lnot })
      ∧ (ms ≠ [] → (rb.games g).inProgress = (r.games g).inProgress)
      ∧ (ms = [] → (rb.games g).inProgress = false) := by
  unfold move_outcome
  rw [try_to_write_engine_ok r _ hE]
  simp only [bind, Except.bind]
  rw [read_go_perft_moves { r with toEngine := r.toEngine ++ [goPerft1] } ms rest hR]
  simp only []
  by_cases hms : ms = []
  · subst hms
    simp only [List.length_nil, if_true]
    by_cases hc : inCheck = true
    · simp only [hc, if_true]
      obtain ⟨re, he⟩ := end_game_accepts
        { r with toEngine := r.toEngine ++ [goPerft1], fromEngine := rest } g opponent
        .checkmate hw
      rw [he]
      refine ⟨re, keeps_end_game he, rfl, fun h => absurd rfl h, fun _ => ?_⟩
      rw [(ended_end_game he).game]
    · simp only [hc, if_false]
      obtain ⟨re, he⟩ := end_game_accepts
        { r with toEngine := r.toEngine ++ [goPerft1], fromEngine := rest } g none
        .stalemate hw
      rw [he]
      refine ⟨re, keeps_end_game he, rfl, fun h => absurd rfl h, fun _ => ?_⟩
      rw [(ended_end_game he).game]
  · have hlen : ¬ ms.length = 0 := by
      intro h; exact hms (List.length_eq_zero.mp h)
    simp only [hlen, if_false]
    by_cases hc : inCheck = true
    · simp only [hc, if_true]
      obtain ⟨r1, h1, k1, g1⟩ := send_check_writes
        { r with toEngine := r.toEngine ++ [goPerft1], fromEngine := rest } g 0
        (fun m hm => hw 0 m hm)
      obtain ⟨r2, h2, k2, g2⟩ := send_check_writes r1 g 1 (fun m hm => by
        rw [k1.writeFails]
        exact hw 1 m (by rw [← k1.players]; exact hm))
      simp only [h1, h2]
      refine ⟨r2, k1.andThen k2, rfl, fun _ => ?_, fun h => absurd h hms⟩
      rw [g2, g1]
    · simp only [hc, if_false]
      exact ⟨_, Keeps.same _, rfl, fun _ => rfl, fun h => absurd h hms⟩

/-- An accepted move, when the engine answers the legal-reply query and the
streams of the game's players accept writes: the turn of the game is flipped
once, and the computer's reply is requested exactly when the mover is a client,
the other slot is empty and the game is still in progress. -/
theorem move_accepted_spec (cm : Resources → Nat → Except Halt Resources) (move : String)
    (g : Nat) (movingClient opponent : Option Nat) (r : Resources)
    (st : StockfishGameState) (ms : List String) (rest : List EngineReply)
    (hmv : movingClient = (r.games g).players (r.games g).turn.toNat)
    (hop : opponent = (r.games g).players (r.games g).turn.lnot.toNat)
    (hE : r.engineWriteFails = false) (hR : r.fromEngine = .moves ms :: rest)
    (hw : ∀ i m, (r.games g).players i = some m → (r.clients m).writeFails = false) :
    ∃ r1, Moved r r1 g st ms rest
      ∧ move_accepted cm move g movingClient opponent r st
          = if movingClient ≠ none ∧ opponent = none ∧ (r1.games g).inProgress = true
            then cm r1 g else .ok r1 := by
  have hwm : ∀ m, movingClient = some m → (r.clients m).writeFails = false :=
    fun m hm => hw _ m (by rw [← hmv]; exact hm)
  have hwo : ∀ m, opponent = some m → (r.clients m).writeFails = false :=
    fun m hm => hw _ m (by rw [← hop]; exact hm)
  obtain ⟨ra, e1, ka, ga, ca, _⟩ := notify_writes
    (r.setGame g { r.games g with fenBoardState := st.fenString }) movingClient "ok\n" hwm
  obtain ⟨rc, e2, kc, gc, cc, _⟩ := notify_writes ra opponent ("moved " ++ move ++ "\n")
    (fun m hm => by rw [ca]; exact hwo m hm)
  have hgame : rc.games g = { r.games g with fenBoardState := st.fenString } := by
    rw [gc, ga]; simp [Resources.setGame]
  obtain ⟨rb, kb, e3, c3, d3⟩ := move_outcome_spec rc g opponent st.checkers.isSome ms rest
    (by rw [kc.engineWriteFails, ka.engineWriteFails]; exact hE)
    (by rw [kc.fromEngine, ka.fromEngine]; exact hR)
    (fun i m hm => by
      rw [cc, ca]
      refine hw i m ?_
      rw [hgame] at hm
      exact hm)
  have hbg : ∀ i, (rb.games g).players i = (r.games g).players i := by
    intro i
    have := kb.players g i
    rw [this]
    show (rc.games g).players i = _
    rw [hgame]; rfl
  have hturn : (rb.games g).turn = (r.games g).turn := by
    have := kb.turn g
    rw [this]
    show (rc.games g).turn = _
    rw [hgame]
  have hmoved : Moved r (rb.setGame g { rb.games g with turn := (rb.games g).turn.lnot })
      g st ms rest := by
    refine ⟨?_, ?_, ?_, ?_, ?_, ?_, ?_, ?_, ?_, ?_⟩
    · simp [Resources.setGame, hturn]
    · simp only [Resources.setGame, if_true]
      have := kb.fen g
      rw [this]
      show (rc.games g).fenBoardState = _
      rw [hgame]
    · simp only [Resources.setGame, if_true]
      have := kb.player0 g
      rw [this]
      show (rc.games g).player0 = _
      rw [hgame]
    · simp only [Resources.setGame, if_true]
      have := kb.player1 g
      rw [this]
      show (rc.games g).player1 = _
      rw [hgame]
    · intro i
      have := kb.writeFails i
      simp only [Resources.setGame]
      rw [this]
      show (rc.clients i).writeFails = _
      rw [cc, ca]; rfl
    · intro i
      have := kb.colour i
      simp only [Resources.setGame]
      rw [this]
      show (rc.clients i).colour = _
      rw [cc, ca]; rfl
    · have := kb.engineWriteFails
      simp only [Resources.setGame]
      rw [this]
      show rc.engineWriteFails = _
      rw [kc.engineWriteFails, ka.engineWriteFails]; rfl
    · exact kb.fromEngine
    · intro h
      simp only [Resources.setGame, if_true]
      rw [c3 h, hgame]
    · intro h
      simp only [Resources.setGame, if_true]
      exact d3 h
  refine ⟨_, hmoved, ?_⟩
  unfold move_accepted
  simp only [bind, Except.bind]
  rw [e1]
  simp only []
  rw [if_neg (by decide), e2]
  simp only []
  rw [if_neg (by decide), e3]
  simp only []
  have hpl0 : ((rb.setGame g { rb.games g with turn := (rb.games g).turn.lnot }).games g).players 0
      = (r.games g).players 0 := by
    rw [← hbg 0]; simp [Resources.setGame, Game.players]
  have hpl1 : ((rb.setGame g { rb.games g with turn := (rb.games g).turn.lnot }).games g).players 1
      = (r.games g).players 1 := by
    rw [← hbg 1]; simp [Resources.setGame, Game.players]
  cases hm : movingClient with
  | none => simp
  | some m =>
    have hmv' := hmv
    rw [hm] at hmv'
    unfold game_is_against_computer
    rw [hpl0, hpl1]
    cases ht : (r.games g).turn with
    | white =>
      rw [ht] at hmv' hop
      simp only [Colour.toNat, Colour.lnot] at hmv' hop
      rw [← hmv', ← hop]
      cases opponent <;> simp
    | black =>
      rw [ht] at hmv' hop
      simp only [Colour.toNat, Colour.lnot] at hmv' hop
      rw [← hmv', ← hop]
      cases opponent <;> simp
    | unspecified =>
      rw [ht] at hmv'
      simp [Colour.toNat, Game.players] at hmv'

theorem make_move_body_accept (cm : Resources → Nat → Except Halt Resources)
    (r : Resources) (g : Nat) (move : String) (st : StockfishGameState)
    (rest : List EngineReply) (hE : r.engineWriteFails = false)
    (hR : r.fromEngine = .line "readyok\n" :: .dOutput st :: rest)
    (hfen : st.fenString ≠ (r.games g).fenBoardState) :
    make_move_body cm r g move
      = move_accepted cm move g ((r.games g).players (r.games g).turn.toNat)
          ((r.games g).players (r.games g).turn.lnot.toNat) (queried r g move rest) st := by
  unfold make_move_body
  rw [engine_new_game_ready r _ hE hR]
  simp [bind, Except.bind, try_to_write_engine, hE, read_stockfish_d_output, hfen, queried]

/-- One accepted move in `make_move`: the turn of the game is flipped once,
and the rest of the call is the computer's reply or nothing. -/
theorem make_move_accept_step (cm : Resources → Nat → Except Halt Resources)
    (r : Resources) (g : Nat) (move : String) (st : StockfishGameState) (ms : List String)
    (rest : List EngineReply) (hE : r.engineWriteFails = false)
    (hR : r.fromEngine = .line "readyok\n" :: .dOutput st :: .moves ms :: rest)
    (hfen : st.fenString ≠ (r.games g).fenBoardState)
    (hw : ∀ i m, (r.games g).players i = some m → (r.clients m).writeFails = false) :
    ∃ r1, Moved r r1 g st ms rest
      ∧ make_move_body cm r g move
          = if (r.games g).players (r.games g).turn.toNat ≠ none
                ∧ (r.games g).players (r.games g).turn.lnot.toNat = none
                ∧ (r1.games g).inProgress = true
            then cm r1 g else .ok r1 := by
  rw [make_move_body_accept cm r g move st _ hE hR hfen]
  obtain ⟨r1, hm, e⟩ := move_accepted_spec cm move g
    ((r.games g).players (r.games g).turn.toNat)
    ((r.games g).players (r.games g).turn.lnot.toNat) (queried r g move (.moves ms :: rest))
    st ms rest rfl rfl hE rfl hw
  exact ⟨r1, ⟨hm.turn, hm.fen, hm.player0, hm.player1, hm.writeFails, hm.colour,
    hm.engineWriteFails, hm.fromEngine, hm.continues, hm.ends⟩, e⟩

/-- The best-move query, when the engine answers the handshake and the parser
accepts a move list with a first move. -/
theorem best_move_ok (r : Resources) (g : Nat) (bm : String) (bms : List String)
    (rest : List EngineReply) (hE : r.engineWriteFails = false)
    (hR : r.fromEngine = .line "readyok\n" :: .moves (bm :: bms) :: rest) :
    ∃ r', best_move r g = .ok (bm, r') ∧ r'.games = r.games ∧ r'.clients = r.clients
      ∧ r'.engineWriteFails = r.engineWriteFails ∧ r'.fromEngine = rest
      ∧ r'.toClients = r.toClients := by
  refine ⟨{ r with
      toEngine := r.toEngine ++ ["ucinewgame\nisready\n",
        "position fen " ++ (r.games g).fenBoardState ++ "\n", "go movetime 500 depth 15\n"]
      fromEngine := rest }, ?_, rfl, rfl, rfl, rfl, rfl⟩
  simp [best_move, set_position_no_move, engine_new_game, try_to_write_engine, hE, hR,
    read_stockfish_bestmove_output]

theorem lnot_lnot (c : Colour) (h : c ≠ .unspecified) : c.lnot.lnot = c := by
  cases c <;> simp [Colour.lnot] at h ⊢

/-- C8: in every `make_move` call in which the engine reports a position other
than the stored one, the engine answers the legal-reply query, and the streams
of the game's players accept the notifications, processing the move flips the
turn of the game exactly once (white to black, black to white) and the call
then either returns or hands over to `computer_move`; and when the mover is a
client playing the computer, the game goes on, and the computer's reply is
accepted too, the call returns with the turn back at the value it had, the
human's colour. -/
theorem make_move_flips_turn_once (fuel : Nat) (r : Resources) (g : Nat) (move : String)
    (st : StockfishGameState) (ms : List String) (rest : List EngineReply)
    (hE : r.engineWriteFails = false)
    (hR : r.fromEngine = .line "readyok\n" :: .dOutput st :: .moves ms :: rest)
    (hfen : st.fenString ≠ (r.games g).fenBoardState)
    (hw : ∀ i m, (r.games g).players i = some m → (r.clients m).writeFails = false) :
    (∃ r1, Moved r r1 g st ms rest
        ∧ ((r.games g).turn = .white → (r1.games g).turn = .black)
        ∧ ((r.games g).turn = .black → (r1.games g).turn = .white)
        ∧ make_move (fuel + 1) r g move
            = if (r.games g).players (r.games g).turn.toNat ≠ none
                  ∧ (r.games g).players (r.games g).turn.lnot.toNat = none
                  ∧ (r1.games g).inProgress = true
              then computer_move fuel r1 g else .ok r1)
    ∧ (∀ (human : Nat) (bm : String) (bms : List String) (st2 : StockfishGameState)
        (ms2 : List String) (rest2 : List EngineReply),
        (r.games g).players (r.games g).turn.toNat = some human →
        (r.games g).players (r.games g).turn.lnot.toNat = none →
        (r.games g).inProgress = true → ms ≠ [] →
        rest = .line "readyok\n" :: .moves (bm :: bms) :: .line "readyok\n"
          :: .dOutput st2 :: .moves ms2 :: rest2 →
        st2.fenString ≠ st.fenString →
        ∃ r2, make_move (fuel + 2) r g move = .ok r2
          ∧ (r2.games g).turn = (r.games g).turn
          ∧ ((r.clients human).colour = (r.games g).turn →
              (r2.games g).turn = (r2.clients human).colour)) := by
  constructor
  · obtain ⟨r1, hm, e⟩ := make_move_accept_step (computer_move_body (make_move fuel))
      r g move st ms rest hE hR hfen hw
    refine ⟨r1, hm, ?_, ?_, ?_⟩
    · intro h; rw [hm.turn, h]; rfl
    · intro h; rw [hm.turn, h]; rfl
    · rw [make_move]; exact e
  · intro human bm bms st2 ms2 rest2 hmover hopp hprog hms hrest hfen2
    obtain ⟨r1, hm, e⟩ := make_move_accept_step (computer_move_body (make_move (fuel + 1)))
      r g move st ms rest hE hR hfen hw
    have hturn : (r.games g).turn ≠ .unspecified := by
      intro h
      rw [h] at hmover
      simp [Colour.toNat, Game.players] at hmover
    have hpl : ∀ i, (r1.games g).players i = (r.games g).players i := by
      intro i; unfold Game.players; rw [hm.player0, hm.player1]
    have hprog1 : (r1.games g).inProgress = true := by rw [hm.continues hms]; exact hprog
    have e1 : make_move (fuel + 2) r g move = computer_move_body (make_move (fuel + 1)) r1 g := by
      rw [make_move, e, if_pos ⟨by rw [hmover]; simp, hopp, hprog1⟩]
    obtain ⟨rb, hb, gb, cb, eb, fb, _⟩ := best_move_ok r1 g bm bms
      (.line "readyok\n" :: .dOutput st2 :: .moves ms2 :: rest2)
      (by rw [hm.engineWriteFails]; exact hE) (by rw [hm.fromEngine]; exact hrest)
    have hgb : rb.games g = r1.games g := by rw [gb]
    obtain ⟨r2, hm2, e2⟩ := make_move_accept_step (computer_move_body (make_move fuel))
      rb g bm st2 ms2 rest2 (by rw [eb, hm.engineWriteFails]; exact hE) fb
      (by rw [hgb, hm.fen]; exact hfen2)
      (fun i m h => by
        rw [cb, hm.writeFails]
        refine hw i m ?_
        rw [hgb, hpl] at h
        exact h)
    have hnone : (rb.games g).players (rb.games g).turn.toNat = none := by
      rw [hgb, hpl, hm.turn]; exact hopp
    have e3 : make_move (fuel + 2) r g move = .ok r2 := by
      rw [e1]
      unfold computer_move_body
      rw [if_neg (by
        rw [hpl, hpl, hm.turn, lnot_lnot _ hturn, hopp, hmover]
        simp), hb]
      simp only []
      rw [make_move, e2, if_neg (by rw [hnone]; simp)]
    have ht2 : (r2.games g).turn = (r.games g).turn := by
      rw [hm2.turn, hgb, hm.turn, lnot_lnot _ hturn]
    refine ⟨r2, e3, ht2, ?_⟩
    intro hc
    rw [ht2, hm2.colour, cb, hm.colour, hc]

theorem players_cases (g : Game) (i m : Nat) (h : g.players i = some m) :
    g.player0 = some m ∨ g.player1 = some m := by
  unfold Game.players at h
  split at h
  · exact Or.inl h
  · split at h
    · exact Or.inr h
    · cases h

theorem make_move_rejected_witness :
    ∃ r', make_move 1 (humanGameState false rejectingReplies) 0 "e2e5" = .ok r'
      ∧ r'.games = (humanGameState false rejectingReplies).games
      ∧ r'.toClients = [(0, "error move\n")] := by
  obtain ⟨r', h1, h2, _, h4⟩ := make_move_rejected 0 (humanGameState false rejectingReplies) 0
    "e2e5" { fenString := startFen, boardString := "", checkers := none } [] rfl rfl rfl
    (fun m h => by
      have e : some 0 = some m := h
      cases e
      rfl)
  exact ⟨r', h1, h2, h4⟩

theorem make_move_flips_turn_once_witness :
    ∃ r2, make_move 2 (computerGameState acceptingReplies) 0 "e2e4" = .ok r2
      ∧ (r2.games 0).turn = .white ∧ (r2.games 0).turn = (r2.clients 0).colour := by
  obtain ⟨r2, h1, h2, h3⟩ :=
    (make_move_flips_turn_once 0 (computerGameState acceptingReplies) 0 "e2e4"
      { fenString := afterE4Fen, boardString := "", checkers := none } ["e7e5", "d7d5"]
      [ .line "readyok\n", .moves ["e7e5"], .line "readyok\n",
        .dOutput { fenString := afterE4E5Fen, boardString := "", checkers := none },
        .moves ["g1f3", "d2d4"] ]
      rfl rfl (by decide)
      (fun i m h => by
        rcases players_cases _ i m h with h | h
        · have e : some 0 = some m := h
          cases e
          rfl
        · cases h)).2 0 "e7e5" [] { fenString := afterE4E5Fen, boardString := "", checkers := none }
        ["g1f3", "d2d4"] [] rfl rfl rfl (by decide) rfl (by decide)
  exact ⟨r2, h1, h2, h3 rfl⟩

/-! ## Error lines -/

theorem WritesOk.nothing (r : Resources) : WritesOk r r := ⟨[], by simp, by simp⟩

theorem WritesOk.more {a b c : Resources} (h1 : WritesOk a b) (h2 : WritesOk b c) :
    WritesOk a c := by
  obtain ⟨l1, e1, o1⟩ := h1
  obtain ⟨l2, e2, o2⟩ := h2
  refine ⟨l1 ++ l2, by rw [e2, e1, List.append_assoc], ?_⟩
  intro e he
  rcases List.mem_append.mp he with h | h
  · exact o1 e h
  · exact o2 e h

theorem writesOk_of_log {r r' : Resources} (h : r'.toClients = r.toClients) : WritesOk r r' :=
  ⟨[], by simp [h], by simp⟩

/-- A text that does not begin with `e` is no error line. -/
theorem okText_of_head (s : String) (h : s.data.head? ≠ some 'e') : OkText s := by
  intro he
  exfalso
  apply h
  obtain ⟨t, ht⟩ := he
  rw [← ht]
  rfl

theorem okText_of_known (s : String) (h : KnownError s) : OkText s := fun _ => h

theorem head_append (a b : String) (c : Char) (h : a.data.head? = some c) :
    (a ++ b).data.head? = some c := by
  rw [String.data_append]
  cases ha : a.data with
  | nil => rw [ha] at h; cases h
  | cons x xs => rw [ha] at h; simpa using h

theorem okText_append (a b : String) (c : Char) (h : a.data.head? = some c) (hc : c ≠ 'e') :
    OkText (a ++ b) := by
  apply okText_of_head
  rw [head_append a b c h]
  intro e
  exact hc (Option.some.inj e)

theorem writesOk_try_to_write {r r' : Resources} {c : Nat} {t : String} (ht : OkText t)
    (h : try_to_write r c t = .ok (some r')) : WritesOk r r' := by
  rw [(try_to_write_some h).2]
  refine ⟨[(c, t)], rfl, ?_⟩
  intro e he
  simp at he
  subst he
  exact ht

theorem okText_end_game_msg (g : Game) (client : Option Nat) (res : GameResult) :
    OkText (end_game_msg g client res) := by
  unfold end_game_msg
  simp only [String.append_assoc]
  exact okText_append _ _ 'g' rfl (by decide)

theorem writesOk_remove_client {r r' : Resources} {c : Nat} (h : remove_client r c = .ok r') :
    WritesOk r r' := by
  rw [(remove_client_ok h).2]
  exact writesOk_of_log rfl

theorem writesOk_end_game_notify {msg : String} (hm : OkText msg) {g : Nat} {r r' : Resources}
    {i : Nat} (h : end_game_notify msg g r i = .ok r') : WritesOk r r' := by
  rcases end_game_notify_ok h with ⟨_, e⟩ | ⟨p, _, ⟨_, e⟩ | ⟨_, _, _, e⟩⟩
  · rw [e]; exact WritesOk.nothing r
  · rw [e]
    refine ⟨[(p, msg)], rfl, ?_⟩
    intro x hx
    simp at hx
    subst hx
    exact hm
  · rw [e]; exact writesOk_of_log rfl

theorem writesOk_end_game {r r' : Resources} {g : Nat} {client : Option Nat}
    {res : GameResult} (h : end_game r g client res = .ok r') : WritesOk r r' := by
  obtain ⟨r1, r2, h1, h2, e⟩ := end_game_ok h
  rw [e]
  exact ((writesOk_end_game_notify (okText_end_game_msg _ _ _) h1).more
    (writesOk_end_game_notify (okText_end_game_msg _ _ _) h2)).more (writesOk_of_log rfl)

/-- The server never runs out of recursion budget in `try_to_write`. -/
theorem try_to_write_no_fuel (r : Resources) (c : Nat) (t : String) :
    try_to_write r c t ≠ .error .fuel := by
  rcases try_to_write_cases r c t with ⟨_, h⟩ | ⟨_, _, h⟩ | ⟨_, _, h⟩ <;> rw [h] <;> intro e <;>
    cases e

theorem remove_client_no_fuel (r : Resources) (c : Nat) :
    remove_client r c ≠ .error .fuel := by
  rcases remove_client_cases r c with ⟨_, h⟩ | ⟨_, h⟩ <;> rw [h] <;> intro e <;> cases e

theorem end_game_notify_no_fuel (msg : String) (g : Nat) (r : Resources) (i : Nat) :
    end_game_notify msg g r i ≠ .error .fuel := by
  unfold end_game_notify
  cases (r.games g).players i with
  | none => intro e; cases e
  | some p =>
    simp only []
    have h1 := try_to_write_no_fuel (r.setClient p
      { r.clients p with lastGameFen := some (r.games g).fenBoardState, game := none }) p msg
    generalize try_to_write _ p msg = x at h1 ⊢
    rcases x with e | _ | r2
    · intro h
      apply h1
      cases h
      rfl
    · exact remove_client_no_fuel _ p
    · intro h
      cases h

theorem end_game_no_fuel (r : Resources) (g : Nat) (client : Option Nat) (res : GameResult) :
    end_game r g client res ≠ .error .fuel := by
  unfold end_game
  simp only []
  have h1 := end_game_notify_no_fuel (end_game_msg (r.games g) client res) g r 0
  generalize end_game_notify (end_game_msg (r.games g) client res) g r 0 = x at h1 ⊢
  rcases x with e | r1
  · intro h
    apply h1
    cases h
    rfl
  · simp only []
    have h2 := end_game_notify_no_fuel (end_game_msg (r.games g) client res) g r1 1
    generalize end_game_notify (end_game_msg (r.games g) client res) g r1 1 = y at h2 ⊢
    rcases y with e | r2
    · intro h
      apply h2
      cases h
      rfl
    · intro h
      cases h

theorem good_end_game (r : Resources) (g : Nat) (client : Option Nat) (res : GameResult) :
    Good r (end_game r g client res) := by
  cases h : end_game r g client res with
  | error e =>
    show e ≠ .fuel
    intro he
    subst he
    exact end_game_no_fuel r g client res h
  | ok r' => exact writesOk_end_game h

theorem good_remove_client (r : Resources) (c : Nat) : Good r (remove_client r c) := by
  cases h : remove_client r c with
  | error e =>
    show e ≠ .fuel
    intro he
    subst he
    exact remove_client_no_fuel r c h
  | ok r' => exact writesOk_remove_client h

theorem goodP_write_to_client (r : Resources) (c : Nat) (msg : String) (hm : OkText msg) :
    GoodP r (write_to_client r c msg) := by
  cases h : write_to_client r c msg with
  | error e =>
    show e ≠ .fuel
    intro he
    subst he
    unfold write_to_client at h
    have h1 := try_to_write_no_fuel r c msg
    generalize try_to_write r c msg = x at h h1
    rcases x with e | _ | r2
    · apply h1
      cases h
      rfl
    · simp only [] at h
      cases hg : (r.clients c).game with
      | none => rw [hg] at h; cases h
      | some g =>
        rw [hg] at h
        simp only [] at h
        have h2 := end_game_no_fuel r g (some c) .resignation
        generalize end_game r g (some c) .resignation = y at h h2
        rcases y with e | r1
        · apply h2
          cases h
          rfl
        · simp only [] at h
          have h3 := remove_client_no_fuel r1 c
          generalize remove_client r1 c = z at h h3
          rcases z with e | r3
          · apply h3
            cases h
            rfl
          · cases h
    · cases h
  | ok x =>
    obtain ⟨r', n⟩ := x
    rcases write_to_client_ok h with ⟨_, e, _⟩ | ⟨g, r1, _, _, _, he, hr, _⟩
    · show WritesOk r r'
      rw [e]
      refine ⟨[(c, msg)], rfl, ?_⟩
      intro x hx
      simp at hx
      subst hx
      exact hm
    · exact (writesOk_end_game he).more (writesOk_remove_client hr)

theorem Good.after {r r1 : Resources} {x : Except Halt Resources} (h : WritesOk r r1)
    (hx : Good r1 x) : Good r x := by
  cases x with
  | error e => exact hx
  | ok r2 => exact h.more hx

theorem GoodP.afterP {α : Type} {r r1 : Resources} {x : Except Halt (Resources × α)}
    (h : WritesOk r r1) (hx : GoodP r1 x) : GoodP r x := by
  rcases x with e | ⟨r2, a⟩
  · exact hx
  · exact h.more hx

theorem good_bug (r : Resources) (msg : String) : Good r (.error (.bug msg)) := by
  intro h; cases h

theorem good_crash (r : Resources) : Good r (.error .crash) := by
  intro h; cases h

theorem goodP_bug {α : Type} (r : Resources) (msg : String) :
    GoodP r (.error (.bug msg) : Except Halt (Resources × α)) := by
  intro h; cases h

theorem goodP_notify (r : Resources) (o : Option Nat) (msg : String) (hm : OkText msg) :
    GoodP r (notify r o msg) := by
  cases o with
  | none => exact WritesOk.nothing r
  | some m => exact goodP_write_to_client r m msg hm

theorem good_send_started (r : Resources) (col : Colour) (c : Nat) :
    Good r (send_started r col c) := by
  unfold send_started
  have h := goodP_write_to_client r c ("started " ++ get_colour_name col ++ "\n")
    (by rw [String.append_assoc]; exact okText_append _ _ 's' rfl (by decide))
  generalize write_to_client _ _ _ = x at h ⊢
  rcases x with e | ⟨r1, n⟩ <;> exact h

theorem good_start_player (r : Resources) (g i : Nat) : Good r (start_player r g i) := by
  unfold start_player
  split
  · exact good_crash r
  · exact Good.after (writesOk_of_log rfl) (good_send_started _ _ _)

theorem resolve_colours_log (r : Resources) (human other : Nat) :
    (resolve_colours r human other).toClients = r.toClients := by
  unfold resolve_colours
  split
  · rfl
  · split <;> rfl

theorem good_pair_humans (r : Resources) (human other : Nat) :
    Good r (pair_humans r human other) := by
  unfold pair_humans get_unassigned_game
  simp only [bind, Except.bind]
  split
  · rename_i e he
    split at he
    · cases he
    · cases he
      exact good_bug r _
  · rename_i g _
    have h0 : WritesOk r (seat_players (resolve_colours r human other) human other g) :=
      writesOk_of_log (resolve_colours_log r human other)
    have h1 := good_start_player (seat_players (resolve_colours r human other) human other g) g 0
    generalize start_player (seat_players _ _ _ _) g 0 = x at h1 ⊢
    cases x with
    | error e => exact h1
    | ok r5 => exact Good.after (h0.more h1) (good_start_player r5 g 1)

theorem good_try_to_match_human (r : Resources) (human : Nat) :
    Good r (try_to_match_human r human) := by
  unfold try_to_match_human
  split
  · exact writesOk_of_log rfl
  · exact Good.after (writesOk_of_log rfl) (good_pair_humans _ _ _)

theorem try_to_write_engine_only {r r' : Resources} {t : String}
    (h : try_to_write_engine r t = some r') : EngineOnly r r' := by
  unfold try_to_write_engine at h
  split at h
  · cases h
  · cases h; exact ⟨rfl, rfl, rfl⟩

theorem EngineOnly.next {a b c : Resources} (h1 : EngineOnly a b) (h2 : EngineOnly b c) :
    EngineOnly a c :=
  ⟨h2.1.trans h1.1, h2.2.1.trans h1.2.1, h2.2.2.trans h1.2.2⟩

theorem EngineOnly.writesOk {a b : Resources} (h : EngineOnly a b) : WritesOk a b :=
  writesOk_of_log h.2.2

/-- The handshake changes the engine side only, or stops the server with the
engine diagnostic. -/
theorem engine_new_game_cases (r : Resources) :
    (∃ r', engine_new_game r = .ok r' ∧ EngineOnly r r')
      ∨ engine_new_game r = .error engine_failure := by
  unfold engine_new_game
  split
  · exact Or.inr rfl
  · rename_i r1 h1
    have k1 := try_to_write_engine_only h1
    split
    · split
      · exact Or.inl ⟨_, rfl, k1.1, k1.2.1, k1.2.2⟩
      · exact Or.inr rfl
    · exact Or.inr rfl

theorem set_position_no_move_cases (fen : String) (r : Resources) :
    (∃ r', set_position_no_move fen r = .ok r' ∧ EngineOnly r r')
      ∨ set_position_no_move fen r = .error engine_failure := by
  unfold set_position_no_move
  rcases engine_new_game_cases r with ⟨r1, h1, k1⟩ | h1
  · rw [h1]
    simp only []
    split
    · exact Or.inr rfl
    · rename_i r2 h2
      exact Or.inl ⟨r2, rfl, k1.next (try_to_write_engine_only h2)⟩
  · rw [h1]; exact Or.inr rfl

theorem read_bestmove_only {r r' : Resources} {ms : List String}
    (h : read_stockfish_bestmove_output r = some (ms, r')) : EngineOnly r r' := by
  unfold read_stockfish_bestmove_output at h
  split at h
  · cases h; exact ⟨rfl, rfl, rfl⟩
  · cases h

theorem read_go_perft_only {r r' : Resources} {ms : List String}
    (h : read_stockfish_go_perft_1_output r = some (ms, r')) : EngineOnly r r' := by
  unfold read_stockfish_go_perft_1_output at h
  split at h
  · cases h; exact ⟨rfl, rfl, rfl⟩
  · cases h

theorem read_d_output_only {r r' : Resources} {st : StockfishGameState}
    (h : read_stockfish_d_output r = some (st, r')) : EngineOnly r r' := by
  unfold read_stockfish_d_output at h
  split at h
  · cases h; exact ⟨rfl, rfl, rfl⟩
  · cases h

theorem best_move_cases (r : Resources) (g : Nat) :
    (∃ bm r', best_move r g = .ok (bm, r') ∧ EngineOnly r r')
      ∨ best_move r g = .error engine_failure ∨ best_move r g = .error .crash := by
  unfold best_move
  rcases set_position_no_move_cases (r.games g).fenBoardState r with ⟨r1, h1, k1⟩ | h1
  · rw [h1]
    simp only []
    cases h2 : try_to_write_engine r1 "go movetime 500 depth 15\n" with
    | none => exact Or.inr (Or.inl rfl)
    | some r2 =>
      simp only []
      have k2 := k1.next (try_to_write_engine_only h2)
      cases h3 : read_stockfish_bestmove_output r2 with
      | none => exact Or.inr (Or.inl rfl)
      | some x =>
        obtain ⟨ms, r3⟩ := x
        have k3 := k2.next (read_bestmove_only h3)
        cases ms with
        | nil => exact Or.inr (Or.inr rfl)
        | cons m ms => exact Or.inl ⟨m, r3, rfl, k3⟩
  · rw [h1]; exact Or.inr (Or.inl rfl)

theorem good_send_check (r : Resources) (g i : Nat) : Good r (send_check r g i) := by
  unfold send_check
  split
  · exact WritesOk.nothing r
  · rename_i p _
    have h := goodP_write_to_client r p "check\n" (okText_of_head _ (by decide))
    generalize write_to_client _ _ _ = x at h ⊢
    rcases x with e | ⟨r1, n⟩ <;> exact h

theorem good_move_outcome (r : Resources) (g : Nat) (opponent : Option Nat) (inCheck : Bool) :
    Good r (move_outcome r g opponent inCheck) := by
  unfold move_outcome
  simp only [bind, Except.bind]
  cases hw : try_to_write_engine r goPerft1 with
  | none => exact good_bug r _
  | some r1 =>
    have k1 := try_to_write_engine_only hw
    simp only []
    cases hr : read_stockfish_go_perft_1_output r1 with
    | none => exact good_bug r _
    | some x =>
      obtain ⟨ms, r2⟩ := x
      have k := (k1.next (read_go_perft_only hr)).writesOk
      simp only []
      by_cases hlen : ms.length = 0
      · by_cases hc : inCheck = true
        · simp only [hlen, hc, if_true]
          have h0 := good_end_game r2 g opponent .checkmate
          generalize end_game r2 g opponent .checkmate = z at h0 ⊢
          cases z with
          | error e0 => exact h0
          | ok r3 => exact k.more (WritesOk.more h0 (writesOk_of_log rfl))
        · simp only [hlen, hc, if_true, if_false]
          have h0 := good_end_game r2 g none .stalemate
          generalize end_game r2 g none .stalemate = z at h0 ⊢
          cases z with
          | error e0 => exact h0
          | ok r3 => exact k.more (WritesOk.more h0 (writesOk_of_log rfl))
      · by_cases hc : inCheck = true
        · simp only [hlen, hc, if_true, if_false]
          have h0 := good_send_check r2 g 0
          generalize send_check r2 g 0 = z at h0 ⊢
          cases z with
          | error e0 => exact h0
          | ok r3 =>
            simp only []
            have h1 := good_send_check r3 g 1
            generalize send_check r3 g 1 = z1 at h1 ⊢
            cases z1 with
            | error e1 => exact h1
            | ok r4 => exact k.more (WritesOk.more h0 (WritesOk.more h1 (writesOk_of_log rfl)))
        · simp only [hlen, hc, if_false]
          exact k.more (writesOk_of_log rfl)

theorem okText_moved (move : String) : OkText ("moved " ++ move ++ "\n") := by
  rw [String.append_assoc]; exact okText_append _ _ 'm' rfl (by decide)

theorem game_is_against_computer_cases (g : Game) :
    game_is_against_computer g = .error (.bug "no human players found\n")
      ∨ ∃ b, game_is_against_computer g = .ok b := by
  unfold game_is_against_computer
  split
  · exact Or.inl rfl
  · split
    · exact Or.inr ⟨false, rfl⟩
    · exact Or.inr ⟨true, rfl⟩

/-- `move_accepted` writes no unknown error line, and runs out of budget only
if the computer's reply does; that reply is only asked for a human mover. -/
theorem good_move_accepted (cm : Resources → Nat → Except Halt Resources) (move : String)
    (g : Nat) (movingClient opponent : Option Nat) (r : Resources) (st : StockfishGameState)
    (hcm : movingClient ≠ none → ∀ r1, Good r1 (cm r1 g)) :
    Good r (move_accepted cm move g movingClient opponent r st) := by
  unfold move_accepted
  simp only [bind, Except.bind]
  have h1 := goodP_notify (r.setGame g { r.games g with fenBoardState := st.fenString })
    movingClient "ok\n" (okText_of_head _ (by decide))
  generalize notify (r.setGame g _) movingClient "ok\n" = x at h1 ⊢
  rcases x with e | ⟨r2, ret1⟩
  · exact h1
  · have k2 : WritesOk r r2 := WritesOk.more (writesOk_of_log rfl) h1
    simp only []
    by_cases hr1 : ret1 = -1
    · simp only [hr1, if_true]; exact k2
    · simp only [hr1, if_false]
      have h2 := goodP_notify r2 opponent ("moved " ++ move ++ "\n") (okText_moved move)
      generalize notify r2 opponent _ = y at h2 ⊢
      rcases y with e | ⟨r3, ret2⟩
      · exact Good.after k2 h2
      · have k3 : WritesOk r r3 := k2.more h2
        simp only []
        by_cases hr2 : ret2 = -1
        · simp only [hr2, if_true]; exact k3
        · simp only [hr2, if_false]
          have h3 := good_move_outcome r3 g opponent st.checkers.isSome
          generalize move_outcome r3 g opponent _ = z at h3 ⊢
          cases z with
          | error e => exact Good.after k3 h3
          | ok r4 =>
            have k4 : WritesOk r r4 := k3.more h3
            simp only []
            by_cases hm : movingClient = none
            · simp only [hm, ne_eq, not_true_eq_false, if_false]; exact k4
            · simp only [hm, ne_eq, not_false_eq_true, if_true]
              rcases game_is_against_computer_cases (r4.games g) with hb | ⟨b, hb⟩
              · rw [hb]; exact good_bug r _
              · rw [hb]
                simp only []
                split
                · exact Good.after k4 (hcm hm r4)
                · exact k4

theorem good_make_move_body (cm : Resources → Nat → Except Halt Resources) (r : Resources)
    (g : Nat) (move : String)
    (hcm : (r.games g).players (r.games g).turn.toNat ≠ none → ∀ r1, Good r1 (cm r1 g)) :
    Good r (make_move_body cm r g move) := by
  unfold make_move_body
  simp only [bind, Except.bind]
  rcases engine_new_game_cases r with ⟨r1, h1, k1⟩ | h1
  · rw [h1]
    simp only []
    cases hw : try_to_write_engine r1 _ with
    | none => exact good_bug r _
    | some r2 =>
      have k2 := k1.next (try_to_write_engine_only hw)
      simp only []
      cases hr : read_stockfish_d_output r2 with
      | none => exact good_bug r _
      | some x =>
        obtain ⟨st, r3⟩ := x
        have k3 := k2.next (read_d_output_only hr)
        simp only []
        split
        · refine Good.after k3.writesOk (good_move_accepted cm move g _ _ r3 st ?_)
          rw [k3.1]
          exact hcm
        · have h := goodP_notify r3 ((r3.games g).players (r3.games g).turn.toNat)
            "error move\n" (okText_of_known _ (Or.inr (Or.inr (Or.inr rfl))))
          generalize notify r3 _ _ = y at h ⊢
          rcases y with e | ⟨r4, n⟩
          · exact Good.after k3.writesOk h
          · exact k3.writesOk.more h
  · rw [h1]; exact good_bug r _

theorem good_computer_move_body (mk : Resources → Nat → String → Except Halt Resources)
    (r : Resources) (g : Nat)
    (hmk : ∀ r2 bm, (r2.games g).players (r2.games g).turn.toNat = none →
      Good r2 (mk r2 g bm)) :
    Good r (computer_move_body mk r g) := by
  unfold computer_move_body
  split
  · exact good_bug r _
  · rename_i hc
    have hc' : (r.games g).players (r.games g).turn.toNat = none := by
      by_contra hx
      exact hc (fun h => hx h.1)
    rcases best_move_cases r g with ⟨bm, r1, h1, k1⟩ | h1 | h1
    · rw [h1]
      simp only []
      exact Good.after k1.writesOk (hmk r1 bm (by rw [k1.1]; exact hc'))
    · rw [h1]; exact good_bug r _
    · rw [h1]; exact good_crash r

/-- With a computer to move, one level of budget is enough. -/
theorem good_make_move_one (fuel : Nat) (r : Resources) (g : Nat) (move : String)
    (h : (r.games g).players (r.games g).turn.toNat = none) :
    Good r (make_move (fuel + 1) r g move) := by
  rw [make_move]
  exact good_make_move_body _ r g move (fun hx => absurd h hx)

theorem good_computer_move (fuel : Nat) (r : Resources) (g : Nat) :
    Good r (computer_move (fuel + 1) r g) := by
  unfold computer_move
  exact good_computer_move_body _ r g (fun r2 bm h => good_make_move_one fuel r2 g bm h)

/-- Two levels of recursion budget are enough for `make_move`, and it writes
no unknown error line. -/
theorem good_make_move (fuel : Nat) (r : Resources) (g : Nat) (move : String) :
    Good r (make_move (fuel + 2) r g move) := by
  rw [make_move]
  exact good_make_move_body _ r g move (fun _ r1 =>
    good_computer_move_body _ r1 g (fun r2 bm h => good_make_move_one fuel r2 g bm h))

theorem goodP_respond_board (r : Resources) (c : Nat) : GoodP r (respond_board r c) := by
  unfold respond_board
  simp only [bind, Except.bind]
  split
  · exact WritesOk.nothing r
  · rename_i fen _
    rcases set_position_no_move_cases fen r with ⟨r1, h1, k1⟩ | h1
    · rw [h1]
      simp only []
      cases hw : try_to_write_engine r1 "d\n" with
      | none => exact goodP_bug r _
      | some r2 =>
        have k2 := k1.next (try_to_write_engine_only hw)
        simp only []
        cases hr : read_stockfish_d_output r2 with
        | none => exact goodP_bug r _
        | some x =>
          obtain ⟨st, r3⟩ := x
          have k3 := k2.next (read_d_output_only hr)
          simp only []
          have h := goodP_write_to_client r3 c ("startboard\n" ++ st.boardString ++ "endboard\n")
            (by rw [String.append_assoc]; exact okText_append _ _ 's' rfl (by decide))
          generalize write_to_client r3 c _ = y at h ⊢
          rcases y with e | ⟨r4, n⟩
          · exact GoodP.afterP k3.writesOk h
          · exact k3.writesOk.more h
    · rw [h1]; exact goodP_bug r _

theorem good_write_moves (c : Nat) (ms : List String) :
    ∀ r, Good r (write_moves c ms r) := by
  induction ms with
  | nil => intro r; exact WritesOk.nothing r
  | cons m ms ih =>
    intro r
    unfold write_moves
    have h := goodP_write_to_client r c (" " ++ m) (okText_append _ _ ' ' rfl (by decide))
    generalize write_to_client r c _ = y at h ⊢
    rcases y with e | ⟨r1, n⟩
    · exact h
    · exact Good.after h (ih r1)

theorem good_respond_hint (r : Resources) (c : Nat) (all : Bool) :
    Good r (respond_hint r c all) := by
  unfold respond_hint
  split
  · exact good_crash r
  · rename_i g _
    simp only [bind, Except.bind]
    split
    · rcases set_position_no_move_cases (r.games g).fenBoardState r with ⟨r1, h1, k1⟩ | h1
      · rw [h1]
        simp only []
        cases hw : try_to_write_engine r1 goPerft1 with
        | none => exact good_bug r _
        | some r2 =>
          have k2 := k1.next (try_to_write_engine_only hw)
          simp only []
          cases hr : read_stockfish_go_perft_1_output r2 with
          | none =>
            simp only []
            have h := goodP_write_to_client r2 c "moves" (okText_of_head _ (by decide))
            generalize write_to_client r2 c "moves" = y at h ⊢
            rcases y with e | ⟨r4, n⟩
            · exact h
            · exact good_crash r
          | some x =>
            obtain ⟨ms, r3⟩ := x
            have k3 := k2.next (read_go_perft_only hr)
            simp only []
            have h := goodP_write_to_client r3 c "moves" (okText_of_head _ (by decide))
            generalize write_to_client r3 c _ = y at h ⊢
            rcases y with e | ⟨r4, n⟩
            · exact Good.after k3.writesOk h
            · simp only []
              have h5 := good_write_moves c ms r4
              generalize write_moves c ms r4 = z at h5 ⊢
              cases z with
              | error e => exact Good.after (k3.writesOk.more h) h5
              | ok r5 =>
                simp only []
                have h6 := goodP_write_to_client r5 c "\n" (okText_of_head _ (by decide))
                generalize write_to_client r5 c _ = w at h6 ⊢
                rcases w with e | ⟨r6, n⟩
                · exact Good.after ((k3.writesOk.more h).more h5) h6
                · exact ((k3.writesOk.more h).more h5).more h6
      · rw [h1]; exact good_bug r _
    · rcases best_move_cases r g with ⟨bm, r1, h1, k1⟩ | h1 | h1
      · rw [h1]
        simp only []
        have h := goodP_write_to_client r1 c ("moves " ++ bm ++ "\n")
          (by rw [String.append_assoc]; exact okText_append _ _ 'm' rfl (by decide))
        generalize write_to_client r1 c _ = y at h ⊢
        rcases y with e | ⟨r2, n⟩
        · exact Good.after k1.writesOk h
        · exact k1.writesOk.more h
      · rw [h1]; exact good_bug r _
      · rw [h1]; exact good_crash r

theorem good_start_computer_game (fuel : Nat) (r : Resources) (c : Nat) (colour : Colour) :
    Good r (start_computer_game (fuel + 1) r c colour) := by
  unfold start_computer_game get_unassigned_game
  simp only [bind, Except.bind]
  cases hg : get_unassigned_game_loop r.games maxBufferSize 0 with
  | none => exact good_bug r _
  | some g =>
    simp only []
    have h7 := good_send_started
      ((((initialise_game r g).setGame g
          (((initialise_game r g).games g).setPlayer colour.toNat (some c))).setGame g
          (((((initialise_game r g).setGame g
            (((initialise_game r g).games g).setPlayer colour.toNat (some c))).games g)).setPlayer
              colour.lnot.toNat none)).setClient c
        { (((initialise_game r g).setGame g
            (((initialise_game r g).games g).setPlayer colour.toNat (some c))).setGame g
            (((((initialise_game r g).setGame g
              (((initialise_game r g).games g).setPlayer colour.toNat (some c))).games g)).setPlayer
                colour.lnot.toNat none)).clients c with
          game := some g, waitingForHuman := false })
      colour c
    generalize send_started _ colour c = y at h7 ⊢
    cases y with
    | error e => exact h7
    | ok r7 =>
      have k7 : WritesOk r r7 := WritesOk.more (writesOk_of_log rfl) h7
      simp only []
      split
      · exact Good.after k7 (good_computer_move fuel r7 g)
      · exact k7

theorem good_resign_current (r : Resources) (c : Nat) :
    Good r (resign_current r c) := by
  unfold resign_current
  split
  · exact good_end_game _ _ _ _
  · exact WritesOk.nothing r

theorem good_start_new_game (fuel : Nat) (r : Resources) (c : Nat) (opponent : Opponent)
    (colour0 : Colour) : Good r (start_new_game (fuel + 1) r c opponent colour0) := by
  unfold start_new_game
  have h1 := good_resign_current r c
  generalize resign_current r c = x at h1 ⊢
  cases x with
  | error e => exact h1
  | ok r1 =>
    have k1 : WritesOk r r1 := h1
    simp only []
    cases opponent with
    | com =>
      exact Good.after (k1.more (writesOk_of_log rfl)) (good_start_computer_game fuel _ c _)
    | human =>
      exact Good.after (k1.more (writesOk_of_log rfl)) (good_try_to_match_human _ c)
    | unspecified => exact k1.more (writesOk_of_log rfl)

theorem goodP_respond_start (fuel : Nat) (r : Resources) (c : Nat) (fields : List String) :
    GoodP r (respond_start (fuel + 1) r c fields) := by
  unfold respond_start
  simp only []
  split
  · exact WritesOk.nothing r
  · exact WritesOk.nothing r
  · rename_i opponent colour0 _ _
    have h := good_start_new_game fuel r c opponent colour0
    generalize start_new_game (fuel + 1) r c opponent colour0 = y at h ⊢
    cases y with
    | error e => exact h
    | ok r1 => exact h

theorem goodP_respond_medium_input (fuel : Nat) (cmd : String) (fields : List String)
    (c : Nat) (r : Resources) :
    GoodP r (respond_medium_input (fuel + 2) cmd fields c r) := by
  unfold respond_medium_input
  simp only [bind, Except.bind]
  split
  · split
    · exact WritesOk.nothing r
    · split
      · exact WritesOk.nothing r
      · rename_i g _
        split
        · exact WritesOk.nothing r
        · have h := good_make_move fuel r g (fields.getD 1 "")
          generalize make_move (fuel + 2) r g _ = y at h ⊢
          cases y with
          | error e => exact h
          | ok r1 => exact h
  · split
    · split
      · exact WritesOk.nothing r
      · rename_i all _
        split
        · exact WritesOk.nothing r
        · rename_i g _
          split
          · exact WritesOk.nothing r
          · have h := good_respond_hint r c all
            generalize respond_hint r c all = y at h ⊢
            cases y with
            | error e => exact h
            | ok r1 => exact h
    · exact WritesOk.nothing r

theorem goodP_respond_short_input (r : Resources) (c : Nat) (cmd : String) :
    GoodP r (respond_short_input r c cmd) := by
  unfold respond_short_input
  simp only [bind, Except.bind]
  split
  · have h := goodP_respond_board r c
    generalize respond_board r c = y at h ⊢
    rcases y with e | ⟨r1, n⟩
    · exact h
    · simp only []
      split <;> exact h
  · split
    · split
      · exact WritesOk.nothing r
      · rename_i g _
        have h := good_end_game r g (some c) .resignation
        generalize end_game r g (some c) .resignation = y at h ⊢
        cases y with
        | error e => exact h
        | ok r1 => exact h
    · exact WritesOk.nothing r

theorem goodP_dispatch (fuel : Nat) (r : Resources) (c : Nat) (fields : List String) :
    GoodP r (dispatch (fuel + 2) r c fields) := by
  unfold dispatch
  simp only [bind, Except.bind]
  split
  · exact goodP_respond_short_input r c _
  · split
    · exact goodP_respond_medium_input fuel _ fields c r
    · split
      · split
        · have h := goodP_respond_start (fuel + 1) r c fields
          generalize respond_start (fuel + 2) r c fields = y at h ⊢
          rcases y with e | ⟨r1, n⟩
          · exact h
          · exact h
        · exact WritesOk.nothing r
      · exact WritesOk.nothing r

theorem good_send_response (r : Resources) (c : Nat) (error : Int) :
    Good r (send_response r c error) := by
  unfold send_response
  simp only []
  split
  · rename_i response hresp
    have hk : OkText response := by
      apply okText_of_known
      split at hresp
      · cases hresp; exact Or.inl rfl
      · split at hresp
        · cases hresp; exact Or.inr (Or.inl rfl)
        · split at hresp
          · cases hresp; exact Or.inr (Or.inr (Or.inl rfl))
          · cases hresp
    have h := goodP_write_to_client r c response hk
    generalize write_to_client r c response = z at h ⊢
    rcases z with e | ⟨r2, n⟩ <;> exact h
  · exact WritesOk.nothing r

theorem goodP_run_line (fuel : Nat) (r : Resources) (c : Nat) (valid : Int) (line : String) :
    GoodP r (run_line (fuel + 2) r c valid line) := by
  unfold run_line
  split
  · exact WritesOk.nothing r
  · exact goodP_dispatch fuel r c _

theorem validate_line_no_fuel (line : String) : validate_line line ≠ .error .fuel := by
  unfold validate_line
  split
  · intro h; cases h
  · split
    · intro h; cases h
    · split <;> intro h <;> cases h

theorem good_resign_remove_client (r : Resources) (c : Nat) :
    Good r (resign_remove_client r c) := by
  unfold resign_remove_client
  split
  · rename_i g _
    split
    · have h := good_end_game r g (some c) .resignation
      generalize end_game r g (some c) .resignation = y at h ⊢
      cases y with
      | error e => exact h
      | ok r1 => exact Good.after h (good_remove_client r1 c)
    · exact good_remove_client r c
  · exact good_remove_client r c

/-- One command round writes no unknown error line and, with a recursion
budget of at least two, does not run out of it. -/
theorem good_client_command (fuel : Nat) (r : Resources) (c : Nat) (buffer : String) :
    Good r (client_command (fuel + 2) r c buffer) := by
  unfold client_command
  split
  · exact good_resign_remove_client r c
  · cases hv : validate_line (fgets buffer) with
    | error e =>
      simp only []
      show e ≠ .fuel
      intro he
      subst he
      exact validate_line_no_fuel _ hv
    | ok x =>
      obtain ⟨valid, line⟩ := x
      simp only []
      have hd := goodP_run_line fuel r c valid line
      generalize run_line (fuel + 2) r c valid line = y at hd ⊢
      rcases y with e | ⟨r1, error⟩
      · exact hd
      · exact Good.after hd (good_send_response r1 c error)

/-- C10 fails as stated: with clients 0 and 1 playing each other and client 0
to move, the line `move e2e5` that the engine rejects is answered with the
text `error move`, an error line that is none of `error command`,
`error game`, `error turn`. -/
theorem client_command_writes_error_move :
    ∃ r', client_command 2 (humanGameState false rejectingReplies) 0 "move e2e5\n" = .ok r'
      ∧ r'.toClients = [(0, "error move\n")]
      ∧ ErrorLine "error move\n"
      ∧ "error move\n" ≠ "error command\n" ∧ "error move\n" ≠ "error game\n"
      ∧ "error move\n" ≠ "error turn\n" :=
  ⟨_, rfl, by decide, ⟨" move\n".data, rfl⟩, by decide, by decide, by decide⟩

/-- C10, as amended: in every round of the command loop that returns, for every
state, client and input line, every text written to a client that begins with
`error` is one of exactly four lines, `error command`, `error game`,
`error turn` or `error move`; and with a recursion budget of two or more the
round never stops for lack of budget. -/
theorem client_command_error_lines (fuel : Nat) (r : Resources) (c : Nat) (buffer : String) :
    client_command (fuel + 2) r c buffer ≠ .error .fuel
      ∧ ∀ r', client_command (fuel + 2) r c buffer = .ok r' →
          ∃ l, r'.toClients = r.toClients ++ l
            ∧ ∀ e ∈ l, ErrorLine e.2 →
                e.2 = "error command\n" ∨ e.2 = "error game\n" ∨ e.2 = "error turn\n"
                  ∨ e.2 = "error move\n" := by
  have h := good_client_command fuel r c buffer
  constructor
  · intro he
    rw [he] at h
    exact h rfl
  · intro r' hr
    rw [hr] at h
    obtain ⟨l, h1, h2⟩ := h
    exact ⟨l, h1, fun e he herr => h2 e he herr⟩

/-- The matchmaking scenario with A, B, C, D in any four slots `a`, `b`, `c`,
`d` and no other client connected: when the priority stored in slot 0 is at
least 1 (as it is when one of the four sits there) the search for D selects
A. -/
theorem find_partner_four_clients (r : Resources) (a b c d : Nat)
    (ha : a < maxBufferSize) (had : a ≠ d)
    (hA : (r.clients a).assigned = true ∧ (r.clients a).waitingForHuman = true
      ∧ (r.clients a).colour = .unspecified ∧ (r.clients a).priority = 1)
    (hB : (r.clients b).priority = 2) (hC : (r.clients c).priority = 3)
    (hD : (r.clients d).colour = .unspecified)
    (hrest : ∀ k, k ≠ a → k ≠ b → k ≠ c → k ≠ d → (r.clients k).assigned = false)
    (h0 : 1 ≤ (r.clients 0).priority) :
    find_partner (mark_waiting r d) d = some a := by
  have hel : Eligible r d a := ⟨hA.1, hA.2.1, by rw [hD]; rfl, had⟩
  obtain ⟨other, ho⟩ := find_partner_some r d a ha hel
    (by rw [mark_waiting_priority, hA.2.2.2]; exact h0)
  obtain ⟨_, ⟨hoa, _, _, hod⟩, hmin⟩ := find_partner_spec r d other ho
  have hle := hmin a ha hel
  rw [hA.2.2.2] at hle
  rw [ho]
  congr 1
  by_contra hne
  by_cases hb : other = b
  · rw [hb, hB] at hle; omega
  · by_cases hc : other = c
    · rw [hc, hC] at hle; omega
    · have := hrest other hne hb hc hod
      rw [this] at hoa
      cases hoa

/-! ## Error replies -/

/-- The characters `fgets` stores hold no newline, or hold exactly one, as
their last character. -/
theorem fgets_chars_spec (n : Nat) (input : List Char) :
    (∀ c ∈ fgets_chars n input, c ≠ '\n')
      ∨ ∃ pre, fgets_chars n input = pre ++ ['\n'] ∧ (∀ c ∈ pre, c ≠ '\n')
          ∧ pre = input.takeWhile (fun c => c ≠ '\n') ∧ pre.length < n := by
  unfold fgets_chars
  rw [List.take_append_eq_append_take]
  have hA : ∀ c ∈ input.takeWhile (fun c => c ≠ '\n'), c ≠ '\n' := by
    intro c hc
    simpa using List.mem_takeWhile_imp hc
  have hB : (input.dropWhile (fun c => c ≠ '\n')).take 1 = []
      ∨ (input.dropWhile (fun c => c ≠ '\n')).take 1 = ['\n'] := by
    cases hd : input.dropWhile (fun c => c ≠ '\n') with
    | nil => exact Or.inl rfl
    | cons x xs =>
      right
      have hx := List.head_dropWhile_not (fun c => c ≠ '\n') input
        (by rw [hd]; exact List.cons_ne_nil _ _)
      simp only [hd, List.head_cons] at hx
      have : x = '\n' := by simpa using hx
      subst this
      rfl
  by_cases hk : n - (input.takeWhile (fun c => c ≠ '\n')).length = 0
  · left
    intro c hc
    rw [hk, List.take_zero, List.append_nil] at hc
    exact hA c (List.mem_of_mem_take hc)
  · rcases hB with e | e
    · left
      intro c hc
      rw [e, List.take_nil, List.append_nil] at hc
      exact hA c (List.mem_of_mem_take hc)
    · right
      have hlen : (input.takeWhile (fun c => c ≠ '\n')).length < n := by omega
      refine ⟨input.takeWhile (fun c => c ≠ '\n'), ?_, hA, rfl, hlen⟩
      rw [e, List.take_of_length_le (Nat.le_of_lt hlen)]
      congr 1
      obtain ⟨k, hk'⟩ : ∃ k, n - (input.takeWhile (fun c => c ≠ '\n')).length = k + 1 :=
        ⟨_, (Nat.succ_pred_eq_of_ne_zero hk).symm⟩
      rw [hk']
      simp

/-- A last line that ran into the end of the input does not end in a newline:
`validate_line` would stop the server on it. -/
theorem hit_eof_validate_line (input : String) (h : hit_eof input = true) :
    ∃ e, validate_line (fgets input) = .error e := by
  unfold hit_eof at h
  simp only [Bool.and_eq_true, bne_iff_ne, ne_eq, decide_eq_true_eq] at h
  have hall : ∀ c ∈ fgets_chars (maxBufferSize - 1) input.data, c ≠ '\n' := by
    rcases fgets_chars_spec (maxBufferSize - 1) input.data with hs | ⟨pre, e, _⟩
    · exact hs
    · exfalso
      apply h.1
      rw [e]
      simp
  unfold validate_line
  split
  · exact ⟨_, rfl⟩
  · have hr : remove_newline (fgets input) = none := by
      unfold remove_newline
      rw [if_pos]
      right
      intro hl
      have hm : '\n' ∈ (fgets input).data := List.mem_of_getLast?_eq_some hl
      unfold fgets c_string at hm
      exact hall _ ((List.takeWhile_sublist _).subset hm) rfl
    rw [hr]
    exact ⟨_, rfl⟩

theorem client_command_eq (fuel : Nat) (r : Resources) (c : Nat) (buffer : String) :
    client_command fuel r c buffer
      = if hit_eof buffer then resign_remove_client r c
        else
          match error_code fuel r c buffer with
          | .error e => .error e
          | .ok (r1, error) => send_response r1 c error := by
  unfold client_command error_code
  split
  · rfl
  · cases validate_line (fgets buffer) with
    | error e => rfl
    | ok x => rfl

/-- A line that has an error code did not end the input. -/
theorem error_code_not_eof {fuel : Nat} {r r1 : Resources} {c : Nat} {buffer : String}
    {e : Int} (h : error_code fuel r c buffer = .ok (r1, e)) : hit_eof buffer = false := by
  cases hh : hit_eof buffer with
  | false => rfl
  | true =>
    obtain ⟨e0, he0⟩ := hit_eof_validate_line buffer hh
    unfold error_code at h
    rw [he0] at h
    cases h

/-- A round for a line that has an error code ends with the reply for that
code. -/
theorem client_command_of_code {fuel : Nat} {r r1 : Resources} {c : Nat} {buffer : String}
    {e : Int} (h : error_code fuel r c buffer = .ok (r1, e)) :
    client_command fuel r c buffer = send_response r1 c e := by
  rw [client_command_eq, error_code_not_eof h, h]
  rfl

/-- `respond_board` returns -1 only without touching the state. -/
theorem respond_board_code {r r1 : Resources} {c : Nat} {n : Int}
    (h : respond_board r c = .ok (r1, n)) : (n = -1 ∧ r1 = r) ∨ n = 0 := by
  unfold respond_board at h
  simp only [bind, Except.bind] at h
  split at h
  · cases h; exact Or.inl ⟨rfl, rfl⟩
  · right
    rename_i fen _
    cases h1 : set_position_no_move fen r with
    | error e => rw [h1] at h; cases h
    | ok r1' =>
      rw [h1] at h
      simp only [] at h
      cases h2 : try_to_write_engine r1' "d\n" with
      | none => rw [h2] at h; cases h
      | some r2 =>
        rw [h2] at h
        simp only [] at h
        cases h3 : read_stockfish_d_output r2 with
        | none => rw [h3] at h; cases h
        | some x =>
          rw [h3] at h
          simp only [] at h
          cases h4 : write_to_client x.2 c ("startboard\n" ++ x.1.boardString ++ "endboard\n") with
          | error e => rw [h4] at h; cases h
          | ok y =>
            rw [h4] at h
            cases h
            rfl

/-- The three error codes of `client_loop`. -/
theorem error_codes_ne_zero : errorCommand ≠ 0 ∧ errorGame ≠ 0 ∧ errorTurn ≠ 0 := by decide

theorem respond_short_input_code {r r1 : Resources} {c : Nat} {cmd : String} {e : Int}
    (h : respond_short_input r c cmd = .ok (r1, e)) (he : e ≠ 0) :
    r1 = r ∧ (e = errorCommand ∨ e = errorGame ∨ e = errorTurn) := by
  unfold respond_short_input at h
  simp only [bind, Except.bind] at h
  split at h
  · cases hb : respond_board r c with
    | error e0 => rw [hb] at h; cases h
    | ok x =>
      obtain ⟨rb, n⟩ := x
      rw [hb] at h
      simp only [] at h
      rcases respond_board_code hb with ⟨hn, hr⟩ | hn
      · rw [if_pos hn] at h
        cases h
        exact ⟨hr, Or.inr (Or.inl rfl)⟩
      · rw [if_neg (by rw [hn]; decide)] at h
        cases h
        exact absurd rfl he
  · split at h
    · split at h
      · cases h; exact ⟨rfl, Or.inr (Or.inl rfl)⟩
      · rename_i g _
        cases hg : end_game r g (some c) .resignation with
        | error e0 => rw [hg] at h; cases h
        | ok r2 =>
          rw [hg] at h
          cases h
          exact absurd rfl he
    · cases h; exact ⟨rfl, Or.inl rfl⟩

theorem respond_medium_input_code {fuel : Nat} {cmd : String} {fields : List String}
    {c : Nat} {r r1 : Resources} {e : Int}
    (h : respond_medium_input fuel cmd fields c r = .ok (r1, e)) (he : e ≠ 0) :
    r1 = r ∧ (e = errorCommand ∨ e = errorGame ∨ e = errorTurn) := by
  unfold respond_medium_input at h
  simp only [bind, Except.bind] at h
  split at h
  · split at h
    · cases h; exact ⟨rfl, Or.inl rfl⟩
    · split at h
      · cases h; exact ⟨rfl, Or.inr (Or.inl rfl)⟩
      · split at h
        · cases h; exact ⟨rfl, Or.inr (Or.inr rfl)⟩
        · split at h
          · cases h
          · cases h; exact absurd rfl he
  · split at h
    · split at h
      · cases h; exact ⟨rfl, Or.inl rfl⟩
      · split at h
        · cases h; exact ⟨rfl, Or.inr (Or.inl rfl)⟩
        · split at h
          · cases h; exact ⟨rfl, Or.inr (Or.inr rfl)⟩
          · split at h
            · cases h
            · cases h; exact absurd rfl he
    · cases h; exact ⟨rfl, Or.inl rfl⟩

/-- `respond_start` reports an invalid command only without touching the
state. -/
theorem respond_start_false {fuel : Nat} {r r1 : Resources} {c : Nat} {fields : List String}
    (h : respond_start fuel r c fields = .ok (r1, false)) : r1 = r := by
  unfold respond_start at h
  simp only [] at h
  split at h
  · cases h; rfl
  · cases h; rfl
  · split at h
    · cases h
    · cases h

theorem dispatch_code {fuel : Nat} {r r1 : Resources} {c : Nat} {fields : List String}
    {e : Int} (h : dispatch fuel r c fields = .ok (r1, e)) (he : e ≠ 0) :
    r1 = r ∧ (e = errorCommand ∨ e = errorGame ∨ e = errorTurn) := by
  unfold dispatch at h
  simp only [bind, Except.bind] at h
  split at h
  · exact respond_short_input_code h he
  · split at h
    · exact respond_medium_input_code h he
    · split at h
      · split at h
        · cases hs : respond_start fuel r c fields with
          | error e0 => rw [hs] at h; cases h
          | ok x =>
            obtain ⟨rs, ok⟩ := x
            rw [hs] at h
            simp only [] at h
            cases ok with
            | false =>
              cases h
              exact ⟨respond_start_false hs, Or.inl rfl⟩
            | true =>
              cases h
              exact absurd rfl he
        · cases h; exact ⟨rfl, Or.inl rfl⟩
      · cases h; exact ⟨rfl, Or.inl rfl⟩

/-- Whenever the error code of a line is not 0, it is one of the three error
codes and the handlers left the state as it was. -/
theorem error_code_unchanged {fuel : Nat} {r r1 : Resources} {c : Nat} {buffer : String}
    {e : Int} (h : error_code fuel r c buffer = .ok (r1, e)) (he : e ≠ 0) :
    r1 = r ∧ (e = errorCommand ∨ e = errorGame ∨ e = errorTurn) := by
  unfold error_code at h
  split at h
  · cases h
  · unfold run_line at h
    split at h
    · cases h; exact ⟨rfl, Or.inl rfl⟩
    · exact dispatch_code h he

/-- The error line for an error code, to a client whose stream accepts it. -/
theorem send_response_writes (r : Resources) (c : Nat) (e : Int)
    (hw : (r.clients c).writeFails = false)
    (he : e = errorCommand ∨ e = errorGame ∨ e = errorTurn) :
    ∃ text, (text = "error command\n" ∨ text = "error game\n" ∨ text = "error turn\n")
      ∧ (e = errorCommand → text = "error command\n")
      ∧ (e = errorGame → text = "error game\n")
      ∧ (e = errorTurn → text = "error turn\n")
      ∧ send_response r c e = .ok { r with toClients := r.toClients ++ [(c, text)] } := by
  rcases he with he | he | he
  · subst he
    refine ⟨"error command\n", Or.inl rfl, fun _ => rfl, fun h => absurd h (by decide),
      fun h => absurd h (by decide), ?_⟩
    simp [send_response, write_to_client_writes r c _ hw]
  · subst he
    refine ⟨"error game\n", Or.inr (Or.inl rfl), fun h => absurd h (by decide), fun _ => rfl,
      fun h => absurd h (by decide), ?_⟩
    simp [send_response, write_to_client_writes r c _ hw, errorGame, errorCommand]
  · subst he
    refine ⟨"error turn\n", Or.inr (Or.inr rfl), fun h => absurd h (by decide),
      fun h => absurd h (by decide), fun _ => rfl, ?_⟩
    simp [send_response, write_to_client_writes r c _ hw, errorGame, errorCommand, errorTurn]

/-- C13: whenever the error code of a command is not 0, so that the command is
answered with one of `error command`, `error game`, `error turn`, and that
reply is written successfully, the round returns with every client record and
every game record as before, nothing written to or read from the engine, and
exactly one text added to the log of writes, the reply to the sender; and a
`start` command whose opponent or colour token is not recognised has the code
of `error command` with the state untouched, the sender's game included. -/
theorem error_reply_leaves_state (fuel : Nat) (r r1 : Resources) (c : Nat) (buffer : String)
    (e : Int) (h : error_code fuel r c buffer = .ok (r1, e)) (he : e ≠ 0)
    (hw : (r.clients c).writeFails = false) :
    (∃ text r', (text = "error command\n" ∨ text = "error game\n" ∨ text = "error turn\n")
        ∧ client_command fuel r c buffer = .ok r'
        ∧ r'.clients = r.clients ∧ r'.games = r.games
        ∧ r'.toEngine = r.toEngine ∧ r'.fromEngine = r.fromEngine
        ∧ r'.toClients = r.toClients ++ [(c, text)])
      ∧ ∀ (s : Resources) (opponent colour : String),
          ((opponent ≠ "computer" ∧ opponent ≠ "human")
            ∨ (colour ≠ "white" ∧ colour ≠ "black" ∧ colour ≠ "either")) →
          dispatch fuel s c ["start", opponent, colour] = .ok (s, errorCommand) := by
  constructor
  · obtain ⟨hr, hcode⟩ := error_code_unchanged h he
    subst hr
    obtain ⟨text, ht, _, _, _, hs⟩ := send_response_writes r1 c e hw hcode
    refine ⟨text, { r1 with toClients := r1.toClients ++ [(c, text)] }, ht, ?_,
      rfl, rfl, rfl, rfl, rfl⟩
    rw [client_command_of_code h]
    exact hs
  · intro s opponent colour hbad
    unfold dispatch respond_start
    simp only [List.length_cons, List.length_nil, shortLine, mediumLine, longLine,
      List.headD_cons, List.getD_cons_succ, List.getD_cons_zero, bind, Except.bind]
    rcases hbad with ⟨h1, h2⟩ | ⟨h1, h2, h3⟩
    · simp [h1, h2]
    · by_cases ha : opponent = "computer"
      · simp [ha, h1, h2, h3]
      · by_cases hb : opponent = "human"
        · simp [hb, h1, h2, h3]
        · simp [ha, hb]

theorem error_reply_leaves_state_witness :
    ∃ text r', (text = "error command\n" ∨ text = "error game\n" ∨ text = "error turn\n")
      ∧ client_command 2 lateRequestState 0 "resign\n" = .ok r'
      ∧ r'.clients = lateRequestState.clients ∧ r'.games = lateRequestState.games
      ∧ r'.toClients = lateRequestState.toClients ++ [(0, text)] := by
  obtain ⟨text, r', h1, h2, h3, h4, _, _, h7⟩ :=
    (error_reply_leaves_state 2 lateRequestState lateRequestState 0 "resign\n" errorGame rfl
      (by decide) rfl).1
  exact ⟨text, r', h1, h2, h3, h4, h7⟩

/-! ## The precedence of the error codes -/

/-- A move token as `respond_medium_input` accepts it. -/
theorem dispatch_two (fuel : Nat) (r : Resources) (c : Nat) (cmd arg : String) :
    dispatch fuel r c [cmd, arg] = respond_medium_input fuel cmd [cmd, arg] c r := by
  unfold dispatch
  simp [shortLine, mediumLine, longLine]

theorem dispatch_one (fuel : Nat) (r : Resources) (c : Nat) (cmd : String) :
    dispatch fuel r c [cmd] = respond_short_input r c cmd := by
  unfold dispatch
  simp [shortLine, mediumLine, longLine]

theorem dispatch_start_ok (fuel : Nat) (r : Resources) (c : Nat) (o col : String)
    (opponent : Opponent) (colour : Colour)
    (ho : (o = "computer" ∧ opponent = .com) ∨ (o = "human" ∧ opponent = .human))
    (hc : (col = "white" ∧ colour = .white) ∨ (col = "black" ∧ colour = .black)
      ∨ (col = "either" ∧ colour = .unspecified)) :
    dispatch fuel r c ["start", o, col]
      = (start_new_game fuel r c opponent colour).map (fun r1 => (r1, 0)) := by
  unfold dispatch respond_start
  simp only [List.length_cons, List.length_nil, shortLine, mediumLine, longLine,
    List.headD_cons, List.getD_cons_succ, List.getD_cons_zero, bind, Except.bind]
  rcases ho with ⟨h1, h2⟩ | ⟨h1, h2⟩ <;> rcases hc with ⟨h3, h4⟩ | ⟨h3, h4⟩ | ⟨h3, h4⟩ <;>
    subst h1 h2 h3 h4 <;>
    simp <;>
    cases start_new_game fuel r c _ _ <;> rfl

/-- C12, amended: the dispatch applies the error codes in a fixed precedence.
For `move <token>` and `hint <arg>` a malformed argument gives the code of
`error command`; otherwise a client with no game gives the code of
`error game`; otherwise a client whose colour differs from the game's turn
gives the code of `error turn`; otherwise the command is executed and the code
is 0.  `resign` with no game, and `board` with neither a stored last position
nor a game in progress, give the code of `error game`.  Any other one-token
command, any other two-token command, any three-token command that is not a
`start` with a recognised opponent and a recognised colour, and any other
token count give the code of `error command`; a `start` with a recognised
opponent and colour is executed and the code is 0. -/
theorem dispatch_precedence (fuel : Nat) (r : Resources) (c : Nat) :
    (∀ t, ¬ (valid_move_length t.length = true ∧ str_is_alnum t = true) →
        dispatch fuel r c ["move", t] = .ok (r, errorCommand))
    ∧ (∀ t, valid_move_length t.length = true → str_is_alnum t = true →
        (r.clients c).game = none → dispatch fuel r c ["move", t] = .ok (r, errorGame))
    ∧ (∀ t g, valid_move_length t.length = true → str_is_alnum t = true →
        (r.clients c).game = some g → (r.clients c).colour ≠ (r.games g).turn →
        dispatch fuel r c ["move", t] = .ok (r, errorTurn))
    ∧ (∀ t g, valid_move_length t.length = true → str_is_alnum t = true →
        (r.clients c).game = some g → (r.clients c).colour = (r.games g).turn →
        dispatch fuel r c ["move", t] = (make_move fuel r g t).map (fun r1 => (r1, 0)))
    ∧ (∀ a, a ≠ "all" → a ≠ "best" → dispatch fuel r c ["hint", a] = .ok (r, errorCommand))
    ∧ (∀ a, a = "all" ∨ a = "best" → (r.clients c).game = none →
        dispatch fuel r c ["hint", a] = .ok (r, errorGame))
    ∧ (∀ a g, a = "all" ∨ a = "best" → (r.clients c).game = some g →
        (r.clients c).colour ≠ (r.games g).turn →
        dispatch fuel r c ["hint", a] = .ok (r, errorTurn))
    ∧ (∀ a g, a = "all" ∨ a = "best" → (r.clients c).game = some g →
        (r.clients c).colour = (r.games g).turn →
        dispatch fuel r c ["hint", a]
          = (respond_hint r c (decide (a = "all"))).map (fun r1 => (r1, 0)))
    ∧ ((r.clients c).game = none → dispatch fuel r c ["resign"] = .ok (r, errorGame))
    ∧ ((r.clients c).lastGameFen = none →
        (∀ g, (r.clients c).game = some g → (r.games g).inProgress = false) →
        dispatch fuel r c ["board"] = .ok (r, errorGame))
    ∧ (∀ cmd, cmd ≠ "board" → cmd ≠ "resign" → dispatch fuel r c [cmd] = .ok (r, errorCommand))
    ∧ (∀ cmd a, cmd ≠ "move" → cmd ≠ "hint" →
        dispatch fuel r c [cmd, a] = .ok (r, errorCommand))
    ∧ (∀ cmd a b, cmd ≠ "start" → dispatch fuel r c [cmd, a, b] = .ok (r, errorCommand))
    ∧ (∀ o col, ((o ≠ "computer" ∧ o ≠ "human")
          ∨ (col ≠ "white" ∧ col ≠ "black" ∧ col ≠ "either")) →
        dispatch fuel r c ["start", o, col] = .ok (r, errorCommand))
    ∧ (∀ fields : List String, fields.length ≠ 1 → fields.length ≠ 2 → fields.length ≠ 3 →
        dispatch fuel r c fields = .ok (r, errorCommand))
    ∧ (∀ o col opponent colour,
        ((o = "computer" ∧ opponent = Opponent.com) ∨ (o = "human" ∧ opponent = Opponent.human)) →
        ((col = "white" ∧ colour = Colour.white) ∨ (col = "black" ∧ colour = Colour.black)
          ∨ (col = "either" ∧ colour = Colour.unspecified)) →
        dispatch fuel r c ["start", o, col]
          = (start_new_game fuel r c opponent colour).map (fun r1 => (r1, 0))) := by
  refine ⟨?_, ?_, ?_, ?_, ?_, ?_, ?_, ?_, ?_, ?_, ?_, ?_, ?_, ?_, ?_, ?_⟩
  · intro t ht
    rw [dispatch_two]
    unfold respond_medium_input
    have : (!(valid_move_length t.length && str_is_alnum t)) = true := by
      cases h1 : valid_move_length t.length <;> cases h2 : str_is_alnum t <;> simp_all
    simp [this]
  · intro t h1 h2 hg
    rw [dispatch_two]
    unfold respond_medium_input
    simp [h1, h2, hg]
  · intro t g h1 h2 hg hc
    rw [dispatch_two]
    unfold respond_medium_input
    simp [h1, h2, hg, hc]
  · intro t g h1 h2 hg hc
    rw [dispatch_two]
    unfold respond_medium_input
    simp only [h1, h2, hg, hc, List.getD_cons_succ, List.getD_cons_zero, bind, Except.bind]
    simp
    cases make_move fuel r g t <;> rfl
  · intro a h1 h2
    rw [dispatch_two]
    unfold respond_medium_input
    simp [h1, h2]
  · intro a ha hg
    rw [dispatch_two]
    unfold respond_medium_input
    rcases ha with ha | ha <;> subst ha <;> simp [hg]
  · intro a g ha hg hc
    rw [dispatch_two]
    unfold respond_medium_input
    rcases ha with ha | ha <;> subst ha <;> simp [hg, hc]
  · intro a g ha hg hc
    rw [dispatch_two]
    unfold respond_medium_input
    rcases ha with ha | ha <;> subst ha <;>
      simp only [hg, hc, List.getD_cons_succ, List.getD_cons_zero, bind, Except.bind] <;>
      simp <;>
      cases respond_hint r c _ <;> rfl
  · intro hg
    rw [dispatch_one]
    unfold respond_short_input
    simp [hg]
  · intro hf hg
    rw [dispatch_one]
    unfold respond_short_input respond_board
    simp only [hf, bind, Except.bind]
    cases h : (r.clients c).game with
    | none => simp
    | some g => simp [hg g h]
  · intro cmd h1 h2
    rw [dispatch_one]
    unfold respond_short_input
    simp [h1, h2]
  · intro cmd a h1 h2
    rw [dispatch_two]
    unfold respond_medium_input
    simp [h1, h2]
  · intro cmd a b h1
    unfold dispatch
    simp [shortLine, mediumLine, longLine, h1]
  · intro o col hbad
    unfold dispatch respond_start
    simp only [List.length_cons, List.length_nil, shortLine, mediumLine, longLine,
      List.headD_cons, List.getD_cons_succ, List.getD_cons_zero, bind, Except.bind]
    rcases hbad with ⟨h1, h2⟩ | ⟨h1, h2, h3⟩
    · simp [h1, h2]
    · by_cases ha : o = "computer"
      · simp [ha, h1, h2, h3]
      · by_cases hb : o = "human"
        · simp [hb, h1, h2, h3]
        · simp [ha, hb]
  · intro fields h1 h2 h3
    unfold dispatch
    simp [shortLine, mediumLine, longLine, h1, h2, h3]
  · intro o col opponent colour ho hc
    exact dispatch_start_ok fuel r c o col opponent colour ho hc

/-- C12 as stated fails: `start computer white` is a three-token command other
than those the claim names, and for the idle client 0 it is executed (the
client is sent `started white`) with code 0, not the code of
`error command`. -/
theorem dispatch_start_reports_no_error :
    ∃ r1, dispatch 2 lateRequestState 0 ["start", "computer", "white"] = .ok (r1, 0)
      ∧ r1.toClients = [(0, "started white\n")]
      ∧ (0 : Int) ≠ errorCommand := by
  refine ⟨_, rfl, ?_, by decide⟩
  rfl

/-! ## Lines and their fields -/

theorem split_chars_cons (sep c : Char) (cs : List Char) :
    split_chars sep (c :: cs) = split_step sep c (split_chars sep cs) := rfl

theorem split_chars_ne_nil (sep : Char) (l : List Char) : split_chars sep l ≠ [] := by
  cases l with
  | nil => simp [split_chars]
  | cons c cs =>
    rw [split_chars_cons]
    unfold split_step
    split
    · simp
    · split <;> simp

theorem split_chars_single (sep : Char) :
    ∀ (l f : List Char), split_chars sep l = [f] → f = l := by
  intro l
  induction l with
  | nil =>
    intro f h
    simp [split_chars] at h
    exact h
  | cons c cs ih =>
    intro f h
    rw [split_chars_cons] at h
    unfold split_step at h
    split at h
    · simp at h
      exact absurd h.2 (split_chars_ne_nil sep cs)
    · cases hs : split_chars sep cs with
      | nil => exact absurd hs (split_chars_ne_nil sep cs)
      | cons f1 fs =>
        rw [hs] at h
        simp at h
        obtain ⟨h1, h2⟩ := h
        subst h2
        rw [← h1, ih f1 hs]

theorem split_chars_move (t : List Char) :
    split_chars ' ' ('m' :: 'o' :: 'v' :: 'e' :: ' ' :: t)
      = ['m', 'o', 'v', 'e'] :: split_chars ' ' t := by
  simp only [split_chars_cons]
  cases hs : split_chars ' ' t with
  | nil => exact absurd hs (split_chars_ne_nil _ t)
  | cons f fs => simp [split_step]

theorem takeWhile_append_stop {α : Type} (p : α → Bool) (l : List α) (x : α)
    (h : ∀ c ∈ l, p c = true) (hx : p x = false) : (l ++ [x]).takeWhile p = l := by
  induction l with
  | nil => simp [List.takeWhile, hx]
  | cons a t ih =>
    have ha := h a (List.mem_cons_self a t)
    rw [List.cons_append, List.takeWhile_cons, ha, if_pos rfl,
      ih (fun c hc => h c (List.mem_cons_of_mem a hc))]

theorem dropWhile_append_stop {α : Type} (p : α → Bool) (l : List α) (x : α)
    (h : ∀ c ∈ l, p c = true) (hx : p x = false) : (l ++ [x]).dropWhile p = [x] := by
  induction l with
  | nil => simp [List.dropWhile, hx]
  | cons a t ih =>
    have ha := h a (List.mem_cons_self a t)
    rw [List.cons_append, List.dropWhile_cons, ha, if_pos rfl]
    exact ih (fun c hc => h c (List.mem_cons_of_mem a hc))

theorem takeWhile_all {α : Type} (p : α → Bool) (l : List α) (h : ∀ c ∈ l, p c = true) :
    l.takeWhile p = l := by
  induction l with
  | nil => rfl
  | cons a t ih =>
    have ha := h a (List.mem_cons_self a t)
    rw [List.takeWhile_cons, ha, if_pos rfl, ih (fun c hc => h c (List.mem_cons_of_mem a hc))]

/-- A line that holds neither a newline nor a NUL before the newline that ends
it and that fits the buffer is stored whole by `fgets`, which does not run
into the end of the input. -/
theorem fgets_line (s : String) (hn : '\n' ∉ s.data) (h0 : Char.ofNat 0 ∉ s.data)
    (hl : s.length < maxBufferSize - 1) :
    fgets (s ++ "\n") = s ++ "\n" ∧ hit_eof (s ++ "\n") = false := by
  have hd : (s ++ "\n").data = s.data ++ ['\n'] := by rw [String.data_append]
  have hp : ∀ c ∈ s.data, (fun c : Char => decide (c ≠ '\n')) c = true := by
    intro c hc
    simp only [decide_eq_true_eq]
    intro e
    exact hn (e ▸ hc)
  have hchunk : fgets_chars (maxBufferSize - 1) (s ++ "\n").data = s.data ++ ['\n'] := by
    unfold fgets_chars
    rw [hd, takeWhile_append_stop _ _ _ hp (by simp), dropWhile_append_stop _ _ _ hp (by simp)]
    apply List.take_of_length_le
    simp only [List.take, List.length_append, List.length_cons, List.length_nil]
    have : s.data.length = s.length := rfl
    omega
  constructor
  · unfold fgets c_string
    rw [hchunk, takeWhile_all]
    · rw [← hd]
    · intro c hc
      simp only [decide_eq_true_eq]
      rcases List.mem_append.mp hc with h | h
      · intro e
        exact h0 (e ▸ h)
      · simp at h
        subst h
        decide
  · unfold hit_eof
    rw [hchunk]
    simp

theorem remove_newline_line (s : String) : remove_newline (s ++ "\n") = some s := by
  unfold remove_newline
  have h1 : (s ++ "\n").data = s.data ++ ['\n'] := by rw [String.data_append]
  have h2 : (s ++ "\n").length ≠ 0 := by
    rw [String.length_append]
    exact Nat.succ_ne_zero _
  rw [if_neg]
  · rw [h1, List.dropLast_concat]
  · rw [h1]
    intro h
    rcases h with h | h
    · exact h2 h
    · simp at h

theorem validate_line_line (s : String) :
    validate_line (s ++ "\n") = .ok (if has_valid_tokens s then 0 else -1, s) := by
  unfold validate_line
  have h2 : (s ++ "\n").length ≠ 0 := by
    rw [String.length_append]
    exact Nat.succ_ne_zero _
  rw [if_neg h2, remove_newline_line]
  cases h : has_valid_tokens s <;> simp [h]

/-- A malformed move token has the code of `error command`. -/
theorem dispatch_move_malformed (fuel : Nat) (r : Resources) (c : Nat) (t : String)
    (ht : ¬ (valid_move_length t.length = true ∧ str_is_alnum t = true)) :
    dispatch fuel r c ["move", t] = .ok (r, errorCommand) := by
  unfold dispatch respond_medium_input
  have : (!(valid_move_length t.length && str_is_alnum t)) = true := by
    cases h1 : valid_move_length t.length <;> cases h2 : str_is_alnum t <;> simp_all
  simp [shortLine, mediumLine, longLine, this]

theorem error_code_move_malformed (fuel : Nat) (r : Resources) (c : Nat) (token : String)
    (ht : ¬ (valid_move_length token.length = true ∧ str_is_alnum token = true))
    (hn : '\n' ∉ token.data) (h0 : Char.ofNat 0 ∉ token.data)
    (hl : token.length + 5 < maxBufferSize - 1) :
    error_code fuel r c ("move " ++ token ++ "\n") = .ok (r, errorCommand)
      ∧ hit_eof ("move " ++ token ++ "\n") = false := by
  have hd : ("move " ++ token).data = 'm' :: 'o' :: 'v' :: 'e' :: ' ' :: token.data := by
    simp [String.data_append]
  have hf := fgets_line ("move " ++ token)
    (by rw [hd]; simp only [List.mem_cons]; rintro (h | h | h | h | h | h) <;>
          first | exact hn h | exact absurd h (by decide))
    (by rw [hd]; simp only [List.mem_cons]; rintro (h | h | h | h | h | h) <;>
          first | exact h0 h | exact absurd h (by decide))
    (by
      have : ("move " ++ token).length = token.length + 5 := by
        rw [String.length_append]
        have : "move ".length = 5 := by decide
        omega
      omega)
  refine ⟨?_, hf.2⟩
  unfold error_code
  rw [hf.1, validate_line_line]
  simp only []
  unfold run_line
  by_cases hv : has_valid_tokens ("move " ++ token) = true
  · rw [if_pos hv, if_neg (by decide)]
    unfold split_by_char
    rw [hd, split_chars_move]
    cases hs : split_chars ' ' token.data with
    | nil => exact absurd hs (split_chars_ne_nil _ _)
    | cons f fs =>
      cases fs with
      | nil =>
        have := split_chars_single ' ' _ _ hs
        subst this
        exact dispatch_move_malformed fuel r c token ht
      | cons f2 fs2 =>
        unfold dispatch
        cases fs2 with
        | nil => simp [shortLine, mediumLine, longLine]
        | cons f3 fs3 => simp [shortLine, mediumLine, longLine]
  · rw [if_neg hv]
    simp

/-- A malformed move token in a line that `fgets` stores whole: for every
`move <token>` line whose token has a length outside 4..5 or contains a
character that is not alphanumeric, holds no newline and no NUL, and fits the
buffer, and for every state of the server, if the sender's stream accepts the
reply then the round returns the state as it was but for the log of writes to
clients, which gains the one line `error command` to the sender: nothing is
written to the engine and no client or game record changes. -/
theorem malformed_move_error_command (fuel : Nat) (r : Resources) (c : Nat) (token : String)
    (ht : ¬ (valid_move_length token.length = true ∧ str_is_alnum token = true))
    (hn : '\n' ∉ token.data) (h0 : Char.ofNat 0 ∉ token.data)
    (hl : token.length + 5 < maxBufferSize - 1)
    (hw : (r.clients c).writeFails = false) :
    client_command fuel r c ("move " ++ token ++ "\n")
      = .ok { r with toClients := r.toClients ++ [(c, "error command\n")] } := by
  rw [client_command_of_code (error_code_move_malformed fuel r c token ht hn h0 hl).1]
  obtain ⟨text, _, h1, _, _, h2⟩ := send_response_writes r c errorCommand hw (Or.inl rfl)
  rw [h1 rfl] at h2
  exact h2

theorem malformed_move_error_command_example :
    ¬ (valid_move_length "e2".length = true ∧ str_is_alnum "e2" = true)
      ∧ client_command 2 (humanGameState false []) 0 ("move " ++ "e2" ++ "\n")
        = .ok { humanGameState false [] with
                toClients := (humanGameState false []).toClients ++ [(0, "error command\n")] } :=
  ⟨by decide, malformed_move_error_command 2 (humanGameState false []) 0 "e2" (by decide)
    (by decide) (by decide) (by decide) rfl⟩

/-- C11 fails when the reply cannot be written, and for a line that `fgets`
does not store whole.  With clients 0 and 1 playing each other and the stream
of client 0 failing every write, `move e2` from client 0 has the code of
`error command` with the state untouched, but the write of that reply fails:
`write_to_client` ends the game as a resignation of client 0, so the opponent
is sent `gameover resignation black` and the game is no longer in progress,
`end_game` removes client 0, whose own `gameover` write fails too, and
`write_to_client` removes it a second time: the server stops in the second
`fclose`.  And a `move` line whose token holds a NUL character is cut there by
the string functions, so that `validate_line` finds no newline at its end and
stops the server with its diagnostic. -/
theorem malformed_move_broken_sender :
    ¬ (valid_move_length "e2".length = true ∧ str_is_alnum "e2" = true)
      ∧ error_code 2 (humanGameState true []) 0 "move e2\n"
          = .ok (humanGameState true [], errorCommand)
      ∧ (∃ r1, end_game (humanGameState true []) 0 (some 0) .resignation = .ok r1
          ∧ r1.toClients = [(1, "gameover resignation black\n")]
          ∧ (r1.games 0).inProgress = false
          ∧ (r1.clients 0).assigned = false
          ∧ remove_client r1 0 = .error .crash)
      ∧ client_command 2 (humanGameState true []) 0 "move e2\n" = .error .crash
      ∧ client_command 2 (humanGameState false []) 0 "move a\x00b\n"
          = .error (.bug "Line should end with newline\n") :=
  ⟨by decide, rfl, ⟨_, rfl, by decide, by decide, by decide, rfl⟩, rfl, rfl⟩

/-! ## Ending a game -/

theorem players_slot (g : Game) (i p : Nat) (h : g.players i = some p) : i = 0 ∨ i = 1 := by
  unfold Game.players at h
  by_cases h0 : i = 0
  · exact Or.inl h0
  · by_cases h1 : i = 1
    · exact Or.inr h1
    · simp [h0, h1] at h

theorem mem_gameoverWrites (r : Resources) (g : Nat) (msg : String) (i p : Nat)
    (h : (r.games g).players i = some p) (hw : (r.clients p).writeFails = false) :
    (p, msg) ∈ gameoverWrites r g msg := by
  unfold gameoverWrites
  simp only [List.mem_map, List.mem_filter, List.mem_filterMap]
  refine ⟨p, ⟨⟨i, ?_, h⟩, by simp [hw]⟩, rfl⟩
  rcases players_slot _ i p h with e | e <;> simp [e]

/-- The `gameover` line of a resignation by the client of slot `i`. -/
theorem end_game_msg_resignation (gm : Game) (c i : Nat) (hi : gm.players i = some c)
    (hd : gm.players 0 ≠ gm.players 1) :
    end_game_msg gm (some c) .resignation
      = if i = 0 then "gameover resignation black\n" else "gameover resignation white\n" := by
  rcases players_slot gm i c hi with e | e
  · subst e
    simp [end_game_msg, end_game_winner, hi, Colour.lnot, get_result_name]
  · subst e
    have h0 : gm.players 0 ≠ some c := fun h => hd (h.trans hi.symm)
    simp [end_game_msg, end_game_winner, hi, h0, Colour.lnot, get_result_name]

theorem client_command_resign (fuel : Nat) (r : Resources) (c g : Nat)
    (hg : (r.clients c).game = some g) :
    client_command fuel r c "resign\n" = end_game r g (some c) .resignation := by
  have hf : fgets "resign\n" = "resign\n" := by decide
  have he : hit_eof "resign\n" = false := by decide
  have hv : validate_line "resign\n" = .ok (0, "resign") := rfl
  have hs : split_by_char "resign" ' ' = ["resign"] := rfl
  unfold client_command
  rw [he, hf, hv]
  simp only [Bool.false_eq_true, if_false]
  unfold run_line
  rw [if_neg (by decide), hs]
  unfold dispatch respond_short_input
  simp only [List.length_cons, List.length_nil, shortLine, List.headD_cons, hg]
  cases end_game r g (some c) .resignation with
  | error e => rfl
  | ok r1 => rfl

/-! ## Resignation and disconnection -/

/-- A line of `gameoverWrites` goes to a player whose stream accepts it. -/
theorem writeFails_of_mem_gameoverWrites (r : Resources) (g : Nat) (msg : String) (p : Nat)
    (h : (p, msg) ∈ gameoverWrites r g msg) : (r.clients p).writeFails = false := by
  unfold gameoverWrites at h
  simp only [List.mem_map, List.mem_filter, List.mem_filterMap] at h
  obtain ⟨q, ⟨_, hq⟩, e⟩ := h
  cases e
  simpa using hq

/-- An iteration of the second loop of `end_game` for a player whose failing
write raises SIGPIPE ends in `engine_failure`. -/
theorem end_game_notify_sigpipe (msg : String) (g : Nat) (r : Resources) (i p : Nat)
    (hp : (r.games g).players i = some p) (hw : (r.clients p).writeFails = true)
    (hs : (r.clients p).sigpipe = true) :
    end_game_notify msg g r i = .error engine_failure := by
  unfold end_game_notify
  rw [hp]
  simp only []
  rcases try_to_write_cases (r.setClient p
      { r.clients p with lastGameFen := some (r.games g).fenBoardState, game := none })
      p msg with ⟨h1, _⟩ | ⟨_, h1, _⟩ | ⟨_, _, h2⟩
  · simp [Resources.setClient, hw] at h1
  · simp [Resources.setClient, hs] at h1
  · rw [h2]

/-- An iteration of the second loop of `end_game` for a slot whose player, if
any, sits in an occupied client slot returns or ends in `engine_failure`. -/
theorem end_game_notify_occupied (msg : String) (g : Nat) (r : Resources) (i : Nat)
    (ha : ∀ p, (r.games g).players i = some p → (r.clients p).assigned = true) :
    (∃ r', end_game_notify msg g r i = .ok r')
      ∨ end_game_notify msg g r i = .error engine_failure := by
  unfold end_game_notify
  cases hp : (r.games g).players i with
  | none => exact Or.inl ⟨r, rfl⟩
  | some p =>
    simp only []
    rcases try_to_write_cases (r.setClient p
        { r.clients p with lastGameFen := some (r.games g).fenBoardState, game := none })
        p msg with ⟨_, h2⟩ | ⟨_, _, h2⟩ | ⟨_, _, h2⟩
    · rw [h2]
      exact Or.inl ⟨_, rfl⟩
    · rw [h2]
      simp only []
      rcases remove_client_cases (r.setClient p
        { r.clients p with lastGameFen := some (r.games g).fenBoardState, game := none })
        p with ⟨_, h4⟩ | ⟨h5, _⟩
      · rw [h4]
        exact Or.inl ⟨_, rfl⟩
      · have := ha p hp
        simp [Resources.setClient] at h5
        rw [h5] at this
        cases this
    · rw [h2]
      exact Or.inr rfl

/-- When the players of the game sit in occupied client slots and the failing
write to one of them raises SIGPIPE, `end_game` ends in `engine_failure`. -/
theorem end_game_sigpipe (r : Resources) (g : Nat) (client : Option Nat) (result : GameResult)
    (ha : ∀ j p, (r.games g).players j = some p → (r.clients p).assigned = true)
    (hs : ∃ j p, (r.games g).players j = some p ∧ (r.clients p).writeFails = true
      ∧ (r.clients p).sigpipe = true) :
    end_game r g client result = .error engine_failure := by
  obtain ⟨j, p, hp, hw, hsp⟩ := hs
  unfold end_game
  simp only []
  rcases end_game_notify_occupied (end_game_msg (r.games g) client result) g r 0
      (fun q hq => ha 0 q hq) with ⟨r1, h1⟩ | h1
  · rw [h1]
    simp only []
    have k1 := keeps_end_game_notify h1
    rcases players_index hp with e | e
    · subst e
      rw [end_game_notify_sigpipe _ g r 0 p hp hw hsp] at h1
      cases h1
    · subst e
      rw [end_game_notify_sigpipe _ g r1 1 p ((k1.players g 1).trans hp)
        ((k1.writeFails p).trans hw) ((k1.sigpipe p).trans hsp)]
  · rw [h1]

/-- C16, amended: a `resign` command from a client `c` that has a game `g` and
sits in slot `i` of it, the human players of the game sitting in occupied
client slots, ends that game at once unless a failing write raises SIGPIPE.
When no failing write to a player raises SIGPIPE, the round returns; the game
is no longer in progress; the game reference of every human player of the game
is cleared; nothing is written to the engine; the log of writes to clients
gains exactly the line `gameover resignation <colour>`, with the colour
opposite to slot `i`, once for each human player whose stream accepts the
write, so every such player is sent it, also when the other slot is empty (the
opponent is the computer), and its client slot stays occupied; a player whose
stream fails the write is sent nothing and its client slot is freed.  When the
failing write to a player raises SIGPIPE, the server ends in
`engine_failure`. -/
theorem resign_command_ends_game (fuel : Nat) (r : Resources) (c g i : Nat)
    (hg : (r.clients c).game = some g) (hi : (r.games g).players i = some c)
    (hd : (r.games g).players 0 ≠ (r.games g).players 1)
    (ha : ∀ j p, (r.games g).players j = some p → (r.clients p).assigned = true) :
    ((∀ j p, (r.games g).players j = some p → (r.clients p).writeFails = true →
          (r.clients p).sigpipe = false) →
        ∃ r' msg, client_command fuel r c "resign\n" = .ok r'
          ∧ msg = (if i = 0 then "gameover resignation black\n"
                   else "gameover resignation white\n")
          ∧ (r'.games g).inProgress = false
          ∧ (∀ j p, (r.games g).players j = some p → (r'.clients p).game = none)
          ∧ r'.toClients = r.toClients ++ gameoverWrites r g msg
          ∧ (∀ j p, (r.games g).players j = some p → (r.clients p).writeFails = false →
              (p, msg) ∈ gameoverWrites r g msg ∧ (r'.clients p).assigned = true)
          ∧ (∀ j p, (r.games g).players j = some p → (r.clients p).writeFails = true →
              (p, msg) ∉ gameoverWrites r g msg ∧ (r'.clients p).assigned = false)
          ∧ r'.toEngine = r.toEngine ∧ r'.fromEngine = r.fromEngine)
      ∧ ((∃ j p, (r.games g).players j = some p ∧ (r.clients p).writeFails = true
            ∧ (r.clients p).sigpipe = true) →
          client_command fuel r c "resign\n" = .error engine_failure) := by
  constructor
  · intro hns
    obtain ⟨r', hr⟩ := end_game_returns r g (some c) .resignation
      (fun j p hp hw => ⟨hns j p hp hw, ha j p hp⟩)
      (fun p h0 h1 => absurd (h0.trans h1.symm) hd)
    have he := ended_end_game hr
    rw [end_game_msg_resignation (r.games g) c i hi hd] at he
    refine ⟨r', _, (client_command_resign fuel r c g hg).trans hr, rfl, ?_, ?_, he.log, ?_, ?_,
      he.toEngine, he.fromEngine⟩
    · rw [he.game]
    · intro j p hj
      rw [he.players j p hj]
    · intro j p hj hw
      refine ⟨mem_gameoverWrites r g _ j p hj hw, ?_⟩
      rw [he.players j p hj]
      simp [hw, ha j p hj]
    · intro j p hj hw
      refine ⟨fun hm => ?_, ?_⟩
      · rw [writeFails_of_mem_gameoverWrites r g _ p hm] at hw
        cases hw
      · rw [he.players j p hj]
        simp [hw]
  · intro hs
    rw [client_command_resign fuel r c g hg]
    exact end_game_sigpipe r g (some c) .resignation ha hs

theorem resign_command_ends_game_witness :
    ∃ r' msg, client_command 2 (humanGameState false []) 1 "resign\n" = .ok r'
      ∧ msg = "gameover resignation white\n"
      ∧ (r'.games 0).inProgress = false
      ∧ (r'.clients 0).game = none ∧ (r'.clients 1).game = none
      ∧ r'.toClients = gameoverWrites (humanGameState false []) 0 msg
      ∧ (0, msg) ∈ gameoverWrites (humanGameState false []) 0 msg
      ∧ (1, msg) ∈ gameoverWrites (humanGameState false []) 0 msg
      ∧ (r'.clients 0).assigned = true := by
  have ha : ∀ j p, ((humanGameState false []).games 0).players j = some p →
      ((humanGameState false []).clients p).assigned = true := by
    intro j p hp
    rcases players_index hp with e | e <;> subst e <;> cases hp <;> rfl
  have hns : ∀ j p, ((humanGameState false []).games 0).players j = some p →
      ((humanGameState false []).clients p).writeFails = true →
      ((humanGameState false []).clients p).sigpipe = false := by
    intro j p hp
    rcases players_index hp with e | e <;> subst e <;> cases hp <;> intro _ <;> rfl
  obtain ⟨r', msg, h1, h2, h3, h4, h5, h6, _, _, _⟩ :=
    (resign_command_ends_game 2 (humanGameState false []) 1 0 1 rfl rfl (by decide) ha).1 hns
  exact ⟨r', msg, h1, h2, h3, h4 0 0 rfl, h4 1 1 rfl, h5, (h6 0 0 rfl rfl).1,
    (h6 1 1 rfl rfl).1, (h6 0 0 rfl rfl).2⟩

/-- C16 fails as stated for a player whose stream is broken: with clients 0
(white, its stream failing every write without a signal) and 1 (black) playing
each other, `resign` from client 1 ends the game, but the only line written is
the one to client 1; client 0, a human player of the game, is sent nothing and
its slot is freed. -/
theorem resign_command_broken_opponent :
    ∃ r', client_command 2 (humanGameState true []) 1 "resign\n" = .ok r'
      ∧ ((humanGameState true []).games 0).players 0 = some 0
      ∧ ((humanGameState true []).clients 0).writeFails = true
      ∧ (r'.games 0).inProgress = false
      ∧ r'.toClients = [(1, "gameover resignation white\n")]
      ∧ (r'.clients 0).assigned = false :=
  ⟨_, rfl, by decide, by decide, by decide, by decide, by decide⟩

theorem resign_remove_client_in_game (r : Resources) (c g : Nat)
    (hg : (r.clients c).game = some g) (hp : (r.games g).inProgress = true) :
    resign_remove_client r c
      = match end_game r g (some c) .resignation with
        | .error e => .error e
        | .ok r1 => remove_client r1 c := by
  unfold resign_remove_client
  rw [hg]
  simp only [hp, if_true]

theorem resign_remove_client_no_game (r : Resources) (c : Nat)
    (hg : (r.clients c).game = none) : resign_remove_client r c = remove_client r c := by
  unfold resign_remove_client
  simp [hg]

/-- C17, amended: when a connected client `c`, in slot `i` of its game `g` that
is in progress, disconnects and the streams of `c` and of the human opponent
`o` both accept the write of the `gameover` line (it is written to the leaving
client too), the call returns, the opponent is sent
`gameover resignation <opponent's own colour>`, the game is no longer in
progress, the opponent's game reference is cleared and the slot of `c` is
freed, with the log of writes gaining exactly the `gameover` lines of
`gameoverWrites`; and when the disconnecting client has no game, nothing but
the occupancy flag of its own slot changes. -/
theorem disconnect_resigns_game (r : Resources) (c : Nat)
    (hc : (r.clients c).assigned = true) :
    (∀ g i o, (r.clients c).game = some g → (r.games g).inProgress = true →
        (r.games g).players i = some c → (r.games g).players (1 - i) = some o → o ≠ c →
        (r.clients c).writeFails = false → (r.clients o).writeFails = false →
        ∃ r' msg, resign_remove_client r c = .ok r'
          ∧ msg = (if i = 0 then "gameover resignation black\n"
                   else "gameover resignation white\n")
          ∧ r'.toClients = r.toClients ++ gameoverWrites r g msg
          ∧ (o, msg) ∈ gameoverWrites r g msg
          ∧ (r'.games g).inProgress = false
          ∧ (r'.clients o).game = none
          ∧ (r'.clients c).assigned = false)
    ∧ ((r.clients c).game = none →
        resign_remove_client r c
          = .ok { r with clients := fun j =>
                if j = c then { r.clients c with assigned := false } else r.clients j }) := by
  constructor
  · intro g i o hg hp hi ho hne hwc hwo
    have hd : (r.games g).players 0 ≠ (r.games g).players 1 := by
      rcases players_slot _ i c hi with e | e
      · subst e
        intro h
        rw [hi] at h
        rw [show (1 - 0 : Nat) = 1 from rfl, ← h] at ho
        exact hne (Option.some.inj ho).symm
      · subst e
        intro h
        rw [hi] at h
        rw [show (1 - 1 : Nat) = 0 from rfl, h] at ho
        exact hne (Option.some.inj ho).symm
    have hw : ∀ j p, (r.games g).players j = some p → (r.clients p).writeFails = false := by
      intro j p hj
      have : p = c ∨ p = o := by
        rcases players_slot _ i c hi with e | e <;> rcases players_slot _ j p hj with e' | e' <;>
          subst e <;> subst e'
        · exact Or.inl (Option.some.inj (hj.symm.trans hi))
        · exact Or.inr (Option.some.inj (hj.symm.trans ho))
        · exact Or.inr (Option.some.inj (hj.symm.trans ho))
        · exact Or.inl (Option.some.inj (hj.symm.trans hi))
      rcases this with e | e <;> subst e <;> assumption
    obtain ⟨r1, hr⟩ := end_game_accepts r g (some c) .resignation hw
    have he := ended_end_game hr
    rw [end_game_msg_resignation (r.games g) c i hi hd] at he
    have hc1 : (r1.clients c).assigned = true := by
      rw [he.players i c hi]
      simp [hc, hwc]
    refine ⟨r1.setClient c { r1.clients c with assigned := false }, _, ?_, rfl, he.log,
      mem_gameoverWrites r g _ _ o ho hwo, ?_, ?_, ?_⟩
    · rw [resign_remove_client_in_game r c g hg hp, hr]
      simp only []
      unfold remove_client
      rw [if_pos hc1]
    · show (r1.games g).inProgress = false
      rw [he.game]
    · show (if o = c then _ else r1.clients o).game = none
      rw [if_neg hne, he.players _ o ho]
    · simp [Resources.setClient]
  · intro hg
    rw [resign_remove_client_no_game r c hg]
    unfold remove_client
    rw [if_pos hc]
    rfl

/-- C17 fails as stated for an opponent whose stream is broken: with clients 0
(white, its stream failing every write without a signal) and 1 (black) playing
each other, the disconnection of client 1 ends the game, but the human
opponent, client 0, is sent nothing and its slot is freed; the only line
written is the one to the leaving client. -/
theorem disconnect_broken_opponent :
    ((humanGameState true []).clients 1).game = some 0
      ∧ ((humanGameState true []).games 0).inProgress = true
      ∧ ((humanGameState true []).games 0).players 0 = some 0
      ∧ ((humanGameState true []).clients 0).writeFails = true
      ∧ ∃ r', resign_remove_client (humanGameState true []) 1 = .ok r'
          ∧ r'.toClients = [(1, "gameover resignation white\n")]
          ∧ (r'.clients 0).assigned = false
          ∧ (r'.clients 1).assigned = false :=
  ⟨by decide, by decide, by decide, by decide, _, rfl, by decide, by decide, by decide⟩

/-- C18 fails for a client that has no game: client 1 of `brokenRequesterState`
is connected, has no game and its stream is broken.  Its disconnection only
frees its slot, but a write to it, such as the `error game` reply to its
`resign` command, dereferences the null game pointer in `end_game` and the
server crashes. -/
theorem write_failure_without_game_crashes :
    (brokenRequesterState.clients 1).game = none
      ∧ (brokenRequesterState.clients 1).writeFails = true
      ∧ write_to_client brokenRequesterState 1 "error game\n" = .error .crash
      ∧ client_command 2 brokenRequesterState 1 "resign\n" = .error .crash
      ∧ resign_remove_client brokenRequesterState 1 = remove_client brokenRequesterState 1
      ∧ ∃ r', resign_remove_client brokenRequesterState 1 = .ok r'
          ∧ (r'.clients 1).assigned = false :=
  ⟨rfl, rfl, rfl, rfl, rfl, _, rfl, rfl⟩

/-- A write that fails without a signal, to a client with no game, stops the
server, for every state. -/
theorem write_to_client_broken_no_game (r : Resources) (c : Nat) (msg : String)
    (hw : (r.clients c).writeFails = true) (hs : (r.clients c).sigpipe = false)
    (hg : (r.clients c).game = none) :
    write_to_client r c msg = .error .crash := by
  simp [write_to_client, try_to_write, hw, hs, hg]

theorem disconnect_resigns_game_witness :
    ∃ r' msg, resign_remove_client (humanGameState false []) 1 = .ok r'
      ∧ msg = "gameover resignation white\n"
      ∧ r'.toClients = gameoverWrites (humanGameState false []) 0 msg
      ∧ (0, msg) ∈ gameoverWrites (humanGameState false []) 0 msg
      ∧ (r'.games 0).inProgress = false
      ∧ (r'.clients 0).game = none
      ∧ (r'.clients 1).assigned = false := by
  obtain ⟨r', msg, h0, h1, h2, h3, h4, h5, h6⟩ :=
    (disconnect_resigns_game (humanGameState false []) 1 rfl).1 0 1 0 rfl rfl rfl rfl
      (by decide) rfl rfl
  exact ⟨r', msg, h0, h1, h2, h3, h4, h5, h6⟩

theorem dispatch_precedence_witness :
    dispatch 2 lateRequestState 0 ["move", "e2e4"] = .ok (lateRequestState, errorGame)
      ∧ dispatch 2 (humanGameState false []) 1 ["move", "e7e5"]
          = .ok (humanGameState false [], errorTurn) :=
  ⟨(dispatch_precedence 2 lateRequestState 0).2.1 "e2e4" (by decide) (by decide) rfl,
   (dispatch_precedence 2 (humanGameState false []) 1).2.2.1 "e7e5" 0 (by decide) (by decide)
      rfl (by decide)⟩

/-! ## The depth of the move recursion -/

theorem keeps_notify {r r' : Resources} {o : Option Nat} {msg : String} {n : Int}
    (h : notify r o msg = .ok (r', n)) : Keeps r r' := by
  cases o with
  | none =>
    cases h
    exact Keeps.same r
  | some c => exact keeps_write_to_client h

theorem keeps_send_check {r r' : Resources} {g i : Nat} (h : send_check r g i = .ok r') :
    Keeps r r' := by
  unfold send_check at h
  cases hp : (r.games g).players i with
  | none =>
    rw [hp] at h
    cases h
    exact Keeps.same r
  | some p =>
    rw [hp] at h
    simp only [] at h
    cases hw : write_to_client r p "check\n" with
    | error e =>
      rw [hw] at h
      cases h
    | ok x =>
      obtain ⟨r1, n⟩ := x
      rw [hw] at h
      cases h
      exact keeps_write_to_client hw

theorem move_outcome_players {r r' : Resources} {g : Nat} {o : Option Nat} {c : Bool}
    (h : move_outcome r g o c = .ok r') (i : Nat) :
    (r'.games g).players i = (r.games g).players i := by
  unfold move_outcome at h
  simp only [bind, Except.bind] at h
  cases h1 : try_to_write_engine r goPerft1 with
  | none =>
    rw [h1] at h
    cases h
  | some r1 =>
    rw [h1] at h
    simp only [] at h
    cases h2 : read_stockfish_go_perft_1_output r1 with
    | none =>
      rw [h2] at h
      cases h
    | some x =>
      obtain ⟨ms, r2⟩ := x
      rw [h2] at h
      simp only [] at h
      have k2 := (try_to_write_engine_only h1).next (read_go_perft_only h2)
      have key : ∀ r3, Keeps r2 r3 →
          ((r3.setGame g { r3.games g with turn := (r3.games g).turn.lnot }).games g).players i
            = (r.games g).players i := by
        intro r3 k3
        rw [← k2.1, ← k3.players g i]
        simp [Resources.setGame, Game.players]
      by_cases hl : ms.length = 0
      · by_cases hc : c = true
        · simp only [hl, hc, if_true] at h
          cases he : end_game r2 g o .checkmate with
          | error e =>
            rw [he] at h
            cases h
          | ok r3 =>
            rw [he] at h
            cases h
            exact key _ (keeps_end_game he)
        · simp only [hl, hc, if_true, if_false] at h
          cases he : end_game r2 g none .stalemate with
          | error e =>
            rw [he] at h
            cases h
          | ok r3 =>
            rw [he] at h
            cases h
            exact key _ (keeps_end_game he)
      · by_cases hc : c = true
        · simp only [hl, hc, if_true, if_false] at h
          cases h3 : send_check r2 g 0 with
          | error e =>
            rw [h3] at h
            cases h
          | ok r3 =>
            rw [h3] at h
            simp only [] at h
            cases h4 : send_check r3 g 1 with
            | error e =>
              rw [h4] at h
              cases h
            | ok r4 =>
              rw [h4] at h
              cases h
              exact key _ ((keeps_send_check h3).andThen (keeps_send_check h4))
        · simp only [hl, hc, if_false] at h
          cases h
          exact key _ (Keeps.same r2)

/-- In a game with one empty slot whose mover is a client, the empty slot is
the opponent's. -/
theorem opponent_slot_empty (gm : Game) (t : Colour)
    (h : game_is_against_computer gm = .ok true)
    (hm : gm.players t.toNat ≠ none) : gm.players t.lnot.toNat = none := by
  unfold game_is_against_computer at h
  have h2 : gm.players 2 = none := rfl
  by_cases h0 : gm.players 0 = none <;> by_cases h1 : gm.players 1 = none <;>
    simp only [h0, h1, and_self, and_true, and_false, ne_eq, not_true_eq_false,
      not_false_eq_true, if_true, if_false, reduceCtorEq, Except.ok.injEq,
      Bool.false_eq_true] at h <;>
    cases t <;>
    simp only [Colour.toNat, Colour.lnot, h0, h1, h2, ne_eq, not_true_eq_false] at hm ⊢

/-- The function `move_accepted` either never calls `computer_move`, or calls
it once as its last step, for a client mover whose opponent slot is empty and
a game still in progress. -/
theorem move_accepted_calls (move : String) (g : Nat) (movingClient opponent : Option Nat)
    (r : Resources) (st : StockfishGameState)
    (hmv : movingClient = (r.games g).players (r.games g).turn.toNat)
    (hop : opponent = (r.games g).players (r.games g).turn.lnot.toNat) :
    (∃ res, ∀ cm, move_accepted cm move g movingClient opponent r st = res)
      ∨ (∃ r1, movingClient ≠ none ∧ opponent = none ∧ (r1.games g).inProgress = true
          ∧ ∀ cm, move_accepted cm move g movingClient opponent r st = cm r1 g) := by
  simp only [move_accepted, bind, Except.bind]
  have hp0 : ∀ i, ((r.setGame g { r.games g with fenBoardState := st.fenString }).games g).players i
      = (r.games g).players i := by
    intro i
    simp [Resources.setGame, Game.players]
  have ht0 : ((r.setGame g { r.games g with fenBoardState := st.fenString }).games g).turn
      = (r.games g).turn := by
    simp [Resources.setGame]
  generalize r.setGame g { r.games g with fenBoardState := st.fenString } = r1 at hp0 ht0
  cases h1 : notify r1 movingClient "ok\n" with
  | error e => exact Or.inl ⟨_, fun _ => rfl⟩
  | ok x =>
    obtain ⟨r2, ret1⟩ := x
    have k1 := keeps_notify h1
    simp only []
    by_cases hr1 : ret1 = -1
    · simp only [hr1, if_true]
      exact Or.inl ⟨_, fun _ => rfl⟩
    · simp only [hr1, if_false]
      cases h2 : notify r2 opponent ("moved " ++ move ++ "\n") with
      | error e => exact Or.inl ⟨_, fun _ => rfl⟩
      | ok y =>
        obtain ⟨r3, ret2⟩ := y
        have k2 := keeps_notify h2
        simp only []
        by_cases hr2 : ret2 = -1
        · simp only [hr2, if_true]
          exact Or.inl ⟨_, fun _ => rfl⟩
        · simp only [hr2, if_false]
          cases h3 : move_outcome r3 g opponent st.checkers.isSome with
          | error e => exact Or.inl ⟨_, fun _ => rfl⟩
          | ok r4 =>
            simp only []
            by_cases hm : movingClient = none
            · simp only [hm, ne_eq, not_true_eq_false, if_false]
              exact Or.inl ⟨_, fun _ => rfl⟩
            · simp only [ne_eq, hm, not_false_eq_true, if_true]
              cases h4 : game_is_against_computer (r4.games g) with
              | error e => exact Or.inl ⟨_, fun _ => rfl⟩
              | ok ac =>
                simp only []
                by_cases hc : (ac && (r4.games g).inProgress) = true
                · simp only [hc, if_true]
                  refine Or.inr ⟨r4, trivial, ?_, ?_, fun _ => rfl⟩
                  · have hp : ∀ i, (r4.games g).players i = (r.games g).players i := by
                      intro i
                      rw [move_outcome_players h3 i, k2.players g i, k1.players g i, hp0 i]
                    simp only [Bool.and_eq_true] at hc
                    rw [hc.1] at h4
                    rw [hop, ← hp]
                    refine opponent_slot_empty _ _ h4 ?_
                    rw [hp, ← hmv]
                    exact hm
                  · simp at hc
                    exact hc.2
                · simp only [hc, if_false]
                  exact Or.inl ⟨_, fun _ => rfl⟩

/-- The body of `make_move` either never calls `computer_move`, or calls it
once as its last step, for a client mover whose opponent slot is empty and a
game still in progress. -/
theorem make_move_body_calls (r : Resources) (g : Nat) (move : String) :
    (∃ res, ∀ cm, make_move_body cm r g move = res)
      ∨ (∃ r1, (r.games g).players (r.games g).turn.toNat ≠ none
          ∧ (r.games g).players (r.games g).turn.lnot.toNat = none
          ∧ (r1.games g).inProgress = true
          ∧ ∀ cm, make_move_body cm r g move = cm r1 g) := by
  simp only [make_move_body, bind, Except.bind]
  rcases engine_new_game_cases r with ⟨r1, h1, k1⟩ | h1
  · rw [h1]
    simp only []
    cases hw : try_to_write_engine r1 _ with
    | none => exact Or.inl ⟨_, fun _ => rfl⟩
    | some r2 =>
      have k2 := k1.next (try_to_write_engine_only hw)
      simp only []
      cases hr : read_stockfish_d_output r2 with
      | none => exact Or.inl ⟨_, fun _ => rfl⟩
      | some x =>
        obtain ⟨st, r3⟩ := x
        have k3 := k2.next (read_d_output_only hr)
        simp only []
        by_cases ha : st.fenString = (r3.games g).fenBoardState
        · simp only [ha, ne_eq, not_true_eq_false, if_false]
          exact Or.inl ⟨_, fun _ => rfl⟩
        · simp only [ha, ne_eq, not_false_eq_true, if_true]
          have h := move_accepted_calls move g _ _ r3 st rfl rfl
          rw [k3.1] at h ⊢
          exact h
  · rw [h1]
    exact Or.inl ⟨_, fun _ => rfl⟩

/-- A move of the computer (the slot of the side to move is empty) never calls
`computer_move`. -/
theorem make_move_body_computer (r : Resources) (g : Nat) (move : String)
    (h : (r.games g).players (r.games g).turn.toNat = none)
    (cm cm' : Resources → Nat → Except Halt Resources) :
    make_move_body cm r g move = make_move_body cm' r g move := by
  rcases make_move_body_calls r g move with ⟨res, hres⟩ | ⟨r1, hm, _⟩
  · rw [hres cm, hres cm']
  · exact absurd h hm

/-- A move in a game whose opponent slot holds a client never calls
`computer_move`. -/
theorem make_move_body_human_opponent (r : Resources) (g : Nat) (move : String)
    (h : (r.games g).players (r.games g).turn.lnot.toNat ≠ none)
    (cm cm' : Resources → Nat → Except Halt Resources) :
    make_move_body cm r g move = make_move_body cm' r g move := by
  rcases make_move_body_calls r g move with ⟨res, hres⟩ | ⟨r1, _, ho, _⟩
  · rw [hres cm, hres cm']
  · exact absurd ho h

theorem computer_move_body_budget (fuel : Nat) (r : Resources) (g : Nat) :
    computer_move_body (make_move (fuel + 1)) r g = computer_move_body (make_move 1) r g := by
  unfold computer_move_body
  split
  · rfl
  · rename_i hc
    have hc' : (r.games g).players (r.games g).turn.toNat = none := by
      by_contra hx
      exact hc (fun h => hx h.1)
    rcases best_move_cases r g with ⟨bm, r1, h1, k1⟩ | h1 | h1
    · rw [h1]
      simp only []
      rw [make_move, make_move]
      exact make_move_body_computer r1 g bm (by rw [k1.1]; exact hc') _ _
    · rw [h1]
    · rw [h1]

/-- A recursion budget of two is as good as any larger one. -/
theorem make_move_budget (fuel : Nat) (r : Resources) (g : Nat) (move : String) :
    make_move (fuel + 2) r g move = make_move 2 r g move := by
  rw [make_move, make_move]
  have h : computer_move_body (make_move (fuel + 1)) = computer_move_body (make_move 1) :=
    funext fun r => funext fun g => computer_move_body_budget fuel r g
  rw [h]

/-- C19: the recursion `make_move` / `move_accepted` / `computer_move` ends
with one automatic move per human move.  A budget of two nested `make_move`
calls is never exhausted and gives the result of every larger budget.  The
body of `make_move` either never calls `computer_move` or calls it exactly
once, as its last step, and then the mover is a client, the opponent slot is
empty and the game is still in progress.  It is never called when the mover
is the computer, nor in a game with two clients.  After an accepted move of a
client in a game with an empty slot, with the engine answering and the streams
accepting the writes, it is called exactly once when the position has legal
replies (the game goes on), on a state in which the computer is to move, and
not at all when there are none (the move ended the game). -/
theorem make_move_one_automatic_move (r : Resources) (g : Nat) (move : String) :
    (∀ fuel, make_move (fuel + 2) r g move = make_move 2 r g move
        ∧ make_move (fuel + 2) r g move ≠ .error .fuel)
    ∧ ((∃ res, ∀ cm, make_move_body cm r g move = res)
        ∨ (∃ r1, (r.games g).players (r.games g).turn.toNat ≠ none
            ∧ (r.games g).players (r.games g).turn.lnot.toNat = none
            ∧ (r1.games g).inProgress = true
            ∧ ∀ cm, make_move_body cm r g move = cm r1 g))
    ∧ ((r.games g).players (r.games g).turn.toNat = none →
        ∃ res, ∀ cm, make_move_body cm r g move = res)
    ∧ ((r.games g).players 0 ≠ none → (r.games g).players 1 ≠ none →
        ∃ res, ∀ cm, make_move_body cm r g move = res)
    ∧ (∀ (st : StockfishGameState) (ms : List String) (rest : List EngineReply),
        r.engineWriteFails = false →
        r.fromEngine = .line "readyok\n" :: .dOutput st :: .moves ms :: rest →
        st.fenString ≠ (r.games g).fenBoardState →
        (∀ i m, (r.games g).players i = some m → (r.clients m).writeFails = false) →
        (r.games g).players (r.games g).turn.toNat ≠ none →
        (r.games g).players (r.games g).turn.lnot.toNat = none →
        (r.games g).inProgress = true →
        ∃ r1, Moved r r1 g st ms rest
          ∧ (ms ≠ [] → (r1.games g).inProgress = true
              ∧ (r1.games g).players (r1.games g).turn.toNat = none
              ∧ (∀ cm, make_move_body cm r g move = cm r1 g)
              ∧ ∀ fuel, make_move (fuel + 1) r g move = computer_move fuel r1 g)
          ∧ (ms = [] → (r1.games g).inProgress = false
              ∧ ∀ cm, make_move_body cm r g move = .ok r1)) := by
  refine ⟨?_, make_move_body_calls r g move, ?_, ?_, ?_⟩
  · intro fuel
    refine ⟨make_move_budget fuel r g move, fun h => ?_⟩
    have hg := good_make_move fuel r g move
    rw [h] at hg
    exact hg rfl
  · intro hm
    rcases make_move_body_calls r g move with h | ⟨r1, hm1, _⟩
    · exact h
    · exact absurd hm hm1
  · intro h0 h1
    rcases make_move_body_calls r g move with h | ⟨r1, _, ho, _⟩
    · exact h
    · exfalso
      cases ht : (r.games g).turn <;> simp only [ht, Colour.lnot, Colour.toNat] at ho
      · exact h1 ho
      · exact h0 ho
      · exact h0 ho
  · intro st ms rest hE hR hfen hw hm ho hp
    have hstep := fun cm => make_move_accept_step cm r g move st ms rest hE hR hfen hw
    by_cases hms : ms = []
    · obtain ⟨r1, hmv, e1⟩ := hstep (fun _ _ => .error .fuel)
      have hend := hmv.ends hms
      refine ⟨r1, hmv, fun h => absurd hms h, fun _ => ⟨hend, fun cm => ?_⟩⟩
      simp only [hend, Bool.false_eq_true, and_false, if_false] at e1
      rcases make_move_body_calls r g move with ⟨res, hres⟩ | ⟨r2, _, _, _, hcall⟩
      · rw [hres cm, ← hres (fun _ _ => .error .fuel), e1]
      · rw [hcall] at e1
        cases e1
    · obtain ⟨r1, hmv, e1⟩ := hstep (fun r _ => .ok r)
      have hgo : (r1.games g).inProgress = true := (hmv.continues hms).trans hp
      simp only [hm, ho, hgo, ne_eq, not_false_eq_true, and_self, if_true] at e1
      have hcalls : ∀ cm, make_move_body cm r g move = cm r1 g := by
        rcases make_move_body_calls r g move with ⟨res, hres⟩ | ⟨r2, _, _, _, hcall⟩
        · exfalso
          obtain ⟨r3, hmv3, e3⟩ := hstep (fun _ _ => .error .crash)
          have hgo3 : (r3.games g).inProgress = true := (hmv3.continues hms).trans hp
          simp only [hm, ho, hgo3, ne_eq, not_false_eq_true, and_self, if_true] at e3
          rw [hres] at e1 e3
          rw [e1] at e3
          cases e3
        · intro cm
          rw [hcall] at e1
          cases e1
          exact hcall cm
      refine ⟨r1, hmv, fun _ => ⟨hgo, ?_, hcalls, fun fuel => ?_⟩, fun h => absurd h hms⟩
      · have hp1 : ∀ i, (r1.games g).players i = (r.games g).players i := by
          intro i
          unfold Game.players
          rw [hmv.player0, hmv.player1]
        rw [hp1, hmv.turn]
        exact ho
      · rw [make_move]
        exact hcalls _

theorem make_move_one_automatic_move_witness :
    ∃ r1, (r1.games 0).inProgress = true
      ∧ (r1.games 0).players (r1.games 0).turn.toNat = none
      ∧ (∀ cm, make_move_body cm (computerGameState acceptingReplies) 0 "e2e4" = cm r1 0)
      ∧ ∀ fuel, make_move (fuel + 1) (computerGameState acceptingReplies) 0 "e2e4"
          = computer_move fuel r1 0 := by
  obtain ⟨r1, _, h, _⟩ :=
    (make_move_one_automatic_move (computerGameState acceptingReplies) 0 "e2e4").2.2.2.2
      { fenString := afterE4Fen, boardString := "", checkers := none } ["e7e5", "d7d5"]
      [ .line "readyok\n", .moves ["e7e5"], .line "readyok\n",
        .dOutput { fenString := afterE4E5Fen, boardString := "", checkers := none },
        .moves ["g1f3", "d2d4"] ]
      rfl rfl (by decide)
      (fun i m h => by
        rcases players_cases _ i m h with h | h
        · have e : some 0 = some m := h
          cases e
          rfl
        · cases h)
      (by decide) rfl rfl
  exact ⟨r1, h (by decide)⟩

/-! ## The `board` query -/

theorem respond_board_shows (r : Resources) (c : Nat) (fen : String) (st : StockfishGameState)
    (rest : List EngineReply) (hf : shownPosition r c = some fen)
    (hE : r.engineWriteFails = false)
    (hR : r.fromEngine = .line "readyok\n" :: .dOutput st :: rest)
    (hw : (r.clients c).writeFails = false) :
    respond_board r c = .ok (boardShown r c fen st.boardString rest, 0) := by
  unfold shownPosition at hf
  unfold respond_board
  rw [hf]
  simp only [bind, Except.bind, set_position_no_move]
  rw [engine_new_game_ready r _ hE hR]
  simp [try_to_write_engine, hE, read_stockfish_d_output, write_to_client, try_to_write, hw,
    boardShown, boardRequests]

theorem client_command_board (fuel : Nat) (r : Resources) (c : Nat) (fen : String)
    (st : StockfishGameState) (rest : List EngineReply) (hf : shownPosition r c = some fen)
    (hE : r.engineWriteFails = false)
    (hR : r.fromEngine = .line "readyok\n" :: .dOutput st :: rest)
    (hw : (r.clients c).writeFails = false) :
    client_command fuel r c "board\n" = .ok (boardShown r c fen st.boardString rest) := by
  have h : error_code fuel r c "board\n" = .ok (boardShown r c fen st.boardString rest, 0) := by
    have hf' : fgets "board\n" = "board\n" := by decide
    have hv : validate_line "board\n" = .ok (0, "board") := rfl
    have hs : split_by_char "board" ' ' = ["board"] := rfl
    unfold error_code
    rw [hf', hv]
    simp only []
    unfold run_line
    rw [if_neg (by decide), hs]
    unfold dispatch respond_short_input
    simp [shortLine, respond_board_shows r c fen st rest hf hE hR hw, bind, Except.bind]
  rw [client_command_of_code h]
  rfl

/-- The `board` query twice: a `board` query whose reply is written successfully changes
no client or game record.  For every state in which client `c` has a position
to show, with an engine that answers the two queries and streams that accept
the replies, two consecutive `board` commands from `c` both return, leave
every client and game record as it was, each send the same three requests with
the same position encoding to the engine, and, when the engine reports the
same board both times, write the identical `startboard ... endboard` text. -/
theorem board_twice (fuel : Nat) (r : Resources) (c : Nat) (fen : String)
    (st1 st2 : StockfishGameState) (rest : List EngineReply)
    (hf : shownPosition r c = some fen) (hE : r.engineWriteFails = false)
    (hR : r.fromEngine
      = .line "readyok\n" :: .dOutput st1 :: .line "readyok\n" :: .dOutput st2 :: rest)
    (hw : (r.clients c).writeFails = false) (hsame : st1.boardString = st2.boardString) :
    ∃ ra rb text, client_command fuel r c "board\n" = .ok ra
      ∧ client_command fuel ra c "board\n" = .ok rb
      ∧ ra.clients = r.clients ∧ ra.games = r.games
      ∧ rb.clients = r.clients ∧ rb.games = r.games
      ∧ ra.toEngine = r.toEngine ++ boardRequests fen
      ∧ rb.toEngine = ra.toEngine ++ boardRequests fen
      ∧ text = "startboard\n" ++ st1.boardString ++ "endboard\n"
      ∧ ra.toClients = r.toClients ++ [(c, text)]
      ∧ rb.toClients = ra.toClients ++ [(c, text)] := by
  have h1 := client_command_board fuel r c fen st1 _ hf hE hR hw
  have h2 := client_command_board fuel
    (boardShown r c fen st1.boardString (.line "readyok\n" :: .dOutput st2 :: rest)) c fen st2
    rest hf hE rfl hw
  refine ⟨_, _, _, h1, h2, rfl, rfl, rfl, rfl, rfl, rfl, rfl, rfl, ?_⟩
  rw [hsame]
  rfl

theorem board_twice_witness :
    ∃ ra rb text,
      client_command 2
          (humanGameState false
            [ .line "readyok\n",
              .dOutput { fenString := startFen, boardString := " +---+\n", checkers := none },
              .line "readyok\n",
              .dOutput { fenString := startFen, boardString := " +---+\n", checkers := none } ])
          0 "board\n" = .ok ra
      ∧ client_command 2 ra 0 "board\n" = .ok rb
      ∧ rb.toEngine = boardRequests startFen ++ boardRequests startFen
      ∧ text = "startboard\n" ++ " +---+\n" ++ "endboard\n"
      ∧ rb.toClients = [(0, text), (0, text)] := by
  obtain ⟨ra, rb, text, h1, h2, _, _, _, _, h3, h4, h5, h6, h7⟩ :=
    board_twice 2
      (humanGameState false
        [ .line "readyok\n",
          .dOutput { fenString := startFen, boardString := " +---+\n", checkers := none },
          .line "readyok\n",
          .dOutput { fenString := startFen, boardString := " +---+\n", checkers := none } ])
      0 startFen
      { fenString := startFen, boardString := " +---+\n", checkers := none }
      { fenString := startFen, boardString := " +---+\n", checkers := none } [] rfl rfl rfl rfl rfl
  refine ⟨ra, rb, text, h1, h2, ?_, h5, ?_⟩
  · rw [h4, h3]
    rfl
  · rw [h7, h6]
    rfl

/-- The state `gameEnded` is one that `end_game` may leave. -/
theorem ended_gameEnded (r : Resources) (g : Nat) (msg : String) :
    Ended r (gameEnded r g msg) g msg where
  game := by simp [gameEnded]
  otherGames := fun g' hg => by simp [gameEnded, hg]
  players := fun i p hp => by
    have hq : (r.games g).players 0 = some p ∨ (r.games g).players 1 = some p := by
      rcases players_index hp with h0 | h0
      · subst h0; exact Or.inl hp
      · subst h0; exact Or.inr hp
    simp only [gameEnded, hq, if_true]
  others := fun q hq => by
    have hn : ¬ ((r.games g).players 0 = some q ∨ (r.games g).players 1 = some q) := by
      rintro (h | h)
      · exact hq 0 h
      · exact hq 1 h
    simp only [gameEnded, hn, if_false]
  log := rfl
  engineWriteFails := rfl
  toEngine := rfl
  fromEngine := rfl

/-- A state that `end_game` leaves is the state `gameEnded` describes. -/
theorem gameEnded_of_ended {r r' : Resources} {g : Nat} {msg : String} (h : Ended r r' g msg) :
    r' = gameEnded r g msg := by
  obtain ⟨games, clients, ewf, te, fe, tc⟩ := r'
  have h1 := h.game
  have h2 := h.otherGames
  have h3 := h.players
  have h4 := h.others
  have h5 := h.log
  have h6 := h.engineWriteFails
  have h7 := h.toEngine
  have h8 := h.fromEngine
  simp only at h1 h2 h3 h4 h5 h6 h7 h8
  unfold gameEnded
  congr 1
  · funext j
    by_cases hj : j = g
    · subst hj; simp only [if_true]; exact h1
    · simp only [hj, if_false]; exact h2 j hj
  · funext q
    by_cases hq : (r.games g).players 0 = some q ∨ (r.games g).players 1 = some q
    · simp only [hq, if_true]
      rcases hq with hq | hq
      · exact h3 0 q hq
      · exact h3 1 q hq
    · simp only [hq, if_false]
      apply h4
      intro i hi
      rcases players_index hi with h0 | h0
      · subst h0; exact hq (Or.inl hi)
      · subst h0; exact hq (Or.inr hi)

/-- When every player's stream accepts the write, `end_game` returns the state
`gameEnded`. -/
theorem end_game_explicit (r : Resources) (g : Nat) (client : Option Nat) (result : GameResult)
    (hw : ∀ i p, (r.games g).players i = some p → (r.clients p).writeFails = false) :
    end_game r g client result = .ok (gameEnded r g (end_game_msg (r.games g) client result)) := by
  obtain ⟨r', h⟩ := end_game_accepts r g client result hw
  rw [h, gameEnded_of_ended (ended_end_game h)]

theorem notify_explicit (r : Resources) (o : Option Nat) (msg : String)
    (hw : ∀ m, o = some m → (r.clients m).writeFails = false) :
    notify r o msg
      = .ok ({ r with toClients := r.toClients ++ (o.map fun m => (m, msg)).toList }, 0) := by
  cases o with
  | none => simp [notify]
  | some m => simp [notify, write_to_client_writes r m msg (hw m rfl)]

theorem send_check_explicit (r : Resources) (g i : Nat)
    (hw : ∀ m, (r.games g).players i = some m → (r.clients m).writeFails = false) :
    send_check r g i
      = .ok { r with toClients := r.toClients
                ++ (((r.games g).players i).map fun p => (p, "check\n")).toList } := by
  unfold send_check
  cases hp : (r.games g).players i with
  | none => simp
  | some p =>
    simp only []
    rw [write_to_client_writes r p _ (hw p hp)]
    simp

theorem send_checks (r : Resources) (g : Nat)
    (hw : ∀ i m, (r.games g).players i = some m → (r.clients m).writeFails = false) :
    (send_check r g 0 >>= fun r3 => send_check r3 g 1)
      = .ok { r with toClients := r.toClients ++ checkWrites r g } := by
  rw [send_check_explicit r g 0 (hw 0)]
  simp only [bind, Except.bind]
  rw [send_check_explicit
    { r with toClients := r.toClients
        ++ (((r.games g).players 0).map fun p => (p, "check\n")).toList } g 1
    (fun m hm => hw 1 m hm)]
  simp only [checkWrites]
  cases h0 : (r.games g).players 0 <;> cases h1 : (r.games g).players 1 <;> simp [h0, h1]

/-- The last step of `move_accepted`: the computer is asked for its reply
exactly when the mover is a client, the opponent slot is empty and the game is
still in progress. -/
theorem move_tail (cm : Resources → Nat → Except Halt Resources) (r r4 : Resources) (g : Nat)
    (movingClient opponent : Option Nat)
    (hmv : movingClient = (r.games g).players (r.games g).turn.toNat)
    (hop : opponent = (r.games g).players (r.games g).turn.lnot.toNat)
    (hp : ∀ i, (r4.games g).players i = (r.games g).players i) :
    (if movingClient ≠ none then
        (game_is_against_computer (r4.games g) >>= fun againstComputer =>
          if (againstComputer && (r4.games g).inProgress) = true then cm r4 g else .ok r4)
      else .ok r4)
      = if movingClient ≠ none ∧ opponent = none ∧ (r4.games g).inProgress = true
        then cm r4 g else .ok r4 := by
  cases hm : movingClient with
  | none => simp
  | some m =>
    have hmv' := hmv
    rw [hm] at hmv'
    unfold game_is_against_computer
    rw [hp 0, hp 1]
    simp only [bind, Except.bind]
    cases ht : (r.games g).turn with
    | white =>
      rw [ht] at hmv' hop
      simp only [Colour.toNat, Colour.lnot] at hmv' hop
      rw [← hmv', ← hop]
      cases opponent <;> simp
    | black =>
      rw [ht] at hmv' hop
      simp only [Colour.toNat, Colour.lnot] at hmv' hop
      rw [← hmv', ← hop]
      cases opponent <;> simp
    | unspecified =>
      rw [ht] at hmv'
      simp [Colour.toNat, Game.players] at hmv'

theorem move_outcome_explicit (r : Resources) (g : Nat) (opponent : Option Nat)
    (inCheck : Bool) (ms : List String) (rest : List EngineReply)
    (hE : r.engineWriteFails = false) (hR : r.fromEngine = .moves ms :: rest)
    (hw : ∀ i m, (r.games g).players i = some m → (r.clients m).writeFails = false) :
    move_outcome r g opponent inCheck
      = .ok (flipTurn
          (outcomeOf { r with toEngine := r.toEngine ++ [goPerft1], fromEngine := rest }
            g opponent inCheck ms) g) := by
  unfold move_outcome
  rw [try_to_write_engine_ok r _ hE]
  simp only [bind, Except.bind]
  rw [read_go_perft_moves { r with toEngine := r.toEngine ++ [goPerft1] } ms rest hR]
  simp only []
  by_cases hms : ms = []
  · subst hms
    simp only [List.length_nil, if_true, outcomeOf]
    by_cases hc : inCheck = true
    · simp only [hc, if_true]
      rw [end_game_explicit
        { r with toEngine := r.toEngine ++ [goPerft1], fromEngine := rest } g opponent .checkmate
        hw]
      rfl
    · simp only [hc, if_false]
      rw [end_game_explicit
        { r with toEngine := r.toEngine ++ [goPerft1], fromEngine := rest } g none .stalemate hw]
      rfl
  · have hlen : ¬ ms.length = 0 := fun h => hms (List.length_eq_zero.mp h)
    simp only [hlen, hms, if_false, outcomeOf]
    by_cases hc : inCheck = true
    · simp only [hc, if_true]
      have h := send_checks { r with toEngine := r.toEngine ++ [goPerft1], fromEngine := rest } g
        hw
      simp only [bind, Except.bind] at h
      generalize send_check _ g 0 = x at h ⊢
      cases x with
      | error e => cases h
      | ok r3 =>
        simp only [] at h ⊢
        rw [h]
        rfl
    · simp only [hc, if_false]
      rfl

theorem notified_game (r : Resources) (g : Nat) (move : String) (st : StockfishGameState)
    (rest : List EngineReply) :
    (notified r g move st rest).games g = { r.games g with fenBoardState := st.fenString } := by
  simp [notified]

theorem gameoverWrites_notified (r : Resources) (g : Nat) (move : String)
    (st : StockfishGameState) (rest : List EngineReply) (msg : String) :
    gameoverWrites (notified r g move st rest) g msg = gameoverWrites r g msg := by
  unfold gameoverWrites
  rw [notified_game]
  rfl

theorem checkWrites_notified (r : Resources) (g : Nat) (move : String)
    (st : StockfishGameState) (rest : List EngineReply) :
    checkWrites (notified r g move st rest) g = checkWrites r g := by
  unfold checkWrites
  rw [notified_game]
  rfl

/-- The state `afterMove` when the new position has no legal reply: the game is
ended from the notified state, then the turn is flipped. -/
theorem afterMove_ended (r : Resources) (g : Nat) (move : String) (st : StockfishGameState)
    (rest : List EngineReply) :
    ∃ re, afterMove r g move st [] rest = flipTurn re g
      ∧ Ended (notified r g move st rest) re g
          (if st.checkers.isSome then
            end_game_msg (r.games g) ((r.games g).players (r.games g).turn.lnot.toNat) .checkmate
          else "gameover stalemate\n") := by
  unfold afterMove outcomeOf
  simp only [if_true]
  cases hc : st.checkers.isSome
  · refine ⟨_, rfl, ?_⟩
    have h := ended_gameEnded (notified r g move st rest) g
      (end_game_msg ((notified r g move st rest).games g) none .stalemate)
    have hm : end_game_msg ((notified r g move st rest).games g) none .stalemate
        = "gameover stalemate\n" := by
      simp [end_game_msg, get_result_name]
    rw [hm] at h
    simpa using h
  · refine ⟨_, rfl, ?_⟩
    have h := ended_gameEnded (notified r g move st rest) g
      (end_game_msg (r.games g) ((r.games g).players (r.games g).turn.lnot.toNat) .checkmate)
    rw [if_pos rfl, if_pos rfl, notified_game]
    exact h

/-- The state `afterMove` when the new position has legal replies. -/
theorem afterMove_continues (r : Resources) (g : Nat) (move : String)
    (st : StockfishGameState) (ms : List String) (rest : List EngineReply) (hms : ms ≠ []) :
    afterMove r g move st ms rest
      = flipTurn { notified r g move st rest with
          toClients := (notified r g move st rest).toClients
            ++ if st.checkers.isSome then checkWrites r g else [] } g := by
  unfold afterMove outcomeOf
  simp only [hms, if_false]
  cases hc : st.checkers.isSome
  · simp
  · simp [checkWrites_notified]

theorem flipTurn_game (r : Resources) (g : Nat) :
    (flipTurn r g).games g = { r.games g with turn := (r.games g).turn.lnot } := by
  simp [flipTurn, Resources.setGame]

theorem afterMove_players (r : Resources) (g : Nat) (move : String) (st : StockfishGameState)
    (ms : List String) (rest : List EngineReply) (i : Nat) :
    ((afterMove r g move st ms rest).games g).players i = (r.games g).players i := by
  by_cases hms : ms = []
  · subst hms
    obtain ⟨re, e, he⟩ := afterMove_ended r g move st rest
    rw [e, flipTurn_game, he.game, notified_game]
    rfl
  · rw [afterMove_continues r g move st ms rest hms, flipTurn_game]
    simp only [notified, if_true]
    rfl

/-- An accepted move whose writes all succeed: `move_accepted` reaches the
state `afterMove`, then asks the computer for its reply or returns. -/
theorem move_accepted_explicit (cm : Resources → Nat → Except Halt Resources) (move : String)
    (g : Nat) (r : Resources) (st : StockfishGameState) (ms : List String)
    (rest : List EngineReply)
    (hE : r.engineWriteFails = false) (hR : r.fromEngine = .moves ms :: rest)
    (hw : ∀ i m, (r.games g).players i = some m → (r.clients m).writeFails = false) :
    move_accepted cm move g ((r.games g).players (r.games g).turn.toNat)
        ((r.games g).players (r.games g).turn.lnot.toNat) r st
      = if (r.games g).players (r.games g).turn.toNat ≠ none
            ∧ (r.games g).players (r.games g).turn.lnot.toNat = none
            ∧ ((afterMove r g move st ms rest).games g).inProgress = true
        then cm (afterMove r g move st ms rest) g else .ok (afterMove r g move st ms rest) := by
  have hgp : ∀ i, ({ r.games g with fenBoardState := st.fenString } : Game).players i
      = (r.games g).players i := fun i => rfl
  unfold move_accepted
  simp only [bind, Except.bind]
  rw [notify_explicit (r.setGame g { r.games g with fenBoardState := st.fenString })
    ((r.games g).players (r.games g).turn.toNat) "ok\n" (fun m hm => hw _ m hm)]
  simp only []
  rw [if_neg (by decide)]
  generalize hA : ({ r.setGame g { r.games g with fenBoardState := st.fenString } with
    toClients := (r.setGame g { r.games g with fenBoardState := st.fenString }).toClients
      ++ (((r.games g).players (r.games g).turn.toNat).map fun m => (m, "ok\n")).toList }
      : Resources) = ra
  have hAc : ra.clients = r.clients := by rw [← hA]; rfl
  rw [notify_explicit ra
    ((r.games g).players (r.games g).turn.lnot.toNat) ("moved " ++ move ++ "\n")
    (fun m hm => by rw [hAc]; exact hw _ m hm)]
  simp only []
  rw [if_neg (by decide)]
  generalize hB : ({ ra with toClients := ra.toClients
      ++ (((r.games g).players (r.games g).turn.lnot.toNat).map
          fun m => (m, "moved " ++ move ++ "\n")).toList } : Resources) = rb
  have hBg : rb.games g = { r.games g with fenBoardState := st.fenString } := by
    rw [← hB, ← hA]
    simp [Resources.setGame]
  rw [move_outcome_explicit rb g _ st.checkers.isSome ms rest
    (by rw [← hB, ← hA]; exact hE) (by rw [← hB, ← hA]; exact hR)
    (fun i m hm => by
      rw [hBg] at hm
      rw [← hB, ← hA]
      exact hw i m hm)]
  simp only []
  have hN : ({ rb with toEngine := rb.toEngine ++ [goPerft1], fromEngine := rest } : Resources)
      = notified r g move st rest := by
    rw [← hB, ← hA]
    simp only [notified, moveNotes, Resources.setGame, List.append_assoc]
  rw [hN]
  have hst : flipTurn (outcomeOf (notified r g move st rest) g
      ((r.games g).players (r.games g).turn.lnot.toNat) st.checkers.isSome ms) g
      = afterMove r g move st ms rest := rfl
  rw [hst]
  exact move_tail cm r (afterMove r g move st ms rest) g _ _ rfl rfl
    (afterMove_players r g move st ms rest)

/-- The record of game `g` in the state `afterMove`. -/
theorem afterMove_game (r : Resources) (g : Nat) (move : String) (st : StockfishGameState)
    (ms : List String) (rest : List EngineReply) :
    (afterMove r g move st ms rest).games g
      = { r.games g with
          fenBoardState := st.fenString, turn := (r.games g).turn.lnot,
          inProgress := if ms = [] then false else (r.games g).inProgress } := by
  by_cases hms : ms = []
  · subst hms
    obtain ⟨re, e, he⟩ := afterMove_ended r g move st rest
    rw [e, flipTurn_game, he.game, notified_game]
    rfl
  · rw [afterMove_continues r g move st ms rest hms, flipTurn_game]
    simp [notified, hms]

theorem afterMove_engine (r : Resources) (g : Nat) (move : String) (st : StockfishGameState)
    (ms : List String) (rest : List EngineReply) :
    (afterMove r g move st ms rest).engineWriteFails = r.engineWriteFails
      ∧ (afterMove r g move st ms rest).toEngine = r.toEngine ++ [goPerft1]
      ∧ (afterMove r g move st ms rest).fromEngine = rest := by
  by_cases hms : ms = []
  · subst hms
    obtain ⟨re, e, he⟩ := afterMove_ended r g move st rest
    rw [e]
    exact ⟨he.engineWriteFails, he.toEngine, he.fromEngine⟩
  · rw [afterMove_continues r g move st ms rest hms]
    exact ⟨rfl, rfl, rfl⟩

theorem afterMove_log (r : Resources) (g : Nat) (move : String) (st : StockfishGameState)
    (ms : List String) (rest : List EngineReply) :
    (afterMove r g move st ms rest).toClients
      = r.toClients ++ moveNotes r g move
        ++ if ms = [] then
            gameoverWrites r g
              (if st.checkers.isSome then
                end_game_msg (r.games g) ((r.games g).players (r.games g).turn.lnot.toNat)
                  .checkmate
              else "gameover stalemate\n")
          else if st.checkers.isSome then checkWrites r g else [] := by
  by_cases hms : ms = []
  · subst hms
    obtain ⟨re, e, he⟩ := afterMove_ended r g move st rest
    rw [e]
    simp only [if_true]
    show re.toClients = _
    rw [he.log, gameoverWrites_notified]
    rfl
  · rw [afterMove_continues r g move st ms rest hms]
    simp only [hms, if_false]
    rfl

theorem afterMove_clients_continue (r : Resources) (g : Nat) (move : String)
    (st : StockfishGameState) (ms : List String) (rest : List EngineReply) (hms : ms ≠ []) :
    (afterMove r g move st ms rest).clients = r.clients := by
  rw [afterMove_continues r g move st ms rest hms]
  rfl

theorem afterMove_clients_ended (r : Resources) (g : Nat) (move : String)
    (st : StockfishGameState) (rest : List EngineReply) (i p : Nat)
    (hp : (r.games g).players i = some p) :
    (afterMove r g move st [] rest).clients p
      = { r.clients p with
          game := none, lastGameFen := some st.fenString,
          assigned := (r.clients p).assigned && !(r.clients p).writeFails } := by
  obtain ⟨re, e, he⟩ := afterMove_ended r g move st rest
  rw [e]
  show re.clients p = _
  rw [he.players i p (by rw [notified_game]; exact hp), notified_game]
  rfl

/-- The winner named after a checkmate is the side that moved. -/
theorem end_game_msg_checkmate (gm : Game) (ht : gm.turn ≠ .unspecified)
    (hd : gm.players 0 ≠ gm.players 1) :
    end_game_msg gm (gm.players gm.turn.lnot.toNat) .checkmate
      = "gameover checkmate " ++ get_colour_name gm.turn ++ "\n" := by
  cases h : gm.turn with
  | white =>
    simp [end_game_msg, end_game_winner, Colour.lnot, Colour.toNat, get_result_name,
      get_colour_name, hd]
  | black =>
    simp [end_game_msg, end_game_winner, Colour.lnot, Colour.toNat, get_result_name,
      get_colour_name]
  | unspecified => exact absurd h ht

/-- An accepted move whose writes all succeed: `make_move` reaches the state
`afterMove`, then asks the computer for its reply or returns. -/
theorem make_move_accepted_state (fuel : Nat) (r : Resources) (g : Nat) (move : String)
    (st : StockfishGameState) (ms : List String) (rest : List EngineReply)
    (hE : r.engineWriteFails = false)
    (hR : r.fromEngine = .line "readyok\n" :: .dOutput st :: .moves ms :: rest)
    (hfen : st.fenString ≠ (r.games g).fenBoardState)
    (hw : ∀ i m, (r.games g).players i = some m → (r.clients m).writeFails = false) :
    make_move (fuel + 1) r g move
      = if (r.games g).players (r.games g).turn.toNat ≠ none
            ∧ (r.games g).players (r.games g).turn.lnot.toNat = none
            ∧ ((afterMove (queried r g move (.moves ms :: rest)) g move st ms rest).games
                g).inProgress = true
        then computer_move fuel
          (afterMove (queried r g move (.moves ms :: rest)) g move st ms rest) g
        else .ok (afterMove (queried r g move (.moves ms :: rest)) g move st ms rest) := by
  rw [make_move, make_move_body_accept _ r g move st _ hE hR hfen]
  exact move_accepted_explicit _ move g (queried r g move (.moves ms :: rest)) st ms rest hE rfl hw

/-- After an accepted move whose notifications are all written
successfully, the outcome follows the engine's legal replies `ms` and check
status at the new position.  The state `r1` that `make_move` reaches before it
returns or hands over to the computer has the log extended by `ok` and `moved`
and then: with no legal reply and in check, `gameover checkmate <colour of the
side that moved>` to every human player, the game no longer in progress; with
no legal reply and not in check, exactly `gameover stalemate` to every human
player, the game no longer in progress; with legal replies and in check,
`check` to every human player, the in-progress flag as it was; with legal
replies and not in check, nothing further, the in-progress flag as it was. -/
theorem accepted_move_outcome (fuel : Nat) (r : Resources) (g : Nat) (move : String)
    (st : StockfishGameState) (ms : List String) (rest : List EngineReply)
    (hE : r.engineWriteFails = false)
    (hR : r.fromEngine = .line "readyok\n" :: .dOutput st :: .moves ms :: rest)
    (hfen : st.fenString ≠ (r.games g).fenBoardState)
    (hw : ∀ i m, (r.games g).players i = some m → (r.clients m).writeFails = false)
    (ht : (r.games g).turn ≠ .unspecified)
    (hd : (r.games g).players 0 ≠ (r.games g).players 1) :
    ∃ r1, make_move (fuel + 1) r g move
        = (if (r.games g).players (r.games g).turn.toNat ≠ none
              ∧ (r.games g).players (r.games g).turn.lnot.toNat = none
              ∧ (r1.games g).inProgress = true
           then computer_move fuel r1 g else .ok r1)
      ∧ (ms = [] → st.checkers.isSome = true →
          r1.toClients = r.toClients ++ moveNotes r g move
            ++ gameoverWrites r g
                ("gameover checkmate " ++ get_colour_name (r.games g).turn ++ "\n")
          ∧ (∀ i p, (r.games g).players i = some p →
              (p, "gameover checkmate " ++ get_colour_name (r.games g).turn ++ "\n")
                ∈ gameoverWrites r g
                    ("gameover checkmate " ++ get_colour_name (r.games g).turn ++ "\n"))
          ∧ (r1.games g).inProgress = false)
      ∧ (ms = [] → st.checkers.isSome = false →
          r1.toClients = r.toClients ++ moveNotes r g move
            ++ gameoverWrites r g "gameover stalemate\n"
          ∧ (∀ i p, (r.games g).players i = some p →
              (p, "gameover stalemate\n") ∈ gameoverWrites r g "gameover stalemate\n")
          ∧ (r1.games g).inProgress = false)
      ∧ (ms ≠ [] → st.checkers.isSome = true →
          r1.toClients = r.toClients ++ moveNotes r g move ++ checkWrites r g
          ∧ (∀ i p, (r.games g).players i = some p → (p, "check\n") ∈ checkWrites r g)
          ∧ (r1.games g).inProgress = (r.games g).inProgress)
      ∧ (ms ≠ [] → st.checkers.isSome = false →
          r1.toClients = r.toClients ++ moveNotes r g move
          ∧ (r1.games g).inProgress = (r.games g).inProgress) := by
  refine ⟨_, make_move_accepted_state fuel r g move st ms rest hE hR hfen hw, ?_, ?_, ?_, ?_⟩
  · intro hms hc
    refine ⟨?_, fun i p hp => mem_gameoverWrites r g _ i p hp (hw i p hp), ?_⟩
    · rw [afterMove_log, if_pos hms, hc, if_pos rfl]
      show r.toClients ++ moveNotes r g move
        ++ gameoverWrites r g (end_game_msg (r.games g)
            ((r.games g).players (r.games g).turn.lnot.toNat) .checkmate) = _
      rw [end_game_msg_checkmate (r.games g) ht hd]
    · rw [afterMove_game, if_pos hms]
  · intro hms hc
    refine ⟨?_, fun i p hp => mem_gameoverWrites r g _ i p hp (hw i p hp), ?_⟩
    · rw [afterMove_log, if_pos hms, hc, if_neg (by decide)]
      rfl
    · rw [afterMove_game, if_pos hms]
  · intro hms hc
    refine ⟨?_, fun i p hp => ?_, ?_⟩
    · rw [afterMove_log, if_neg hms, hc, if_pos rfl]
      rfl
    · unfold checkWrites
      simp only [List.mem_map, List.mem_filterMap]
      refine ⟨p, ⟨i, ?_, hp⟩, rfl⟩
      rcases players_slot _ i p hp with e | e <;> simp [e]
    · rw [afterMove_game, if_neg hms]
      rfl
  · intro hms hc
    refine ⟨?_, ?_⟩
    · rw [afterMove_log, if_neg hms, hc, if_neg (by decide)]
      simp
      rfl
    · rw [afterMove_game, if_neg hms]
      rfl

theorem accepted_move_outcome_witness :
    ∃ r1, make_move 1
          (humanGameState false
            [ .line "readyok\n",
              .dOutput { fenString := afterE4Fen, boardString := "", checkers := some "e4" },
              .moves [] ])
          0 "e2e4" = .ok r1
      ∧ r1.toClients
          = [(0, "ok\n"), (1, "moved e2e4\n"), (0, "gameover checkmate white\n"),
              (1, "gameover checkmate white\n")]
      ∧ (r1.games 0).inProgress = false := by
  obtain ⟨r1, h1, h2, _⟩ :=
    accepted_move_outcome 0
      (humanGameState false
        [ .line "readyok\n",
          .dOutput { fenString := afterE4Fen, boardString := "", checkers := some "e4" },
          .moves [] ])
      0 "e2e4" { fenString := afterE4Fen, boardString := "", checkers := some "e4" } [] []
      rfl rfl (by decide)
      (fun i m h => by
        rcases players_cases _ i m h with h | h
        · have e : some 0 = some m := h
          cases e
          rfl
        · have e : some 1 = some m := h
          cases e
          rfl)
      (by decide) (by decide)
  obtain ⟨h3, _, h4⟩ := h2 rfl rfl
  rw [if_neg (fun h => absurd h.2.1 (by decide))] at h1
  refine ⟨r1, h1, ?_, h4⟩
  rw [h3]
  decide

/-- The position a player is shown after an accepted move is the new one,
whether the game goes on or the move ended it. -/
theorem shownPosition_afterMove (r : Resources) (g : Nat) (move : String)
    (st : StockfishGameState) (ms : List String) (rest : List EngineReply) (i p : Nat)
    (hp : (r.games g).players i = some p) (hg : (r.clients p).game = some g)
    (hl : (r.clients p).lastGameFen = none) (hpg : (r.games g).inProgress = true) :
    shownPosition (afterMove r g move st ms rest) p = some st.fenString := by
  unfold shownPosition
  by_cases hms : ms = []
  · subst hms
    rw [afterMove_clients_ended r g move st rest i p hp]
  · rw [afterMove_clients_continue r g move st ms rest hms, hl, hg]
    simp only []
    rw [afterMove_game]
    simp [hms, hpg]

theorem afterMove_writeFails (r : Resources) (g : Nat) (move : String)
    (st : StockfishGameState) (ms : List String) (rest : List EngineReply) (i p : Nat)
    (hp : (r.games g).players i = some p) :
    ((afterMove r g move st ms rest).clients p).writeFails = (r.clients p).writeFails := by
  by_cases hms : ms = []
  · subst hms
    rw [afterMove_clients_ended r g move st rest i p hp]
  · rw [afterMove_clients_continue r g move st ms rest hms]

/-- For every accepted move `move` in a game `g` of two clients,
the mover `m` and the opponent `o`, whose notifications are all written
successfully, `make_move` returns; the game's stored position is the encoding
`st.fenString` the engine reported; the log of writes gains `ok` to the mover,
then `moved <move>` to the opponent, and only then the `gameover` or `check`
lines of the outcome; and a following `board` command of either player, with
the engine answering, returns and sends the requests of `boardRequests` for
that new encoding to the engine. -/
theorem accepted_move_stored_and_shown (fuel : Nat) (r : Resources) (g : Nat) (move : String)
    (st : StockfishGameState) (ms : List String) (rest : List EngineReply) (m o : Nat)
    (hE : r.engineWriteFails = false)
    (hR : r.fromEngine = .line "readyok\n" :: .dOutput st :: .moves ms :: rest)
    (hfen : st.fenString ≠ (r.games g).fenBoardState)
    (hw : ∀ i p, (r.games g).players i = some p → (r.clients p).writeFails = false)
    (hm : (r.games g).players (r.games g).turn.toNat = some m)
    (ho : (r.games g).players (r.games g).turn.lnot.toNat = some o)
    (hgm : (r.clients m).game = some g) (hgo : (r.clients o).game = some g)
    (hlm : (r.clients m).lastGameFen = none) (hlo : (r.clients o).lastGameFen = none)
    (hp : (r.games g).inProgress = true) :
    ∃ r1, make_move (fuel + 1) r g move = .ok r1
      ∧ (r1.games g).fenBoardState = st.fenString
      ∧ r1.toClients
          = r.toClients ++ [(m, "ok\n"), (o, "moved " ++ move ++ "\n")]
            ++ (if ms = [] then
                gameoverWrites r g
                  (if st.checkers.isSome then end_game_msg (r.games g) (some o) .checkmate
                   else "gameover stalemate\n")
              else if st.checkers.isSome then checkWrites r g else [])
      ∧ ∀ (p : Nat) (st2 : StockfishGameState) (rest2 : List EngineReply),
          p = m ∨ p = o → rest = .line "readyok\n" :: .dOutput st2 :: rest2 →
          ∃ r2, client_command fuel r1 p "board\n" = .ok r2
            ∧ r2.toEngine = r1.toEngine ++ boardRequests st.fenString
            ∧ r2.toClients
                = r1.toClients ++ [(p, "startboard\n" ++ st2.boardString ++ "endboard\n")] := by
  have h1 := make_move_accepted_state fuel r g move st ms rest hE hR hfen hw
  rw [if_neg (fun h => by rw [ho] at h; exact absurd h.2.1 (by simp))] at h1
  refine ⟨_, h1, ?_, ?_, ?_⟩
  · rw [afterMove_game]
  · rw [afterMove_log]
    show r.toClients ++ moveNotes r g move ++ (if ms = [] then
        gameoverWrites r g (if st.checkers.isSome then
          end_game_msg (r.games g) ((r.games g).players (r.games g).turn.lnot.toNat) .checkmate
          else "gameover stalemate\n")
        else if st.checkers.isSome then checkWrites r g else []) = _
    rw [ho]
    simp [moveNotes, hm, ho]
  · intro p st2 rest2 hpm hrest
    have hslot : ∃ i, (r.games g).players i = some p
        ∧ (r.clients p).game = some g ∧ (r.clients p).lastGameFen = none := by
      rcases hpm with e | e
      · subst e
        exact ⟨_, hm, hgm, hlm⟩
      · subst e
        exact ⟨_, ho, hgo, hlo⟩
    obtain ⟨i, hi, hg, hl⟩ := hslot
    obtain ⟨e1, _, e3⟩ := afterMove_engine (queried r g move (.moves ms :: rest)) g move st ms rest
    refine ⟨_, client_command_board fuel _ p st.fenString st2 rest2
      (shownPosition_afterMove (queried r g move (.moves ms :: rest)) g move st ms rest i p hi
        hg hl hp)
      (e1.trans hE) (e3.trans hrest)
      ((afterMove_writeFails (queried r g move (.moves ms :: rest)) g move st ms rest i p
        hi).trans (hw i p hi)), rfl, rfl⟩

theorem accepted_move_stored_and_shown_witness :
    ∃ r1, make_move 3
          (humanGameState false
            [ .line "readyok\n",
              .dOutput { fenString := afterE4Fen, boardString := "", checkers := none },
              .moves ["e7e5"], .line "readyok\n",
              .dOutput { fenString := afterE4Fen, boardString := " +---+\n", checkers := none } ])
          0 "e2e4" = .ok r1
      ∧ (r1.games 0).fenBoardState = afterE4Fen
      ∧ r1.toClients = [(0, "ok\n"), (1, "moved e2e4\n")]
      ∧ ∃ r2, client_command 2 r1 1 "board\n" = .ok r2
          ∧ r2.toEngine = r1.toEngine ++ boardRequests afterE4Fen := by
  obtain ⟨r1, h1, h2, h3, h4⟩ :=
    accepted_move_stored_and_shown 2
      (humanGameState false
        [ .line "readyok\n",
          .dOutput { fenString := afterE4Fen, boardString := "", checkers := none },
          .moves ["e7e5"], .line "readyok\n",
          .dOutput { fenString := afterE4Fen, boardString := " +---+\n", checkers := none } ])
      0 "e2e4" { fenString := afterE4Fen, boardString := "", checkers := none } ["e7e5"]
      [ .line "readyok\n",
        .dOutput { fenString := afterE4Fen, boardString := " +---+\n", checkers := none } ]
      0 1 rfl rfl (by decide)
      (fun i p h => by
        rcases players_cases _ i p h with h | h
        · have e : some 0 = some p := h
          cases e
          rfl
        · have e : some 1 = some p := h
          cases e
          rfl)
      rfl rfl rfl rfl rfl rfl rfl
  obtain ⟨r2, h5, h6, _⟩ := h4 1
    { fenString := afterE4Fen, boardString := " +---+\n", checkers := none } [] (Or.inr rfl) rfl
  exact ⟨r1, h1, h2, h3, r2, h5, h6⟩

/-- C23 fails at the legal-move list of `respond_hint`: client 0 plays white
against the computer and asks `hint all`; the engine answers the handshake and
then sends something `read_stockfish_go_perft_1_output` cannot parse.  The
null result is not tested: `moves->numMoves` reads through it and the server
crashes instead of calling `engine_failure`.  The sibling branch `hint best`
does test the parser result and ends in `engine_failure`. -/
theorem respond_hint_uses_unparsed_response :
    ((computerGameState [.line "readyok\n", .unparsable]).clients 0).game = some 0
      ∧ read_stockfish_go_perft_1_output
          { computerGameState [.line "readyok\n", .unparsable] with
            fromEngine := [.unparsable] } = none
      ∧ respond_hint (computerGameState [.line "readyok\n", .unparsable]) 0 true
          = .error .crash
      ∧ client_command 2 (computerGameState [.line "readyok\n", .unparsable]) 0 "hint all\n"
          = .error .crash
      ∧ Halt.crash ≠ engine_failure
      ∧ respond_hint (computerGameState [.line "readyok\n", .unparsable]) 0 false
          = .error engine_failure :=
  ⟨rfl, rfl, rfl, rfl, by decide, rfl⟩

/-! ## The game table -/

/-- The scan of `get_unassigned_game` returns the lowest unoccupied slot of the
range it covers. -/
theorem get_unassigned_game_loop_spec (games : Nat → Game) :
    ∀ (n i g : Nat), get_unassigned_game_loop games n i = some g →
      i ≤ g ∧ g < i + n ∧ (games g).assigned = false
        ∧ ∀ k, i ≤ k → k < g → (games k).assigned = true := by
  intro n
  induction n with
  | zero =>
    intro i g h
    cases h
  | succ n ih =>
    intro i g h
    rw [get_unassigned_game_loop] at h
    cases ha : (games i).assigned
    · simp only [ha, Bool.not_false, if_true] at h
      cases h
      exact ⟨Nat.le_refl _, by omega, ha, fun k h1 h2 => by omega⟩
    · simp only [ha, Bool.not_true, Bool.false_eq_true, if_false] at h
      obtain ⟨h1, h2, h3, h4⟩ := ih (i + 1) g h
      refine ⟨by omega, by omega, h3, fun k hk1 hk2 => ?_⟩
      by_cases e : k = i
      · subst e
        exact ha
      · exact h4 k (by omega) hk2

theorem get_unassigned_game_spec (r : Resources) (g : Nat) (h : get_unassigned_game r = .ok g) :
    g < maxBufferSize ∧ (r.games g).assigned = false
      ∧ ∀ k, k < g → (r.games k).assigned = true := by
  unfold get_unassigned_game at h
  cases hl : get_unassigned_game_loop r.games maxBufferSize 0 with
  | none =>
    rw [hl] at h
    cases h
  | some g' =>
    rw [hl] at h
    cases h
    obtain ⟨_, h2, h3, h4⟩ := get_unassigned_game_loop_spec r.games _ 0 g hl
    exact ⟨by omega, h3, fun k hk => h4 k (Nat.zero_le k) hk⟩

/-- C26 fails on the freeing of game slots: `end_game` leaves the occupancy
flag of the game as it was, for every state, game, client and result from
which it returns; so
after client 1 of `humanGameState` resigns, game 0 is over but still occupied,
and the next scan of `get_unassigned_game` passes over it and returns slot
1. -/
theorem end_game_keeps_occupancy :
    (∀ (r r' : Resources) (g : Nat) (client : Option Nat) (result : GameResult),
        end_game r g client result = .ok r' → (r'.games g).assigned = (r.games g).assigned)
      ∧ ∃ r', client_command 2 (humanGameState false []) 1 "resign\n" = .ok r'
          ∧ (r'.games 0).inProgress = false
          ∧ (r'.games 0).assigned = true
          ∧ get_unassigned_game r' = .ok 1 := by
  constructor
  · intro r r' g client result h
    rw [(ended_end_game h).game]
  · exact ⟨_, rfl, by decide, by decide, rfl⟩

/-! ## Line validation -/

/-- The test `validate_line` makes on a line that ends in a newline: the
stripped line is too short, begins with a space, or has a space as its
second-last character. -/
theorem validate_line_test (s : String) :
    validate_line (s ++ "\n")
      = .ok (if s.length < 2 ∨ s.data.head? = some ' ' ∨ s.data.get? (s.length - 2) = some ' '
              then -1 else 0, s) := by
  rw [validate_line_line]
  unfold has_valid_tokens
  by_cases h1 : s.length < 2 <;> by_cases h2 : s.data.head? = some ' ' <;>
    by_cases h3 : s.data.get? (s.length - 2) = some ' ' <;> simp [h1, h2, h3]

/-- C27 fails because `validate_line` strips the newline before it calls
`has_valid_tokens`, which was written for a line that still has it: the
one-character line `a` is reported invalid, the line `ab ` whose last
character before the newline is a space is reported valid, and the line `a b`
whose last character is not a space is reported invalid. -/
theorem validate_line_tests_wrong_character :
    validate_line "a\n" = .ok (-1, "a")
      ∧ validate_line "ab \n" = .ok (0, "ab ")
      ∧ validate_line "a b\n" = .ok (-1, "a b") :=
  ⟨rfl, rfl, rfl⟩

/-! ## Accepting a connection -/

theorem accept_scan_append (cl : Nat → Client) (a b : Nat) :
    ∀ (i : Nat) (f : Option Nat) (m : Int),
      accept_scan cl (a + b) i f m
        = accept_scan cl b (i + a) (accept_scan cl a i f m).1 (accept_scan cl a i f m).2 := by
  induction a with
  | zero => intro i f m; simp [accept_scan]
  | succ a ih =>
    intro i f m
    rw [show a + 1 + b = (a + b) + 1 by omega, accept_scan, accept_scan]
    split
    · rw [ih]
      rw [show i + 1 + a = i + (a + 1) by omega]
    · rw [ih]
      rw [show i + 1 + a = i + (a + 1) by omega]

theorem accept_scan_unassigned (cl : Nat → Client) :
    ∀ (n i : Nat) (c : Nat) (m : Int),
      (∀ k, i ≤ k → (cl k).assigned = false) → accept_scan cl n i (some c) m = (some c, m) := by
  intro n
  induction n with
  | zero => intro i c m _; simp [accept_scan]
  | succ n ih =>
    intro i c m hk
    rw [accept_scan]
    have h0 : (cl i).assigned = false := hk i (Nat.le_refl i)
    simp only [h0, Bool.not_false, if_true, Option.isNone_some, Bool.false_eq_true, if_false]
    exact ih (i + 1) c m (fun k hik => hk k (by omega))

/-- What the scan over slots `i .. i + n - 1` leaves in its variables. -/
theorem accept_scan_spec (cl : Nat → Client) :
    ∀ (n i : Nat) (f : Option Nat) (m : Int),
      m ≤ (accept_scan cl n i f m).2
      ∧ (∀ k, i ≤ k → k < i + n → (cl k).assigned = true →
          (cl k).priority ≤ (accept_scan cl n i f m).2)
      ∧ ((accept_scan cl n i f m).2 = m
          ∨ ∃ k, i ≤ k ∧ k < i + n ∧ (cl k).assigned = true
              ∧ (cl k).priority = (accept_scan cl n i f m).2)
      ∧ (∀ c, f = some c → (accept_scan cl n i f m).1 = some c)
      ∧ (f = none →
          ((accept_scan cl n i f m).1 = none ∧ ∀ k, i ≤ k → k < i + n → (cl k).assigned = true)
          ∨ ∃ c, (accept_scan cl n i f m).1 = some c ∧ i ≤ c ∧ c < i + n
              ∧ (cl c).assigned = false ∧ ∀ k, i ≤ k → k < c → (cl k).assigned = true) := by
  intro n
  induction n with
  | zero =>
    intro i f m
    simp only [accept_scan]
    refine ⟨le_refl _, fun k h1 h2 => by omega, Or.inl trivial, fun c h => h, fun h => ?_⟩
    exact Or.inl ⟨h, fun k h1 h2 => by omega⟩
  | succ n ih =>
    intro i f m
    rw [accept_scan]
    cases ha : (cl i).assigned
    · simp only [Bool.not_false, if_true]
      obtain ⟨h1, h2, h3, h4, h5⟩ := ih (i + 1) (if f.isNone then some i else f) m
      refine ⟨h1, fun k hk1 hk2 hk3 => ?_, ?_, fun c hc => ?_, fun hf => ?_⟩
      · by_cases e : k = i
        · subst e
          rw [ha] at hk3
          cases hk3
        · exact h2 k (by omega) (by omega) hk3
      · rcases h3 with h3 | ⟨k, k1, k2, k3, k4⟩
        · exact Or.inl h3
        · exact Or.inr ⟨k, by omega, by omega, k3, k4⟩
      · subst hc
        exact h4 c (by simp)
      · subst hf
        refine Or.inr ⟨i, h4 i (by simp), le_refl _, by omega, ha, fun k k1 k2 => by omega⟩
    · simp only [Bool.not_true, Bool.false_eq_true, if_false]
      obtain ⟨h1, h2, h3, h4, h5⟩ := ih (i + 1) f
        (if (cl i).priority > m then (cl i).priority else m)
      have hm : m ≤ (if (cl i).priority > m then (cl i).priority else m)
          ∧ (cl i).priority ≤ (if (cl i).priority > m then (cl i).priority else m) := by
        split <;> constructor <;> omega
      refine ⟨le_trans hm.1 h1, fun k hk1 hk2 hk3 => ?_, ?_, h4, fun hf => ?_⟩
      · by_cases e : k = i
        · subst e
          exact le_trans hm.2 h1
        · exact h2 k (by omega) (by omega) hk3
      · rcases h3 with h3 | ⟨k, k1, k2, k3, k4⟩
        · by_cases hp : (cl i).priority > m
          · rw [if_pos hp] at h3 ⊢
            exact Or.inr ⟨i, le_refl _, by omega, ha, h3.symm⟩
          · rw [if_neg hp] at h3 ⊢
            exact Or.inl h3
        · exact Or.inr ⟨k, by omega, by omega, k3, k4⟩
      · rcases h5 hf with ⟨a1, a2⟩ | ⟨c, c1, c2, c3, c4, c5⟩
        · refine Or.inl ⟨a1, fun k k1 k2 => ?_⟩
          by_cases e : k = i
          · subst e
            exact ha
          · exact a2 k (by omega) (by omega)
        · refine Or.inr ⟨c, c1, by omega, by omega, c4, fun k k1 k2 => ?_⟩
          by_cases e : k = i
          · subst e
            exact ha
          · exact c5 k (by omega) k2

/-- The scan of `client_thread` when every slot from `n` on is free: only the
first `n` slots matter. -/
theorem accept_scan_below (cl : Nat → Client) (n : Nat) (hn : n < maxBufferSize)
    (hfree : ∀ k, n ≤ k → (cl k).assigned = false) :
    accept_scan cl maxBufferSize 0 none (-1)
      = (some (match (accept_scan cl n 0 none (-1)).1 with
                | some c => c
                | none => n),
          (accept_scan cl n 0 none (-1)).2) := by
  obtain ⟨b, hb⟩ : ∃ b, maxBufferSize = n + (b + 1) := ⟨maxBufferSize - n - 1, by omega⟩
  rw [hb, accept_scan_append, accept_scan]
  have h0 : (cl (0 + n)).assigned = false := hfree _ (by omega)
  simp only [h0, Bool.not_false, if_true]
  cases hf : (accept_scan cl n 0 none (-1)).1 with
  | none =>
    simp only [Option.isNone_none, if_true]
    rw [accept_scan_unassigned cl b _ _ _ (fun k hk => hfree k (by omega))]
    simp
  | some c =>
    simp only [Option.isNone_some, Bool.false_eq_true, if_false]
    rw [accept_scan_unassigned cl b _ _ _ (fun k hk => hfree k (by omega))]

/-- What `client_thread` does with an accepted connection: the new client takes
the lowest free slot of the table, with no game, no stored position and not
waiting, and a priority above that of every occupied slot, 1 if there is
none. -/
theorem client_thread_spec (r r' : Resources) (c : Nat) (h : client_thread r = .ok (r', c)) :
    c < maxBufferSize ∧ (r.clients c).assigned = false
      ∧ (∀ k, k < c → (r.clients k).assigned = true)
      ∧ ∃ p : Int,
          r' = r.setClient c
            { r.clients c with
              assigned := true, game := none, lastGameFen := none, waitingForHuman := false,
              priority := p, writeFails := false, sigpipe := false }
          ∧ (∀ k, k < maxBufferSize → (r.clients k).assigned = true →
              (r.clients k).priority < p)
          ∧ ((∀ k, k < maxBufferSize → (r.clients k).assigned = false) → p = 1) := by
  unfold client_thread at h
  obtain ⟨_, h2, h3, _, h5⟩ := accept_scan_spec r.clients maxBufferSize 0 none (-1)
  generalize accept_scan r.clients maxBufferSize 0 none (-1) = res at h h2 h3 h5
  obtain ⟨f, m⟩ := res
  cases f with
  | none => cases h
  | some c' =>
    simp only [Except.ok.injEq, Prod.mk.injEq] at h
    obtain ⟨hr, hc⟩ := h
    subst hc
    rcases h5 rfl with ⟨a1, _⟩ | ⟨c2, c3, _, c5, c6, c7⟩
    · cases a1
    · simp only [Option.some.injEq] at c3
      subst c3
      refine ⟨by omega, c6, fun k hk => c7 k (Nat.zero_le k) hk, _, hr.symm, ?_, ?_⟩
      · intro k hk ha
        have := h2 k (Nat.zero_le k) (by omega) ha
        simp only at this ⊢
        split <;> omega
      · intro hnone
        rcases h3 with e | ⟨k, _, k2, k3, _⟩
        · simp only at e
          simp [e]
        · rw [hnone k (by omega)] at k3
          cases k3

/-! ## Reaching the example states -/

theorem resources_eq {a b : Resources} (h1 : a.games = b.games) (h2 : a.clients = b.clients)
    (h3 : a.engineWriteFails = b.engineWriteFails) (h4 : a.toEngine = b.toEngine)
    (h5 : a.fromEngine = b.fromEngine) (h6 : a.toClients = b.toClients) : a = b := by
  cases a
  cases b
  simp only [Resources.mk.injEq]
  exact ⟨h1, h2, h3, h4, h5, h6⟩

/-- The result of `client_thread` from the result of its scan. -/
theorem client_thread_of_scan (r : Resources) (c : Nat) (m : Int)
    (h : accept_scan r.clients maxBufferSize 0 none (-1) = (some c, m)) :
    client_thread r
      = .ok (r.setClient c
          { r.clients c with
            assigned := true, game := none, lastGameFen := none, waitingForHuman := false,
            priority := if m = -1 then 1 else m + 1, writeFails := false,
            sigpipe := false }, c) := by
  unfold client_thread
  rw [h]

theorem client_thread_initialState : client_thread initialState = .ok (oneClientState, 0) := by
  have h : accept_scan initialState.clients maxBufferSize 0 none (-1) = (some 0, -1) :=
    (accept_scan_below initialState.clients 0 (by decide)
      (fun k hk => stateOf_free [] [] [] k hk)).trans rfl
  rw [client_thread_of_scan initialState 0 (-1) h]
  refine congrArg Except.ok (Prod.ext ?_ rfl)
  refine resources_eq rfl ?_ rfl rfl rfl rfl
  funext j
  rcases j with _ | j <;> rfl

theorem client_thread_oneClientState :
    client_thread oneClientState = .ok (twoClientState, 1) := by
  have h : accept_scan oneClientState.clients maxBufferSize 0 none (-1) = (some 1, 1) :=
    (accept_scan_below oneClientState.clients 1 (by decide)
      (fun k hk => stateOf_free [joinedClient 1] [] [] k hk)).trans rfl
  rw [client_thread_of_scan oneClientState 1 1 h]
  refine congrArg Except.ok (Prod.ext ?_ rfl)
  refine resources_eq rfl ?_ rfl rfl rfl rfl
  funext j
  rcases j with _ | _ | j <;> rfl

/-- A line that `validate_line` lets through did not end the input. -/
theorem hit_eof_of_valid {buffer : String} {x : Int × String}
    (h : validate_line (fgets buffer) = .ok x) : hit_eof buffer = false := by
  cases hh : hit_eof buffer with
  | false => rfl
  | true =>
    obtain ⟨e, he⟩ := hit_eof_validate_line buffer hh
    rw [he] at h
    cases h

/-- A round of `client_loop` for a well-formed `start` line is the part of
`respond_start` after the tokens were recognised. -/
theorem client_command_start (fuel : Nat) (r : Resources) (c : Nat) (buffer line o col : String)
    (opponent : Opponent) (colour : Colour)
    (hv : validate_line (fgets buffer) = .ok (0, line))
    (hs : split_by_char line ' ' = ["start", o, col])
    (ho : (o = "computer" ∧ opponent = .com) ∨ (o = "human" ∧ opponent = .human))
    (hc : (col = "white" ∧ colour = .white) ∨ (col = "black" ∧ colour = .black)
      ∨ (col = "either" ∧ colour = .unspecified)) :
    client_command fuel r c buffer = start_new_game fuel r c opponent colour := by
  have h : error_code fuel r c buffer
      = (start_new_game fuel r c opponent colour).map (fun r1 => (r1, 0)) := by
    unfold error_code
    rw [hv]
    simp only []
    unfold run_line
    rw [if_neg (by decide), hs]
    exact dispatch_start_ok fuel r c o col opponent colour ho hc
  rw [client_command_eq, h, hit_eof_of_valid hv]
  cases start_new_game fuel r c opponent colour with
  | error e => rfl
  | ok r1 => rfl

theorem start_new_game_human (fuel : Nat) (r : Resources) (c : Nat) (colour : Colour) :
    start_new_game fuel r c .human colour
      = match resign_current r c with
        | .error e => .error e
        | .ok r1 =>
          try_to_match_human
            (r1.setClient c { r1.clients c with lastGameFen := none, colour := colour }) c := by
  unfold start_new_game
  cases resign_current r c with
  | error e => rfl
  | ok r1 => cases colour <;> simp

theorem client_command_twoClientState :
    client_command 2 twoClientState 0 "start human white\n" = .ok (whiteWaitsState false) := by
  rw [client_command_start 2 twoClientState 0 "start human white\n" "start human white"
    "human" "white" .human
    .white rfl rfl (Or.inr ⟨rfl, rfl⟩) (Or.inl ⟨rfl, rfl⟩), start_new_game_human]
  have h0 : resign_current twoClientState 0 = .ok twoClientState := rfl
  rw [h0]
  simp only []
  have h1 : twoClientState.setClient 0
      { twoClientState.clients 0 with lastGameFen := none, colour := .white }
      = twoClientState := by
    refine resources_eq rfl ?_ rfl rfl rfl rfl
    funext j
    rcases j with _ | _ | j <;> rfl
  rw [h1]
  have h2 : find_partner (mark_waiting twoClientState 0) 0 = none := by
    rw [find_partner_below _ 0 2 (by decide)]
    · decide
    · intro k hk
      rw [mark_waiting_assigned]
      exact stateOf_free _ _ _ k hk
  rw [try_to_match_human_of_none twoClientState 0 h2]
  refine congrArg Except.ok (resources_eq rfl ?_ rfl rfl rfl rfl)
  funext j
  rcases j with _ | _ | j <;> rfl

theorem start_computer_game_eq (fuel : Nat) (r : Resources) (c : Nat) (colour : Colour) :
    start_computer_game fuel r c colour
      = match get_unassigned_game r with
        | .error e => .error e
        | .ok g =>
          match send_started (computer_game_seated r g c colour) colour c with
          | .error e => .error e
          | .ok r7 => if colour = .black then computer_move fuel r7 g else .ok r7 := by
  unfold start_computer_game
  simp only [bind, Except.bind, computer_game_seated]
  cases get_unassigned_game r with
  | error e => rfl
  | ok g =>
    simp only []
    generalize send_started _ colour c = x
    cases x with
    | error e => rfl
    | ok r7 => rfl

/-! ## What the handlers leave in place -/

theorem Lasting.still (r : Resources) : Lasting r r :=
  ⟨fun _ => rfl, fun _ h => h, fun _ h => ⟨h, rfl, rfl⟩, fun g h1 h2 => by
    rw [h1] at h2
    cases h2⟩

theorem Lasting.chain {a b c : Resources} (h1 : Lasting a b) (h2 : Lasting b c) :
    Lasting a c := by
  refine ⟨fun i => (h2.priority i).trans (h1.priority i),
    fun i h => h1.assigned i (h2.assigned i h), fun g h => ?_, fun g ha hc => ?_⟩
  · obtain ⟨b1, b2, b3⟩ := h1.kept g h
    obtain ⟨c1, c2, c3⟩ := h2.kept g b1
    exact ⟨c1, c2.trans b2, c3.trans b3⟩
  · cases hb : (b.games g).assigned
    · exact h2.fresh g hb hc
    · obtain ⟨_, c2, c3⟩ := h2.kept g hb
      rw [c2, c3]
      exact h1.fresh g ha hb

theorem lasting_of_keeps {r r' : Resources} (k : Keeps r r')
    (ha : ∀ i, (r'.clients i).assigned = true → (r.clients i).assigned = true) :
    Lasting r r' := by
  refine ⟨k.priority, ha, fun g h => ⟨(k.gassigned g).trans h, k.player0 g, k.player1 g⟩,
    fun g h1 h2 => ?_⟩
  rw [k.gassigned g, h1] at h2
  cases h2

theorem lasting_of_engineOnly {r r' : Resources} (k : EngineOnly r r') : Lasting r r' := by
  obtain ⟨k1, k2, _⟩ := k
  refine ⟨fun i => by rw [k2], fun i h => by rw [k2] at h; exact h,
    fun g h => by rw [k1]; exact ⟨h, rfl, rfl⟩, fun g h1 h2 => ?_⟩
  rw [k1, h1] at h2
  cases h2

theorem lasting_setClient (r : Resources) (i : Nat) (c : Client)
    (hp : c.priority = (r.clients i).priority)
    (ha : c.assigned = true → (r.clients i).assigned = true) :
    Lasting r (r.setClient i c) := by
  refine ⟨fun j => ?_, fun j h => ?_, fun g h => ⟨h, rfl, rfl⟩, fun g h1 h2 => ?_⟩
  · unfold Resources.setClient
    by_cases e : j = i
    · subst e
      simp [hp]
    · simp [e]
  · unfold Resources.setClient at h
    by_cases e : j = i
    · subst e
      simp at h
      exact ha h
    · simp [e] at h
      exact h
  · have : ((r.setClient i c).games g).assigned = (r.games g).assigned := rfl
    rw [this, h1] at h2
    cases h2

theorem lasting_setGame (r : Resources) (g : Nat) (gm : Game)
    (ha : gm.assigned = (r.games g).assigned) (h0 : gm.player0 = (r.games g).player0)
    (h1 : gm.player1 = (r.games g).player1) : Lasting r (r.setGame g gm) := by
  refine ⟨fun _ => rfl, fun _ h => h, fun g' h => ?_, fun g' k1 k2 => ?_⟩
  · unfold Resources.setGame
    by_cases e : g' = g
    · subst e
      simp [ha, h0, h1, h]
    · simp [e, h]
  · unfold Resources.setGame at k2
    by_cases e : g' = g
    · subst e
      simp [ha, k1] at k2
    · simp [e, k1] at k2

theorem lasting_log (r : Resources) (l : List (Nat × String)) :
    Lasting r { r with toClients := l } :=
  ⟨fun _ => rfl, fun _ h => h, fun _ h => ⟨h, rfl, rfl⟩, fun g h1 h2 => by
    have : (r.games g).assigned = true := h2
    rw [h1] at this
    cases this⟩

theorem lasting_end_game {r r' : Resources} {g : Nat} {client : Option Nat} {res : GameResult}
    (h : end_game r g client res = .ok r') : Lasting r r' := by
  refine lasting_of_keeps (keeps_end_game h) (fun i h' => ?_)
  have he := ended_end_game h
  by_cases hp : ∃ j, (r.games g).players j = some i
  · obtain ⟨j, hj⟩ := hp
    rw [he.players j i hj] at h'
    simp at h'
    exact h'.1
  · rw [he.others i (fun j hj => hp ⟨j, hj⟩)] at h'
    exact h'

theorem lasting_remove_client {r r' : Resources} {c : Nat} (h : remove_client r c = .ok r') :
    Lasting r r' := by
  obtain ⟨_, e⟩ := remove_client_ok h
  rw [e]
  exact lasting_setClient r c _ rfl (fun h => by cases h)

theorem lasting_write_to_client {r r' : Resources} {c : Nat} {msg : String} {n : Int}
    (h : write_to_client r c msg = .ok (r', n)) : Lasting r r' := by
  rcases write_to_client_ok h with ⟨_, e, _⟩ | ⟨g, r1, _, _, _, he, hr, _⟩
  · rw [e]
    exact lasting_log r _
  · exact (lasting_end_game he).chain (lasting_remove_client hr)

theorem LastOk.later {r r1 : Resources} {x : Except Halt Resources} (h : Lasting r r1)
    (hx : LastOk r1 x) : LastOk r x := by
  cases x with
  | error e => trivial
  | ok r2 => exact h.chain hx

theorem LastOkP.laterP {α : Type} {r r1 : Resources} {x : Except Halt (Resources × α)}
    (h : Lasting r r1) (hx : LastOkP r1 x) : LastOkP r x := by
  rcases x with e | ⟨r2, a⟩
  · trivial
  · exact h.chain hx

theorem lastOk_end_game (r : Resources) (g : Nat) (client : Option Nat) (res : GameResult) :
    LastOk r (end_game r g client res) := by
  cases h : end_game r g client res with
  | error e => trivial
  | ok r1 => exact lasting_end_game h

theorem lastOk_remove_client (r : Resources) (c : Nat) : LastOk r (remove_client r c) := by
  cases h : remove_client r c with
  | error e => trivial
  | ok r1 => exact lasting_remove_client h

theorem lastOkP_write_to_client (r : Resources) (c : Nat) (msg : String) :
    LastOkP r (write_to_client r c msg) := by
  cases h : write_to_client r c msg with
  | error e => trivial
  | ok x =>
    obtain ⟨r1, n⟩ := x
    exact lasting_write_to_client h

theorem lastOkP_notify (r : Resources) (o : Option Nat) (msg : String) :
    LastOkP r (notify r o msg) := by
  cases o with
  | none => exact Lasting.still r
  | some m => exact lastOkP_write_to_client r m msg

theorem lastOk_send_started (r : Resources) (col : Colour) (c : Nat) :
    LastOk r (send_started r col c) := by
  unfold send_started
  have h := lastOkP_write_to_client r c ("started " ++ get_colour_name col ++ "\n")
  generalize write_to_client _ _ _ = x at h ⊢
  rcases x with e | ⟨r1, n⟩
  · trivial
  · exact h

theorem lastOk_start_player (r : Resources) (g i : Nat) : LastOk r (start_player r g i) := by
  unfold start_player
  split
  · trivial
  · rename_i p _
    exact LastOk.later
      (lasting_setClient r p { r.clients p with game := some g, waitingForHuman := false } rfl
        (fun h => h))
      (lastOk_send_started _ _ _)

theorem lasting_mark_waiting (r : Resources) (human : Nat) :
    Lasting r (mark_waiting r human) :=
  lasting_setClient r human _ rfl (fun h => h)

theorem lasting_resolve_colours (r : Resources) (human other : Nat) :
    Lasting r (resolve_colours r human other) := by
  unfold resolve_colours
  split
  · exact lasting_setClient r other _ rfl (fun h => h)
  · split
    · exact lasting_setClient r human _ rfl (fun h => h)
    · exact (lasting_setClient r human
        { r.clients human with
          colour := if (r.clients human).priority < (r.clients other).priority then Colour.white
            else Colour.black } rfl (fun h => h)).chain
        (lasting_setClient _ other _ rfl (fun h => h))

/-- After `resolve_colours` the requester has a concrete colour. -/
theorem resolve_colours_concrete (r : Resources) (human other : Nat) :
    ((resolve_colours r human other).clients human).colour ≠ .unspecified := by
  unfold resolve_colours
  by_cases h1 : (r.clients human).colour ≠ .unspecified
  · rw [if_pos h1]
    unfold Resources.setClient
    by_cases e : human = other
    · subst e
      cases hc : (r.clients human).colour <;> simp [Colour.lnot]
    · simp [e]
      exact h1
  · rw [if_neg h1]
    by_cases h2 : (r.clients other).colour ≠ .unspecified
    · rw [if_pos h2]
      unfold Resources.setClient
      cases hc : (r.clients other).colour <;> simp [Colour.lnot]
    · rw [if_neg h2]
      unfold Resources.setClient
      by_cases e : human = other
      · subst e
        by_cases hp : (r.clients human).priority < (r.clients human).priority <;>
          simp [hp, Colour.lnot]
      · by_cases hp : (r.clients human).priority < (r.clients other).priority <;> simp [e, hp]

theorem lasting_seat_players (r : Resources) (human other g : Nat)
    (hg : (r.games g).assigned = false) (hc : (r.clients human).colour ≠ .unspecified) :
    Lasting r (seat_players r human other g) := by
  obtain ⟨h1, h2, h3, _⟩ := seat_players_spec r human other g hc
  obtain ⟨p, q, hp, hq⟩ := seat_players_slots r human other g hc
  refine ⟨fun i => by rw [h1], fun i h => by rw [h1] at h; exact h, fun g' hg' => ?_,
    fun g' k1 k2 => ?_⟩
  · have e : g' ≠ g := fun e => by
      rw [e, hg] at hg'
      cases hg'
    rw [h2 g' e]
    exact ⟨hg', rfl, rfl⟩
  · by_cases e : g' = g
    · subst e
      left
      have : ((seat_players r human other g').games g').players 0
          = ((seat_players r human other g').games g').player0 := rfl
      rw [← this, hp]
      simp
    · rw [h2 g' e, k1] at k2
      cases k2

theorem lastOk_pair_humans (r : Resources) (human other : Nat) :
    LastOk r (pair_humans r human other) := by
  unfold pair_humans
  simp only [bind, Except.bind]
  cases hg : get_unassigned_game (resolve_colours r human other) with
  | error e => trivial
  | ok g =>
    simp only []
    have h0 : Lasting r (seat_players (resolve_colours r human other) human other g) :=
      (lasting_resolve_colours r human other).chain
        (lasting_seat_players _ human other g (get_unassigned_game_spec _ g hg).2.1
          (resolve_colours_concrete r human other))
    have h1 := lastOk_start_player (seat_players (resolve_colours r human other) human other g)
      g 0
    generalize start_player (seat_players _ _ _ _) g 0 = x at h1 ⊢
    cases x with
    | error e => trivial
    | ok r5 => exact LastOk.later (h0.chain h1) (lastOk_start_player r5 g 1)

theorem lastOk_try_to_match_human (r : Resources) (human : Nat) :
    LastOk r (try_to_match_human r human) := by
  unfold try_to_match_human
  split
  · exact lasting_mark_waiting r human
  · exact LastOk.later (lasting_mark_waiting r human) (lastOk_pair_humans _ _ _)

theorem lasting_computer_game_seated (r : Resources) (g c : Nat) (colour : Colour)
    (hg : (r.games g).assigned = false) (hc : colour ≠ .unspecified) :
    Lasting r (computer_game_seated r g c colour) := by
  refine ⟨fun i => ?_, fun i h => ?_, fun g' hg' => ?_, fun g' k1 k2 => ?_⟩
  · unfold computer_game_seated Resources.setClient
    by_cases e : i = c
    · subst e
      simp [Resources.setGame, initialise_game]
    · simp [e, Resources.setGame, initialise_game]
  · unfold computer_game_seated Resources.setClient at h
    by_cases e : i = c
    · subst e
      simpa [Resources.setGame, initialise_game] using h
    · simpa [e, Resources.setGame, initialise_game] using h
  · have e : g' ≠ g := fun e => by
      rw [e, hg] at hg'
      cases hg'
    simp [computer_game_seated, Resources.setClient, Resources.setGame, initialise_game, e, hg']
  · by_cases e : g' = g
    · subst e
      cases colour with
      | white =>
        left
        simp [computer_game_seated, Resources.setClient, Resources.setGame, initialise_game,
          Game.setPlayer, Colour.toNat, Colour.lnot]
      | black =>
        right
        simp [computer_game_seated, Resources.setClient, Resources.setGame, initialise_game,
          Game.setPlayer, Colour.toNat, Colour.lnot]
      | unspecified => exact absurd rfl hc
    · simp [computer_game_seated, Resources.setClient, Resources.setGame, initialise_game, e,
        k1] at k2

theorem lastOk_send_check (r : Resources) (g i : Nat) : LastOk r (send_check r g i) := by
  unfold send_check
  split
  · exact Lasting.still r
  · rename_i p _
    have h := lastOkP_write_to_client r p "check\n"
    generalize write_to_client _ _ _ = x at h ⊢
    rcases x with e | ⟨r1, n⟩
    · trivial
    · exact h

theorem lasting_flip (r : Resources) (g : Nat) :
    Lasting r (r.setGame g { r.games g with turn := (r.games g).turn.lnot }) :=
  lasting_setGame r g _ rfl rfl rfl

theorem lastOk_move_outcome (r : Resources) (g : Nat) (opponent : Option Nat) (inCheck : Bool) :
    LastOk r (move_outcome r g opponent inCheck) := by
  unfold move_outcome
  simp only [bind, Except.bind]
  cases hw : try_to_write_engine r goPerft1 with
  | none => trivial
  | some r1 =>
    have k1 := try_to_write_engine_only hw
    simp only []
    cases hr : read_stockfish_go_perft_1_output r1 with
    | none => trivial
    | some x =>
      obtain ⟨ms, r2⟩ := x
      have k := lasting_of_engineOnly (k1.next (read_go_perft_only hr))
      simp only []
      by_cases hlen : ms.length = 0
      · by_cases hc : inCheck = true
        · simp only [hlen, hc, if_true]
          cases he : end_game r2 g opponent .checkmate with
          | error e0 => trivial
          | ok r3 => exact k.chain ((lasting_end_game he).chain (lasting_flip _ g))
        · simp only [hlen, hc, if_true, if_false]
          cases he : end_game r2 g none .stalemate with
          | error e0 => trivial
          | ok r3 => exact k.chain ((lasting_end_game he).chain (lasting_flip _ g))
      · by_cases hc : inCheck = true
        · simp only [hlen, hc, if_true, if_false]
          have h0 := lastOk_send_check r2 g 0
          generalize send_check r2 g 0 = z at h0 ⊢
          cases z with
          | error e0 => trivial
          | ok r3 =>
            simp only []
            have h1 := lastOk_send_check r3 g 1
            generalize send_check r3 g 1 = z1 at h1 ⊢
            cases z1 with
            | error e1 => trivial
            | ok r4 => exact k.chain (Lasting.chain h0 (Lasting.chain h1 (lasting_flip _ g)))
        · simp only [hlen, hc, if_false]
          exact k.chain (lasting_flip _ g)

theorem lastOk_move_accepted (cm : Resources → Nat → Except Halt Resources) (move : String)
    (g : Nat) (movingClient opponent : Option Nat) (r : Resources) (st : StockfishGameState)
    (hcm : ∀ r1, LastOk r1 (cm r1 g)) :
    LastOk r (move_accepted cm move g movingClient opponent r st) := by
  unfold move_accepted
  simp only [bind, Except.bind]
  have k1 : Lasting r (r.setGame g { r.games g with fenBoardState := st.fenString }) :=
    lasting_setGame r g _ rfl rfl rfl
  have h1 := lastOkP_notify (r.setGame g { r.games g with fenBoardState := st.fenString })
    movingClient "ok\n"
  generalize notify (r.setGame g _) movingClient "ok\n" = x at h1 ⊢
  rcases x with e | ⟨r2, ret1⟩
  · trivial
  · have k2 : Lasting r r2 := k1.chain h1
    simp only []
    by_cases hr1 : ret1 = -1
    · simp only [hr1, if_true]
      exact k2
    · simp only [hr1, if_false]
      have h2 := lastOkP_notify r2 opponent ("moved " ++ move ++ "\n")
      generalize notify r2 opponent _ = y at h2 ⊢
      rcases y with e | ⟨r3, ret2⟩
      · trivial
      · have k3 : Lasting r r3 := k2.chain h2
        simp only []
        by_cases hr2 : ret2 = -1
        · simp only [hr2, if_true]
          exact k3
        · simp only [hr2, if_false]
          have h3 := lastOk_move_outcome r3 g opponent st.checkers.isSome
          generalize move_outcome r3 g opponent _ = z at h3 ⊢
          cases z with
          | error e => trivial
          | ok r4 =>
            have k4 : Lasting r r4 := k3.chain h3
            simp only []
            by_cases hm : movingClient = none
            · simp only [hm, ne_eq, not_true_eq_false, if_false]
              exact k4
            · simp only [hm, ne_eq, not_false_eq_true, if_true]
              rcases game_is_against_computer_cases (r4.games g) with hb | ⟨b, hb⟩
              · rw [hb]
                trivial
              · rw [hb]
                simp only []
                split
                · exact LastOk.later k4 (hcm r4)
                · exact k4

theorem lastOk_make_move_body (cm : Resources → Nat → Except Halt Resources) (r : Resources)
    (g : Nat) (move : String) (hcm : ∀ r1, LastOk r1 (cm r1 g)) :
    LastOk r (make_move_body cm r g move) := by
  unfold make_move_body
  simp only [bind, Except.bind]
  rcases engine_new_game_cases r with ⟨r1, h1, k1⟩ | h1
  · rw [h1]
    simp only []
    cases hw : try_to_write_engine r1 _ with
    | none => trivial
    | some r2 =>
      have k2 := k1.next (try_to_write_engine_only hw)
      simp only []
      cases hr : read_stockfish_d_output r2 with
      | none => trivial
      | some x =>
        obtain ⟨st, r3⟩ := x
        have k3 := lasting_of_engineOnly (k2.next (read_d_output_only hr))
        simp only []
        split
        · exact LastOk.later k3 (lastOk_move_accepted cm move g _ _ r3 st hcm)
        · have h := lastOkP_notify r3 ((r3.games g).players (r3.games g).turn.toNat)
            "error move\n"
          generalize notify r3 _ _ = y at h ⊢
          rcases y with e | ⟨r4, n⟩
          · trivial
          · exact k3.chain h
  · rw [h1]
    trivial

theorem lastOk_computer_move_body (mk : Resources → Nat → String → Except Halt Resources)
    (r : Resources) (g : Nat) (hmk : ∀ r2 bm, LastOk r2 (mk r2 g bm)) :
    LastOk r (computer_move_body mk r g) := by
  unfold computer_move_body
  split
  · trivial
  · rcases best_move_cases r g with ⟨bm, r1, h1, k1⟩ | h1 | h1
    · rw [h1]
      simp only []
      exact LastOk.later (lasting_of_engineOnly k1) (hmk r1 bm)
    · rw [h1]
      trivial
    · rw [h1]
      trivial

theorem lastOk_make_move (fuel : Nat) : ∀ (r : Resources) (g : Nat) (move : String),
    LastOk r (make_move fuel r g move) := by
  induction fuel with
  | zero =>
    intro r g move
    trivial
  | succ n ih =>
    intro r g move
    rw [make_move]
    exact lastOk_make_move_body _ r g move
      (fun r1 => lastOk_computer_move_body _ r1 g (fun r2 bm => ih r2 g bm))

theorem lastOk_computer_move (fuel : Nat) (r : Resources) (g : Nat) :
    LastOk r (computer_move fuel r g) := by
  unfold computer_move
  exact lastOk_computer_move_body _ r g (fun r2 bm => lastOk_make_move fuel r2 g bm)

theorem lastOkP_respond_board (r : Resources) (c : Nat) : LastOkP r (respond_board r c) := by
  unfold respond_board
  simp only [bind, Except.bind]
  split
  · exact Lasting.still r
  · rename_i fen _
    rcases set_position_no_move_cases fen r with ⟨r1, h1, k1⟩ | h1
    · rw [h1]
      simp only []
      cases hw : try_to_write_engine r1 "d\n" with
      | none => trivial
      | some r2 =>
        have k2 := k1.next (try_to_write_engine_only hw)
        simp only []
        cases hr : read_stockfish_d_output r2 with
        | none => trivial
        | some x =>
          obtain ⟨st, r3⟩ := x
          have k3 := lasting_of_engineOnly (k2.next (read_d_output_only hr))
          simp only []
          have h := lastOkP_write_to_client r3 c
            ("startboard\n" ++ st.boardString ++ "endboard\n")
          generalize write_to_client r3 c _ = y at h ⊢
          rcases y with e | ⟨r4, n⟩
          · trivial
          · exact k3.chain h
    · rw [h1]
      trivial

theorem lastOk_write_moves (c : Nat) (ms : List String) :
    ∀ r, LastOk r (write_moves c ms r) := by
  induction ms with
  | nil =>
    intro r
    exact Lasting.still r
  | cons m ms ih =>
    intro r
    unfold write_moves
    have h := lastOkP_write_to_client r c (" " ++ m)
    generalize write_to_client r c _ = y at h ⊢
    rcases y with e | ⟨r1, n⟩
    · trivial
    · exact LastOk.later h (ih r1)

theorem lastOk_respond_hint (r : Resources) (c : Nat) (all : Bool) :
    LastOk r (respond_hint r c all) := by
  unfold respond_hint
  split
  · trivial
  · rename_i g _
    simp only [bind, Except.bind]
    split
    · rcases set_position_no_move_cases (r.games g).fenBoardState r with ⟨r1, h1, k1⟩ | h1
      · rw [h1]
        simp only []
        cases hw : try_to_write_engine r1 goPerft1 with
        | none => trivial
        | some r2 =>
          have k2 := k1.next (try_to_write_engine_only hw)
          simp only []
          cases hr : read_stockfish_go_perft_1_output r2 with
          | none =>
            simp only []
            generalize write_to_client r2 c "moves" = y
            rcases y with e | ⟨r4, n⟩
            · trivial
            · trivial
          | some x =>
            obtain ⟨ms, r3⟩ := x
            have k3 := lasting_of_engineOnly (k2.next (read_go_perft_only hr))
            simp only []
            have h := lastOkP_write_to_client r3 c "moves"
            generalize write_to_client r3 c _ = y at h ⊢
            rcases y with e | ⟨r4, n⟩
            · trivial
            · simp only []
              have h5 := lastOk_write_moves c ms r4
              generalize write_moves c ms r4 = z at h5 ⊢
              cases z with
              | error e => trivial
              | ok r5 =>
                simp only []
                have h6 := lastOkP_write_to_client r5 c "\n"
                generalize write_to_client r5 c _ = w at h6 ⊢
                rcases w with e | ⟨r6, n⟩
                · trivial
                · exact ((k3.chain h).chain h5).chain h6
      · rw [h1]
        trivial
    · rcases best_move_cases r g with ⟨bm, r1, h1, k1⟩ | h1 | h1
      · rw [h1]
        simp only []
        have h := lastOkP_write_to_client r1 c ("moves " ++ bm ++ "\n")
        generalize write_to_client r1 c _ = y at h ⊢
        rcases y with e | ⟨r2, n⟩
        · trivial
        · exact (lasting_of_engineOnly k1).chain h
      · rw [h1]
        trivial
      · rw [h1]
        trivial

theorem lastOk_start_computer_game (fuel : Nat) (r : Resources) (c : Nat) (colour : Colour)
    (hc : colour ≠ .unspecified) : LastOk r (start_computer_game fuel r c colour) := by
  rw [start_computer_game_eq]
  cases hg : get_unassigned_game r with
  | error e => trivial
  | ok g =>
    simp only []
    have k6 := lasting_computer_game_seated r g c colour (get_unassigned_game_spec r g hg).2.1 hc
    have h7 := lastOk_send_started (computer_game_seated r g c colour) colour c
    generalize send_started _ colour c = y at h7 ⊢
    cases y with
    | error e => trivial
    | ok r7 =>
      have k7 : Lasting r r7 := k6.chain h7
      simp only []
      split
      · exact LastOk.later k7 (lastOk_computer_move fuel r7 g)
      · exact k7

theorem lastOk_resign_current (r : Resources) (c : Nat) : LastOk r (resign_current r c) := by
  unfold resign_current
  split
  · exact lastOk_end_game _ _ _ _
  · exact Lasting.still r

theorem lastOk_start_new_game (fuel : Nat) (r : Resources) (c : Nat) (opponent : Opponent)
    (colour0 : Colour) : LastOk r (start_new_game fuel r c opponent colour0) := by
  unfold start_new_game
  have h1 := lastOk_resign_current r c
  generalize resign_current r c = x at h1 ⊢
  cases x with
  | error e => trivial
  | ok r1 =>
    have k2 : ∀ col : Colour, Lasting r (r1.setClient c
        { r1.clients c with lastGameFen := none, colour := col }) :=
      fun col => Lasting.chain h1 (lasting_setClient _ c _ rfl (fun h => h))
    simp only []
    cases opponent with
    | com =>
      refine LastOk.later (k2 _) (lastOk_start_computer_game fuel _ c _ ?_)
      cases colour0 <;> simp
    | human => exact LastOk.later (k2 _) (lastOk_try_to_match_human _ c)
    | unspecified => exact k2 _

theorem lastOkP_respond_start (fuel : Nat) (r : Resources) (c : Nat) (fields : List String) :
    LastOkP r (respond_start fuel r c fields) := by
  unfold respond_start
  simp only []
  split
  · exact Lasting.still r
  · exact Lasting.still r
  · rename_i opponent colour0 _ _
    have h := lastOk_start_new_game fuel r c opponent colour0
    generalize start_new_game fuel r c opponent colour0 = y at h ⊢
    cases y with
    | error e => trivial
    | ok r1 => exact h

theorem lastOkP_respond_medium_input (fuel : Nat) (cmd : String) (fields : List String)
    (c : Nat) (r : Resources) :
    LastOkP r (respond_medium_input fuel cmd fields c r) := by
  unfold respond_medium_input
  simp only [bind, Except.bind]
  split
  · split
    · exact Lasting.still r
    · split
      · exact Lasting.still r
      · rename_i g _
        split
        · exact Lasting.still r
        · have h := lastOk_make_move fuel r g (fields.getD 1 "")
          generalize make_move fuel r g _ = y at h ⊢
          cases y with
          | error e => trivial
          | ok r1 => exact h
  · split
    · split
      · exact Lasting.still r
      · rename_i all _
        split
        · exact Lasting.still r
        · rename_i g _
          split
          · exact Lasting.still r
          · have h := lastOk_respond_hint r c all
            generalize respond_hint r c all = y at h ⊢
            cases y with
            | error e => trivial
            | ok r1 => exact h
    · exact Lasting.still r

theorem lastOkP_respond_short_input (r : Resources) (c : Nat) (cmd : String) :
    LastOkP r (respond_short_input r c cmd) := by
  unfold respond_short_input
  simp only [bind, Except.bind]
  split
  · have h := lastOkP_respond_board r c
    generalize respond_board r c = y at h ⊢
    rcases y with e | ⟨r1, n⟩
    · trivial
    · simp only []
      split <;> exact h
  · split
    · split
      · exact Lasting.still r
      · rename_i g _
        have h := lastOk_end_game r g (some c) .resignation
        generalize end_game r g (some c) .resignation = y at h ⊢
        cases y with
        | error e => trivial
        | ok r1 => exact h
    · exact Lasting.still r

theorem lastOkP_dispatch (fuel : Nat) (r : Resources) (c : Nat) (fields : List String) :
    LastOkP r (dispatch fuel r c fields) := by
  unfold dispatch
  simp only [bind, Except.bind]
  split
  · exact lastOkP_respond_short_input r c _
  · split
    · exact lastOkP_respond_medium_input fuel _ fields c r
    · split
      · split
        · have h := lastOkP_respond_start fuel r c fields
          generalize respond_start fuel r c fields = y at h ⊢
          rcases y with e | ⟨r1, n⟩
          · trivial
          · exact h
        · exact Lasting.still r
      · exact Lasting.still r

theorem lastOk_send_response (r : Resources) (c : Nat) (error : Int) :
    LastOk r (send_response r c error) := by
  unfold send_response
  simp only []
  split
  · rename_i response _
    have h := lastOkP_write_to_client r c response
    generalize write_to_client r c response = z at h ⊢
    rcases z with e | ⟨r2, n⟩
    · trivial
    · exact h
  · exact Lasting.still r

theorem lastOk_resign_remove_client (r : Resources) (c : Nat) :
    LastOk r (resign_remove_client r c) := by
  unfold resign_remove_client
  split
  · split
    · rename_i g _ _
      have h := lastOk_end_game r g (some c) .resignation
      generalize end_game r g (some c) .resignation = y at h ⊢
      cases y with
      | error e => trivial
      | ok r1 => exact LastOk.later h (lastOk_remove_client r1 c)
    · exact lastOk_remove_client r c
  · exact lastOk_remove_client r c

theorem lasting_resign_remove_client {r r' : Resources} {c : Nat}
    (h : resign_remove_client r c = .ok r') : Lasting r r' := by
  have h1 := lastOk_resign_remove_client r c
  rw [h] at h1
  exact h1

/-- A round of `client_loop` leaves every priority, frees client slots at most,
and keeps the players of every occupied game. -/
theorem lastOk_client_command (fuel : Nat) (r : Resources) (c : Nat) (buffer : String) :
    LastOk r (client_command fuel r c buffer) := by
  rw [client_command_eq]
  split
  · exact lastOk_resign_remove_client r c
  · have hd : LastOkP r (error_code fuel r c buffer) := by
      unfold error_code
      cases validate_line (fgets buffer) with
      | error e => trivial
      | ok x =>
        obtain ⟨valid, line⟩ := x
        simp only []
        unfold run_line
        split
        · exact Lasting.still r
        · exact lastOkP_dispatch fuel r c _
    generalize error_code fuel r c buffer = y at hd ⊢
    rcases y with e | ⟨r1, error⟩
    · trivial
    · exact LastOk.later hd (lastOk_send_response r1 c error)

/-! ## Invariants of the reachable states -/

theorem seated_of_lasting {r r' : Resources} (hs : Seated r) (h : Lasting r r') : Seated r' := by
  intro g hg
  cases ha : (r.games g).assigned
  · exact h.fresh g ha hg
  · obtain ⟨_, k0, k1⟩ := h.kept g ha
    have := hs g ha
    unfold Game.players at this ⊢
    simp only [if_true] at this ⊢
    rw [k0, k1]
    exact this

theorem lasting_of_reach_command {r r' : Resources} {c : Nat} {buffer : String}
    (h : client_command 2 r c buffer = .ok r') : Lasting r r' := by
  have := lastOk_client_command 2 r c buffer
  rw [h] at this
  exact this

theorem reach_seated : ∀ (r : Resources) (l : List Nat), Reach r l → Seated r := by
  intro r l h
  induction h with
  | init =>
    intro g hg
    have : (initialState.games g).assigned = false := by
      simp [initialState, stateOf, tableOf, freshGame]
    rw [this] at hg
    cases hg
  | connect _ hc ih =>
    obtain ⟨_, _, _, p, hr, _⟩ := client_thread_spec _ _ _ hc
    rw [hr]
    exact ih
  | command c buffer _ _ hc ih => exact seated_of_lasting ih (lasting_of_reach_command hc)
  | disconnect c _ hd ih => exact seated_of_lasting ih (lasting_resign_remove_client hd)
  | environment _ he ih =>
    intro g hg
    rw [he.games] at hg ⊢
    exact ih g hg

/-- C21: in every state the server reaches from the empty tables by accepted
connections, lines from connected clients, ends of client threads and changes
of the outside world, every game whose occupancy flag is set has a client in
at least one of its two player slots. -/
theorem every_occupied_game_has_a_player (r : Resources) (l : List Nat) (h : Reach r l)
    (g : Nat) (hg : (r.games g).assigned = true) :
    (r.games g).players 0 ≠ none ∨ (r.games g).players 1 ≠ none :=
  reach_seated r l h g hg

theorem every_occupied_game_has_a_player_witness :
    ∃ r l, Reach r l ∧ (r.games 0).assigned = true
      ∧ ((r.games 0).players 0 ≠ none ∨ (r.games 0).players 1 ≠ none) := by
  obtain ⟨r', he, ha⟩ : ∃ r', client_command 2 oneClientState 0 "start computer white\n" = .ok r'
      ∧ (r'.games 0).assigned = true := ⟨_, rfl, rfl⟩
  have hr := Reach.command 0 "start computer white\n"
    (Reach.connect Reach.init client_thread_initialState) rfl he
  exact ⟨r', _, hr, ha, every_occupied_game_has_a_player r' _ hr 0 ha⟩

theorem pairwise_either {α : Type} (R : α → α → Prop) :
    ∀ l : List α, l.Pairwise R → ∀ x y, x ∈ l → y ∈ l → x ≠ y → R x y ∨ R y x := by
  intro l
  induction l with
  | nil =>
    intro _ x y hx
    cases hx
  | cons a t ih =>
    intro hp x y hx hy hxy
    rw [List.pairwise_cons] at hp
    rcases List.mem_cons.mp hx with e1 | e1 <;> rcases List.mem_cons.mp hy with e2 | e2
    · exact absurd (e1.trans e2.symm) hxy
    · subst e1
      exact Or.inl (hp.1 y e2)
    · subst e2
      exact Or.inr (hp.1 x e1)
    · exact ih hp.2 x y e1 e2 hxy

theorem queued_of_lasting {r r' : Resources} {l : List Nat} (hq : Queued r l)
    (h : Lasting r r') : Queued r' (l.filter fun i => (r'.clients i).assigned) := by
  obtain ⟨q1, q2, q3⟩ := hq
  refine ⟨fun i => ?_, fun i hi => q2 i (List.mem_filter.mp hi).1, ?_⟩
  · rw [List.mem_filter]
    constructor
    · intro hi
      exact hi.2
    · intro hi
      exact ⟨(q1 i).2 (h.assigned i hi), hi⟩
  · refine List.Pairwise.filter _ (q3.imp ?_)
    intro a b hab
    rw [h.priority a, h.priority b]
    exact hab

theorem queued_of_connect {r r' : Resources} {l : List Nat} {c : Nat} (hq : Queued r l)
    (h : client_thread r = .ok (r', c)) : Queued r' (l ++ [c]) := by
  obtain ⟨q1, q2, q3⟩ := hq
  obtain ⟨c1, c2, _, p, hr, hp, _⟩ := client_thread_spec r r' c h
  have hcl : c ∉ l := fun hc => by
    rw [(q1 c).1 hc] at c2
    cases c2
  have hsame : ∀ i, i ≠ c → r'.clients i = r.clients i := by
    intro i hi
    rw [hr]
    simp [Resources.setClient, hi]
  have hnew : (r'.clients c).assigned = true ∧ (r'.clients c).priority = p := by
    rw [hr]
    simp [Resources.setClient]
  refine ⟨fun i => ?_, fun i hi => ?_, ?_⟩
  · by_cases e : i = c
    · subst e
      simp [hnew.1]
    · rw [hsame i e]
      simp [e, q1 i]
  · rcases List.mem_append.mp hi with h1 | h1
    · exact q2 i h1
    · simp at h1
      subst h1
      exact c1
  · rw [List.pairwise_append]
    refine ⟨?_, List.pairwise_singleton _ _, fun a ha b hb => ?_⟩
    · refine List.Pairwise.imp_of_mem ?_ q3
      intro a b ha hb hab
      rw [hsame a (fun e => hcl (e ▸ ha)), hsame b (fun e => hcl (e ▸ hb))]
      exact hab
    · simp at hb
      subst hb
      rw [hsame a (fun e => hcl (e ▸ ha)), hnew.2]
      exact hp a (q2 a ha) ((q1 a).1 ha)

theorem reach_queued : ∀ (r : Resources) (l : List Nat), Reach r l → Queued r l := by
  intro r l h
  induction h with
  | init =>
    refine ⟨fun i => ?_, fun i hi => (by cases hi), List.Pairwise.nil⟩
    have : (initialState.clients i).assigned = false := stateOf_free [] [] [] i (Nat.zero_le i)
    simp [this]
  | connect _ hc ih => exact queued_of_connect ih hc
  | command c buffer _ _ hc ih => exact queued_of_lasting ih (lasting_of_reach_command hc)
  | disconnect c _ hd ih => exact queued_of_lasting ih (lasting_resign_remove_client hd)
  | environment _ he ih =>
    obtain ⟨q1, q2, q3⟩ := ih
    refine ⟨fun i => ?_, q2, q3.imp ?_⟩
    · rw [q1 i, he.clients i]
    · intro a b hab
      rw [he.clients a, he.clients b]
      exact hab

/-- C25: when `client_thread` accepts a connection, the new client takes the
lowest free slot of the client table and a priority strictly above that of
every client connected at that moment, 1 if none is connected.  Hence in every
state the server reaches, with `l` the connected clients in the order in which
they connected: `l` holds exactly the occupied slots, the priorities increase
strictly along `l` (who connected earlier has the smaller priority), and any
two connected clients have distinct priorities. -/
theorem client_thread_priority_order :
    (∀ (r r' : Resources) (c : Nat), client_thread r = .ok (r', c) →
        c < maxBufferSize ∧ (r.clients c).assigned = false
          ∧ (∀ k, k < c → (r.clients k).assigned = true)
          ∧ (r'.clients c).assigned = true
          ∧ (∀ k, k ≠ c → r'.clients k = r.clients k)
          ∧ (∀ k, k < maxBufferSize → (r.clients k).assigned = true →
              (r.clients k).priority < (r'.clients c).priority)
          ∧ ((∀ k, k < maxBufferSize → (r.clients k).assigned = false) →
              (r'.clients c).priority = 1))
      ∧ ∀ (r : Resources) (l : List Nat), Reach r l →
          (∀ i, i ∈ l ↔ (r.clients i).assigned = true)
            ∧ l.Pairwise (fun a b => (r.clients a).priority < (r.clients b).priority)
            ∧ ∀ a b, (r.clients a).assigned = true → (r.clients b).assigned = true → a ≠ b →
                (r.clients a).priority ≠ (r.clients b).priority := by
  constructor
  · intro r r' c h
    obtain ⟨c1, c2, c3, p, hr, hp, h1⟩ := client_thread_spec r r' c h
    have hnew : (r'.clients c).assigned = true ∧ (r'.clients c).priority = p := by
      rw [hr]
      simp [Resources.setClient]
    refine ⟨c1, c2, c3, hnew.1, fun k hk => ?_, fun k hk ha => ?_, fun hnone => ?_⟩
    · rw [hr]
      simp [Resources.setClient, hk]
    · rw [hnew.2]
      exact hp k hk ha
    · rw [hnew.2]
      exact h1 hnone
  · intro r l h
    obtain ⟨q1, q2, q3⟩ := reach_queued r l h
    refine ⟨q1, q3, fun a b ha hb hab => ?_⟩
    rcases pairwise_either _ l q3 a b ((q1 a).2 ha) ((q1 b).2 hb) hab with h1 | h1 <;> omega

theorem client_thread_priority_order_witness :
    (oneClientState.clients 0).priority = 1
      ∧ (twoClientState.clients 0).priority < (twoClientState.clients 1).priority
      ∧ (twoClientState.clients 0).priority ≠ (twoClientState.clients 1).priority := by
  have h1 := (client_thread_priority_order.1 initialState oneClientState 0
    client_thread_initialState).2.2.2.2.2.2
    (fun k _ => stateOf_free [] [] [] k (Nat.zero_le k))
  have hr : Reach twoClientState [0, 1] :=
    Reach.connect (Reach.connect Reach.init client_thread_initialState)
      client_thread_oneClientState
  obtain ⟨_, h2, h3⟩ := client_thread_priority_order.2 twoClientState [0, 1] hr
  refine ⟨h1, ?_, h3 0 1 rfl rfl (by decide)⟩
  rw [List.pairwise_cons] at h2
  exact h2.1 1 (by simp)

/-! ## The engine protocol -/

theorem Sessions.append {a b : List String} (ha : Sessions a) (hb : Sessions b) :
    Sessions (a ++ b) := by
  induction ha with
  | nil => exact hb
  | cons hs _ ih =>
    rw [List.append_assoc]
    exact Sessions.cons hs ih

theorem Sessions.one {s : List String} (h : Session s) : Sessions s := by
  have := Sessions.cons h Sessions.nil
  rw [List.append_nil] at this
  exact this

theorem Asks.quiet (r : Resources) : Asks r r := ⟨[], by simp, Sessions.nil⟩

theorem asks_of_quiet {r r' : Resources} (h : r'.toEngine = r.toEngine) : Asks r r' :=
  ⟨[], by simp [h], Sessions.nil⟩

theorem Asks.followedBy {a b c : Resources} (h1 : Asks a b) (h2 : Asks b c) : Asks a c := by
  obtain ⟨l1, e1, s1⟩ := h1
  obtain ⟨l2, e2, s2⟩ := h2
  exact ⟨l1 ++ l2, by rw [e2, e1, List.append_assoc], s1.append s2⟩

theorem AsksOk.follows {r r1 : Resources} {x : Except Halt Resources} (h : Asks r r1)
    (hx : AsksOk r1 x) : AsksOk r x := by
  cases x with
  | error e => trivial
  | ok r2 => exact h.followedBy hx

theorem AsksOkP.followsP {α : Type} {r r1 : Resources} {x : Except Halt (Resources × α)}
    (h : Asks r r1) (hx : AsksOkP r1 x) : AsksOkP r x := by
  rcases x with e | ⟨r2, a⟩
  · trivial
  · exact h.followedBy hx

theorem asks_of_keeps {r r' : Resources} (k : Keeps r r') : Asks r r' :=
  asks_of_quiet k.toEngine

theorem asksOkP_write_to_client (r : Resources) (c : Nat) (msg : String) :
    AsksOkP r (write_to_client r c msg) := by
  cases h : write_to_client r c msg with
  | error e => trivial
  | ok x =>
    obtain ⟨r1, n⟩ := x
    exact asks_of_keeps (keeps_write_to_client h)

theorem asksOk_send_started (r : Resources) (col : Colour) (c : Nat) :
    AsksOk r (send_started r col c) := by
  cases h : send_started r col c with
  | error e => trivial
  | ok r1 => exact asks_of_keeps (keeps_send_started h)

theorem asksOk_start_player (r : Resources) (g i : Nat) : AsksOk r (start_player r g i) := by
  cases h : start_player r g i with
  | error e => trivial
  | ok r1 => exact asks_of_keeps (keeps_start_player h)

theorem resolve_colours_toEngine (r : Resources) (human other : Nat) :
    (resolve_colours r human other).toEngine = r.toEngine := by
  unfold resolve_colours
  split
  · rfl
  · split <;> rfl

theorem asksOk_pair_humans (r : Resources) (human other : Nat) :
    AsksOk r (pair_humans r human other) := by
  unfold pair_humans
  simp only [bind, Except.bind]
  cases hg : get_unassigned_game (resolve_colours r human other) with
  | error e => trivial
  | ok g =>
    simp only []
    have h0 : Asks r (seat_players (resolve_colours r human other) human other g) :=
      asks_of_quiet (resolve_colours_toEngine r human other)
    have h1 := asksOk_start_player (seat_players (resolve_colours r human other) human other g)
      g 0
    generalize start_player (seat_players _ _ _ _) g 0 = x at h1 ⊢
    cases x with
    | error e => trivial
    | ok r5 => exact AsksOk.follows (h0.followedBy h1) (asksOk_start_player r5 g 1)

theorem asksOk_try_to_match_human (r : Resources) (human : Nat) :
    AsksOk r (try_to_match_human r human) := by
  unfold try_to_match_human
  split
  · exact asks_of_quiet rfl
  · exact AsksOk.follows (asks_of_quiet rfl) (asksOk_pair_humans _ _ _)

/-- The handshake: the reset is written and the reply `readyok` is read before
the function returns. -/
theorem engine_new_game_log {r r' : Resources} (h : engine_new_game r = .ok r') :
    r'.toEngine = r.toEngine ++ [resetLines]
      ∧ r.fromEngine = .line "readyok\n" :: r'.fromEngine
      ∧ r'.games = r.games ∧ r'.clients = r.clients := by
  unfold engine_new_game try_to_write_engine at h
  by_cases hE : r.engineWriteFails = true
  · simp [hE] at h
  · simp only [hE, Bool.false_eq_true, if_false] at h
    cases hf : r.fromEngine with
    | nil => simp [hf] at h
    | cons a rest =>
      cases a with
      | line s =>
        simp only [hf] at h
        by_cases hs : s = "readyok\n"
        · simp only [hs, if_true, Except.ok.injEq] at h
          subst h
          subst hs
          exact ⟨rfl, rfl, rfl, rfl⟩
        · simp [hs] at h
      | dOutput st => simp [hf] at h
      | moves ms => simp [hf] at h
      | unparsable => simp [hf] at h

theorem try_to_write_engine_log {r r' : Resources} {t : String}
    (h : try_to_write_engine r t = some r') :
    r' = { r with toEngine := r.toEngine ++ [t] } := by
  unfold try_to_write_engine at h
  split at h
  · cases h
  · cases h
    rfl

theorem set_position_no_move_log {r r' : Resources} {fen : String}
    (h : set_position_no_move fen r = .ok r') :
    r'.toEngine = r.toEngine ++ [resetLines, positionLine fen]
      ∧ r'.games = r.games ∧ r'.clients = r.clients := by
  unfold set_position_no_move at h
  cases h1 : engine_new_game r with
  | error e =>
    rw [h1] at h
    cases h
  | ok r1 =>
    rw [h1] at h
    simp only [] at h
    obtain ⟨e1, _, e3, e4⟩ := engine_new_game_log h1
    cases h2 : try_to_write_engine r1 ("position fen " ++ fen ++ "\n") with
    | none =>
      rw [h2] at h
      cases h
    | some r2 =>
      rw [h2] at h
      cases h
      rw [try_to_write_engine_log h2]
      exact ⟨by simp [e1, positionLine], e3, e4⟩

theorem read_d_output_toEngine {r r' : Resources} {st : StockfishGameState}
    (h : read_stockfish_d_output r = some (st, r')) : r'.toEngine = r.toEngine := by
  unfold read_stockfish_d_output at h
  split at h
  · cases h
    rfl
  · cases h

theorem read_go_perft_toEngine {r r' : Resources} {ms : List String}
    (h : read_stockfish_go_perft_1_output r = some (ms, r')) : r'.toEngine = r.toEngine := by
  unfold read_stockfish_go_perft_1_output at h
  split at h
  · cases h
    rfl
  · cases h

theorem read_bestmove_toEngine {r r' : Resources} {ms : List String}
    (h : read_stockfish_bestmove_output r = some (ms, r')) : r'.toEngine = r.toEngine := by
  unfold read_stockfish_bestmove_output at h
  split at h
  · cases h
    rfl
  · cases h

/-- The requests of `best_move`: reset, the position of the game, the query. -/
theorem best_move_log {r r' : Resources} {g : Nat} {bm : String}
    (h : best_move r g = .ok (bm, r')) :
    r'.toEngine = r.toEngine
      ++ [resetLines, positionLine (r.games g).fenBoardState, "go movetime 500 depth 15\n"] := by
  unfold best_move at h
  cases h1 : set_position_no_move (r.games g).fenBoardState r with
  | error e =>
    rw [h1] at h
    cases h
  | ok r1 =>
    rw [h1] at h
    simp only [] at h
    obtain ⟨e1, _, _⟩ := set_position_no_move_log h1
    cases h2 : try_to_write_engine r1 "go movetime 500 depth 15\n" with
    | none =>
      rw [h2] at h
      cases h
    | some r2 =>
      rw [h2] at h
      simp only [] at h
      have e2 := try_to_write_engine_log h2
      cases h3 : read_stockfish_bestmove_output r2 with
      | none =>
        rw [h3] at h
        cases h
      | some x =>
        obtain ⟨ms, r3⟩ := x
        rw [h3] at h
        have e3 := read_bestmove_toEngine h3
        cases ms with
        | nil => cases h
        | cons m ms =>
          simp only [Except.ok.injEq, Prod.mk.injEq] at h
          rw [← h.2, e3, e2]
          simp [e1]

theorem asks_best_move {r r' : Resources} {g : Nat} {bm : String}
    (h : best_move r g = .ok (bm, r')) : Asks r r' :=
  ⟨_, best_move_log h, Sessions.one (Session.plain _ _ (Or.inr (Or.inr rfl)))⟩

/-- The requests of `respond_board`: none without a position to show, else
reset, the position shown, the query `d`. -/
theorem respond_board_log {r r' : Resources} {c : Nat} {n : Int}
    (h : respond_board r c = .ok (r', n)) :
    (shownPosition r c = none ∧ r' = r)
      ∨ ∃ fen, shownPosition r c = some fen
          ∧ r'.toEngine = r.toEngine ++ [resetLines, positionLine fen, "d\n"] := by
  unfold respond_board at h
  cases hf : shownPosition r c with
  | none =>
    unfold shownPosition at hf
    rw [hf] at h
    cases h
    exact Or.inl ⟨rfl, rfl⟩
  | some fen =>
    unfold shownPosition at hf
    rw [hf] at h
    simp only [bind, Except.bind] at h
    right
    refine ⟨fen, rfl, ?_⟩
    cases h1 : set_position_no_move fen r with
    | error e =>
      rw [h1] at h
      cases h
    | ok r1 =>
      rw [h1] at h
      simp only [] at h
      obtain ⟨e1, _, _⟩ := set_position_no_move_log h1
      cases h2 : try_to_write_engine r1 "d\n" with
      | none =>
        rw [h2] at h
        cases h
      | some r2 =>
        rw [h2] at h
        simp only [] at h
        have e2 := try_to_write_engine_log h2
        cases h3 : read_stockfish_d_output r2 with
        | none =>
          rw [h3] at h
          cases h
        | some x =>
          obtain ⟨st, r3⟩ := x
          rw [h3] at h
          simp only [] at h
          have e3 := read_d_output_toEngine h3
          cases h4 : write_to_client r3 c ("startboard\n" ++ st.boardString ++ "endboard\n") with
          | error e =>
            rw [h4] at h
            cases h
          | ok y =>
            obtain ⟨r4, m⟩ := y
            rw [h4] at h
            simp only [Except.ok.injEq, Prod.mk.injEq] at h
            rw [← h.1, (keeps_write_to_client h4).toEngine, e3, e2]
            simp [e1]

theorem asksOkP_respond_board (r : Resources) (c : Nat) : AsksOkP r (respond_board r c) := by
  cases h : respond_board r c with
  | error e => trivial
  | ok x =>
    obtain ⟨r1, n⟩ := x
    rcases respond_board_log h with ⟨_, e⟩ | ⟨fen, _, e⟩
    · rw [e]
      exact Asks.quiet r
    · exact ⟨_, e, Sessions.one (Session.plain _ _ (Or.inl rfl))⟩

theorem quiet_write_moves (c : Nat) (ms : List String) :
    ∀ r r', write_moves c ms r = .ok r' → r'.toEngine = r.toEngine := by
  induction ms with
  | nil =>
    intro r r' h
    cases h
    rfl
  | cons m ms ih =>
    intro r r' h
    unfold write_moves at h
    cases h1 : write_to_client r c (" " ++ m) with
    | error e =>
      rw [h1] at h
      cases h
    | ok x =>
      obtain ⟨r1, n⟩ := x
      rw [h1] at h
      simp only [] at h
      rw [ih r1 r' h, (keeps_write_to_client h1).toEngine]

/-- The requests of `respond_hint`: reset, the position of the client's game,
and the query, `go perft 1` for `all` and `go movetime 500 depth 15` for
`best`. -/
theorem respond_hint_log {r r' : Resources} {c : Nat} {all : Bool}
    (h : respond_hint r c all = .ok r') :
    ∃ g, (r.clients c).game = some g
      ∧ r'.toEngine = r.toEngine
          ++ [resetLines, positionLine (r.games g).fenBoardState,
              if all then goPerft1 else "go movetime 500 depth 15\n"] := by
  unfold respond_hint at h
  cases hg : (r.clients c).game with
  | none =>
    rw [hg] at h
    cases h
  | some g =>
    rw [hg] at h
    refine ⟨g, rfl, ?_⟩
    simp only [bind, Except.bind] at h
    cases all with
    | true =>
      simp only [if_true] at h ⊢
      cases h1 : set_position_no_move (r.games g).fenBoardState r with
      | error e =>
        rw [h1] at h
        cases h
      | ok r1 =>
        rw [h1] at h
        simp only [] at h
        obtain ⟨e1, _, _⟩ := set_position_no_move_log h1
        cases h2 : try_to_write_engine r1 goPerft1 with
        | none =>
          rw [h2] at h
          cases h
        | some r2 =>
          rw [h2] at h
          simp only [] at h
          have e2 := try_to_write_engine_log h2
          cases h3 : read_stockfish_go_perft_1_output r2 with
          | none =>
            rw [h3] at h
            simp only [] at h
            cases h4 : write_to_client r2 c "moves" with
            | error e =>
              rw [h4] at h
              cases h
            | ok y =>
              rw [h4] at h
              cases h
          | some x =>
            obtain ⟨ms, r3⟩ := x
            rw [h3] at h
            simp only [] at h
            have e3 := read_go_perft_toEngine h3
            cases h4 : write_to_client r3 c "moves" with
            | error e =>
              rw [h4] at h
              cases h
            | ok y =>
              obtain ⟨r4, n⟩ := y
              rw [h4] at h
              simp only [] at h
              cases h5 : write_moves c ms r4 with
              | error e =>
                rw [h5] at h
                cases h
              | ok r5 =>
                rw [h5] at h
                simp only [] at h
                cases h6 : write_to_client r5 c "\n" with
                | error e =>
                  rw [h6] at h
                  cases h
                | ok z =>
                  obtain ⟨r6, n6⟩ := z
                  rw [h6] at h
                  cases h
                  rw [(keeps_write_to_client h6).toEngine, quiet_write_moves c ms r4 r5 h5,
                    (keeps_write_to_client h4).toEngine, e3, e2]
                  simp [e1]
    | false =>
      simp only [Bool.false_eq_true, if_false] at h ⊢
      cases h1 : best_move r g with
      | error e =>
        rw [h1] at h
        cases h
      | ok x =>
        obtain ⟨bm, r1⟩ := x
        rw [h1] at h
        simp only [] at h
        cases h2 : write_to_client r1 c ("moves " ++ bm ++ "\n") with
        | error e =>
          rw [h2] at h
          cases h
        | ok y =>
          obtain ⟨r2, n⟩ := y
          rw [h2] at h
          cases h
          rw [(keeps_write_to_client h2).toEngine, best_move_log h1]

theorem asksOk_respond_hint (r : Resources) (c : Nat) (all : Bool) :
    AsksOk r (respond_hint r c all) := by
  cases h : respond_hint r c all with
  | error e => trivial
  | ok r1 =>
    obtain ⟨g, _, e⟩ := respond_hint_log h
    refine ⟨_, e, Sessions.one (Session.plain _ _ ?_)⟩
    cases all
    · exact Or.inr (Or.inr rfl)
    · exact Or.inr (Or.inl rfl)

/-- The outcome step of an accepted move sends the one query `go perft 1`. -/
theorem move_outcome_log {r r' : Resources} {g : Nat} {o : Option Nat} {c : Bool}
    (h : move_outcome r g o c = .ok r') : r'.toEngine = r.toEngine ++ [goPerft1] := by
  unfold move_outcome at h
  simp only [bind, Except.bind] at h
  cases h1 : try_to_write_engine r goPerft1 with
  | none =>
    rw [h1] at h
    cases h
  | some r1 =>
    rw [h1] at h
    simp only [] at h
    have e1 := try_to_write_engine_log h1
    cases h2 : read_stockfish_go_perft_1_output r1 with
    | none =>
      rw [h2] at h
      cases h
    | some x =>
      obtain ⟨ms, r2⟩ := x
      rw [h2] at h
      simp only [] at h
      have e2 : r2.toEngine = r.toEngine ++ [goPerft1] := by
        rw [read_go_perft_toEngine h2, e1]
      have key : ∀ r3, Keeps r2 r3 →
          (r3.setGame g { r3.games g with turn := (r3.games g).turn.lnot }).toEngine
            = r.toEngine ++ [goPerft1] := by
        intro r3 k3
        rw [← e2, ← k3.toEngine]
        rfl
      by_cases hl : ms.length = 0
      · by_cases hc : c = true
        · simp only [hl, hc, if_true] at h
          cases he : end_game r2 g o .checkmate with
          | error e =>
            rw [he] at h
            cases h
          | ok r3 =>
            rw [he] at h
            cases h
            exact key _ (keeps_end_game he)
        · simp only [hl, hc, if_true, if_false] at h
          cases he : end_game r2 g none .stalemate with
          | error e =>
            rw [he] at h
            cases h
          | ok r3 =>
            rw [he] at h
            cases h
            exact key _ (keeps_end_game he)
      · by_cases hc : c = true
        · simp only [hl, hc, if_true, if_false] at h
          cases h3 : send_check r2 g 0 with
          | error e =>
            rw [h3] at h
            cases h
          | ok r3 =>
            rw [h3] at h
            simp only [] at h
            cases h4 : send_check r3 g 1 with
            | error e =>
              rw [h4] at h
              cases h
            | ok r4 =>
              rw [h4] at h
              cases h
              exact key _ ((keeps_send_check h3).andThen (keeps_send_check h4))
        · simp only [hl, hc, if_false] at h
          cases h
          exact key _ (Keeps.same r2)

/-- The requests of `move_accepted`: none if a notification could not be
written, else the query `go perft 1`, then whole sessions for the computer's
reply if there is one. -/
theorem move_accepted_log (cm : Resources → Nat → Except Halt Resources) (move : String)
    (g : Nat) (movingClient opponent : Option Nat) (r r' : Resources)
    (st : StockfishGameState) (hcm : ∀ r1, AsksOk r1 (cm r1 g))
    (h : move_accepted cm move g movingClient opponent r st = .ok r') :
    r'.toEngine = r.toEngine
      ∨ ∃ l, r'.toEngine = r.toEngine ++ goPerft1 :: l ∧ Sessions l := by
  unfold move_accepted at h
  simp only [bind, Except.bind] at h
  cases h1 : notify (r.setGame g { r.games g with fenBoardState := st.fenString })
      movingClient "ok\n" with
  | error e =>
    rw [h1] at h
    cases h
  | ok x =>
    obtain ⟨r2, ret1⟩ := x
    rw [h1] at h
    simp only [] at h
    have e2 : r2.toEngine = r.toEngine := (keeps_notify h1).toEngine
    by_cases hr1 : ret1 = -1
    · simp only [hr1, if_true] at h
      cases h
      exact Or.inl e2
    · simp only [hr1, if_false] at h
      cases h2 : notify r2 opponent ("moved " ++ move ++ "\n") with
      | error e =>
        rw [h2] at h
        cases h
      | ok y =>
        obtain ⟨r3, ret2⟩ := y
        rw [h2] at h
        simp only [] at h
        have e3 : r3.toEngine = r.toEngine := (keeps_notify h2).toEngine.trans e2
        by_cases hr2 : ret2 = -1
        · simp only [hr2, if_true] at h
          cases h
          exact Or.inl e3
        · simp only [hr2, if_false] at h
          cases h3 : move_outcome r3 g opponent st.checkers.isSome with
          | error e =>
            rw [h3] at h
            cases h
          | ok r4 =>
            rw [h3] at h
            simp only [] at h
            have e4 : r4.toEngine = r.toEngine ++ [goPerft1] := by
              rw [move_outcome_log h3, e3]
            right
            by_cases hm : movingClient = none
            · simp only [hm, ne_eq, not_true_eq_false, if_false] at h
              cases h
              exact ⟨[], e4, Sessions.nil⟩
            · simp only [hm, ne_eq, not_false_eq_true, if_true] at h
              rcases game_is_against_computer_cases (r4.games g) with hb | ⟨b, hb⟩
              · rw [hb] at h
                cases h
              · rw [hb] at h
                simp only [] at h
                split at h
                · have hc := hcm r4
                  rw [h] at hc
                  obtain ⟨l, el, sl⟩ := hc
                  exact ⟨l, by rw [el, e4]; simp, sl⟩
                · cases h
                  exact ⟨[], e4, Sessions.nil⟩

/-- The requests of `make_move`: reset, the position of the game with the
candidate move and `d`, then for an accepted move `go perft 1` and whole
sessions for the computer's reply if there is one. -/
theorem make_move_body_log (cm : Resources → Nat → Except Halt Resources) (r r' : Resources)
    (g : Nat) (move : String) (hcm : ∀ r1, AsksOk r1 (cm r1 g))
    (h : make_move_body cm r g move = .ok r') :
    ∃ tail, r'.toEngine
        = r.toEngine ++ [resetLines, testLines (r.games g).fenBoardState move] ++ tail
      ∧ (tail = [] ∨ ∃ l, tail = goPerft1 :: l ∧ Sessions l) := by
  unfold make_move_body at h
  simp only [bind, Except.bind] at h
  cases h1 : engine_new_game r with
  | error e =>
    rw [h1] at h
    cases h
  | ok r1 =>
    rw [h1] at h
    simp only [] at h
    obtain ⟨e1, _, g1, _⟩ := engine_new_game_log h1
    cases h2 : try_to_write_engine r1
        ("position fen " ++ (r1.games g).fenBoardState ++ " moves " ++ move ++ "\nd\n") with
    | none =>
      rw [h2] at h
      cases h
    | some r2 =>
      rw [h2] at h
      simp only [] at h
      have e2 := try_to_write_engine_log h2
      cases h3 : read_stockfish_d_output r2 with
      | none =>
        rw [h3] at h
        cases h
      | some x =>
        obtain ⟨st, r3⟩ := x
        rw [h3] at h
        simp only [] at h
        have e3 : r3.toEngine
            = r.toEngine ++ [resetLines, testLines (r.games g).fenBoardState move] := by
          rw [read_d_output_toEngine h3, e2]
          simp [e1, g1, testLines]
        split at h
        · rcases move_accepted_log cm move g _ _ r3 r' st hcm h with e | ⟨l, e, sl⟩
          · exact ⟨[], by rw [e, e3]; simp, Or.inl rfl⟩
          · exact ⟨goPerft1 :: l, by rw [e, e3], Or.inr ⟨l, rfl, sl⟩⟩
        · cases h4 : notify r3 ((r3.games g).players (r3.games g).turn.toNat)
              "error move\n" with
          | error e =>
            rw [h4] at h
            cases h
          | ok y =>
            obtain ⟨r4, n⟩ := y
            rw [h4] at h
            cases h
            exact ⟨[], by rw [(keeps_notify h4).toEngine, e3]; simp, Or.inl rfl⟩

theorem asksOk_make_move_body (cm : Resources → Nat → Except Halt Resources) (r : Resources)
    (g : Nat) (move : String) (hcm : ∀ r1, AsksOk r1 (cm r1 g)) :
    AsksOk r (make_move_body cm r g move) := by
  cases h : make_move_body cm r g move with
  | error e => trivial
  | ok r' =>
    obtain ⟨tail, e, ht⟩ := make_move_body_log cm r r' g move hcm h
    rcases ht with ht | ⟨l, ht, sl⟩
    · subst ht
      rw [List.append_nil] at e
      exact ⟨_, e, Sessions.one (Session.test (r.games g).fenBoardState move)⟩
    · subst ht
      refine ⟨_, ?_, Sessions.cons (Session.counted (r.games g).fenBoardState move) sl⟩
      rw [e, List.append_assoc]
      rfl

theorem asksOk_computer_move_body (mk : Resources → Nat → String → Except Halt Resources)
    (r : Resources) (g : Nat) (hmk : ∀ r2 bm, AsksOk r2 (mk r2 g bm)) :
    AsksOk r (computer_move_body mk r g) := by
  unfold computer_move_body
  split
  · trivial
  · cases h1 : best_move r g with
    | error e => trivial
    | ok x =>
      obtain ⟨bm, r1⟩ := x
      simp only []
      exact AsksOk.follows (asks_best_move h1) (hmk r1 bm)

theorem asksOk_make_move (fuel : Nat) : ∀ (r : Resources) (g : Nat) (move : String),
    AsksOk r (make_move fuel r g move) := by
  induction fuel with
  | zero =>
    intro r g move
    trivial
  | succ n ih =>
    intro r g move
    rw [make_move]
    exact asksOk_make_move_body _ r g move
      (fun r1 => asksOk_computer_move_body _ r1 g (fun r2 bm => ih r2 g bm))

theorem asksOk_computer_move (fuel : Nat) (r : Resources) (g : Nat) :
    AsksOk r (computer_move fuel r g) := by
  unfold computer_move
  exact asksOk_computer_move_body _ r g (fun r2 bm => asksOk_make_move fuel r2 g bm)

theorem asksOk_start_computer_game (fuel : Nat) (r : Resources) (c : Nat) (colour : Colour) :
    AsksOk r (start_computer_game fuel r c colour) := by
  rw [start_computer_game_eq]
  cases hg : get_unassigned_game r with
  | error e => trivial
  | ok g =>
    simp only []
    have k6 : Asks r (computer_game_seated r g c colour) := asks_of_quiet rfl
    have h7 := asksOk_send_started (computer_game_seated r g c colour) colour c
    generalize send_started _ colour c = y at h7 ⊢
    cases y with
    | error e => trivial
    | ok r7 =>
      have k7 : Asks r r7 := k6.followedBy h7
      simp only []
      split
      · exact AsksOk.follows k7 (asksOk_computer_move fuel r7 g)
      · exact k7

theorem asksOk_end_game (r : Resources) (g : Nat) (client : Option Nat) (res : GameResult) :
    AsksOk r (end_game r g client res) := by
  cases h : end_game r g client res with
  | error e => trivial
  | ok r1 => exact asks_of_keeps (keeps_end_game h)

theorem asksOk_remove_client (r : Resources) (c : Nat) : AsksOk r (remove_client r c) := by
  cases h : remove_client r c with
  | error e => trivial
  | ok r1 => exact asks_of_keeps (keeps_remove_client h)

theorem asksOk_resign_current (r : Resources) (c : Nat) : AsksOk r (resign_current r c) := by
  unfold resign_current
  split
  · exact asksOk_end_game _ _ _ _
  · exact Asks.quiet r

theorem asksOk_start_new_game (fuel : Nat) (r : Resources) (c : Nat) (opponent : Opponent)
    (colour0 : Colour) : AsksOk r (start_new_game fuel r c opponent colour0) := by
  unfold start_new_game
  have h1 := asksOk_resign_current r c
  generalize resign_current r c = x at h1 ⊢
  cases x with
  | error e => trivial
  | ok r1 =>
    have k2 : ∀ col : Colour, Asks r (r1.setClient c
        { r1.clients c with lastGameFen := none, colour := col }) :=
      fun col => Asks.followedBy h1 (asks_of_quiet rfl)
    simp only []
    cases opponent with
    | com => exact AsksOk.follows (k2 _) (asksOk_start_computer_game fuel _ c _)
    | human => exact AsksOk.follows (k2 _) (asksOk_try_to_match_human _ c)
    | unspecified => exact k2 _

theorem asksOkP_respond_start (fuel : Nat) (r : Resources) (c : Nat) (fields : List String) :
    AsksOkP r (respond_start fuel r c fields) := by
  unfold respond_start
  simp only []
  split
  · exact Asks.quiet r
  · exact Asks.quiet r
  · rename_i opponent colour0 _ _
    have h := asksOk_start_new_game fuel r c opponent colour0
    generalize start_new_game fuel r c opponent colour0 = y at h ⊢
    cases y with
    | error e => trivial
    | ok r1 => exact h

theorem asksOkP_respond_medium_input (fuel : Nat) (cmd : String) (fields : List String)
    (c : Nat) (r : Resources) :
    AsksOkP r (respond_medium_input fuel cmd fields c r) := by
  unfold respond_medium_input
  simp only [bind, Except.bind]
  split
  · split
    · exact Asks.quiet r
    · split
      · exact Asks.quiet r
      · rename_i g _
        split
        · exact Asks.quiet r
        · have h := asksOk_make_move fuel r g (fields.getD 1 "")
          generalize make_move fuel r g _ = y at h ⊢
          cases y with
          | error e => trivial
          | ok r1 => exact h
  · split
    · split
      · exact Asks.quiet r
      · rename_i all _
        split
        · exact Asks.quiet r
        · rename_i g _
          split
          · exact Asks.quiet r
          · have h := asksOk_respond_hint r c all
            generalize respond_hint r c all = y at h ⊢
            cases y with
            | error e => trivial
            | ok r1 => exact h
    · exact Asks.quiet r

theorem asksOkP_respond_short_input (r : Resources) (c : Nat) (cmd : String) :
    AsksOkP r (respond_short_input r c cmd) := by
  unfold respond_short_input
  simp only [bind, Except.bind]
  split
  · have h := asksOkP_respond_board r c
    generalize respond_board r c = y at h ⊢
    rcases y with e | ⟨r1, n⟩
    · trivial
    · simp only []
      split <;> exact h
  · split
    · split
      · exact Asks.quiet r
      · rename_i g _
        have h := asksOk_end_game r g (some c) .resignation
        generalize end_game r g (some c) .resignation = y at h ⊢
        cases y with
        | error e => trivial
        | ok r1 => exact h
    · exact Asks.quiet r

theorem asksOkP_dispatch (fuel : Nat) (r : Resources) (c : Nat) (fields : List String) :
    AsksOkP r (dispatch fuel r c fields) := by
  unfold dispatch
  simp only [bind, Except.bind]
  split
  · exact asksOkP_respond_short_input r c _
  · split
    · exact asksOkP_respond_medium_input fuel _ fields c r
    · split
      · split
        · have h := asksOkP_respond_start fuel r c fields
          generalize respond_start fuel r c fields = y at h ⊢
          rcases y with e | ⟨r1, n⟩
          · trivial
          · exact h
        · exact Asks.quiet r
      · exact Asks.quiet r

theorem asksOk_send_response (r : Resources) (c : Nat) (error : Int) :
    AsksOk r (send_response r c error) := by
  unfold send_response
  simp only []
  split
  · rename_i response _
    have h := asksOkP_write_to_client r c response
    generalize write_to_client r c response = z at h ⊢
    rcases z with e | ⟨r2, n⟩
    · trivial
    · exact h
  · exact Asks.quiet r

theorem asksOk_resign_remove_client (r : Resources) (c : Nat) :
    AsksOk r (resign_remove_client r c) := by
  unfold resign_remove_client
  split
  · split
    · rename_i g _ _
      have h := asksOk_end_game r g (some c) .resignation
      generalize end_game r g (some c) .resignation = y at h ⊢
      cases y with
      | error e => trivial
      | ok r1 => exact AsksOk.follows h (asksOk_remove_client r1 c)
    · exact asksOk_remove_client r c
  · exact asksOk_remove_client r c

/-- The engine requests of a round of `client_loop` are whole sessions. -/
theorem asksOk_client_command (fuel : Nat) (r : Resources) (c : Nat) (buffer : String) :
    AsksOk r (client_command fuel r c buffer) := by
  rw [client_command_eq]
  split
  · exact asksOk_resign_remove_client r c
  · have hd : AsksOkP r (error_code fuel r c buffer) := by
      unfold error_code
      cases validate_line (fgets buffer) with
      | error e => trivial
      | ok x =>
        obtain ⟨valid, line⟩ := x
        simp only []
        unfold run_line
        split
        · exact Asks.quiet r
        · exact asksOkP_dispatch fuel r c _
    generalize error_code fuel r c buffer = y at hd ⊢
    rcases y with e | ⟨r1, error⟩
    · trivial
    · exact AsksOk.follows hd (asksOk_send_response r1 c error)

/-- C24: the writes of the server to the engine while it serves a client
command that returns are a sequence of whole sessions: each begins with the
reset `ucinewgame`, `isready`, whose reply `readyok` is read before anything
else is written, then sets a position, and only then come its query lines
(`d`, `go perft 1`, `go movetime 500 depth 15`); the position carries
` moves <move>` exactly in the session in which `make_move` tests a candidate
move.  The position is the one queried: the position `board` shows (the
stored last position, else that of the game in progress), the position of the
client's game for `hint`, the position of the game for `best_move`, and the
position of the game with the candidate move for `make_move`. -/
theorem engine_requests_are_sessions (fuel : Nat) (r r' : Resources) :
    (∀ c buffer, client_command fuel r c buffer = .ok r' →
        ∃ l, r'.toEngine = r.toEngine ++ l ∧ Sessions l)
      ∧ (engine_new_game r = .ok r' →
          r'.toEngine = r.toEngine ++ [resetLines]
            ∧ r.fromEngine = .line "readyok\n" :: r'.fromEngine)
      ∧ (∀ c n, respond_board r c = .ok (r', n) →
          (shownPosition r c = none ∧ r' = r)
            ∨ ∃ fen, shownPosition r c = some fen
                ∧ r'.toEngine = r.toEngine ++ [resetLines, positionLine fen, "d\n"])
      ∧ (∀ c all, respond_hint r c all = .ok r' →
          ∃ g, (r.clients c).game = some g
            ∧ r'.toEngine = r.toEngine
                ++ [resetLines, positionLine (r.games g).fenBoardState,
                    if all then goPerft1 else "go movetime 500 depth 15\n"])
      ∧ (∀ g bm, best_move r g = .ok (bm, r') →
          r'.toEngine = r.toEngine
            ++ [resetLines, positionLine (r.games g).fenBoardState,
                "go movetime 500 depth 15\n"])
      ∧ (∀ g move, make_move fuel r g move = .ok r' →
          ∃ tail, r'.toEngine
              = r.toEngine ++ [resetLines, testLines (r.games g).fenBoardState move] ++ tail
            ∧ (tail = [] ∨ ∃ l, tail = goPerft1 :: l ∧ Sessions l)) := by
  refine ⟨fun c buffer h => ?_, fun h => ?_, fun c n h => respond_board_log h,
    fun c all h => respond_hint_log h, fun g bm h => best_move_log h, fun g move h => ?_⟩
  · have := asksOk_client_command fuel r c buffer
    rw [h] at this
    exact this
  · obtain ⟨e1, e2, _⟩ := engine_new_game_log h
    exact ⟨e1, e2⟩
  · cases fuel with
    | zero => cases h
    | succ n =>
      rw [make_move] at h
      exact make_move_body_log _ r r' g move
        (fun r1 => asksOk_computer_move_body _ r1 g (fun r2 bm => asksOk_make_move n r2 g bm)) h

theorem engine_requests_are_sessions_witness :
    ∃ r' l, client_command 2 (computerGameState acceptingReplies) 0 "move e2e4\n" = .ok r'
      ∧ r'.toEngine = (computerGameState acceptingReplies).toEngine ++ l ∧ Sessions l := by
  obtain ⟨r', h⟩ : ∃ r', client_command 2 (computerGameState acceptingReplies) 0 "move e2e4\n"
      = .ok r' := ⟨_, rfl⟩
  obtain ⟨l, h1, h2⟩ :=
    (engine_requests_are_sessions 2 (computerGameState acceptingReplies) r').1 0 "move e2e4\n" h
  exact ⟨r', l, h, h1, h2⟩

/-! ## What the handlers leave of the game references -/

theorem Tame.rest (g : Nat) (r : Resources) : Tame g r r :=
  ⟨fun _ _ h => h, fun _ => rfl, fun _ => rfl, fun _ h => h, fun _ => rfl, fun _ => rfl,
    fun _ => rfl, fun _ h => h, fun h _ _ h1 h2 _ => (by rw [h1] at h2; cases h2),
    fun _ _ => ⟨rfl, rfl⟩⟩

theorem Tame.slots {g : Nat} {r r' : Resources} (k : Tame g r r') (h i : Nat) :
    (r'.games h).players i = (r.games h).players i := by
  unfold Game.players
  rw [k.player0, k.player1]

theorem Tame.seq {g : Nat} {a b c : Resources} (h1 : Tame g a b) (h2 : Tame g b c) :
    Tame g a c := by
  refine ⟨fun c' h k => h1.refs c' h (h2.refs c' h k),
    fun i => (h2.colour i).trans (h1.colour i),
    fun i => (h2.waiting i).trans (h1.waiting i),
    fun i k => h1.assigned i (h2.assigned i k),
    fun h => (h2.player0 h).trans (h1.player0 h),
    fun h => (h2.player1 h).trans (h1.player1 h),
    fun h => (h2.gassigned h).trans (h1.gassigned h),
    fun h k => h1.alive h (h2.alive h k), fun h i p ha hc hp => ?_,
    fun h hne => ⟨((h2.others h hne).1).trans (h1.others h hne).1,
      ((h2.others h hne).2).trans (h1.others h hne).2⟩⟩
  cases hb : (b.games h).inProgress with
  | false =>
    intro hk
    exact h1.ended h i p ha hb hp (h2.refs p h hk)
  | true =>
    refine h2.ended h i p hb hc ?_
    rw [h1.slots]
    exact hp

theorem tame_of_engineOnly (g : Nat) {r r' : Resources} (k : EngineOnly r r') : Tame g r r' := by
  obtain ⟨k1, k2, _⟩ := k
  refine ⟨fun c h e => by rw [k2] at e; exact e, fun i => by rw [k2], fun i => by rw [k2],
    fun i e => by rw [k2] at e; exact e, fun h => by rw [k1], fun h => by rw [k1],
    fun h => by rw [k1], fun h e => by rw [k1] at e; exact e, fun h i p h1 h2 _ => ?_,
    fun h _ => by rw [k1]; exact ⟨rfl, rfl⟩⟩
  rw [k1, h1] at h2
  cases h2

theorem tame_log (g : Nat) (r : Resources) (l : List (Nat × String)) :
    Tame g r { r with toClients := l } :=
  ⟨fun _ _ h => h, fun _ => rfl, fun _ => rfl, fun _ h => h, fun _ => rfl, fun _ => rfl,
    fun _ => rfl, fun _ h => h, fun h _ _ h1 h2 _ => (by
      have : (r.games h).inProgress = false := h2
      rw [h1] at this
      cases this),
    fun _ _ => ⟨rfl, rfl⟩⟩

/-- A write to the record of game `g` that leaves its players and its flags
alone. -/
theorem tame_setGame (r : Resources) (g : Nat) (gm : Game)
    (ha : gm.assigned = (r.games g).assigned) (hi : gm.inProgress = (r.games g).inProgress)
    (h0 : gm.player0 = (r.games g).player0) (h1 : gm.player1 = (r.games g).player1) :
    Tame g r (r.setGame g gm) := by
  have hgame : ∀ h, h ≠ g → (r.setGame g gm).games h = r.games h := by
    intro h hne
    simp [Resources.setGame, hne]
  have hself : (r.setGame g gm).games g = gm := by simp [Resources.setGame]
  have key : ∀ h, ((r.setGame g gm).games h).assigned = (r.games h).assigned
      ∧ ((r.setGame g gm).games h).inProgress = (r.games h).inProgress
      ∧ ((r.setGame g gm).games h).player0 = (r.games h).player0
      ∧ ((r.setGame g gm).games h).player1 = (r.games h).player1 := by
    intro h
    by_cases e : h = g
    · subst e
      rw [hself]
      exact ⟨ha, hi, h0, h1⟩
    · rw [hgame h e]
      exact ⟨rfl, rfl, rfl, rfl⟩
  refine ⟨fun _ _ h => h, fun _ => rfl, fun _ => rfl, fun _ h => h, fun h => (key h).2.2.1,
    fun h => (key h).2.2.2, fun h => (key h).1, fun h e => by rw [(key h).2.1] at e; exact e,
    fun h _ _ e1 e2 _ => ?_, fun h hne => by rw [hgame h hne]; exact ⟨rfl, rfl⟩⟩
  rw [(key h).2.1, e1] at e2
  cases e2

theorem tame_flip (r : Resources) (g : Nat) :
    Tame g r (r.setGame g { r.games g with turn := (r.games g).turn.lnot }) :=
  tame_setGame r g _ rfl rfl rfl rfl

/-- An `end_game` that returns has only ended its game and cleared the game
references of its players. -/
theorem tame_end_game (t : Nat) {r r' : Resources} {g : Nat} {client : Option Nat}
    {res : GameResult} (h : end_game r g client res = .ok r') : Tame t r r' := by
  have he := ended_end_game h
  have hcl : ∀ c, (∃ i, (r.games g).players i = some c
        ∧ r'.clients c = { r.clients c with
            game := none, lastGameFen := some (r.games g).fenBoardState,
            assigned := (r.clients c).assigned && !(r.clients c).writeFails })
      ∨ r'.clients c = r.clients c := by
    intro c
    by_cases hp : ∃ i, (r.games g).players i = some c
    · obtain ⟨i, hi⟩ := hp
      exact Or.inl ⟨i, hi, he.players i c hi⟩
    · exact Or.inr (he.others c (fun i hi => hp ⟨i, hi⟩))
  have hgm : ∀ h, r'.games h = r.games h ∨ r'.games h = { r.games h with inProgress := false } := by
    intro h
    by_cases e : h = g
    · subst e
      exact Or.inr he.game
    · exact Or.inl (he.otherGames h e)
  refine ⟨fun c h k => ?_, fun c => ?_, fun c => ?_, fun c k => ?_, fun h => ?_, fun h => ?_,
    fun h => ?_, fun h k => ?_, fun h i p h1 h2 hp => ?_, fun h _ => ?_⟩
  · rcases hcl c with ⟨i, _, e⟩ | e <;> rw [e] at k
    · cases k
    · exact k
  · rcases hcl c with ⟨i, _, e⟩ | e <;> rw [e]
  · rcases hcl c with ⟨i, _, e⟩ | e <;> rw [e]
  · rcases hcl c with ⟨i, _, e⟩ | e <;> rw [e] at k
    · simp at k
      exact k.1
    · exact k
  · rcases hgm h with e | e <;> rw [e]
  · rcases hgm h with e | e <;> rw [e]
  · rcases hgm h with e | e <;> rw [e]
  · rcases hgm h with e | e <;> rw [e] at k
    · exact k
    · cases k
  · by_cases e : h = g
    · subst e
      rw [he.players i p hp]
      simp
    · rw [he.otherGames h e, h1] at h2
      cases h2
  · rcases hgm h with e | e <;> rw [e] <;> exact ⟨rfl, rfl⟩

theorem tame_remove_client (t : Nat) {r r' : Resources} {c : Nat}
    (h : remove_client r c = .ok r') : Tame t r r' := by
  obtain ⟨_, e⟩ := remove_client_ok h
  rw [e]
  have hcl : ∀ i, (r.setClient c { r.clients c with assigned := false }).clients i
      = { r.clients i with
          assigned := ((r.setClient c { r.clients c with assigned := false }).clients i).assigned }
        ∧ (((r.setClient c { r.clients c with assigned := false }).clients i).assigned = true →
            (r.clients i).assigned = true) := by
    intro i
    by_cases e : i = c
    · subst e
      simp [Resources.setClient]
    · simp [Resources.setClient, e]
  refine ⟨fun i h k => ?_, fun i => ?_, fun i => ?_, fun i k => (hcl i).2 k, fun _ => rfl,
    fun _ => rfl, fun _ => rfl, fun _ k => k, fun h _ _ h1 h2 _ => ?_, fun _ _ => ⟨rfl, rfl⟩⟩
  · rw [(hcl i).1] at k
    exact k
  · rw [(hcl i).1]
  · rw [(hcl i).1]
  · have : (r.games h).inProgress = false := h2
    rw [h1] at this
    cases this

theorem tame_write_to_client (t : Nat) {r r' : Resources} {c : Nat} {msg : String} {n : Int}
    (h : write_to_client r c msg = .ok (r', n)) : Tame t r r' := by
  rcases write_to_client_ok h with ⟨_, e, _⟩ | ⟨g, r1, _, _, _, he, hr, _⟩
  · rw [e]
    exact tame_log t r _
  · exact (tame_end_game t he).seq (tame_remove_client t hr)

theorem TameOk.since {g : Nat} {r r1 : Resources} {x : Except Halt Resources} (h : Tame g r r1)
    (hx : TameOk g r1 x) : TameOk g r x := by
  cases x with
  | error e => trivial
  | ok r2 => exact h.seq hx

theorem TameOkP.sinceP {α : Type} {g : Nat} {r r1 : Resources}
    {x : Except Halt (Resources × α)} (h : Tame g r r1) (hx : TameOkP g r1 x) :
    TameOkP g r x := by
  rcases x with e | ⟨r2, a⟩
  · trivial
  · exact h.seq hx

theorem tameOk_end_game (t : Nat) (r : Resources) (g : Nat) (client : Option Nat)
    (res : GameResult) : TameOk t r (end_game r g client res) := by
  cases h : end_game r g client res with
  | error e => trivial
  | ok r1 => exact tame_end_game t h

theorem tameOk_remove_client (t : Nat) (r : Resources) (c : Nat) :
    TameOk t r (remove_client r c) := by
  cases h : remove_client r c with
  | error e => trivial
  | ok r1 => exact tame_remove_client t h

theorem tameOkP_write_to_client (t : Nat) (r : Resources) (c : Nat) (msg : String) :
    TameOkP t r (write_to_client r c msg) := by
  cases h : write_to_client r c msg with
  | error e => trivial
  | ok x =>
    obtain ⟨r1, n⟩ := x
    exact tame_write_to_client t h

theorem tameOkP_notify (t : Nat) (r : Resources) (o : Option Nat) (msg : String) :
    TameOkP t r (notify r o msg) := by
  cases o with
  | none => exact Tame.rest t r
  | some m => exact tameOkP_write_to_client t r m msg

theorem tameOk_send_started (t : Nat) (r : Resources) (col : Colour) (c : Nat) :
    TameOk t r (send_started r col c) := by
  unfold send_started
  have h := tameOkP_write_to_client t r c ("started " ++ get_colour_name col ++ "\n")
  generalize write_to_client _ _ _ = x at h ⊢
  rcases x with e | ⟨r1, n⟩
  · trivial
  · exact h

theorem tameOk_send_check (t : Nat) (r : Resources) (g i : Nat) : TameOk t r (send_check r g i) := by
  unfold send_check
  split
  · exact Tame.rest t r
  · rename_i p _
    have h := tameOkP_write_to_client t r p "check\n"
    generalize write_to_client _ _ _ = x at h ⊢
    rcases x with e | ⟨r1, n⟩
    · trivial
    · exact h

theorem tameOk_move_outcome (r : Resources) (g : Nat) (opponent : Option Nat) (inCheck : Bool) :
    TameOk g r (move_outcome r g opponent inCheck) := by
  unfold move_outcome
  simp only [bind, Except.bind]
  cases hw : try_to_write_engine r goPerft1 with
  | none => trivial
  | some r1 =>
    have k1 := try_to_write_engine_only hw
    simp only []
    cases hr : read_stockfish_go_perft_1_output r1 with
    | none => trivial
    | some x =>
      obtain ⟨ms, r2⟩ := x
      have k := tame_of_engineOnly g (k1.next (read_go_perft_only hr))
      simp only []
      by_cases hlen : ms.length = 0
      · by_cases hc : inCheck = true
        · simp only [hlen, hc, if_true]
          cases he : end_game r2 g opponent .checkmate with
          | error e0 => trivial
          | ok r3 => exact k.seq ((tame_end_game g he).seq (tame_flip _ g))
        · simp only [hlen, hc, if_true, if_false]
          cases he : end_game r2 g none .stalemate with
          | error e0 => trivial
          | ok r3 => exact k.seq ((tame_end_game g he).seq (tame_flip _ g))
      · by_cases hc : inCheck = true
        · simp only [hlen, hc, if_true, if_false]
          have h0 := tameOk_send_check g r2 g 0
          generalize send_check r2 g 0 = z at h0 ⊢
          cases z with
          | error e0 => trivial
          | ok r3 =>
            simp only []
            have h1 := tameOk_send_check g r3 g 1
            generalize send_check r3 g 1 = z1 at h1 ⊢
            cases z1 with
            | error e1 => trivial
            | ok r4 => exact k.seq (Tame.seq h0 (Tame.seq h1 (tame_flip _ g)))
        · simp only [hlen, hc, if_false]
          exact k.seq (tame_flip _ g)

theorem tameOk_move_accepted (cm : Resources → Nat → Except Halt Resources) (move : String)
    (g : Nat) (movingClient opponent : Option Nat) (r : Resources) (st : StockfishGameState)
    (hcm : ∀ r1, TameOk g r1 (cm r1 g)) :
    TameOk g r (move_accepted cm move g movingClient opponent r st) := by
  unfold move_accepted
  simp only [bind, Except.bind]
  have k1 : Tame g r (r.setGame g { r.games g with fenBoardState := st.fenString }) :=
    tame_setGame r g _ rfl rfl rfl rfl
  have h1 := tameOkP_notify g (r.setGame g { r.games g with fenBoardState := st.fenString })
    movingClient "ok\n"
  generalize notify (r.setGame g _) movingClient "ok\n" = x at h1 ⊢
  rcases x with e | ⟨r2, ret1⟩
  · trivial
  · have k2 : Tame g r r2 := k1.seq h1
    simp only []
    by_cases hr1 : ret1 = -1
    · simp only [hr1, if_true]
      exact k2
    · simp only [hr1, if_false]
      have h2 := tameOkP_notify g r2 opponent ("moved " ++ move ++ "\n")
      generalize notify r2 opponent _ = y at h2 ⊢
      rcases y with e | ⟨r3, ret2⟩
      · trivial
      · have k3 : Tame g r r3 := k2.seq h2
        simp only []
        by_cases hr2 : ret2 = -1
        · simp only [hr2, if_true]
          exact k3
        · simp only [hr2, if_false]
          have h3 := tameOk_move_outcome r3 g opponent st.checkers.isSome
          generalize move_outcome r3 g opponent _ = z at h3 ⊢
          cases z with
          | error e => trivial
          | ok r4 =>
            have k4 : Tame g r r4 := k3.seq h3
            simp only []
            by_cases hm : movingClient = none
            · simp only [hm, ne_eq, not_true_eq_false, if_false]
              exact k4
            · simp only [hm, ne_eq, not_false_eq_true, if_true]
              rcases game_is_against_computer_cases (r4.games g) with hb | ⟨b, hb⟩
              · rw [hb]
                trivial
              · rw [hb]
                simp only []
                split
                · exact TameOk.since k4 (hcm r4)
                · exact k4

theorem tameOk_make_move_body (cm : Resources → Nat → Except Halt Resources) (r : Resources)
    (g : Nat) (move : String) (hcm : ∀ r1, TameOk g r1 (cm r1 g)) :
    TameOk g r (make_move_body cm r g move) := by
  unfold make_move_body
  simp only [bind, Except.bind]
  rcases engine_new_game_cases r with ⟨r1, h1, k1⟩ | h1
  · rw [h1]
    simp only []
    cases hw : try_to_write_engine r1 _ with
    | none => trivial
    | some r2 =>
      have k2 := k1.next (try_to_write_engine_only hw)
      simp only []
      cases hr : read_stockfish_d_output r2 with
      | none => trivial
      | some x =>
        obtain ⟨st, r3⟩ := x
        have k3 := tame_of_engineOnly g (k2.next (read_d_output_only hr))
        simp only []
        split
        · exact TameOk.since k3 (tameOk_move_accepted cm move g _ _ r3 st hcm)
        · have h := tameOkP_notify g r3 ((r3.games g).players (r3.games g).turn.toNat)
            "error move\n"
          generalize notify r3 _ _ = y at h ⊢
          rcases y with e | ⟨r4, n⟩
          · trivial
          · exact k3.seq h
  · rw [h1]
    trivial

theorem tameOk_computer_move_body (mk : Resources → Nat → String → Except Halt Resources)
    (r : Resources) (g : Nat) (hmk : ∀ r2 bm, TameOk g r2 (mk r2 g bm)) :
    TameOk g r (computer_move_body mk r g) := by
  unfold computer_move_body
  split
  · trivial
  · rcases best_move_cases r g with ⟨bm, r1, h1, k1⟩ | h1 | h1
    · rw [h1]
      simp only []
      exact TameOk.since (tame_of_engineOnly g k1) (hmk r1 bm)
    · rw [h1]
      trivial
    · rw [h1]
      trivial

theorem tameOk_make_move (fuel : Nat) : ∀ (r : Resources) (g : Nat) (move : String),
    TameOk g r (make_move fuel r g move) := by
  induction fuel with
  | zero =>
    intro r g move
    trivial
  | succ n ih =>
    intro r g move
    rw [make_move]
    exact tameOk_make_move_body _ r g move
      (fun r1 => tameOk_computer_move_body _ r1 g (fun r2 bm => ih r2 g bm))

theorem tameOk_computer_move (fuel : Nat) (r : Resources) (g : Nat) :
    TameOk g r (computer_move fuel r g) := by
  unfold computer_move
  exact tameOk_computer_move_body _ r g (fun r2 bm => tameOk_make_move fuel r2 g bm)

theorem tameOkP_respond_board (t : Nat) (r : Resources) (c : Nat) : TameOkP t r (respond_board r c) := by
  unfold respond_board
  simp only [bind, Except.bind]
  split
  · exact Tame.rest t r
  · rename_i fen _
    rcases set_position_no_move_cases fen r with ⟨r1, h1, k1⟩ | h1
    · rw [h1]
      simp only []
      cases hw : try_to_write_engine r1 "d\n" with
      | none => trivial
      | some r2 =>
        have k2 := k1.next (try_to_write_engine_only hw)
        simp only []
        cases hr : read_stockfish_d_output r2 with
        | none => trivial
        | some x =>
          obtain ⟨st, r3⟩ := x
          have k3 := tame_of_engineOnly t (k2.next (read_d_output_only hr))
          simp only []
          have h := tameOkP_write_to_client t r3 c
            ("startboard\n" ++ st.boardString ++ "endboard\n")
          generalize write_to_client r3 c _ = y at h ⊢
          rcases y with e | ⟨r4, n⟩
          · trivial
          · exact k3.seq h
    · rw [h1]
      trivial

theorem tameOk_write_moves (t : Nat) (c : Nat) (ms : List String) :
    ∀ r, TameOk t r (write_moves c ms r) := by
  induction ms with
  | nil =>
    intro r
    exact Tame.rest t r
  | cons m ms ih =>
    intro r
    unfold write_moves
    have h := tameOkP_write_to_client t r c (" " ++ m)
    generalize write_to_client r c _ = y at h ⊢
    rcases y with e | ⟨r1, n⟩
    · trivial
    · exact TameOk.since h (ih r1)

theorem tameOk_respond_hint (t : Nat) (r : Resources) (c : Nat) (all : Bool) :
    TameOk t r (respond_hint r c all) := by
  unfold respond_hint
  split
  · trivial
  · rename_i g _
    simp only [bind, Except.bind]
    split
    · rcases set_position_no_move_cases (r.games g).fenBoardState r with ⟨r1, h1, k1⟩ | h1
      · rw [h1]
        simp only []
        cases hw : try_to_write_engine r1 goPerft1 with
        | none => trivial
        | some r2 =>
          have k2 := k1.next (try_to_write_engine_only hw)
          simp only []
          cases hr : read_stockfish_go_perft_1_output r2 with
          | none =>
            simp only []
            generalize write_to_client r2 c "moves" = y
            rcases y with e | ⟨r4, n⟩
            · trivial
            · trivial
          | some x =>
            obtain ⟨ms, r3⟩ := x
            have k3 := tame_of_engineOnly t (k2.next (read_go_perft_only hr))
            simp only []
            have h := tameOkP_write_to_client t r3 c "moves"
            generalize write_to_client r3 c _ = y at h ⊢
            rcases y with e | ⟨r4, n⟩
            · trivial
            · simp only []
              have h5 := tameOk_write_moves t c ms r4
              generalize write_moves c ms r4 = z at h5 ⊢
              cases z with
              | error e => trivial
              | ok r5 =>
                simp only []
                have h6 := tameOkP_write_to_client t r5 c "\n"
                generalize write_to_client r5 c _ = w at h6 ⊢
                rcases w with e | ⟨r6, n⟩
                · trivial
                · exact ((k3.seq h).seq h5).seq h6
      · rw [h1]
        trivial
    · rcases best_move_cases r g with ⟨bm, r1, h1, k1⟩ | h1 | h1
      · rw [h1]
        simp only []
        have h := tameOkP_write_to_client t r1 c ("moves " ++ bm ++ "\n")
        generalize write_to_client r1 c _ = y at h ⊢
        rcases y with e | ⟨r2, n⟩
        · trivial
        · exact (tame_of_engineOnly t k1).seq h
      · rw [h1]
        trivial
      · rw [h1]
        trivial

theorem tameOk_send_response (t : Nat) (r : Resources) (c : Nat) (error : Int) :
    TameOk t r (send_response r c error) := by
  unfold send_response
  simp only []
  split
  · rename_i response _
    have h := tameOkP_write_to_client t r c response
    generalize write_to_client r c response = z at h ⊢
    rcases z with e | ⟨r2, n⟩
    · trivial
    · exact h
  · exact Tame.rest t r

/-! ## The game references of the reachable states -/

theorem game_eq {a b : Game} (h1 : a.assigned = b.assigned) (h2 : a.inProgress = b.inProgress)
    (h3 : a.player0 = b.player0) (h4 : a.player1 = b.player1) (h5 : a.turn = b.turn)
    (h6 : a.fenBoardState = b.fenBoardState) : a = b := by
  cases a
  cases b
  simp only [Game.mk.injEq]
  exact ⟨h1, h2, h3, h4, h5, h6⟩

theorem frozen_rfl (r : Resources) : Frozen r r := fun _ _ _ => rfl

theorem frozen_trans {a b c : Resources} (h1 : Frozen a b) (h2 : Frozen b c) : Frozen a c := by
  intro g ha hi
  have e := h1 g ha hi
  rw [h2 g (by rw [e]; exact ha) (by rw [e]; exact hi), e]

theorem frozen_of_games {r r' : Resources} (h : r'.games = r.games) : Frozen r r' :=
  fun g _ _ => by rw [h]

/-- Consistent game references stay consistent along `Tame`. -/
theorem sound_of_tame {g : Nat} {r r' : Resources} (hs : Sound r) (k : Tame g r r') :
    Sound r' := by
  refine ⟨fun c g0 hc => ?_, fun h e => ?_, fun c hw => ?_⟩
  · obtain ⟨p1, p2, p3⟩ := hs.seat c g0 (k.refs c g0 hc)
    rw [k.colour, k.slots]
    refine ⟨?_, p2, p3⟩
    cases hi : (r'.games g0).inProgress with
    | true => rfl
    | false => exact absurd hc (k.ended g0 _ c p1 hi p3)
  · rw [k.gassigned]
    exact hs.live h (k.alive h e)
  · rw [k.waiting] at hw
    have h0 := hs.idle c hw
    cases hg : (r'.clients c).game with
    | none => rfl
    | some h =>
      rw [k.refs c h hg] at h0
      cases h0

/-- A game that is over is not touched along `Tame g` unless it is `g`. -/
theorem tame_game {g : Nat} {r r' : Resources} (k : Tame g r r') (h : Nat) (hne : h ≠ g)
    (hi : (r.games h).inProgress = false) : r'.games h = r.games h := by
  refine game_eq (k.gassigned h) ?_ (k.player0 h) (k.player1 h) (k.others h hne).1
    (k.others h hne).2
  rw [hi]
  cases e : (r'.games h).inProgress with
  | false => rfl
  | true =>
    rw [k.alive h e] at hi
    cases hi

theorem frozen_of_tame {g : Nat} {r r' : Resources} (k : Tame g r r')
    (hg : (r.games g).inProgress = true ∨ (r.games g).assigned = false) : Frozen r r' := by
  intro h ha hi
  refine tame_game k h (fun e => ?_) hi
  subst e
  rcases hg with e | e
  · rw [e] at hi
    cases hi
  · rw [e] at ha
    cases ha

theorem frozen_of_calm {r r' : Resources} (k : ∀ t, Tame t r r') : Frozen r r' :=
  fun h _ hi => tame_game (k (h + 1)) h (by omega) hi

theorem soundOk_of_tame {g : Nat} {r : Resources} {x : Except Halt Resources} (hs : Sound r)
    (hg : (r.games g).inProgress = true ∨ (r.games g).assigned = false) (h : TameOk g r x) :
    SoundOk r x := by
  cases x with
  | error e => trivial
  | ok r1 => exact ⟨sound_of_tame hs h, frozen_of_tame h hg⟩

theorem soundOk_of_calm {r : Resources} {x : Except Halt Resources} (hs : Sound r)
    (h : ∀ t, TameOk t r x) : SoundOk r x := by
  cases x with
  | error e => trivial
  | ok r1 => exact ⟨sound_of_tame hs (h 0), frozen_of_calm h⟩

theorem soundOkP_of_calm {α : Type} {r : Resources} {x : Except Halt (Resources × α)}
    (hs : Sound r) (h : ∀ t, TameOkP t r x) : SoundOkP r x := by
  rcases x with e | ⟨r1, a⟩
  · trivial
  · exact ⟨sound_of_tame hs (h 0), frozen_of_calm h⟩

theorem soundOk_next {r r1 : Resources} {x : Except Halt Resources} (h : Frozen r r1)
    (hx : SoundOk r1 x) : SoundOk r x := by
  cases x with
  | error e => trivial
  | ok r2 => exact ⟨hx.1, frozen_trans h hx.2⟩

/-- A write to the record of a client that leaves it without a game keeps the
game references consistent. -/
theorem sound_setClient {r : Resources} (hs : Sound r) (c : Nat) (cl : Client)
    (hg : cl.game = none) : Sound (r.setClient c cl) := by
  have hcl : ∀ i, i ≠ c → (r.setClient c cl).clients i = r.clients i := by
    intro i hi
    simp [Resources.setClient, hi]
  have hc : (r.setClient c cl).clients c = cl := by simp [Resources.setClient]
  refine ⟨fun i g0 hi => ?_, fun h e => hs.live h e, fun i hw => ?_⟩
  · by_cases e : i = c
    · subst e
      rw [hc, hg] at hi
      cases hi
    · rw [hcl i e] at hi ⊢
      exact hs.seat i g0 hi
  · by_cases e : i = c
    · subst e
      rw [hc]
      exact hg
    · rw [hcl i e] at hw ⊢
      exact hs.idle i hw

theorem resign_current_sound {r r1 : Resources} {c : Nat} (hs : Sound r)
    (h : resign_current r c = .ok r1) :
    Sound r1 ∧ Frozen r r1 ∧ (r1.clients c).game = none := by
  unfold resign_current at h
  cases hg : (r.clients c).game with
  | none =>
    rw [hg] at h
    cases h
    exact ⟨hs, frozen_rfl r, hg⟩
  | some g =>
    rw [hg] at h
    simp only [] at h
    have k := fun t => tame_end_game t h
    refine ⟨sound_of_tame hs (k 0), frozen_of_calm k, ?_⟩
    obtain ⟨_, _, p3⟩ := hs.seat c g hg
    rw [(ended_end_game h).players _ c p3]

/-- The function `resolve_colours` changes colours only, and only those of the
two clients it pairs. -/
theorem resolve_colours_client (r : Resources) (human other k : Nat) :
    (resolve_colours r human other).clients k
        = { r.clients k with colour := ((resolve_colours r human other).clients k).colour }
      ∧ (k ≠ human → k ≠ other → (resolve_colours r human other).clients k = r.clients k) := by
  unfold resolve_colours
  split
  · unfold Resources.setClient
    by_cases h : k = other
    · subst h; simp
    · simp [h]
  · split
    · unfold Resources.setClient
      by_cases h : k = human
      · subst h; simp
      · simp [h]
    · unfold Resources.setClient
      by_cases h : k = other
      · subst h
        by_cases h2 : k = human
        · subst h2; simp
        · simp [h2]
      · by_cases h2 : k = human
        · subst h2; simp [h]
        · simp [h, h2]

/-- The state a pairing returns: game `g`, the first free slot, seated with
the two clients, both of which refer to it and no longer wait; nobody else
changed. -/
theorem pair_humans_result {r r' : Resources} {human other : Nat} (hne : other ≠ human)
    (h : pair_humans r human other = .ok r') :
    ∃ g, get_unassigned_game r = .ok g
      ∧ r'.games = (seat_players (resolve_colours r human other) human other g).games
      ∧ (∀ j, j ≠ human → j ≠ other →
          r'.clients j = (resolve_colours r human other).clients j)
      ∧ r'.clients human
          = { (resolve_colours r human other).clients human with
              game := some g, waitingForHuman := false }
      ∧ r'.clients other
          = { (resolve_colours r human other).clients other with
              game := some g, waitingForHuman := false } := by
  have hne' : human ≠ other := fun e => hne e.symm
  unfold pair_humans at h
  simp only [bind, Except.bind] at h
  cases hg : get_unassigned_game (resolve_colours r human other) with
  | error e => rw [hg] at h; cases h
  | ok g =>
    rw [hg] at h
    simp only [] at h
    have hg' : get_unassigned_game r = .ok g := by
      unfold get_unassigned_game at hg ⊢
      rw [resolve_colours_games] at hg
      exact hg
    cases h5 : start_player (seat_players (resolve_colours r human other) human other g) g 0 with
    | error e => rw [h5] at h; cases h
    | ok r5 =>
      rw [h5] at h
      simp only [] at h
      obtain ⟨c1, _⟩ := resolve_colours_spec r human other hne
      obtain ⟨s0, _, _, _, _, _, s6, s7, _⟩ :=
        seat_players_spec (resolve_colours r human other) human other g c1
      obtain ⟨p, hp, _, e5⟩ := start_player_returns h5
      obtain ⟨q, hq, _, e6⟩ := start_player_returns h
      rw [h5] at e5
      rw [h] at e6
      simp only [Except.ok.injEq] at e5 e6
      have hq' : ((seat_players (resolve_colours r human other) human other g).games g).players 1
          = some q := by
        rw [e5] at hq
        exact hq
      have hpq : (p = human ∧ q = other) ∨ (p = other ∧ q = human) := by
        cases hc : ((resolve_colours r human other).clients human).colour
        · rw [hc] at s6 s7
          simp only [Colour.toNat, Colour.lnot] at s6 s7
          rw [s6] at hp
          rw [s7] at hq'
          cases hp
          cases hq'
          exact Or.inl ⟨rfl, rfl⟩
        · rw [hc] at s6 s7
          simp only [Colour.toNat, Colour.lnot] at s6 s7
          rw [s7] at hp
          rw [s6] at hq'
          cases hp
          cases hq'
          exact Or.inr ⟨rfl, rfl⟩
        · exact absurd hc c1
      refine ⟨g, hg', ?_, ?_, ?_, ?_⟩
      · rw [e6, e5]
      · intro j hj1 hj2
        have hjp : j ≠ p := by rcases hpq with ⟨e, _⟩ | ⟨e, _⟩ <;> rw [e] <;> assumption
        have hjq : j ≠ q := by rcases hpq with ⟨_, e⟩ | ⟨_, e⟩ <;> rw [e] <;> assumption
        rw [e6, e5]
        simp only [hjq, hjp, if_false]
        rw [s0]
      · rcases hpq with ⟨e1, e2⟩ | ⟨e1, e2⟩
        · subst e1 e2
          rw [e6, e5]
          simp only [hne', if_false, if_true]
          rw [s0]
        · subst e1 e2
          rw [e6, e5]
          simp only [if_true]
          simp only [hne', if_false]
          rw [s0]
      · rcases hpq with ⟨e1, e2⟩ | ⟨e1, e2⟩
        · subst e1 e2
          rw [e6, e5]
          simp only [if_true]
          simp only [hne, if_false]
          rw [s0]
        · subst e1 e2
          rw [e6, e5]
          simp only [hne, if_false, if_true]
          rw [s0]

theorem mark_waiting_client (r : Resources) (human k : Nat) (hk : k ≠ human) :
    (mark_waiting r human).clients k = r.clients k := by
  simp [mark_waiting, Resources.setClient, hk]

/-- A `start` for a human opponent by a client without a game keeps the game
references consistent and leaves the games that are over alone. -/
theorem soundOk_try_to_match_human (r : Resources) (human : Nat) (hs : Sound r)
    (hg : (r.clients human).game = none) : SoundOk r (try_to_match_human r human) := by
  have hm : Sound (mark_waiting r human) := sound_setClient hs human _ hg
  unfold try_to_match_human
  cases hf : find_partner (mark_waiting r human) human with
  | none => exact ⟨hm, frozen_of_games rfl⟩
  | some other =>
    simp only []
    cases hp : pair_humans (mark_waiting r human) human other with
    | error e => trivial
    | ok r' =>
      obtain ⟨_, ⟨_, _, _, hne⟩, _⟩ := find_partner_spec r human other hf
      have hne' : human ≠ other := fun e => hne e.symm
      obtain ⟨g, hgu, e1, e2, e3, e4⟩ := pair_humans_result hne hp
      obtain ⟨_, hfree, _⟩ := get_unassigned_game_spec _ g hgu
      have hfree' : (r.games g).assigned = false := hfree
      obtain ⟨c1, c2, _⟩ := resolve_colours_spec (mark_waiting r human) human other hne
      obtain ⟨_, s1, s2, s3, _, _, s6, s7, _⟩ :=
        seat_players_spec (resolve_colours (mark_waiting r human) human other) human other g c1
      have hgames : ∀ h, h ≠ g → r'.games h = r.games h := by
        intro h hh
        rw [e1, s1 h hh, resolve_colours_games]
        rfl
      have hcl : ∀ j, j ≠ human → j ≠ other → r'.clients j = r.clients j := by
        intro j h1 h2
        rw [e2 j h1 h2, (resolve_colours_client _ human other j).2 h1 h2,
          mark_waiting_client r human j h1]
      have c3 : ((resolve_colours (mark_waiting r human) human other).clients other).colour
          ≠ .unspecified := by
        rw [c2]
        revert c1
        cases ((resolve_colours (mark_waiting r human) human other).clients human).colour <;>
          simp [Colour.lnot]
      refine ⟨⟨fun i g0 hi => ?_, fun h e => ?_, fun i hw => ?_⟩, fun h ha _ => ?_⟩
      · by_cases i1 : i = human
        · subst i1
          rw [e3] at hi ⊢
          simp only [Option.some.injEq] at hi
          subst hi
          rw [e1]
          exact ⟨s3, c1, s6⟩
        · by_cases i2 : i = other
          · subst i2
            rw [e4] at hi ⊢
            simp only [Option.some.injEq] at hi
            subst hi
            rw [e1]
            refine ⟨s3, c3, ?_⟩
            simp only []
            rw [c2]
            exact s7
          · rw [hcl i i1 i2] at hi ⊢
            obtain ⟨p1, p2, p3⟩ := hs.seat i g0 hi
            have hg0 : g0 ≠ g := fun e => by
              have h1 := hs.live g0 p1
              rw [e, hfree'] at h1
              cases h1
            rw [hgames g0 hg0]
            exact ⟨p1, p2, p3⟩
      · by_cases hh : h = g
        · subst hh
          rw [e1]
          exact s2
        · rw [hgames h hh] at e ⊢
          exact hs.live h e
      · by_cases i1 : i = human
        · subst i1
          rw [e3] at hw
          cases hw
        · by_cases i2 : i = other
          · subst i2
            rw [e4] at hw
            cases hw
          · rw [hcl i i1 i2] at hw ⊢
            exact hs.idle i hw
      · refine hgames h (fun e => ?_)
        rw [e, hfree'] at ha
        cases ha

/-- The state `computer_game_seated`: game `g` is set up with client `c` in
the slot of its colour, the client refers to it, and nothing else changed. -/
theorem computer_game_seated_spec (r : Resources) (g c : Nat) (colour : Colour)
    (hc : colour ≠ .unspecified) :
    (∀ h, h ≠ g → (computer_game_seated r g c colour).games h = r.games h)
      ∧ ((computer_game_seated r g c colour).games g).assigned = true
      ∧ ((computer_game_seated r g c colour).games g).inProgress = true
      ∧ ((computer_game_seated r g c colour).games g).players colour.toNat = some c
      ∧ (∀ j, j ≠ c → (computer_game_seated r g c colour).clients j = r.clients j)
      ∧ (computer_game_seated r g c colour).clients c
          = { r.clients c with game := some g, waitingForHuman := false } := by
  refine ⟨fun h hh => ?_, ?_, ?_, ?_, fun j hj => ?_, ?_⟩
  · simp [computer_game_seated, Resources.setClient, Resources.setGame, initialise_game, hh]
  · cases colour <;>
      simp [computer_game_seated, Resources.setClient, Resources.setGame, initialise_game,
        Game.setPlayer, Colour.toNat, Colour.lnot]
  · cases colour <;>
      simp [computer_game_seated, Resources.setClient, Resources.setGame, initialise_game,
        Game.setPlayer, Colour.toNat, Colour.lnot]
  · revert hc
    cases colour <;>
      simp [computer_game_seated, Resources.setClient, Resources.setGame, initialise_game,
        Game.setPlayer, Game.players, Colour.toNat, Colour.lnot]
  · simp [computer_game_seated, Resources.setClient, Resources.setGame, initialise_game, hj]
  · simp [computer_game_seated, Resources.setClient, Resources.setGame, initialise_game]

/-- A `start` for the computer as opponent keeps the game references
consistent and leaves the games that are over alone. -/
theorem soundOk_start_computer_game (fuel : Nat) (r : Resources) (c : Nat) (colour : Colour)
    (hs : Sound r) (hc : colour ≠ .unspecified) (hcol : (r.clients c).colour = colour) :
    SoundOk r (start_computer_game fuel r c colour) := by
  rw [start_computer_game_eq]
  cases hg : get_unassigned_game r with
  | error e => trivial
  | ok g =>
    simp only []
    obtain ⟨_, hfree, _⟩ := get_unassigned_game_spec r g hg
    obtain ⟨s1, s2, s3, s4, s5, s6⟩ := computer_game_seated_spec r g c colour hc
    have h6 : Sound (computer_game_seated r g c colour) := by
      refine ⟨fun i g0 hi => ?_, fun h e => ?_, fun i hw => ?_⟩
      · by_cases i1 : i = c
        · subst i1
          rw [s6] at hi ⊢
          simp only [Option.some.injEq] at hi
          subst hi
          simp only []
          rw [hcol]
          exact ⟨s3, hc, s4⟩
        · rw [s5 i i1] at hi ⊢
          obtain ⟨p1, p2, p3⟩ := hs.seat i g0 hi
          have hg0 : g0 ≠ g := fun e => by
            have h1 := hs.live g0 p1
            rw [e, hfree] at h1
            cases h1
          rw [s1 g0 hg0]
          exact ⟨p1, p2, p3⟩
      · by_cases hh : h = g
        · subst hh
          exact s2
        · rw [s1 h hh] at e ⊢
          exact hs.live h e
      · by_cases i1 : i = c
        · subst i1
          rw [s6] at hw
          cases hw
        · rw [s5 i i1] at hw ⊢
          exact hs.idle i hw
    have f6 : Frozen r (computer_game_seated r g c colour) := by
      intro h ha _
      refine s1 h (fun e => ?_)
      rw [e, hfree] at ha
      cases ha
    have h7 := tameOk_send_started g (computer_game_seated r g c colour) colour c
    generalize send_started _ colour c = y at h7 ⊢
    cases y with
    | error e => trivial
    | ok r7 =>
      have k7 : Tame g (computer_game_seated r g c colour) r7 := h7
      simp only []
      split
      · exact soundOk_next f6
          (soundOk_of_tame h6 (Or.inl s3) (TameOk.since k7 (tameOk_computer_move fuel r7 g)))
      · exact ⟨sound_of_tame h6 k7, frozen_trans f6 (frozen_of_tame k7 (Or.inl s3))⟩

/-- The part of `respond_start` after the tokens were recognised keeps the
game references consistent and leaves the games that are over alone. -/
theorem soundOk_start_new_game (fuel : Nat) (r : Resources) (c : Nat) (opponent : Opponent)
    (colour0 : Colour) (hs : Sound r) : SoundOk r (start_new_game fuel r c opponent colour0) := by
  unfold start_new_game
  cases h1 : resign_current r c with
  | error e => trivial
  | ok r1 =>
    obtain ⟨s1, f1, g1⟩ := resign_current_sound hs h1
    have k2 : ∀ col : Colour, Sound (r1.setClient c
        { r1.clients c with lastGameFen := none, colour := col }) :=
      fun col => sound_setClient s1 c _ g1
    have f2 : ∀ col : Colour, Frozen r (r1.setClient c
        { r1.clients c with lastGameFen := none, colour := col }) :=
      fun col => frozen_trans f1 (frozen_of_games rfl)
    simp only []
    cases opponent with
    | com =>
      refine soundOk_next (f2 _) (soundOk_start_computer_game fuel _ c _ (k2 _) ?_ ?_)
      · cases colour0 <;> simp
      · simp [Resources.setClient]
    | human =>
      refine soundOk_next (f2 _) (soundOk_try_to_match_human _ c (k2 _) ?_)
      simp [Resources.setClient, g1]
    | unspecified => exact ⟨k2 _, f2 _⟩

theorem soundOkP_respond_start (fuel : Nat) (r : Resources) (c : Nat) (fields : List String)
    (hs : Sound r) : SoundOkP r (respond_start fuel r c fields) := by
  unfold respond_start
  simp only []
  split
  · exact ⟨hs, frozen_rfl r⟩
  · exact ⟨hs, frozen_rfl r⟩
  · rename_i opponent colour0 _ _
    have h := soundOk_start_new_game fuel r c opponent colour0 hs
    generalize start_new_game fuel r c opponent colour0 = y at h ⊢
    cases y with
    | error e => trivial
    | ok r1 => exact h

theorem soundOkP_respond_medium_input (fuel : Nat) (cmd : String) (fields : List String)
    (c : Nat) (r : Resources) (hs : Sound r) :
    SoundOkP r (respond_medium_input fuel cmd fields c r) := by
  unfold respond_medium_input
  simp only [bind, Except.bind]
  split
  · split
    · exact ⟨hs, frozen_rfl r⟩
    · split
      · exact ⟨hs, frozen_rfl r⟩
      · rename_i g hg
        split
        · exact ⟨hs, frozen_rfl r⟩
        · have h := soundOk_of_tame hs (Or.inl (hs.seat c g hg).1)
            (tameOk_make_move fuel r g (fields.getD 1 ""))
          generalize make_move fuel r g _ = y at h ⊢
          cases y with
          | error e => trivial
          | ok r1 => exact h
  · split
    · split
      · exact ⟨hs, frozen_rfl r⟩
      · rename_i all _
        split
        · exact ⟨hs, frozen_rfl r⟩
        · rename_i g _
          split
          · exact ⟨hs, frozen_rfl r⟩
          · have h := soundOk_of_calm hs (fun t => tameOk_respond_hint t r c all)
            generalize respond_hint r c all = y at h ⊢
            cases y with
            | error e => trivial
            | ok r1 => exact h
    · exact ⟨hs, frozen_rfl r⟩

theorem soundOkP_respond_short_input (r : Resources) (c : Nat) (cmd : String) (hs : Sound r) :
    SoundOkP r (respond_short_input r c cmd) := by
  unfold respond_short_input
  simp only [bind, Except.bind]
  split
  · have h := soundOkP_of_calm hs (fun t => tameOkP_respond_board t r c)
    generalize respond_board r c = y at h ⊢
    rcases y with e | ⟨r1, n⟩
    · trivial
    · simp only []
      split <;> exact h
  · split
    · split
      · exact ⟨hs, frozen_rfl r⟩
      · rename_i g _
        have h := soundOk_of_calm hs (fun t => tameOk_end_game t r g (some c) .resignation)
        generalize end_game r g (some c) .resignation = y at h ⊢
        cases y with
        | error e => trivial
        | ok r1 => exact h
    · exact ⟨hs, frozen_rfl r⟩

theorem soundOkP_dispatch (fuel : Nat) (r : Resources) (c : Nat) (fields : List String)
    (hs : Sound r) : SoundOkP r (dispatch fuel r c fields) := by
  unfold dispatch
  simp only [bind, Except.bind]
  split
  · exact soundOkP_respond_short_input r c _ hs
  · split
    · exact soundOkP_respond_medium_input fuel _ fields c r hs
    · split
      · split
        · have h := soundOkP_respond_start fuel r c fields hs
          generalize respond_start fuel r c fields = y at h ⊢
          rcases y with e | ⟨r1, n⟩
          · trivial
          · exact h
        · exact ⟨hs, frozen_rfl r⟩
      · exact ⟨hs, frozen_rfl r⟩

theorem tameOk_resign_remove_client (t : Nat) (r : Resources) (c : Nat) :
    TameOk t r (resign_remove_client r c) := by
  unfold resign_remove_client
  split
  · split
    · rename_i g _ _
      have h := tameOk_end_game t r g (some c) .resignation
      generalize end_game r g (some c) .resignation = y at h ⊢
      cases y with
      | error e => trivial
      | ok r1 => exact TameOk.since h (tameOk_remove_client t r1 c)
    · exact tameOk_remove_client t r c
  · exact tameOk_remove_client t r c

/-- A round of `client_loop` keeps the game references consistent and leaves
the games that are over alone. -/
theorem soundOk_client_command (fuel : Nat) (r : Resources) (c : Nat) (buffer : String)
    (hs : Sound r) : SoundOk r (client_command fuel r c buffer) := by
  rw [client_command_eq]
  split
  · exact soundOk_of_calm hs (fun t => tameOk_resign_remove_client t r c)
  · have hd : SoundOkP r (error_code fuel r c buffer) := by
      unfold error_code
      cases validate_line (fgets buffer) with
      | error e => trivial
      | ok x =>
        obtain ⟨valid, line⟩ := x
        simp only []
        unfold run_line
        split
        · exact ⟨hs, frozen_rfl r⟩
        · exact soundOkP_dispatch fuel r c _ hs
    generalize error_code fuel r c buffer = y at hd ⊢
    rcases y with e | ⟨r1, error⟩
    · trivial
    · exact soundOk_next hd.2
        (soundOk_of_calm hd.1 (fun t => tameOk_send_response t r1 c error))

theorem sound_initialState : Sound initialState := by
  have hg : ∀ g, (initialState.games g).inProgress = false := by
    intro g
    simp [initialState, stateOf, tableOf, freshGame]
  have hc : ∀ c, (initialState.clients c).game = none := by
    intro c
    simp [initialState, stateOf, tableOf, freshClient]
  refine ⟨fun c g h => ?_, fun g h => ?_, fun c _ => hc c⟩
  · rw [hc c] at h
    cases h
  · rw [hg g] at h
    cases h

theorem sound_connect {r r' : Resources} {c : Nat} (hs : Sound r)
    (h : client_thread r = .ok (r', c)) : Sound r' ∧ r'.games = r.games := by
  obtain ⟨_, _, _, p, hr, _⟩ := client_thread_spec r r' c h
  rw [hr]
  exact ⟨sound_setClient hs c _ rfl, rfl⟩

theorem sound_envChange {r r' : Resources} (hs : Sound r) (he : EnvChange r r') : Sound r' := by
  refine ⟨fun c g h => ?_, fun g h => ?_, fun c h => ?_⟩
  · rw [he.clients c] at h ⊢
    rw [he.games]
    exact hs.seat c g h
  · rw [he.games] at h ⊢
    exact hs.live g h
  · rw [he.clients c] at h ⊢
    exact hs.idle c h

theorem sound_of_command {r r' : Resources} {c : Nat} {buffer : String} (hs : Sound r)
    (h : client_command 2 r c buffer = .ok r') : Sound r' ∧ Frozen r r' := by
  have h1 := soundOk_client_command 2 r c buffer hs
  rw [h] at h1
  exact h1

theorem sound_of_disconnect {r r' : Resources} {c : Nat} (hs : Sound r)
    (h : resign_remove_client r c = .ok r') : Sound r' ∧ Frozen r r' := by
  have h1 : SoundOk r (resign_remove_client r c) :=
    soundOk_of_calm hs (fun t => tameOk_resign_remove_client t r c)
  rw [h] at h1
  exact h1

/-- The game references of every state the server reaches are consistent. -/
theorem reach_sound : ∀ (r : Resources) (l : List Nat), Reach r l → Sound r := by
  intro r l h
  induction h with
  | init => exact sound_initialState
  | connect _ hc ih => exact (sound_connect ih hc).1
  | command c buffer _ _ hc ih => exact (sound_of_command ih hc).1
  | disconnect c _ hd ih => exact (sound_of_disconnect ih hd).1
  | environment _ he ih => exact sound_envChange ih he

/-- In every state the server reaches, the priority of a connected client is
at least 1, and a connected client with priority 1 sits in slot 0:
`client_thread` gives priority 1 only when no client is connected, and the
first free slot is then slot 0. -/
theorem reach_first : ∀ (r : Resources) (l : List Nat), Reach r l →
    (∀ i, (r.clients i).assigned = true → 1 ≤ (r.clients i).priority)
      ∧ (∀ i, (r.clients i).assigned = true → (r.clients i).priority = 1 → i = 0) := by
  have step : ∀ r r' : Resources, Lasting r r' →
      ((∀ i, (r.clients i).assigned = true → 1 ≤ (r.clients i).priority)
        ∧ (∀ i, (r.clients i).assigned = true → (r.clients i).priority = 1 → i = 0)) →
      ((∀ i, (r'.clients i).assigned = true → 1 ≤ (r'.clients i).priority)
        ∧ (∀ i, (r'.clients i).assigned = true → (r'.clients i).priority = 1 → i = 0)) := by
    intro r r' k ih
    refine ⟨fun i hi => ?_, fun i hi hp => ?_⟩
    · rw [k.priority]
      exact ih.1 i (k.assigned i hi)
    · rw [k.priority] at hp
      exact ih.2 i (k.assigned i hi) hp
  intro r l h
  induction h with
  | init =>
    have hf : ∀ i, (initialState.clients i).assigned = false :=
      fun i => stateOf_free [] [] [] i (Nat.zero_le i)
    refine ⟨fun i hi => ?_, fun i hi => ?_⟩ <;>
    · rw [hf i] at hi
      cases hi
  | @connect r r' l c hreach hc ih =>
    obtain ⟨q1, q2, _⟩ := reach_queued r l hreach
    obtain ⟨_, c2, c3, p, hr, hp, h1⟩ := client_thread_spec r r' c hc
    have hsame : ∀ i, i ≠ c → r'.clients i = r.clients i := by
      intro i hi
      rw [hr]
      simp [Resources.setClient, hi]
    have hnew : (r'.clients c).priority = p := by
      rw [hr]
      simp [Resources.setClient]
    have hcase : (∃ k, (r.clients k).assigned = true) ∨ ∀ k, (r.clients k).assigned = false := by
      by_cases hex : ∃ k, (r.clients k).assigned = true
      · exact Or.inl hex
      · right
        intro k
        cases hk : (r.clients k).assigned with
        | false => rfl
        | true => exact absurd ⟨k, hk⟩ hex
    have hp1 : 1 ≤ p ∧ (p = 1 → c = 0) := by
      rcases hcase with ⟨k, hk⟩ | hnone
      · have h2 := hp k (q2 k ((q1 k).2 hk)) hk
        have h3 := ih.1 k hk
        exact ⟨by omega, fun e => by omega⟩
      · have e := h1 (fun k _ => hnone k)
        refine ⟨by omega, fun _ => ?_⟩
        cases c with
        | zero => rfl
        | succ n =>
          have := c3 0 (by omega)
          rw [hnone 0] at this
          cases this
    refine ⟨fun i hi => ?_, fun i hi hpi => ?_⟩
    · by_cases e : i = c
      · subst e
        rw [hnew]
        exact hp1.1
      · rw [hsame i e] at hi ⊢
        exact ih.1 i hi
    · by_cases e : i = c
      · subst e
        rw [hnew] at hpi
        exact hp1.2 hpi
      · rw [hsame i e] at hi hpi
        exact ih.2 i hi hpi
  | command c buffer _ _ hc ih => exact step _ _ (lasting_of_reach_command hc) ih
  | disconnect c _ hd ih => exact step _ _ (lasting_resign_remove_client hd) ih
  | environment _ he ih =>
    refine ⟨fun i hi => ?_, fun i hi hp => ?_⟩
    · rw [he.clients i] at hi ⊢
      exact ih.1 i hi
    · rw [he.clients i] at hi hp
      exact ih.2 i hi hp

theorem fgets_start_human_either :
    validate_line (fgets "start human either\n") = .ok (0, "start human either") := by
  have hf : fgets "start human either\n" = "start human either\n" := by decide
  rw [hf]
  rfl

/-- The `start human either` line of a client without a game is the call of
`try_to_match_human` for it, its colour request stored as either. -/
theorem client_command_start_human_either (r : Resources) (d : Nat)
    (hg : (r.clients d).game = none) :
    client_command 2 r d "start human either\n"
      = try_to_match_human
          (r.setClient d { r.clients d with lastGameFen := none, colour := .unspecified }) d := by
  rw [client_command_start 2 r d "start human either\n" "start human either" "human" "either"
    .human .unspecified fgets_start_human_either rfl (Or.inr ⟨rfl, rfl⟩)
    (Or.inr (Or.inr ⟨rfl, rfl⟩)), start_new_game_human]
  have h0 : resign_current r d = .ok r := by
    unfold resign_current
    rw [hg]
  rw [h0]

/-- C3: in a state the server reaches with exactly four connected clients, `a`
(priority 1, waiting, either colour), `b` (priority 2, waiting, either), `c`
(priority 3, waiting, white) and `d` (priority 4, not waiting, without a
game), in whatever slots they sit, the line `start human either` of `d` is the
call `try_to_match_human(d)` with the request either, and its search selects
`a`.  The call returns exactly when a game slot is free and the streams of `a`
and `d` accept the `started` line; whenever it returns, the first free game
slot holds a game in progress whose two players are `a` (white) and `d`
(black), both refer to it, and `b` and `c` are as they were: waiting, with no
game. -/
theorem start_human_four_clients (r : Resources) (l : List Nat) (a b c d : Nat)
    (hr : Reach r l)
    (hall : ∀ i, (r.clients i).assigned = true ↔ (i = a ∨ i = b ∨ i = c ∨ i = d))
    (ha : (r.clients a).priority = 1 ∧ (r.clients a).waitingForHuman = true
      ∧ (r.clients a).colour = .unspecified)
    (hb : (r.clients b).priority = 2 ∧ (r.clients b).waitingForHuman = true
      ∧ (r.clients b).colour = .unspecified)
    (hc : (r.clients c).priority = 3 ∧ (r.clients c).waitingForHuman = true
      ∧ (r.clients c).colour = .white)
    (hd : (r.clients d).priority = 4 ∧ (r.clients d).waitingForHuman = false
      ∧ (r.clients d).game = none) :
    client_command 2 r d "start human either\n"
        = try_to_match_human
            (r.setClient d { r.clients d with lastGameFen := none, colour := .unspecified }) d
      ∧ find_partner
          (mark_waiting
            (r.setClient d { r.clients d with lastGameFen := none, colour := .unspecified }) d)
          d = some a
      ∧ ((∃ r', client_command 2 r d "start human either\n" = .ok r')
          ↔ ((∃ g, get_unassigned_game r = .ok g) ∧ (r.clients a).writeFails = false
              ∧ (r.clients d).writeFails = false))
      ∧ ∀ r', client_command 2 r d "start human either\n" = .ok r' →
          ∃ g, get_unassigned_game r = .ok g
            ∧ (r'.games g).inProgress = true
            ∧ (r'.games g).players 0 = some a ∧ (r'.games g).players 1 = some d
            ∧ (r'.clients a).game = some g ∧ (r'.clients d).game = some g
            ∧ r'.clients b = r.clients b ∧ r'.clients c = r.clients c
            ∧ (r'.clients b).waitingForHuman = true ∧ (r'.clients b).game = none
            ∧ (r'.clients c).waitingForHuman = true ∧ (r'.clients c).game = none := by
  have hs := reach_sound r l hr
  obtain ⟨q1, q2, _⟩ := reach_queued r l hr
  have hab : a ≠ b := fun e => by rw [e] at ha; omega
  have hac : a ≠ c := fun e => by rw [e] at ha; omega
  have had : a ≠ d := fun e => by rw [e] at ha; omega
  have hbd : b ≠ d := fun e => by rw [e] at hb; omega
  have hcd : c ≠ d := fun e => by rw [e] at hc; omega
  have haa : (r.clients a).assigned = true := (hall a).2 (Or.inl rfl)
  have ha0 : a = 0 := (reach_first r l hr).2 a haa ha.1
  have hcl : ∀ k, k ≠ d →
      (r.setClient d { r.clients d with lastGameFen := none, colour := .unspecified }).clients k
        = r.clients k := by
    intro k hk
    simp [Resources.setClient, hk]
  have hcd' :
      ((r.setClient d { r.clients d with lastGameFen := none, colour := .unspecified }).clients
        d).colour = .unspecified := by
    simp [Resources.setClient]
  have hwd : ((r.setClient d
      { r.clients d with lastGameFen := none, colour := .unspecified }).clients d).writeFails
      = (r.clients d).writeFails := by
    simp [Resources.setClient]
  have hpd : ((r.setClient d
      { r.clients d with lastGameFen := none, colour := .unspecified }).clients d).priority
      = 4 := by
    simp [Resources.setClient, hd.1]
  have hcmd := client_command_start_human_either r d hd.2.2
  generalize hr2 : r.setClient d { r.clients d with lastGameFen := none, colour := .unspecified }
    = r2 at hcl hcd' hwd hpd hcmd ⊢
  have hgames : r2.games = r.games := by
    rw [← hr2]
    rfl
  have hel : Eligible r2 d a := by
    refine ⟨?_, ?_, ?_, had⟩
    · rw [hcl a had]; exact haa
    · rw [hcl a had]; exact ha.2.1
    · rw [hcd']
      simp [colours_can_play]
  have hfind : find_partner (mark_waiting r2 d) d = some a := by
    obtain ⟨other, ho⟩ := find_partner_some r2 d a (q2 a ((q1 a).2 haa)) hel (by
      rw [ha0] at had ⊢
      rw [mark_waiting_priority])
    obtain ⟨_, ⟨o1, _, _, o4⟩, o5⟩ := find_partner_spec r2 d other ho
    have hle := o5 a (q2 a ((q1 a).2 haa)) hel
    rw [hcl other o4] at o1
    rw [hcl other o4, hcl a had, ha.1] at hle
    rcases (hall other).1 o1 with e | e | e | e
    · rw [ho, e]
    · rw [e, hb.1] at hle
      omega
    · rw [e, hc.1] at hle
      omega
    · exact absurd e o4
  have hgu : ∀ g, get_unassigned_game (mark_waiting r2 d) = .ok g ↔ get_unassigned_game r = .ok g := by
    intro g
    have e : (mark_waiting r2 d).games = r.games := hgames
    unfold get_unassigned_game
    rw [e]
  refine ⟨hcmd, hfind, ?_, fun r' h' => ?_⟩
  · rw [hcmd, try_to_match_human_returns r2 d a hfind, hwd, hcl a had]
    have e : get_unassigned_game r2 = get_unassigned_game r := by
      unfold get_unassigned_game
      rw [hgames]
    rw [e]
    constructor
    · rintro ⟨h1, h2, h3⟩
      exact ⟨h1, h3, h2⟩
    · rintro ⟨h1, h2, h3⟩
      exact ⟨h1, h3, h2⟩
  · rw [hcmd] at h'
    unfold try_to_match_human at h'
    rw [hfind] at h'
    simp only [] at h'
    obtain ⟨g, hg1, e1, e2, e3, e4⟩ := pair_humans_result had h'
    obtain ⟨c1, _, _, _, c5⟩ := resolve_colours_spec (mark_waiting r2 d) d a had
    obtain ⟨_, _, _, s3, _, _, s6, s7, _⟩ :=
      seat_players_spec (resolve_colours (mark_waiting r2 d) d a) d a g c1
    have hmd : ((mark_waiting r2 d).clients d).colour = .unspecified := by
      rw [mark_waiting_colour]
      exact hcd'
    have hma : ((mark_waiting r2 d).clients a).colour = .unspecified := by
      rw [mark_waiting_colour, hcl a had]
      exact ha.2.2
    have hcol : ((resolve_colours (mark_waiting r2 d) d a).clients d).colour = .black := by
      rw [c5 hmd hma, mark_waiting_priority, mark_waiting_priority, hpd, hcl a had, ha.1]
      simp
    rw [hcol] at s6 s7
    simp only [Colour.toNat, Colour.lnot] at s6 s7
    have hother : ∀ k, k ≠ d → k ≠ a → r'.clients k = r.clients k := by
      intro k k1 k2
      rw [e2 k k1 k2, (resolve_colours_client _ d a k).2 k1 k2, mark_waiting_client _ d k k1,
        hcl k k1]
    refine ⟨g, (hgu g).1 hg1, ?_, ?_, ?_, ?_, ?_, hother b hbd (fun e => hab e.symm),
      hother c hcd (fun e => hac e.symm), ?_, ?_, ?_, ?_⟩
    · rw [e1]; exact s3
    · rw [e1]; exact s7
    · rw [e1]; exact s6
    · rw [e4]
    · rw [e3]
    · rw [hother b hbd (fun e => hab e.symm)]; exact hb.2.1
    · rw [hother b hbd (fun e => hab e.symm)]; exact hs.idle b hb.2.1
    · rw [hother c hcd (fun e => hac e.symm)]; exact hc.2.1
    · rw [hother c hcd (fun e => hac e.symm)]; exact hs.idle c hc.2.1

theorem client_thread_twoClientState :
    client_thread twoClientState = .ok (threeClientState, 2) := by
  have h : accept_scan twoClientState.clients maxBufferSize 0 none (-1) = (some 2, 2) :=
    (accept_scan_below twoClientState.clients 2 (by decide)
      (fun k hk => stateOf_free [joinedClient 1, joinedClient 2] [] [] k hk)).trans rfl
  rw [client_thread_of_scan twoClientState 2 2 h]
  refine congrArg Except.ok (Prod.ext ?_ rfl)
  refine resources_eq rfl ?_ rfl rfl rfl rfl
  funext j
  rcases j with _ | _ | _ | j <;> rfl

theorem client_thread_threeClientState :
    client_thread threeClientState = .ok (fourJoinedState, 3) := by
  have h : accept_scan threeClientState.clients maxBufferSize 0 none (-1) = (some 3, 3) :=
    (accept_scan_below threeClientState.clients 3 (by decide)
      (fun k hk => stateOf_free [joinedClient 1, joinedClient 2, joinedClient 3] [] [] k
        hk)).trans rfl
  rw [client_thread_of_scan threeClientState 3 3 h]
  refine congrArg Except.ok (Prod.ext ?_ rfl)
  refine resources_eq rfl ?_ rfl rfl rfl rfl
  funext j
  rcases j with _ | _ | _ | _ | j <;> rfl

/-- A `start human` request on one of the four-client example states that
finds nobody: the requester is left waiting. -/
theorem start_human_waits (cs : List Client) (d : Nat) (colour : Colour) (r' : Resources)
    (hlen : cs.length = 4) (hd : d < 4)
    (hscan : (match_scan
      (mark_waiting ((stateOf cs [] []).setClient d
        { (stateOf cs [] []).clients d with lastGameFen := none, colour := colour }) d).clients
      d 4 0 none
      (((mark_waiting ((stateOf cs [] []).setClient d
        { (stateOf cs [] []).clients d with lastGameFen := none, colour := colour })
        d).clients 0).priority + 1)).1 = none)
    (hres : mark_waiting ((stateOf cs [] []).setClient d
        { (stateOf cs [] []).clients d with lastGameFen := none, colour := colour }) d = r') :
    try_to_match_human ((stateOf cs [] []).setClient d
        { (stateOf cs [] []).clients d with lastGameFen := none, colour := colour }) d
      = .ok r' := by
  have h2 : find_partner (mark_waiting ((stateOf cs [] []).setClient d
      { (stateOf cs [] []).clients d with lastGameFen := none, colour := colour }) d) d
      = none := by
    rw [find_partner_below _ d 4 (by decide)]
    · exact hscan
    · intro k hk
      rw [mark_waiting_assigned]
      have hkd : k ≠ d := by omega
      simp only [Resources.setClient, hkd, if_false]
      exact stateOf_free cs [] [] k (by omega)
  rw [try_to_match_human_of_none _ d h2, hres]

theorem client_command_fourJoinedState :
    client_command 2 fourJoinedState 1 "start human either\n" = .ok oneWaiterState := by
  rw [client_command_start_human_either fourJoinedState 1 rfl]
  refine start_human_waits [joinedClient 1, joinedClient 2, joinedClient 3, joinedClient 4] 1
    .unspecified oneWaiterState rfl (by decide) (by decide) ?_
  refine resources_eq rfl ?_ rfl rfl rfl rfl
  funext j
  rcases j with _ | _ | _ | _ | j <;> rfl

theorem client_command_oneWaiterState :
    client_command 2 oneWaiterState 2 "start human white\n" = .ok twoWaitersState := by
  have hv : validate_line (fgets "start human white\n") = .ok (0, "start human white") := by
    have hf : fgets "start human white\n" = "start human white\n" := by decide
    rw [hf]
    rfl
  rw [client_command_start 2 oneWaiterState 2 "start human white\n" "start human white"
    "human" "white" .human .white hv rfl (Or.inr ⟨rfl, rfl⟩) (Or.inl ⟨rfl, rfl⟩),
    start_new_game_human]
  have h0 : resign_current oneWaiterState 2 = .ok oneWaiterState := rfl
  rw [h0]
  refine start_human_waits
    [joinedClient 1, waiter 2 .unspecified, joinedClient 3, joinedClient 4] 2
    .white twoWaitersState rfl (by decide) (by decide) ?_
  refine resources_eq rfl ?_ rfl rfl rfl rfl
  funext j
  rcases j with _ | _ | _ | _ | j <;> rfl

theorem client_command_twoWaitersState :
    client_command 2 twoWaitersState 0 "start human either\n" = .ok threeWaitersState := by
  rw [client_command_start_human_either twoWaitersState 0 rfl]
  refine start_human_waits
    [joinedClient 1, waiter 2 .unspecified, waiter 3 .white, joinedClient 4] 0
    .unspecified threeWaitersState rfl (by decide) (by decide) ?_
  refine resources_eq rfl ?_ rfl rfl rfl rfl
  funext j
  rcases j with _ | _ | _ | _ | j <;> rfl

/-- Four clients connect; the second asks for a human opponent of either
colour, then the third for one as white, then the first for one of either
colour.  Each search starts from the priority stored in slot 0 and finds
nobody, so all three are left waiting. -/
theorem reach_threeWaitersState : Reach threeWaitersState [0, 1, 2, 3] := by
  have h1 : Reach oneClientState ([] ++ [0]) := Reach.connect Reach.init client_thread_initialState
  have h2 : Reach twoClientState ([0] ++ [1]) := Reach.connect h1 client_thread_oneClientState
  have h3 : Reach threeClientState ([0, 1] ++ [2]) :=
    Reach.connect h2 client_thread_twoClientState
  have h4 : Reach fourJoinedState ([0, 1, 2] ++ [3]) :=
    Reach.connect h3 client_thread_threeClientState
  have h5 : Reach oneWaiterState [0, 1, 2, 3] :=
    Reach.command 1 "start human either\n" h4 rfl client_command_fourJoinedState
  have h6 : Reach twoWaitersState [0, 1, 2, 3] :=
    Reach.command 2 "start human white\n" h5 rfl client_command_oneWaiterState
  exact Reach.command 0 "start human either\n" h6 rfl client_command_twoWaitersState

theorem start_human_four_clients_witness :
    Reach threeWaitersState [0, 1, 2, 3]
      ∧ find_partner
          (mark_waiting
            (threeWaitersState.setClient 3
              { threeWaitersState.clients 3 with lastGameFen := none, colour := .unspecified })
            3) 3 = some 0
      ∧ ∃ r', client_command 2 threeWaitersState 3 "start human either\n" = .ok r'
          ∧ (r'.games 0).inProgress = true
          ∧ (r'.games 0).players 0 = some 0 ∧ (r'.games 0).players 1 = some 3
          ∧ (r'.clients 0).game = some 0 ∧ (r'.clients 3).game = some 0
          ∧ (r'.clients 1).waitingForHuman = true ∧ (r'.clients 1).game = none
          ∧ (r'.clients 2).waitingForHuman = true ∧ (r'.clients 2).game = none := by
  have hall : ∀ i, (threeWaitersState.clients i).assigned = true
      ↔ (i = 0 ∨ i = 1 ∨ i = 2 ∨ i = 3) := by
    intro i
    rcases i with _ | _ | _ | _ | i
    · exact ⟨fun _ => Or.inl rfl, fun _ => rfl⟩
    · exact ⟨fun _ => Or.inr (Or.inl rfl), fun _ => rfl⟩
    · exact ⟨fun _ => Or.inr (Or.inr (Or.inl rfl)), fun _ => rfl⟩
    · exact ⟨fun _ => Or.inr (Or.inr (Or.inr rfl)), fun _ => rfl⟩
    · constructor
      · intro h
        have hf := stateOf_free
          [waiter 1 .unspecified, waiter 2 .unspecified, waiter 3 .white, joinedClient 4] [] []
          (i + 4) (by simp)
        have h' : (threeWaitersState.clients (i + 4)).assigned = true := h
        rw [show threeWaitersState.clients (i + 4)
          = (stateOf [waiter 1 .unspecified, waiter 2 .unspecified, waiter 3 .white,
              joinedClient 4] [] []).clients (i + 4) from rfl, hf] at h'
        cases h'
      · intro h
        omega
  obtain ⟨_, h2, h3, h4⟩ := start_human_four_clients threeWaitersState [0, 1, 2, 3] 0 1 2 3
    reach_threeWaitersState hall ⟨rfl, rfl, rfl⟩ ⟨rfl, rfl, rfl⟩ ⟨rfl, rfl, rfl⟩ ⟨rfl, rfl, rfl⟩
  obtain ⟨r', hr'⟩ := h3.2 ⟨⟨0, rfl⟩, rfl, rfl⟩
  obtain ⟨g, hg, g1, g2, g3, g4, g5, _, _, g8, g9, g10, g11⟩ := h4 r' hr'
  have e : g = 0 := by
    have h0 : get_unassigned_game threeWaitersState = .ok 0 := rfl
    rw [h0] at hg
    cases hg
    rfl
  subst e
  exact ⟨reach_threeWaitersState, h2, r', hr', g1, g2, g3, g4, g5, g8, g9, g10, g11⟩

end UQChess
